import Mathlib

/-! # libgofono: remote-object validity engine, collection trackers,
activation controller

A shallow embedding of the C sources

* `src/gofono_error.c`         (error classification),
* `src/gofono_object.c`        (OfonoObject: proxy, ready/valid flags, property fetch),
* `src/gofono_modemintf.c`     (OfonoModemInterface: presence gate),
* `src/gofono_simmgr.c`        (OfonoSimMgr: the special "Present" property),
* `src/gofono_connmgr.c`       (OfonoConnMgr: tracker of connection contexts),
* `src/gofono_connctx.c`       (OfonoConnCtx: activation controller, settings),
* `src/gofono_manager_proxy.c` and `src/gofono_manager.c` (tracker of modems).

Conventions of the embedding.

* A GObject instance is a Lean structure; a C function that mutates the
  instance is a Lean function from state to state with the C name.
* Virtual methods (`klass->fn_is_valid` ...) dispatch on the class tag
  `OfonoClass`, with the same overriding as the `*_class_init` functions.
* Everything that leaves the object is appended to a chronological log:
  emitted GObject signals (listeners run at that very moment, so each entry
  carries a snapshot of the object as a listener would see it), D-Bus calls
  that are issued, GLib timers that are added or removed and cancellations.
* Asynchronous completions, timer expiries and D-Bus signals are events that
  the environment feeds to `step`; an event that cannot occur in the current
  state (a completion of a call that is not in flight, the expiry of a timer
  that is not armed) yields `none`.
* `GASSERT` only logs in libglibutil and is compiled out of release builds,
  so assertions are not part of the behaviour.
-/

namespace Gofono

/-! ## GLib values and errors -/

/-- Error domains that the library tells apart. -/
inductive GQuark where
  | OFONO_ERROR
  | G_IO_ERROR
  | G_DBUS_ERROR
  | OTHER
  deriving DecidableEq, Repr

/-- A GError: domain and code. -/
structure GError where
  domain : GQuark
  code : Int
  deriving DecidableEq, Repr

/-- Position of `OFONO_ERROR_BUSY` in `enum ofono_error` (gofono_error.h). -/
def OFONO_ERROR_BUSY : Int := 4

/-- Value of `G_IO_ERROR_CANCELLED` in gio/gioenums.h. -/
def G_IO_ERROR_CANCELLED : Int := 19

/-- Value of `G_IO_ERROR_TIMED_OUT` in gio/gioenums.h. -/
def G_IO_ERROR_TIMED_OUT : Int := 24

/-- Value of `G_DBUS_ERROR_TIMEOUT` in gio/gioenums.h. -/
def G_DBUS_ERROR_TIMEOUT : Int := 12

/-- Value of `G_DBUS_ERROR_TIMED_OUT` in gio/gioenums.h. -/
def G_DBUS_ERROR_TIMED_OUT : Int := 20

/-- The function `ofono_error_is_generic_timeout` of gofono_error.c. -/
def ofono_error_is_generic_timeout (error : Option GError) : Bool :=
  match error with
  | some e =>
    if e.domain = GQuark.G_IO_ERROR then
      e.code == G_IO_ERROR_TIMED_OUT
    else if e.domain = GQuark.G_DBUS_ERROR then
      e.code == G_DBUS_ERROR_TIMEOUT || e.code == G_DBUS_ERROR_TIMED_OUT
    else false
  | none => false

/-- The function `ofono_error_is_busy` of gofono_error.c. -/
def ofono_error_is_busy (error : Option GError) : Bool :=
  match error with
  | some e => e.domain = GQuark.OFONO_ERROR && e.code == OFONO_ERROR_BUSY
  | none => false

/-- Values that occur inside an `a{sv}` settings dictionary. -/
inductive GValue where
  | boolean (b : Bool)
  | byte (n : Nat)
  | uint16 (n : Nat)
  | uint32 (n : Nat)
  | string (s : String)
  | strv (l : List String)
  deriving DecidableEq, Repr

/-- A GVariant as the library receives it (the outer `v` already unwrapped). -/
inductive GVariant where
  | boolean (b : Bool)
  | byte (n : Nat)
  | uint16 (n : Nat)
  | uint32 (n : Nat)
  | string (s : String)
  | strv (l : List String)
  | vardict (d : List (String × GValue))
  deriving DecidableEq, Repr

/-- GLib `g_variant_get_boolean`: FALSE on a value of another type. -/
def g_variant_get_boolean (v : GVariant) : Bool :=
  match v with
  | GVariant.boolean b => b
  | _ => false

/-- GLib `g_variant_get_string`: the empty string on a value of another type. -/
def g_variant_get_string (v : GVariant) : String :=
  match v with
  | GVariant.string s => s
  | _ => ""

/-- GLib `g_strcmp0` on two non-NULL strings, as a three-way comparison of
the byte sequences (UTF-8 keeps the order of code points). -/
def g_strcmp0 (a b : String) : Ordering :=
  compare (a.toList.map Char.toNat) (b.toList.map Char.toNat)

/-! ## Classes and property descriptors -/

/-- The GObject classes of the sources: `OfonoObject` and its subclasses
(`G_DEFINE_TYPE` in gofono_object.c, gofono_modemintf.c, gofono_connmgr.c,
gofono_simmgr.c and gofono_connctx.c). -/
inductive OfonoClass where
  | OBJECT
  | MODEM_INTERFACE
  | CONNMGR
  | SIMMGR
  | CONNCTX
  deriving DecidableEq, Repr

/-- The chain walked by `ofono_object_apply_property_r` and
`ofono_object_reset_properties_r`: the class itself, then
`g_type_class_peek_parent` until `ofono_object_class`. -/
def OfonoClass.chain : OfonoClass → List OfonoClass
  | OfonoClass.OBJECT => [OfonoClass.OBJECT]
  | OfonoClass.MODEM_INTERFACE => [OfonoClass.MODEM_INTERFACE, OfonoClass.OBJECT]
  | OfonoClass.CONNMGR =>
    [OfonoClass.CONNMGR, OfonoClass.MODEM_INTERFACE, OfonoClass.OBJECT]
  | OfonoClass.SIMMGR =>
    [OfonoClass.SIMMGR, OfonoClass.MODEM_INTERFACE, OfonoClass.OBJECT]
  | OfonoClass.CONNCTX => [OfonoClass.CONNCTX, OfonoClass.OBJECT]

/-- An `OfonoNameIntMap`: the pairs and the default value. -/
structure OfonoNameIntMap where
  entries : List (String × Int)
  defval : Int
  deriving DecidableEq, Repr

/-- The helper `ofono_name_to_int` (gofono_util.c, not among the sources):
the value paired with the name, the default of the map otherwise. -/
def ofono_name_to_int (map : OfonoNameIntMap) (name : String) : Int :=
  match map.entries.find? (fun e => e.1 == name) with
  | some e => e.2
  | none => map.defval

/-- The helper `ofono_int_to_name` (gofono_util.c, not among the sources):
the name paired with the value, NULL otherwise. -/
def ofono_int_to_name (map : OfonoNameIntMap) (value : Int) : Option String :=
  match map.entries.find? (fun e => e.2 == value) with
  | some e => some e.1
  | none => none

/-- The pair `fn_value` / `fn_apply` of a property descriptor. -/
inductive PropertyKind where
  | BOOL
  | STRING
  | ENUM (map : OfonoNameIntMap)
  | SETTINGS (ipv6 : Bool)
  | PRESENT
  deriving DecidableEq, Repr

/-- An `OfonoObjectProperty`: D-Bus name, name of the per-property signal,
and the value/apply pair. The struct offset of the typed field is
represented by the property name, which keys the typed fields. -/
structure OfonoObjectProperty where
  name : String
  signal_name : String
  kind : PropertyKind
  deriving DecidableEq, Repr

/-- The map `ofono_connctx_type_map`; the enum values are those of
gofono_connctx.h (UNKNOWN = -1, NONE = 0, then in order). -/
def ofono_connctx_type_map : OfonoNameIntMap :=
  ⟨[("internet", 1), ("mms", 2), ("wap", 3), ("ims", 4)], -1⟩

/-- The map `ofono_connctx_protocol_map`. -/
def ofono_connctx_protocol_map : OfonoNameIntMap :=
  ⟨[("ip", 1), ("ipv6", 2), ("dual", 3)], -1⟩

/-- The map `ofono_connctx_auth_map`. -/
def ofono_connctx_auth_map : OfonoNameIntMap :=
  ⟨[("none", 0), ("pap", 1), ("chap", 2), ("any", 3)], -1⟩

/-- The map `ofono_connctx_method_map`. -/
def ofono_connctx_method_map : OfonoNameIntMap :=
  ⟨[("static", 1), ("dhcp", 2)], -1⟩

/-- The value `OFONO_CONNCTX_METHOD_UNKNOWN`. -/
def OFONO_CONNCTX_METHOD_UNKNOWN : Int := -1

/-- The value `OFONO_SIMMGR_PIN_UNKNOWN` of gofono_simmgr.h. -/
def OFONO_SIMMGR_PIN_UNKNOWN : Int := -1

/-- The map `ofono_simmgr_pin_required_map` with the values of
`enum ofono_simmgr_pin` in gofono_simmgr.h. -/
def ofono_simmgr_pin_required_map : OfonoNameIntMap :=
  ⟨[("none", 0), ("pin", 1), ("phone", 2), ("firstphone", 3), ("pin2", 4),
    ("network", 5), ("netsub", 6), ("service", 7), ("corp", 8), ("puk", 9),
    ("firstphonepuk", 10), ("puk2", 11), ("networkpuk", 12),
    ("netsubpuk", 13), ("servicepuk", 14), ("corppuk", 15)], -1⟩

/-- D-Bus property name `OFONO_SIMMGR_PROPERTY_PRESENT` (gofono_names.h). -/
def OFONO_SIMMGR_PROPERTY_PRESENT : String := "Present"

/-- D-Bus property name `OFONO_CONNCTX_PROPERTY_ACTIVE` (gofono_names.h). -/
def OFONO_CONNCTX_PROPERTY_ACTIVE : String := "Active"

/-- The static table `ofono_connmgr_properties` of `ofono_connmgr_class_init`. -/
def ofono_connmgr_properties : List OfonoObjectProperty :=
  [⟨"Attached", "attached-changed", PropertyKind.BOOL⟩,
   ⟨"RoamingAllowed", "roaming-allowed-changed", PropertyKind.BOOL⟩,
   ⟨"Powered", "powered-changed", PropertyKind.BOOL⟩]

/-- The static table `ofono_simmgr_properties` of `ofono_simmgr_class_init`. -/
def ofono_simmgr_properties : List OfonoObjectProperty :=
  [⟨OFONO_SIMMGR_PROPERTY_PRESENT, "present-changed", PropertyKind.PRESENT⟩,
   ⟨"SubscriberIdentity", "imsi-changed", PropertyKind.STRING⟩,
   ⟨"MobileCountryCode", "mcc-changed", PropertyKind.STRING⟩,
   ⟨"MobileNetworkCode", "mnc-changed", PropertyKind.STRING⟩,
   ⟨"ServiceProviderName", "spn-changed", PropertyKind.STRING⟩,
   ⟨"PinRequired", "pin-required-changed",
     PropertyKind.ENUM ofono_simmgr_pin_required_map⟩]

/-- The static table `ofono_connctx_properties` of `ofono_connctx_class_init`. -/
def ofono_connctx_properties : List OfonoObjectProperty :=
  [⟨"Type", "type-changed", PropertyKind.ENUM ofono_connctx_type_map⟩,
   ⟨"AuthenticationMethod", "auth-changed",
     PropertyKind.ENUM ofono_connctx_auth_map⟩,
   ⟨"Protocol", "protocol-changed",
     PropertyKind.ENUM ofono_connctx_protocol_map⟩,
   ⟨"AccessPointName", "apn-changed", PropertyKind.STRING⟩,
   ⟨"Name", "name-changed", PropertyKind.STRING⟩,
   ⟨"Username", "username-changed", PropertyKind.STRING⟩,
   ⟨"Password", "password-changed", PropertyKind.STRING⟩,
   ⟨"MessageProxy", "mms-proxy-changed", PropertyKind.STRING⟩,
   ⟨"MessageCenter", "mms-center-changed", PropertyKind.STRING⟩,
   ⟨OFONO_CONNCTX_PROPERTY_ACTIVE, "active-changed", PropertyKind.BOOL⟩,
   ⟨"Settings", "settings-changed", PropertyKind.SETTINGS false⟩,
   ⟨"IPv6.Settings", "ipv6-settings-changed", PropertyKind.SETTINGS true⟩]

/-- The table `klass->properties` of each class. -/
def OfonoClass.properties : OfonoClass → List OfonoObjectProperty
  | OfonoClass.OBJECT => []
  | OfonoClass.MODEM_INTERFACE => []
  | OfonoClass.CONNMGR => ofono_connmgr_properties
  | OfonoClass.SIMMGR => ofono_simmgr_properties
  | OfonoClass.CONNCTX => ofono_connctx_properties

/-- The descriptors in the order in which the recursion over the class chain
meets them: the own table first, then the tables of the ancestors. -/
def OfonoClass.all_properties (k : OfonoClass) : List OfonoObjectProperty :=
  k.chain.flatMap OfonoClass.properties

/-! ## Object state -/

/-- A typed public field of an object (the member at `off_pub`). -/
inductive Field where
  | bool (b : Bool)
  | int (i : Int)
  | str (s : Option String)
  deriving DecidableEq, Repr

/-- The struct `OfonoConnCtxSettingsPriv` (public part included; the public
string pointers alias the private ones). -/
structure OfonoConnCtxSettingsPriv where
  method : Int
  prefix_length : Nat
  ifname : Option String
  address : Option String
  netmask : Option String
  gateway : Option String
  dns : Option (List String)
  deriving DecidableEq, Repr

/-- The enum `CONNCTX_ACTION` of gofono_connctx.c. -/
inductive CONNCTX_ACTION where
  | NONE
  | ACTIVATE
  | DEACTIVATE
  deriving DecidableEq, Repr

/-- An `OfonoObjectPendingCall` created by `ofono_object_set_boolean` for
the "Active" property: identity, state of its GCancellable and the value. -/
structure OfonoObjectPendingCall where
  id : Nat
  cancelled : Bool
  value : Bool
  deriving DecidableEq, Repr

/-- The struct `ofono_object_priv` (fields that carry behaviour). -/
structure OfonoObjectPriv where
  proxy : Bool
  ready : Bool
  get_properties_ok : Bool
  get_properties_pending : Option Nat
  get_properties_retry_id : Nat
  properties : List (String × GVariant)
  pending_calls : List OfonoObjectPendingCall
  deriving DecidableEq, Repr

/-- What a modem interface or a connection context reads from its parent
`OfonoModem` (gofono_modem.c is not among the sources): `ofono_modem_valid`
and `ofono_modem_has_interface` for the interface the object is bound to. -/
structure OfonoModem where
  valid : Bool
  has_interface : Bool
  deriving DecidableEq, Repr

/-- The struct `ofono_connctx_priv` together with the public members
`settings`, `ipv6_settings` (NULL or the address of the private struct) and
`ifname` of `OfonoConnCtx`. -/
structure OfonoConnCtxPriv where
  next_action : CONNCTX_ACTION
  current_action : CONNCTX_ACTION
  retry_id : Nat
  retry_count : Nat
  settings : OfonoConnCtxSettingsPriv
  ipv6_settings : OfonoConnCtxSettingsPriv
  settings_pub : Bool
  ipv6_settings_pub : Bool
  ifname : Option String
  connmgr : Bool
  removed : Bool
  deriving DecidableEq, Repr

/-- The struct `ofono_connmgr_priv`: the hash table `all_contexts` by its
keys, the array `valid_contexts` by the paths of its elements. -/
structure OfonoConnMgrPriv where
  get_contexts_pending : Option Nat
  all_contexts : List String
  valid_contexts : List String
  get_contexts_ok : Bool
  deriving DecidableEq, Repr

/-- An instance of `OfonoObject` or of one of its subclasses. -/
structure OfonoObject where
  klass : OfonoClass
  valid : Bool
  priv : OfonoObjectPriv
  modem : OfonoModem
  fields : List (String × Field)
  connctx : OfonoConnCtxPriv
  connmgr : OfonoConnMgrPriv
  deriving DecidableEq, Repr

/-- GObject signals emitted by the object. -/
inductive Signal where
  | valid_changed
  | property_changed (name : String) (value : GVariant)
  | named (signal_name : String)
  | interface_changed
  | activate_failed (error : GError)
  | context_added (path : String)
  | context_removed (path : String)
  deriving DecidableEq, Repr

/-- What leaves the object. -/
inductive Action where
  | emit (signal : Signal)
  | call_get_properties (id : Nat)
  | call_get_contexts (id : Nat)
  | call_set_property (id : Nat) (name : String) (value : GVariant)
  | cancel (id : Nat)
  | timeout_add (ms : Nat)
  | timeout_add_seconds (sec : Nat)
  | source_remove (id : Nat)
  deriving DecidableEq, Repr

/-- A log entry: the action and the object as it is at that moment. -/
structure Entry where
  action : Action
  snapshot : OfonoObject
  deriving DecidableEq, Repr

/-- The object together with its environment: which connection contexts are
currently valid (`ofono_connctx_valid` of the registered instance of a
path), which asynchronous calls are in flight, and the log. -/
structure State where
  self : OfonoObject
  contexts_valid : List String
  get_properties_calls : List Nat
  get_contexts_calls : List Nat
  next_id : Nat
  log : List Entry
  deriving DecidableEq, Repr

/-- Append an action to the log with the current snapshot. -/
def State.record (st : State) (a : Action) : State :=
  { st with log := st.log ++ [⟨a, st.self⟩] }

/-- GLib `g_signal_emit`. -/
def g_signal_emit (st : State) (s : Signal) : State :=
  st.record (Action.emit s)

/-- The function `ofono_connctx_settings_init`, on a zeroed struct. -/
def ofono_connctx_settings_init : OfonoConnCtxSettingsPriv :=
  ⟨OFONO_CONNCTX_METHOD_UNKNOWN, 0, none, none, none, none, none⟩

/-- A freshly constructed instance: GObject memory is zeroed, then
`ofono_object_init`, `ofono_connctx_init`, `ofono_connmgr_init` and
`ofono_simmgr_init` run (the latter sets `pin_required` to UNKNOWN). -/
def OfonoObject.init (k : OfonoClass) : OfonoObject :=
  { klass := k
    valid := false
    priv := ⟨false, false, false, none, 0, [], []⟩
    modem := ⟨false, false⟩
    fields := if k = OfonoClass.SIMMGR then
        [("PinRequired", Field.int OFONO_SIMMGR_PIN_UNKNOWN)] else []
    connctx := ⟨CONNCTX_ACTION.NONE, CONNCTX_ACTION.NONE, 0, 0,
      ofono_connctx_settings_init, ofono_connctx_settings_init,
      false, false, none, false, false⟩
    connmgr := ⟨none, [], [], false⟩ }

/-- The initial state of the object and its environment. -/
def State.init (k : OfonoClass) : State :=
  ⟨OfonoObject.init k, [], [], [], 1, []⟩

/-! ## Typed fields and the property cache -/

/-- Read the typed field of a property; absent means zeroed memory. -/
def OfonoObject.get_field (o : OfonoObject) (name : String) : Option Field :=
  o.fields.lookup name

/-- The macro `OFONO_OBJECT_BOOL`. -/
def OfonoObject.get_bool (o : OfonoObject) (name : String) : Bool :=
  match o.get_field name with
  | some (Field.bool b) => b
  | _ => false

/-- The macro `OFONO_OBJECT_INT`. -/
def OfonoObject.get_int (o : OfonoObject) (name : String) : Int :=
  match o.get_field name with
  | some (Field.int i) => i
  | _ => 0

/-- The macro `OFONO_OBJECT_STRING_PRIV` (NULL is `none`). -/
def OfonoObject.get_str (o : OfonoObject) (name : String) : Option String :=
  match o.get_field name with
  | some (Field.str s) => s
  | _ => none

/-- Assignment to a typed field. -/
def State.set_field (st : State) (name : String) (f : Field) : State :=
  { st with self := { st.self with
      fields := (name, f) :: st.self.fields.filter (fun e => e.1 != name) } }

/-- GLib `g_hash_table_replace` on `priv->properties`. -/
def State.cache_replace (st : State) (name : String) (v : GVariant) : State :=
  { st with self := { st.self with priv := { st.self.priv with
      properties :=
        (name, v) :: st.self.priv.properties.filter (fun e => e.1 != name) } } }

/-- The function `ofono_object_get_property` with a NULL type: the cached
value of a name. -/
def ofono_object_get_property (o : OfonoObject) (name : String) :
    Option GVariant :=
  o.priv.properties.lookup name

/-- The function `ofono_object_get_property_keys`. -/
def ofono_object_get_property_keys (o : OfonoObject) : List String :=
  o.priv.properties.map (fun e => e.1)

/-! ## gofono_object.c: property fetch -/

/-- The function `ofono_object_cancel_get_properties`. -/
def ofono_object_cancel_get_properties (st : State) : State :=
  let st1 :=
    match st.self.priv.get_properties_pending with
    | some id =>
      let st0 := st.record (Action.cancel id)
      { st0 with self := { st0.self with priv := { st0.self.priv with
          get_properties_pending := none } } }
    | none => st
  if st1.self.priv.get_properties_retry_id ≠ 0 then
    let st2 := st1.record (Action.source_remove st1.self.priv.get_properties_retry_id)
    { st2 with self := { st2.self with priv := { st2.self.priv with
        get_properties_retry_id := 0 } } }
  else st1

/-- Whether `klass->fn_proxy_call_get_properties` is set: the base class
installs the default GetProperties call and every subclass of the sources
installs the generated one (`OFONO_OBJECT_CLASS_SET_PROXY_CALLBACKS`). -/
def OfonoClass.fn_proxy_call_get_properties (_k : OfonoClass) : Bool := true

/-- The function `ofono_object_query_properties`. -/
def ofono_object_query_properties (st : State) (force_retry : Bool) : State :=
  if st.self.priv.proxy then
    if st.self.klass.fn_proxy_call_get_properties then
      if force_retry || st.self.priv.get_properties_pending.isNone then
        let id := st.next_id
        let st1 := ofono_object_cancel_get_properties st
        let st2 : State := { st1 with
          self := { st1.self with priv := { st1.self.priv with
            get_properties_ok := false
            get_properties_pending := some id } }
          get_properties_calls := id :: st1.get_properties_calls
          next_id := st1.next_id + 1 }
        st2.record (Action.call_get_properties id)
      else st
    else
      { st with self := { st.self with priv := { st.self.priv with
          get_properties_ok := true } } }
  else st

/-! ## gofono_object.c: typed properties -/

/-- The function `ofono_object_property_boolean_apply`. -/
def ofono_object_property_boolean_apply (st : State) (prop : OfonoObjectProperty)
    (value : Option GVariant) : State × Bool :=
  let b := match value with
    | some v => g_variant_get_boolean v
    | none => false
  if st.self.get_bool prop.name != b then
    (st.set_field prop.name (Field.bool b), true)
  else (st, false)

/-- The function `ofono_object_property_enum_apply`. -/
def ofono_object_property_enum_apply (st : State) (prop : OfonoObjectProperty)
    (map : OfonoNameIntMap) (value : Option GVariant) : State × Bool :=
  let i : Int := match value with
    | some v => ofono_name_to_int map (g_variant_get_string v)
    | none => -1
  if st.self.get_int prop.name != i then
    (st.set_field prop.name (Field.int i), true)
  else (st, false)

/-- The function `ofono_object_property_string_apply`. -/
def ofono_object_property_string_apply (st : State) (prop : OfonoObjectProperty)
    (value : Option GVariant) : State × Bool :=
  let str : Option String := value.map g_variant_get_string
  if st.self.get_str prop.name != str then
    (st.set_field prop.name (Field.str str), true)
  else (st, false)

/-- GLib `g_variant_lookup (dict, key, "&s", &s)` followed by the test
`s && s[0]` of the decoder. -/
def lookup_nonempty_string (d : List (String × GValue)) (key : String) :
    Option String :=
  match d.lookup key with
  | some (GValue.string s) => if s.isEmpty then none else some s
  | _ => none

/-- The function `ofono_connctx_settings_decode`: the decoded struct and the
return value (TRUE when the settings are not empty). -/
def ofono_connctx_settings_decode (dict : Option GVariant) :
    OfonoConnCtxSettingsPriv × Bool :=
  match dict with
  | some (GVariant.vardict d) =>
    let ifname := lookup_nonempty_string d "Interface"
    let address := lookup_nonempty_string d "Address"
    let netmask := lookup_nonempty_string d "Netmask"
    let gateway := lookup_nonempty_string d "Gateway"
    let method := lookup_nonempty_string d "Method"
    let pfx : Option Nat := match d.lookup "PrefixLength" with
      | some (GValue.byte y) => some y
      | _ => none
    let dns : Option (List String) := match d.lookup "DomainNameServers" with
      | some (GValue.strv l) => if l.length > 0 then some l else none
      | _ => none
    ({ method := match method with
         | some m => ofono_name_to_int ofono_connctx_method_map m
         | none => OFONO_CONNCTX_METHOD_UNKNOWN
       prefix_length := pfx.getD 0
       ifname := ifname
       address := address
       netmask := netmask
       gateway := gateway
       dns := dns },
     ifname.isSome || address.isSome || netmask.isSome || gateway.isSome ||
       method.isSome || pfx.isSome || dns.isSome)
  | _ => (ofono_connctx_settings_init, false)

/-- The function `ofono_connctx_property_settings_apply`; `ipv6` selects the
offsets of the "IPv6.Settings" descriptor. -/
def ofono_connctx_property_settings_apply (st : State) (ipv6 : Bool)
    (value : Option GVariant) : State × Bool :=
  let r := ofono_connctx_settings_decode value
  let decoded := r.1
  let empty := !r.2
  let old := if ipv6 then st.self.connctx.ipv6_settings else st.self.connctx.settings
  let pub := if ipv6 then st.self.connctx.ipv6_settings_pub
    else st.self.connctx.settings_pub
  let new_pub := !empty
  let c1 : OfonoConnCtxPriv :=
    if ipv6 then { st.self.connctx with
      ipv6_settings := decoded, ipv6_settings_pub := new_pub }
    else { st.self.connctx with settings := decoded, settings_pub := new_pub }
  let changed := (pub != new_pub) || (old.ifname != decoded.ifname) ||
    (old.method != decoded.method) || (old.address != decoded.address) ||
    (old.netmask != decoded.netmask) || (old.gateway != decoded.gateway) ||
    (old.prefix_length != decoded.prefix_length) || (old.dns != decoded.dns)
  let ifname := match c1.settings.ifname with
    | some i => some i
    | none => c1.ipv6_settings.ifname
  let st1 : State := { st with self := { st.self with connctx := c1 } }
  if st1.self.connctx.ifname != ifname then
    let st2 : State := { st1 with self := { st1.self with
      connctx := { st1.self.connctx with ifname := ifname } } }
    (g_signal_emit st2 Signal.interface_changed, changed)
  else (st1, changed)

/-- The function `ofono_simmgr_property_present_apply`; the parameter is the
function `ofono_object_reset_properties` that the else-branch calls. -/
def ofono_simmgr_property_present_apply (reset : State → State) (st : State)
    (prop : OfonoObjectProperty) (value : Option GVariant) : State × Bool :=
  let r := ofono_object_property_boolean_apply st prop value
  if r.2 then
    if r.1.self.get_bool prop.name then
      (ofono_object_query_properties r.1 false, true)
    else (reset r.1, true)
  else (r.1, false)

/-- The call `property->fn_apply (self, property, value)`. -/
def fn_apply_with (reset : State → State) (st : State)
    (prop : OfonoObjectProperty) (value : Option GVariant) : State × Bool :=
  match prop.kind with
  | PropertyKind.BOOL => ofono_object_property_boolean_apply st prop value
  | PropertyKind.STRING => ofono_object_property_string_apply st prop value
  | PropertyKind.ENUM map => ofono_object_property_enum_apply st prop map value
  | PropertyKind.SETTINGS ipv6 =>
    ofono_connctx_property_settings_apply st ipv6 value
  | PropertyKind.PRESENT =>
    ofono_simmgr_property_present_apply reset st prop value

/-- The call `property->fn_value (self, property)`; `none` is NULL. -/
def fn_value (o : OfonoObject) (prop : OfonoObjectProperty) : Option GVariant :=
  match prop.kind with
  | PropertyKind.BOOL => some (GVariant.boolean (o.get_bool prop.name))
  | PropertyKind.PRESENT => some (GVariant.boolean (o.get_bool prop.name))
  | PropertyKind.STRING => some (GVariant.string ((o.get_str prop.name).getD ""))
  | PropertyKind.ENUM map =>
    some (GVariant.string ((ofono_int_to_name map (o.get_int prop.name)).getD ""))
  | PropertyKind.SETTINGS ipv6 =>
    if (if ipv6 then o.connctx.ipv6_settings_pub else o.connctx.settings_pub)
    then none else some (GVariant.vardict [])

/-- The function `ofono_object_emit_property_change_signals`: for every
collected descriptor the per-property signal and, when `fn_value` gives a
value, the detailed generic "property-changed" signal. -/
def ofono_object_emit_property_change_signals (st : State)
    (plist : List OfonoObjectProperty) : State :=
  plist.foldl (fun s property =>
    let s1 := g_signal_emit s (Signal.named property.signal_name)
    match fn_value s1.self property with
    | some value => g_signal_emit s1 (Signal.property_changed property.name value)
    | none => s1) st

/-- The function `ofono_object_reset_properties` (with its recursion
`ofono_object_reset_properties_r` over the class chain) for a given
implementation of `fn_apply`. -/
def reset_properties_with
    (apply : State → OfonoObjectProperty → Option GVariant → State × Bool)
    (st : State) : State :=
  let r := st.self.klass.all_properties.foldl
    (fun (acc : State × List OfonoObjectProperty) property =>
      let a := apply acc.1 property none
      (a.1, if a.2 then acc.2 ++ [property] else acc.2)) (st, [])
  ofono_object_emit_property_change_signals r.1 r.2

/-- The call `fn_apply` with the nesting depth that is still allowed for the
recursion `fn_apply` (Present) → `ofono_object_reset_properties` → `fn_apply`.
The nested reset runs right after "Present" was set to FALSE, so its own
"Present" descriptor reports no change and calls nothing: depth 1 is never
exhausted. -/
def fn_apply_depth : Nat → State → OfonoObjectProperty → Option GVariant →
    State × Bool
  | 0 => fn_apply_with (fun s => s)
  | d + 1 => fn_apply_with (reset_properties_with (fn_apply_depth d))

/-- The call `property->fn_apply (self, property, value)`. -/
def fn_apply (st : State) (prop : OfonoObjectProperty)
    (value : Option GVariant) : State × Bool :=
  fn_apply_depth 1 st prop value

/-- The function `ofono_object_reset_properties`. -/
def ofono_object_reset_properties (st : State) : State :=
  reset_properties_with fn_apply st

/-- The function `ofono_object_apply_property` (with its recursion
`ofono_object_apply_property_r`): the first descriptor of that name in the
class chain is applied; the result is TRUE when it reports a change. -/
def ofono_object_apply_property (st : State) (name : String)
    (value : GVariant) : State × Option OfonoObjectProperty :=
  match st.self.klass.all_properties.find? (fun p => p.name == name) with
  | some property =>
    let r := fn_apply st property (some value)
    (r.1, if r.2 then some property else none)
  | none => (st, none)

/-- The function `ofono_object_apply_properties` for a non-NULL dictionary. -/
def ofono_object_apply_properties (st : State)
    (dictionary : List (String × GVariant)) : State :=
  let r := dictionary.foldl
    (fun (acc : State × List OfonoObjectProperty) entry =>
      let s1 := acc.1.cache_replace entry.1 entry.2
      let a := ofono_object_apply_property s1 entry.1 entry.2
      (a.1, match a.2 with
        | some property => acc.2 ++ [property]
        | none => acc.2)) (st, [])
  ofono_object_emit_property_change_signals r.1 r.2

/-- The function `ofono_object_property_changed`: a live PropertyChanged
signal of the proxy. -/
def ofono_object_property_changed (st : State) (name : String)
    (value : GVariant) : State :=
  let s1 := st.cache_replace name value
  let a := ofono_object_apply_property s1 name value
  match a.2 with
  | some changed =>
    let s2 := g_signal_emit a.1 (Signal.named changed.signal_name)
    g_signal_emit s2 (Signal.property_changed name value)
  | none => a.1

/-! ## Readiness and validity -/

/-- The function `ofono_object_is_ready` of gofono_object.c. -/
def ofono_object_is_ready (o : OfonoObject) : Bool :=
  o.priv.proxy

/-- The function `ofono_object_is_valid` of gofono_object.c. -/
def ofono_object_is_valid (o : OfonoObject) : Bool :=
  ofono_object_is_ready o && o.priv.get_properties_pending.isNone &&
    o.priv.get_properties_retry_id == 0 && o.priv.get_properties_ok

/-- The function `ofono_modem_interface_is_present`. -/
def ofono_modem_interface_is_present (o : OfonoObject) : Bool :=
  o.modem.valid && o.modem.has_interface

/-- The function `ofono_modem_interface_is_ready`. -/
def ofono_modem_interface_is_ready (o : OfonoObject) : Bool :=
  ofono_modem_interface_is_present o && ofono_object_is_ready o

/-- The function `ofono_modem_interface_is_valid`. -/
def ofono_modem_interface_is_valid (o : OfonoObject) : Bool :=
  ofono_modem_interface_is_present o && ofono_object_is_valid o

/-- The function `ofono_connctx_is_present`. -/
def ofono_connctx_is_present (o : OfonoObject) : Bool :=
  o.connctx.connmgr && o.modem.valid && !o.connctx.removed &&
    o.modem.has_interface

/-- The function `ofono_connctx_is_ready`. -/
def ofono_connctx_is_ready (o : OfonoObject) : Bool :=
  ofono_connctx_is_present o && ofono_object_is_ready o

/-- The function `ofono_connctx_is_valid`. -/
def ofono_connctx_is_valid (o : OfonoObject) : Bool :=
  ofono_connctx_is_present o && ofono_object_is_valid o

/-- The function `ofono_connmgr_is_valid`. -/
def ofono_connmgr_is_valid (o : OfonoObject) : Bool :=
  o.connmgr.get_contexts_ok && o.connmgr.get_contexts_pending.isNone &&
    o.connmgr.all_contexts.length == o.connmgr.valid_contexts.length &&
    ofono_modem_interface_is_valid o

/-- The virtual method `klass->fn_is_ready`. -/
def fn_is_ready (o : OfonoObject) : Bool :=
  match o.klass with
  | OfonoClass.OBJECT => ofono_object_is_ready o
  | OfonoClass.MODEM_INTERFACE => ofono_modem_interface_is_ready o
  | OfonoClass.CONNMGR => ofono_modem_interface_is_ready o
  | OfonoClass.SIMMGR => ofono_modem_interface_is_ready o
  | OfonoClass.CONNCTX => ofono_connctx_is_ready o

/-- The virtual method `klass->fn_is_valid`. -/
def fn_is_valid (o : OfonoObject) : Bool :=
  match o.klass with
  | OfonoClass.OBJECT => ofono_object_is_valid o
  | OfonoClass.MODEM_INTERFACE => ofono_modem_interface_is_valid o
  | OfonoClass.CONNMGR => ofono_connmgr_is_valid o
  | OfonoClass.SIMMGR => ofono_modem_interface_is_valid o
  | OfonoClass.CONNCTX => ofono_connctx_is_valid o

/-! ## gofono_connctx.c: the activation controller -/

/-- The constant `RETRY_DELAY_SEC`. -/
def RETRY_DELAY_SEC : Nat := 1

/-- The constant `MAX_RETRY_COUNT`. -/
def MAX_RETRY_COUNT : Nat := 30

/-- The constant `OFONO_BUSY_RETRY_DELAY` (milliseconds). -/
def OFONO_BUSY_RETRY_DELAY : Nat := 200

/-- The source id that `g_timeout_add` and `g_timeout_add_seconds` return:
some positive number; the code only compares it with 0. -/
def G_SOURCE_ID : Nat := 1

/-- The function `ofono_object_set_boolean` (through
`ofono_object_set_property` and `ofono_object_pending_call_new`): with a
proxy, a pending call is prepended to `priv->pending_calls` and SetProperty
is issued; without a proxy nothing happens. -/
def ofono_object_set_boolean (st : State) (name : String) (value : Bool) :
    State :=
  if st.self.priv.proxy then
    let id := st.next_id
    let st1 : State := { st with
      self := { st.self with priv := { st.self.priv with
        pending_calls := ⟨id, false, value⟩ :: st.self.priv.pending_calls } }
      next_id := st.next_id + 1 }
    st1.record (Action.call_set_property id name (GVariant.boolean value))
  else st

/-- The function `ofono_connctx_perform_next_action`. -/
def ofono_connctx_perform_next_action (st : State) : State :=
  if st.self.valid then
    let st1 : State :=
      if st.self.connctx.current_action ≠ CONNCTX_ACTION.NONE ∧
         st.self.connctx.next_action ≠ CONNCTX_ACTION.NONE ∧
         st.self.connctx.next_action ≠ st.self.connctx.current_action ∧
         st.self.connctx.retry_id ≠ 0 then
        let s1 : State := { st with self := { st.self with
          connctx := { st.self.connctx with
            current_action := CONNCTX_ACTION.NONE } } }
        let s2 := s1.record (Action.source_remove s1.self.connctx.retry_id)
        { s2 with self := { s2.self with
          connctx := { s2.self.connctx with retry_id := 0 } } }
      else st
    if st1.self.connctx.current_action = CONNCTX_ACTION.NONE ∧
       st1.self.connctx.next_action ≠ CONNCTX_ACTION.NONE then
      let on_ := decide (st1.self.connctx.next_action = CONNCTX_ACTION.ACTIVATE)
      let s1 : State := { st1 with self := { st1.self with
        connctx := { st1.self.connctx with retry_count := 0 } } }
      let s2 := ofono_object_set_boolean s1 OFONO_CONNCTX_PROPERTY_ACTIVE on_
      { s2 with self := { s2.self with
        connctx := { s2.self.connctx with
          current_action := s2.self.connctx.next_action
          next_action := CONNCTX_ACTION.NONE } } }
    else st1
  else st

/-- The function `ofono_connctx_set_active_done`: the completion callback of
the SetProperty("Active") call; `none` is success. -/
def ofono_connctx_set_active_done (st : State) (error : Option GError) :
    State :=
  let st1 : State :=
    match error with
    | some e =>
      if e.domain = GQuark.OFONO_ERROR ∧ e.code = OFONO_ERROR_BUSY ∧
         st.self.connctx.retry_count < MAX_RETRY_COUNT then
        let s1 : State := { st with self := { st.self with
          connctx := { st.self.connctx with
            retry_count := st.self.connctx.retry_count + 1 } } }
        let s2 := s1.record (Action.timeout_add_seconds RETRY_DELAY_SEC)
        { s2 with self := { s2.self with
          connctx := { s2.self.connctx with retry_id := G_SOURCE_ID } } }
      else
        if st.self.connctx.current_action = CONNCTX_ACTION.ACTIVATE then
          let s1 : State := { st with self := { st.self with
            connctx := { st.self.connctx with
              current_action := CONNCTX_ACTION.NONE } } }
          g_signal_emit s1 (Signal.activate_failed e)
        else
          { st with self := { st.self with
            connctx := { st.self.connctx with
              current_action := CONNCTX_ACTION.NONE } } }
    | none =>
      { st with self := { st.self with
        connctx := { st.self.connctx with
          current_action := CONNCTX_ACTION.NONE } } }
  ofono_connctx_perform_next_action st1

/-- The function `ofono_connctx_set_active_retry`: the retry timer fired. -/
def ofono_connctx_set_active_retry (st : State) : State :=
  let on_ := decide (st.self.connctx.current_action = CONNCTX_ACTION.ACTIVATE)
  let s1 : State := { st with self := { st.self with
    connctx := { st.self.connctx with retry_id := 0 } } }
  ofono_object_set_boolean s1 OFONO_CONNCTX_PROPERTY_ACTIVE on_

/-- The function `ofono_connctx_perform_action`. -/
def ofono_connctx_perform_action (st : State) (action : CONNCTX_ACTION) :
    State :=
  if st.self.connctx.current_action ≠ action then
    ofono_connctx_perform_next_action { st with self := { st.self with
      connctx := { st.self.connctx with next_action := action } } }
  else
    { st with self := { st.self with
      connctx := { st.self.connctx with next_action := CONNCTX_ACTION.NONE } } }

/-- The function `ofono_connctx_activate`. -/
def ofono_connctx_activate (st : State) : State :=
  ofono_connctx_perform_action st CONNCTX_ACTION.ACTIVATE

/-- The function `ofono_connctx_deactivate`. -/
def ofono_connctx_deactivate (st : State) : State :=
  ofono_connctx_perform_action st CONNCTX_ACTION.DEACTIVATE

/-- The function `ofono_object_pending_call_finished` for a call made by the
controller: the callback runs, then `ofono_object_pending_call_free` takes
the call off `priv->pending_calls`. -/
def ofono_object_pending_call_finished (st : State) (id : Nat)
    (error : Option GError) : State :=
  let st1 := ofono_connctx_set_active_done st error
  { st1 with self := { st1.self with priv := { st1.self.priv with
      pending_calls := st1.self.priv.pending_calls.filter (fun c => c.id != id) } } }

/-! ## gofono_object.c: the two flags -/

/-- The function `ofono_object_valid_changed` of gofono_object.c. -/
def ofono_object_valid_changed (st : State) : State :=
  g_signal_emit st Signal.valid_changed

/-- The function `ofono_connctx_valid_changed`. -/
def ofono_connctx_valid_changed (st : State) : State :=
  let st1 := if st.self.valid then ofono_connctx_perform_next_action st else st
  ofono_object_valid_changed st1

/-- The virtual method `klass->fn_valid_changed`. -/
def fn_valid_changed (st : State) : State :=
  match st.self.klass with
  | OfonoClass.CONNCTX => ofono_connctx_valid_changed st
  | _ => ofono_object_valid_changed st

/-- The function `ofono_object_update_valid`. -/
def ofono_object_update_valid (st : State) : State :=
  let valid := fn_is_valid st.self
  if st.self.valid != valid then
    fn_valid_changed { st with self := { st.self with valid := valid } }
  else st

/-- The function `ofono_object_cancel_call` applied to every element of
`priv->pending_calls` (`g_list_foreach`). -/
def cancel_pending_calls (st : State) : State :=
  let st1 := st.self.priv.pending_calls.foldl
    (fun s c => s.record (Action.cancel c.id)) st
  { st1 with self := { st1.self with priv := { st1.self.priv with
      pending_calls :=
        st1.self.priv.pending_calls.map (fun c => { c with cancelled := true }) } } }

/-- The function `ofono_object_ready_changed` of gofono_object.c. -/
def ofono_object_ready_changed (st : State) (_ready : Bool) : State :=
  if st.self.priv.ready then
    if st.self.priv.proxy then
      ofono_object_update_valid (ofono_object_query_properties st true)
    else st
  else
    let s1 : State := { st with self := { st.self with priv := { st.self.priv with
      get_properties_ok := false } } }
    let s2 := ofono_object_cancel_get_properties s1
    let s3 := ofono_object_reset_properties s2
    let s4 := cancel_pending_calls s3
    ofono_object_update_valid s4

/-! ## gofono_connmgr.c -/

/-- The function `ofono_connmgr_cancel_get_contexts`. -/
def ofono_connmgr_cancel_get_contexts (st : State) : State :=
  match st.self.connmgr.get_contexts_pending with
  | some id =>
    let s1 := st.record (Action.cancel id)
    { s1 with self := { s1.self with connmgr := { s1.self.connmgr with
        get_contexts_pending := none } } }
  | none => st

/-- The function `ofono_connmgr_start_get_contexts`. -/
def ofono_connmgr_start_get_contexts (st : State) : State :=
  let id := st.next_id
  let s1 := ofono_connmgr_cancel_get_contexts st
  let s2 : State := { s1 with
    self := { s1.self with connmgr := { s1.self.connmgr with
      get_contexts_ok := false
      get_contexts_pending := some id } }
    get_contexts_calls := id :: s1.get_contexts_calls
    next_id := s1.next_id + 1 }
  s2.record (Action.call_get_contexts id)

/-- The function `ofono_connmgr_ready_changed`. -/
def ofono_connmgr_ready_changed (st : State) (ready : Bool) : State :=
  let st1 :=
    if st.self.priv.proxy && ready then
      ofono_connmgr_start_get_contexts st
    else
      let s1 := ofono_connmgr_cancel_get_contexts st
      if !ready then
        { s1 with self := { s1.self with connmgr := { s1.self.connmgr with
            all_contexts := []
            valid_contexts := [] } } }
      else s1
  ofono_object_ready_changed st1 ready

/-- The virtual method `klass->fn_ready_changed`. -/
def fn_ready_changed (st : State) (ready : Bool) : State :=
  match st.self.klass with
  | OfonoClass.CONNMGR => ofono_connmgr_ready_changed st ready
  | _ => ofono_object_ready_changed st ready

/-- The function `ofono_object_update_ready`. -/
def ofono_object_update_ready (st : State) : State :=
  let ready := fn_is_ready st.self
  if st.self.priv.ready != ready then
    fn_ready_changed { st with self := { st.self with priv := { st.self.priv with
      ready := ready } } } ready
  else st

/-- The function `ofono_object_proxy_created` of gofono_object.c. -/
def ofono_object_proxy_created (st : State) : State :=
  let s1 : State := { st with self := { st.self with priv := { st.self.priv with
    proxy := true } } }
  ofono_object_update_valid (ofono_object_update_ready s1)

/-- The function `ofono_connmgr_proxy_created`. -/
def ofono_connmgr_proxy_created (st : State) : State :=
  let s1 := ofono_object_proxy_created st
  if fn_is_ready s1.self then ofono_connmgr_start_get_contexts s1 else s1

/-- The virtual method `klass->fn_proxy_created` (the override of
gofono_simmgr.c only calls the inherited one). -/
def fn_proxy_created (st : State) : State :=
  match st.self.klass with
  | OfonoClass.CONNMGR => ofono_connmgr_proxy_created st
  | _ => ofono_object_proxy_created st

/-- The outcome of an asynchronous D-Bus call. -/
inductive CallResult (α : Type) where
  | ok (value : α)
  | error (e : GError)
  deriving DecidableEq, Repr

/-- The function `ofono_object_setup_finished`: completion of the
GetProperties call `id`. The call is attached (`call->object` is set)
exactly when it is `priv->get_properties_pending`. -/
def ofono_object_setup_finished (st : State) (id : Nat)
    (result : CallResult (List (String × GVariant))) : State :=
  let attached := fun (s : State) =>
    decide (s.self.priv.get_properties_pending = some id)
  let finish := fun (s : State) (ok : Bool) =>
    if attached s then
      ofono_object_update_valid { s with self := { s.self with priv :=
        { s.self.priv with
          get_properties_ok := ok
          get_properties_pending := none } } }
    else s
  let retry := fun (s : State) (retry_ms : Nat) =>
    let s1 := s.record (Action.timeout_add retry_ms)
    { s1 with self := { s1.self with priv := { s1.self.priv with
        get_properties_retry_id := G_SOURCE_ID } } }
  match result with
  | CallResult.ok props =>
    let s1 := if attached st then ofono_object_apply_properties st props else st
    finish s1 true
  | CallResult.error e =>
    if attached st then
      if ofono_error_is_generic_timeout (some e) then retry st 0
      else if ofono_error_is_busy (some e) then retry st OFONO_BUSY_RETRY_DELAY
      else finish st false
    else finish st false

/-- The function `ofono_object_get_properties_retry`: the retry timer fired
and the pending call is issued again. -/
def ofono_object_get_properties_retry (st : State) : State :=
  let s1 : State := { st with self := { st.self with priv := { st.self.priv with
    get_properties_retry_id := 0 } } }
  match s1.self.priv.get_properties_pending with
  | some id =>
    let s2 : State := { s1 with get_properties_calls := id :: s1.get_properties_calls }
    s2.record (Action.call_get_properties id)
  | none => s1

/-! ## gofono_connmgr.c: the tracker of connection contexts -/

/-- GLib `g_ptr_array_sort` with a comparison of the object paths by
`g_strcmp0` (`ofono_connmgr_context_compare`, `ofono_manager_sort_modems`,
`ofono_manager_proxy_sort_modems`). -/
def g_ptr_array_sort (l : List String) : List String :=
  l.insertionSort (fun a b => g_strcmp0 a b != Ordering.gt)

/-- The inline `ofono_connctx_valid (ctx)` for the registered instance of a
path (`ofono_connctx_new` returns one instance per path). -/
def ofono_connctx_valid (st : State) (path : String) : Bool :=
  st.contexts_valid.contains path

/-- The inline `ofono_connmgr_valid (self)` of gofono_connmgr.h: the
published flag. -/
def ofono_connmgr_valid (st : State) : Bool :=
  st.self.valid

/-- The function `ofono_connmgr_find_valid_context` as a membership test
(`index >= 0`). -/
def ofono_connmgr_find_valid_context (st : State) (path : String) : Bool :=
  st.self.connmgr.valid_contexts.contains path

/-- The function `ofono_connmgr_add_valid_context`. -/
def ofono_connmgr_add_valid_context (st : State) (path : String) : State :=
  if !ofono_connmgr_find_valid_context st path then
    let s1 : State := { st with self := { st.self with connmgr :=
      { st.self.connmgr with
        valid_contexts :=
          g_ptr_array_sort (st.self.connmgr.valid_contexts ++ [path]) } } }
    if ofono_connmgr_valid s1 then g_signal_emit s1 (Signal.context_added path)
    else s1
  else st

/-- The function `ofono_connmgr_remove_valid_context`. -/
def ofono_connmgr_remove_valid_context (st : State) (path : String) : State :=
  if ofono_connmgr_find_valid_context st path then
    let s1 : State := { st with self := { st.self with connmgr :=
      { st.self.connmgr with
        valid_contexts := st.self.connmgr.valid_contexts.erase path } } }
    if ofono_connmgr_valid s1 then g_signal_emit s1 (Signal.context_removed path)
    else s1
  else st

/-- The function `ofono_connmgr_context_valid_changed`: the handler of the
"valid-changed" signal of a registered context. -/
def ofono_connmgr_context_valid_changed (st : State) (path : String) : State :=
  let s1 :=
    if ofono_connctx_valid st path then ofono_connmgr_add_valid_context st path
    else ofono_connmgr_remove_valid_context st path
  ofono_object_update_valid s1

/-- The test `path && path[0] == '/'` on a non-NULL path. -/
def path_is_absolute (path : String) : Bool :=
  path.toList.head? == some '/'

/-- The function `ofono_connmgr_add_context`. -/
def ofono_connmgr_add_context (st : State) (path : String) : State :=
  if path_is_absolute path then
    let s1 : State := { st with self := { st.self with connmgr :=
      { st.self.connmgr with
        all_contexts :=
          path :: st.self.connmgr.all_contexts.filter (fun q => q != path) } } }
    let s2 :=
      if ofono_connctx_valid s1 path then ofono_connmgr_add_valid_context s1 path
      else s1
    ofono_object_update_valid s2
  else st

/-- The function `ofono_connmgr_context_added`. -/
def ofono_connmgr_context_added (st : State) (path : String) : State :=
  ofono_connmgr_add_context st path

/-- The function `ofono_connmgr_context_removed`. -/
def ofono_connmgr_context_removed (st : State) (path : String) : State :=
  let s1 := ofono_connmgr_remove_valid_context st path
  { s1 with self := { s1.self with connmgr := { s1.self.connmgr with
      all_contexts := s1.self.connmgr.all_contexts.filter (fun q => q != path) } } }

/-- The function `ofono_connmgr_get_contexts_finished`: completion of the
GetContexts call `id`, attached exactly when it is
`priv->get_contexts_pending`. -/
def ofono_connmgr_get_contexts_finished (st : State) (id : Nat)
    (result : CallResult (List String)) : State :=
  let attached := fun (s : State) =>
    decide (s.self.connmgr.get_contexts_pending = some id)
  let finish := fun (s : State) (ok : Bool) =>
    if attached s then
      ofono_object_update_valid { s with self := { s.self with connmgr :=
        { s.self.connmgr with
          get_contexts_ok := ok
          get_contexts_pending := none } } }
    else s
  match result with
  | CallResult.ok contexts =>
    let s1 := if attached st then contexts.foldl ofono_connmgr_add_context st
      else st
    finish s1 true
  | CallResult.error e =>
    if attached st then
      if ofono_error_is_generic_timeout (some e) then
        let s1 : State := { st with get_contexts_calls := id :: st.get_contexts_calls }
        s1.record (Action.call_get_contexts id)
      else finish st false
    else finish st false

/-- The function `ofono_connmgr_get_contexts`: a copy of `valid_contexts`. -/
def ofono_connmgr_get_contexts (st : State) : List String :=
  st.self.connmgr.valid_contexts

/-! ## Handlers of parent events -/

/-- The handlers `ofono_modem_interface_modem_changed` and
`ofono_connctx_modem_changed`. -/
def ofono_modem_changed (st : State) : State :=
  ofono_object_update_ready st

/-- The function `ofono_connctx_connection_manager_proxy_created` on success. -/
def ofono_connctx_connection_manager_proxy_created (st : State) : State :=
  ofono_object_update_ready { st with self := { st.self with
    connctx := { st.self.connctx with connmgr := true } } }

/-- The function `ofono_connctx_added` for the path of the context itself. -/
def ofono_connctx_added (st : State) : State :=
  let s1 :=
    if !st.self.connctx.removed then
      ofono_object_update_ready { st with self := { st.self with
        connctx := { st.self.connctx with removed := true } } }
    else st
  ofono_object_update_ready { s1 with self := { s1.self with
    connctx := { s1.self.connctx with removed := false } } }

/-- The function `ofono_connctx_removed` for the path of the context itself. -/
def ofono_connctx_removed (st : State) : State :=
  ofono_object_update_ready { st with self := { st.self with
    connctx := { st.self.connctx with removed := true } } }

/-! ## Events -/

/-- What the main loop can deliver to the object. -/
inductive Event where
  | proxy_created
  | modem_changed (valid has_interface : Bool)
  | get_properties_finished (id : Nat)
      (result : CallResult (List (String × GVariant)))
  | get_properties_retry
  | property_changed (name : String) (value : GVariant)
  | get_contexts_finished (id : Nat) (result : CallResult (List String))
  | context_added (path : String)
  | context_removed (path : String)
  | context_valid_changed (path : String) (valid : Bool)
  | connmgr_proxy_created
  | connctx_added
  | connctx_removed
  | activate
  | deactivate
  | set_active_finished (id : Nat) (error : Option GError)
  | set_active_retry
  deriving DecidableEq, Repr

/-- One event, processed to the end; `none` when the event cannot occur. -/
def step (st : State) (ev : Event) : Option State :=
  match ev with
  | Event.proxy_created =>
    if st.self.priv.proxy then none else some (fn_proxy_created st)
  | Event.modem_changed v i =>
    if st.self.klass = OfonoClass.OBJECT then none
    else some (ofono_modem_changed { st with self := { st.self with modem := ⟨v, i⟩ } })
  | Event.get_properties_finished id result =>
    if st.get_properties_calls.contains id then
      some (ofono_object_setup_finished
        { st with get_properties_calls := st.get_properties_calls.erase id }
        id result)
    else none
  | Event.get_properties_retry =>
    if st.self.priv.get_properties_retry_id ≠ 0 then
      some (ofono_object_get_properties_retry st)
    else none
  | Event.property_changed name value =>
    if st.self.priv.proxy then some (ofono_object_property_changed st name value)
    else none
  | Event.get_contexts_finished id result =>
    if st.get_contexts_calls.contains id then
      some (ofono_connmgr_get_contexts_finished
        { st with get_contexts_calls := st.get_contexts_calls.erase id }
        id result)
    else none
  | Event.context_added path =>
    if st.self.klass = OfonoClass.CONNMGR ∧ st.self.priv.proxy then
      some (ofono_connmgr_context_added st path)
    else none
  | Event.context_removed path =>
    if st.self.klass = OfonoClass.CONNMGR ∧ st.self.priv.proxy then
      some (ofono_connmgr_context_removed st path)
    else none
  | Event.context_valid_changed path valid =>
    if st.self.klass = OfonoClass.CONNMGR ∧
       ofono_connctx_valid st path ≠ valid then
      let s1 : State := { st with contexts_valid :=
        if valid then path :: st.contexts_valid
        else st.contexts_valid.filter (fun q => q != path) }
      if st.self.connmgr.all_contexts.contains path then
        some (ofono_connmgr_context_valid_changed s1 path)
      else some s1
    else none
  | Event.connmgr_proxy_created =>
    if st.self.klass = OfonoClass.CONNCTX ∧ st.self.connctx.connmgr = false then
      some (ofono_connctx_connection_manager_proxy_created st)
    else none
  | Event.connctx_added =>
    if st.self.klass = OfonoClass.CONNCTX ∧ st.self.connctx.connmgr then
      some (ofono_connctx_added st)
    else none
  | Event.connctx_removed =>
    if st.self.klass = OfonoClass.CONNCTX ∧ st.self.connctx.connmgr then
      some (ofono_connctx_removed st)
    else none
  | Event.activate =>
    if st.self.klass = OfonoClass.CONNCTX then some (ofono_connctx_activate st)
    else none
  | Event.deactivate =>
    if st.self.klass = OfonoClass.CONNCTX then some (ofono_connctx_deactivate st)
    else none
  | Event.set_active_finished id error =>
    if st.self.priv.pending_calls.any (fun c => c.id == id) then
      some (ofono_object_pending_call_finished st id error)
    else none
  | Event.set_active_retry =>
    if st.self.connctx.retry_id ≠ 0 then some (ofono_connctx_set_active_retry st)
    else none

/-- A sequence of events, each processed to the end before the next. -/
def run (st : State) : List Event → Option State
  | [] => some st
  | ev :: rest =>
    match step st ev with
    | some st1 => run st1 rest
    | none => none

/-- The states the object of class `k` can be in between two events. -/
def Reachable (k : OfonoClass) (st : State) : Prop :=
  ∃ evs : List Event, run (State.init k) evs = some st

/-! ## gofono_manager_proxy.c and gofono_manager.c: the tracker of modems -/

/-- The struct `OfonoManagerProxy` with the behaviour-carrying part of its
private data: `priv->cancel` is the id of the live GCancellable. -/
structure OfonoManagerProxy where
  valid : Bool
  modem_paths : List String
  cancel : Option Nat
  proxy : Bool
  deriving DecidableEq, Repr

/-- The struct `OfonoManager` with its private data: the hash table
`all_modems` by its keys, the array `valid_modems` by the modem paths. -/
structure OfonoManager where
  valid : Bool
  all_modems : List String
  valid_modems : List String
  deriving DecidableEq, Repr

/-- Signals of the manager proxy and of the manager. -/
inductive ManagerSignal where
  | proxy_valid_changed
  | proxy_modem_added (path : String)
  | proxy_modem_removed (path : String)
  | valid_changed
  | modem_added (path : String)
  | modem_removed (path : String)
  deriving DecidableEq, Repr

/-- A log entry: the signal and both objects as they are at that moment. -/
structure ManagerEntry where
  signal : ManagerSignal
  proxy : OfonoManagerProxy
  manager : OfonoManager
  deriving DecidableEq, Repr

/-- The manager proxy, the manager that listens to it, and the environment:
which modems are currently valid (`ofono_modem_valid` of the registered
instance of a path; gofono_modem.c is not among the sources), which
asynchronous calls are in flight under which GCancellable, and which
GCancellables have been cancelled. -/
structure ManagerState where
  proxy : OfonoManagerProxy
  self : OfonoManager
  modems_valid : List String
  proxy_new_calls : List Nat
  get_modems_calls : List Nat
  cancelled : List Nat
  next_id : Nat
  log : List ManagerEntry
  deriving DecidableEq, Repr

/-- GLib `g_signal_emit` on the manager proxy or the manager. -/
def ManagerState.emit (st : ManagerState) (s : ManagerSignal) : ManagerState :=
  { st with log := st.log ++ [⟨s, st.proxy, st.self⟩] }

/-- The inline `ofono_modem_valid (modem)` for the registered instance of a
path. -/
def ofono_modem_valid (st : ManagerState) (path : String) : Bool :=
  st.modems_valid.contains path

/-- The function `ofono_manager_find_valid_modem` as a membership test, which
is also `ofono_manager_has_modem`. -/
def ofono_manager_has_modem (st : ManagerState) (path : String) : Bool :=
  st.self.valid_modems.contains path

/-- The function `ofono_manager_update_valid`. -/
def ofono_manager_update_valid (st : ManagerState) : ManagerState :=
  let valid := st.proxy.valid &&
    st.self.valid_modems.length == st.self.all_modems.length
  if st.self.valid != valid then
    ManagerState.emit { st with self := { st.self with valid := valid } }
      ManagerSignal.valid_changed
  else st

/-- The function `ofono_manager_add_valid_modem`. -/
def ofono_manager_add_valid_modem (st : ManagerState) (path : String) :
    ManagerState :=
  if !ofono_manager_has_modem st path then
    let s1 : ManagerState := { st with self := { st.self with
      valid_modems := g_ptr_array_sort (st.self.valid_modems ++ [path]) } }
    if s1.self.valid then s1.emit (ManagerSignal.modem_added path) else s1
  else st

/-- The function `ofono_manager_remove_valid_modem`. -/
def ofono_manager_remove_valid_modem (st : ManagerState) (path : String) :
    ManagerState :=
  if ofono_manager_has_modem st path then
    let s1 : ManagerState := { st with self := { st.self with
      valid_modems := st.self.valid_modems.erase path } }
    s1.emit (ManagerSignal.modem_removed path)
  else st

/-- The function `ofono_manager_modem_valid_changed`: the handler of the
"valid-changed" signal of a registered modem. -/
def ofono_manager_modem_valid_changed (st : ManagerState) (path : String) :
    ManagerState :=
  let s1 :=
    if ofono_modem_valid st path then ofono_manager_add_valid_modem st path
    else ofono_manager_remove_valid_modem st path
  ofono_manager_update_valid s1

/-- The function `ofono_manager_add_modem`. -/
def ofono_manager_add_modem (st : ManagerState) (path : String) : ManagerState :=
  if path_is_absolute path then
    let s1 : ManagerState := { st with self := { st.self with
      all_modems := path :: st.self.all_modems.filter (fun q => q != path) } }
    if ofono_modem_valid s1 path then ofono_manager_add_valid_modem s1 path
    else s1
  else st

/-- The function `ofono_manager_proxy_valid_changed` (handler in the manager). -/
def ofono_manager_proxy_valid_changed (st : ManagerState) : ManagerState :=
  ofono_manager_update_valid st

/-- The function `ofono_manager_modem_added` (handler in the manager). -/
def ofono_manager_modem_added (st : ManagerState) (path : String) :
    ManagerState :=
  ofono_manager_add_modem st path

/-- The function `ofono_manager_modem_removed` (handler in the manager). -/
def ofono_manager_modem_removed (st : ManagerState) (path : String) :
    ManagerState :=
  let s1 : ManagerState := { st with self := { st.self with
    all_modems := st.self.all_modems.filter (fun q => q != path) } }
  ofono_manager_remove_valid_modem s1 path

/-- The function `ofono_manager_get_modems`: a copy of `valid_modems`. -/
def ofono_manager_get_modems (st : ManagerState) : List String :=
  st.self.valid_modems

/-- Emission of "gofono-valid-changed" by the proxy: the manager handler runs. -/
def proxy_emit_valid_changed (st : ManagerState) : ManagerState :=
  ofono_manager_proxy_valid_changed (st.emit ManagerSignal.proxy_valid_changed)

/-- The function `ofono_manager_proxy_reset`. -/
def ofono_manager_proxy_reset (st : ManagerState) : ManagerState :=
  let s1 : ManagerState := { st with proxy := { st.proxy with modem_paths := [] } }
  let s2 : ManagerState :=
    match s1.proxy.cancel with
    | some c => { s1 with
        cancelled := c :: s1.cancelled
        proxy := { s1.proxy with cancel := none } }
    | none => s1
  let s3 : ManagerState := { s2 with proxy := { s2.proxy with proxy := false } }
  if s3.proxy.valid then
    proxy_emit_valid_changed { s3 with proxy := { s3.proxy with valid := false } }
  else s3

/-- The function `ofono_manager_proxy_add_modem`. -/
def ofono_manager_proxy_add_modem (st : ManagerState) (path : String) :
    ManagerState :=
  if !st.proxy.modem_paths.contains path then
    let s1 : ManagerState := { st with proxy := { st.proxy with
      modem_paths := g_ptr_array_sort (st.proxy.modem_paths ++ [path]) } }
    ofono_manager_modem_added (s1.emit (ManagerSignal.proxy_modem_added path)) path
  else st

/-- The function `ofono_manager_proxy_modem_added`. -/
def ofono_manager_proxy_modem_added (st : ManagerState) (path : String) :
    ManagerState :=
  ofono_manager_proxy_add_modem st path

/-- The function `ofono_manager_proxy_modem_removed`. -/
def ofono_manager_proxy_modem_removed (st : ManagerState) (path : String) :
    ManagerState :=
  if st.proxy.modem_paths.contains path then
    let s1 : ManagerState := { st with proxy := { st.proxy with
      modem_paths := st.proxy.modem_paths.erase path } }
    ofono_manager_modem_removed (s1.emit (ManagerSignal.proxy_modem_removed path))
      path
  else st

/-- The function `ofono_manager_proxy_get_modems_finished`. On a generic
timeout the call is issued again under `priv->cancel` if that is still set. -/
def ofono_manager_proxy_get_modems_finished (st : ManagerState)
    (result : CallResult (List String)) : ManagerState :=
  let cleanup := fun (s : ManagerState) =>
    { s with proxy := { s.proxy with cancel := none } }
  match result with
  | CallResult.ok modems =>
    let s1 := modems.foldl ofono_manager_proxy_add_modem st
    let s2 := proxy_emit_valid_changed { s1 with proxy := { s1.proxy with valid := true } }
    cleanup s2
  | CallResult.error e =>
    if ofono_error_is_generic_timeout (some e) then
      match st.proxy.cancel with
      | some c => { st with get_modems_calls := c :: st.get_modems_calls }
      | none => st
    else cleanup st

/-- The function `ofono_manager_proxy_created` on success: GetModems is
issued under `priv->cancel` (token 0 stands for a NULL cancellable). -/
def ofono_manager_proxy_created (st : ManagerState) : ManagerState :=
  let s1 : ManagerState := { st with proxy := { st.proxy with proxy := true } }
  match s1.proxy.cancel with
  | some c => { s1 with get_modems_calls := c :: s1.get_modems_calls }
  | none => { s1 with get_modems_calls := 0 :: s1.get_modems_calls }

/-- The function `ofono_manager_proxy_appeared`. -/
def ofono_manager_proxy_appeared (st : ManagerState) : ManagerState :=
  { st with
    proxy := { st.proxy with cancel := some st.next_id }
    proxy_new_calls := st.next_id :: st.proxy_new_calls
    next_id := st.next_id + 1 }

/-- The function `ofono_manager_proxy_vanished`. -/
def ofono_manager_proxy_vanished (st : ManagerState) : ManagerState :=
  let s1 := ofono_manager_proxy_reset st
  if s1.proxy.valid then
    proxy_emit_valid_changed { s1 with proxy := { s1.proxy with valid := false } }
  else s1

/-- The function `ofono_manager_create` over a given manager proxy: the
handlers are connected, every path the proxy already knows is added and the
flag is computed. -/
def ofono_manager_create (proxy : OfonoManagerProxy) (modems_valid : List String) :
    ManagerState :=
  let s0 : ManagerState :=
    ⟨proxy, ⟨false, [], []⟩, modems_valid, [], [], [], 1, []⟩
  ofono_manager_update_valid (proxy.modem_paths.foldl ofono_manager_add_modem s0)

/-- The manager created together with a fresh manager proxy. -/
def ManagerState.init : ManagerState :=
  ofono_manager_create ⟨false, [], none, false⟩ []

/-- What the main loop can deliver to the manager proxy and the manager. -/
inductive ManagerEvent where
  | appeared
  | vanished
  | proxy_created (token : Nat)
  | get_modems_finished (token : Nat) (result : CallResult (List String))
  | modem_added (path : String)
  | modem_removed (path : String)
  | modem_valid_changed (path : String) (valid : Bool)
  deriving DecidableEq, Repr

/-- One event of the manager, processed to the end; `none` when the event
cannot occur. A call whose GCancellable was cancelled completes with
`G_IO_ERROR_CANCELLED`. -/
def manager_step (st : ManagerState) (ev : ManagerEvent) : Option ManagerState :=
  match ev with
  | ManagerEvent.appeared =>
    if st.proxy.cancel.isNone ∧ st.proxy.proxy = false then
      some (ofono_manager_proxy_appeared st)
    else none
  | ManagerEvent.vanished => some (ofono_manager_proxy_vanished st)
  | ManagerEvent.proxy_created token =>
    if st.proxy_new_calls.contains token then
      let s1 : ManagerState := { st with
        proxy_new_calls := st.proxy_new_calls.erase token }
      if st.cancelled.contains token then some s1
      else some (ofono_manager_proxy_created s1)
    else none
  | ManagerEvent.get_modems_finished token result =>
    if st.get_modems_calls.contains token then
      let s1 : ManagerState := { st with
        get_modems_calls := st.get_modems_calls.erase token }
      if st.cancelled.contains token then
        some (ofono_manager_proxy_get_modems_finished s1
          (CallResult.error ⟨GQuark.G_IO_ERROR, G_IO_ERROR_CANCELLED⟩))
      else some (ofono_manager_proxy_get_modems_finished s1 result)
    else none
  | ManagerEvent.modem_added path =>
    if st.proxy.proxy then some (ofono_manager_proxy_modem_added st path)
    else none
  | ManagerEvent.modem_removed path =>
    if st.proxy.proxy then some (ofono_manager_proxy_modem_removed st path)
    else none
  | ManagerEvent.modem_valid_changed path valid =>
    if ofono_modem_valid st path ≠ valid then
      let s1 : ManagerState := { st with
        modems_valid :=
          if valid then path :: st.modems_valid
          else st.modems_valid.filter (fun q => q != path) }
      if st.self.all_modems.contains path then
        some (ofono_manager_modem_valid_changed s1 path)
      else some s1
    else none

/-- A sequence of manager events. -/
def manager_run (st : ManagerState) : List ManagerEvent → Option ManagerState
  | [] => some st
  | ev :: rest =>
    match manager_step st ev with
    | some st1 => manager_run st1 rest
    | none => none

/-! ## Scenarios and observations -/

/-- The actions of the log, without the snapshots. -/
def State.actions (st : State) : List Action :=
  st.log.map (fun e => e.action)

/-- The states after each event of a sequence. -/
def run_trace (st : State) : List Event → Option (List State)
  | [] => some []
  | ev :: rest =>
    match step st ev with
    | some st1 => (run_trace st1 rest).map (fun l => st1 :: l)
    | none => none

/-- The error `org.ofono.Error.InProgress`. -/
def OFONO_BUSY : GError := ⟨GQuark.OFONO_ERROR, OFONO_ERROR_BUSY⟩

/-- The SetProperty("Active", on) call number `id`. -/
def toggle_call (id : Nat) (value : Bool) : Action :=
  Action.call_set_property id OFONO_CONNCTX_PROPERTY_ACTIVE (GVariant.boolean value)

/-- Whether an action is a toggle call with the given value. -/
def Action.is_toggle (value : Bool) (a : Action) : Bool :=
  match a with
  | Action.call_set_property _ name v =>
    name == OFONO_CONNCTX_PROPERTY_ACTIVE && v == GVariant.boolean value
  | _ => false

/-- Whether an action is the emission of "activate-failed". -/
def Action.is_activate_failed (a : Action) : Bool :=
  match a with
  | Action.emit (Signal.activate_failed _) => true
  | _ => false

/-- Whether an action arms the retry timer of the controller. -/
def Action.is_retry_wait (a : Action) : Bool :=
  match a with
  | Action.timeout_add_seconds _ => true
  | _ => false

/-- A connection context that is valid and whose controller is idle. -/
structure IdleValid (st : State) : Prop where
  klass : st.self.klass = OfonoClass.CONNCTX
  valid : st.self.valid = true
  proxy : st.self.priv.proxy = true
  current : st.self.connctx.current_action = CONNCTX_ACTION.NONE
  next : st.self.connctx.next_action = CONNCTX_ACTION.NONE
  retry : st.self.connctx.retry_id = 0
  calls : st.self.priv.pending_calls = []

/-- A connection context right after its first successful property fetch,
with the parent modem valid and advertising the ConnectionManager interface. -/
def connctx_valid_idle : State :=
  (run (State.init OfonoClass.CONNCTX)
    [Event.modem_changed true true, Event.connmgr_proxy_created,
     Event.proxy_created,
     Event.get_properties_finished 1
       (CallResult.ok [("Type", GVariant.string "internet")])]).getD
    (State.init OfonoClass.CONNCTX)

/-- One move of an environment in which the service answers every toggle
call with Busy: the call in flight completes with Busy; when no call is in
flight the armed retry timer expires; otherwise nothing is left to happen. -/
def busy_server_move (st : State) : Option Event :=
  match st.self.priv.pending_calls with
  | c :: _ => some (Event.set_active_finished c.id (some OFONO_BUSY))
  | [] =>
    if st.self.connctx.retry_id ≠ 0 then some Event.set_active_retry else none

/-- The object driven by the always-Busy environment for at most `fuel`
moves; it stops as soon as nothing is left to happen. -/
def busy_server_run : Nat → State → State
  | 0, st => st
  | fuel + 1, st =>
    match busy_server_move st with
    | some ev =>
      match step st ev with
      | some st1 => busy_server_run fuel st1
      | none => st
    | none => st

/-- The actions of `n` rounds "toggle call answered with Busy, retry timer
armed", the first call having number `id`. -/
def busy_rounds (id : Nat) : Nat → List Action
  | 0 => []
  | n + 1 =>
    toggle_call id true :: Action.timeout_add_seconds RETRY_DELAY_SEC ::
      busy_rounds (id + 1) n

/-- The controller while the always-Busy environment is at work, after `k`
retries of the request started in state `st0`: the toggle call number
`st0.next_id + k` is in flight. -/
structure BusyShape (st0 : State) (k : Nat) (s : State) : Prop where
  valid : s.self.valid = true
  proxy : s.self.priv.proxy = true
  current : s.self.connctx.current_action = CONNCTX_ACTION.ACTIVATE
  next : s.self.connctx.next_action = CONNCTX_ACTION.NONE
  retry : s.self.connctx.retry_id = 0
  count : s.self.connctx.retry_count = k
  calls : s.self.priv.pending_calls = [⟨st0.next_id + k, false, true⟩]
  next_id : s.next_id = st0.next_id + k + 1
  actions : s.actions =
    st0.actions ++ busy_rounds st0.next_id k ++ [toggle_call (st0.next_id + k) true]

/-- The controller after the always-Busy environment has run dry on the
request started in state `st0`. -/
structure BusyFinal (st0 : State) (s : State) : Prop where
  current : s.self.connctx.current_action = CONNCTX_ACTION.NONE
  next : s.self.connctx.next_action = CONNCTX_ACTION.NONE
  retry : s.self.connctx.retry_id = 0
  count : s.self.connctx.retry_count = MAX_RETRY_COUNT
  calls : s.self.priv.pending_calls = []
  actions : s.actions =
    st0.actions ++ busy_rounds st0.next_id MAX_RETRY_COUNT ++
      [toggle_call (st0.next_id + MAX_RETRY_COUNT) true,
       Action.emit (Signal.activate_failed OFONO_BUSY)]

/-- Whether an action is the emission of a child-added event of a tracker. -/
def Action.is_context_added (a : Action) : Bool :=
  match a with
  | Action.emit (Signal.context_added _) => true
  | _ => false

/-- The signals of the manager log, without the snapshots. -/
def ManagerState.signals (st : ManagerState) : List ManagerSignal :=
  st.log.map (fun e => e.signal)

/-- An OfonoConnMgr on a valid modem that advertises the interface, with its
proxy created and its first property fetch completed; the enumeration of the
contexts (GetContexts call number 3) is still in flight. -/
def connmgr_enumerating : State :=
  (run (State.init OfonoClass.CONNMGR)
    [Event.modem_changed true true, Event.proxy_created,
     Event.get_properties_finished 2
       (CallResult.ok [("Attached", GVariant.boolean true)])]).getD
    (State.init OfonoClass.CONNMGR)

/-- The OfonoConnMgr after the enumeration returned three contexts of which
the first two have become valid. -/
def connmgr_two_of_three : State :=
  (run connmgr_enumerating
    [Event.get_contexts_finished 3
       (CallResult.ok ["/ril_0/a", "/ril_0/b", "/ril_0/c"]),
     Event.context_valid_changed "/ril_0/a" true,
     Event.context_valid_changed "/ril_0/b" true]).getD connmgr_enumerating

/-- The manager and its proxy after the service appeared and the proxy was
created; the enumeration of the modems (GetModems under token 1) is still in
flight. -/
def manager_enumerating : ManagerState :=
  (manager_run ManagerState.init
    [ManagerEvent.appeared, ManagerEvent.proxy_created 1]).getD ManagerState.init

/-- The manager after the enumeration returned three modems of which the
first two have become valid. -/
def manager_two_of_three : ManagerState :=
  (manager_run manager_enumerating
    [ManagerEvent.get_modems_finished 1 (CallResult.ok ["/a", "/b", "/c"]),
     ManagerEvent.modem_valid_changed "/a" true,
     ManagerEvent.modem_valid_changed "/b" true]).getD manager_enumerating

/-- Whether a manager signal is the child-added event of the manager. -/
def ManagerSignal.is_modem_added (s : ManagerSignal) : Bool :=
  match s with
  | ManagerSignal.modem_added _ => true
  | _ => false

/-! ## What a listener may observe -/

/-- The signals that announce a property: the per-property signal, the
generic "property-changed" signal and "interface-changed" of a context. -/
def Signal.is_property_signal (s : Signal) : Bool :=
  match s with
  | Signal.named _ => true
  | Signal.property_changed _ _ => true
  | Signal.interface_changed => true
  | _ => false

/-- An action that is not the emission of a signal, or that emits a property
signal. -/
def Action.is_quiet (a : Action) : Bool :=
  match a with
  | Action.emit s => s.is_property_signal
  | _ => true

/-- What the property layer (applying, resetting and re-querying properties)
leaves alone: everything but the typed fields, the cache, the settings and
the state of the property fetch; what it adds to the log is quiet. -/
structure Untouched (a b : State) : Prop where
  klass : b.self.klass = a.self.klass
  valid : b.self.valid = a.self.valid
  ready : b.self.priv.ready = a.self.priv.ready
  proxy : b.self.priv.proxy = a.self.priv.proxy
  modem : b.self.modem = a.self.modem
  ctx_connmgr : b.self.connctx.connmgr = a.self.connctx.connmgr
  removed : b.self.connctx.removed = a.self.connctx.removed
  current : b.self.connctx.current_action = a.self.connctx.current_action
  next : b.self.connctx.next_action = a.self.connctx.next_action
  retry_id : b.self.connctx.retry_id = a.self.connctx.retry_id
  retry_count : b.self.connctx.retry_count = a.self.connctx.retry_count
  pending_calls : b.self.priv.pending_calls = a.self.priv.pending_calls
  connmgr : b.self.connmgr = a.self.connmgr
  contexts_valid : b.contexts_valid = a.contexts_valid
  get_contexts_calls : b.get_contexts_calls = a.get_contexts_calls
  next_id : a.next_id ≤ b.next_id
  log : ∀ e ∈ b.log, e ∈ a.log ∨ e.action.is_quiet = true

/-- A log entry respects "valid implies ready": it is quiet, or its snapshot
has the ready flag set whenever it has the valid flag set. -/
def EntryOK (e : Entry) : Prop :=
  e.action.is_quiet = true ∨ (e.snapshot.valid = true → e.snapshot.priv.ready = true)

/-- Every entry of the log respects "valid implies ready". -/
def LogOK (st : State) : Prop :=
  ∀ e ∈ st.log, EntryOK e

/-- The stored ready flag is up to date. -/
def ReadyCurrent (st : State) : Prop :=
  st.self.priv.ready = fn_is_ready st.self

/-- The published valid flag implies the ready flag. -/
def ValidReady (st : State) : Prop :=
  st.self.valid = true → st.self.priv.ready = true

/-- The bookkeeping of the activation controller: a retry timer or a toggle
call in flight means that an action is current, never both at once, at most
one toggle call is in flight, and call numbers are fresh. -/
structure ControllerInv (st : State) : Prop where
  timer : st.self.connctx.retry_id ≠ 0 →
    st.self.connctx.current_action ≠ CONNCTX_ACTION.NONE
  call : st.self.priv.pending_calls ≠ [] →
    st.self.connctx.current_action ≠ CONNCTX_ACTION.NONE ∧
      st.self.connctx.retry_id = 0
  one : st.self.priv.pending_calls.length ≤ 1
  fresh : ∀ c ∈ st.self.priv.pending_calls, c.id < st.next_id

/-- What holds in the middle of a transition: the valid flag may be stale. -/
structure Mid (st : State) : Prop where
  log : LogOK st
  ready : ReadyCurrent st
  ctl : ControllerInv st

/-- What holds between two events. -/
structure Good (st : State) : Prop where
  log : LogOK st
  ready : ReadyCurrent st
  ctl : ControllerInv st
  vr : ValidReady st

/-- A step that keeps the flags, the inputs of `fn_is_ready` and the
bookkeeping of the controller, and adds only quiet entries to the log. -/
structure Quiet (a b : State) : Prop where
  klass : b.self.klass = a.self.klass
  valid : b.self.valid = a.self.valid
  ready : b.self.priv.ready = a.self.priv.ready
  proxy : b.self.priv.proxy = a.self.priv.proxy
  modem : b.self.modem = a.self.modem
  ctx_connmgr : b.self.connctx.connmgr = a.self.connctx.connmgr
  removed : b.self.connctx.removed = a.self.connctx.removed
  current : b.self.connctx.current_action = a.self.connctx.current_action
  retry_id : b.self.connctx.retry_id = a.self.connctx.retry_id
  calls : b.self.priv.pending_calls.map (fun c => c.id) =
    a.self.priv.pending_calls.map (fun c => c.id)
  next_id : a.next_id ≤ b.next_id
  log : ∀ e ∈ b.log, e ∈ a.log ∨ e.action.is_quiet = true

/-- A step that keeps the flags and the inputs of `fn_is_ready`; the
controller may move, and what the step adds to the log respects "valid
implies ready". -/
structure Calm (a b : State) : Prop where
  klass : b.self.klass = a.self.klass
  valid : b.self.valid = a.self.valid
  ready : b.self.priv.ready = a.self.priv.ready
  proxy : b.self.priv.proxy = a.self.priv.proxy
  modem : b.self.modem = a.self.modem
  ctx_connmgr : b.self.connctx.connmgr = a.self.connctx.connmgr
  removed : b.self.connctx.removed = a.self.connctx.removed
  log : ∀ e ∈ b.log, e ∈ a.log ∨ EntryOK e

/-- An OfonoConnMgr becomes valid with "Attached" true and no contexts, then
its modem stops being valid. -/
def connmgr_modem_lost_events : List Event :=
  [Event.modem_changed true true, Event.proxy_created,
   Event.get_properties_finished 2
     (CallResult.ok [("Attached", GVariant.boolean true)]),
   Event.get_contexts_finished 3 (CallResult.ok []),
   Event.modem_changed false true]

/-- The state after `connmgr_modem_lost_events`. -/
def connmgr_modem_lost : State :=
  (run (State.init OfonoClass.CONNMGR) connmgr_modem_lost_events).getD
    (State.init OfonoClass.CONNMGR)

/-- The actions that the log records at an instant at which the published
valid flag is set and the ready flag is not. -/
def State.valid_not_ready (st : State) : List Action :=
  (st.log.filter (fun e => e.snapshot.valid && !e.snapshot.priv.ready)).map
    (fun e => e.action)

/-- A connection context becomes valid, is asked to activate, and the
service answers the toggle call with Busy. -/
def connctx_busy_events : List Event :=
  [Event.modem_changed true true, Event.connmgr_proxy_created,
   Event.proxy_created,
   Event.get_properties_finished 1
     (CallResult.ok [("Type", GVariant.string "internet")]),
   Event.activate,
   Event.set_active_finished 2 (some OFONO_BUSY)]

/-- The state after `connctx_busy_events`: the retry timer is armed. -/
def connctx_busy_once : State :=
  (run (State.init OfonoClass.CONNCTX) connctx_busy_events).getD
    (State.init OfonoClass.CONNCTX)

/-- An OfonoSimMgr becomes valid with no SIM card present, then the service
signals that "Present" has become true. -/
def simmgr_sim_inserted_events : List Event :=
  [Event.modem_changed true true, Event.proxy_created,
   Event.get_properties_finished 1
     (CallResult.ok [("Present", GVariant.boolean false)]),
   Event.property_changed "Present" (GVariant.boolean true)]

/-- The valid flag of the tracker of contexts in the words of the
specification: the last enumeration succeeded, no enumeration is in flight,
the known children are as many as the children in the valid subset, and the
underlying modem interface object is itself valid. -/
def connmgr_valid_spec (o : OfonoObject) : Bool :=
  o.connmgr.get_contexts_ok && o.connmgr.get_contexts_pending.isNone &&
    o.connmgr.all_contexts.length == o.connmgr.valid_contexts.length &&
    ofono_modem_interface_is_valid o

/-- The valid flag of the tracker of modems in the words of the
specification: the manager proxy, which does the enumeration, is valid, and
the known children are as many as the children in the valid subset. -/
def manager_valid_spec (ms : ManagerState) : Bool :=
  ms.proxy.valid && ms.self.valid_modems.length == ms.self.all_modems.length

/-- An OfonoConnMgr learns of the contexts "/a" and "/b"; "/a" becomes valid
and then "/b", which never became valid, is removed. -/
def connmgr_child_removed_events : List Event :=
  [Event.modem_changed true true, Event.proxy_created,
   Event.get_properties_finished 2
     (CallResult.ok [("Attached", GVariant.boolean true)]),
   Event.get_contexts_finished 3 (CallResult.ok ["/a", "/b"]),
   Event.context_valid_changed "/a" true,
   Event.context_removed "/b"]

/-- The manager becomes valid with no modems, then the modem "/a", not yet
valid, is added. -/
def manager_child_added_events : List ManagerEvent :=
  [ManagerEvent.appeared, ManagerEvent.proxy_created 1,
   ManagerEvent.get_modems_finished 1 (CallResult.ok []),
   ManagerEvent.modem_added "/a"]

/-- The manager learns of the modems "/a" and "/b"; "/a" becomes valid and
then "/b", which never became valid, is removed. -/
def manager_child_removed_events : List ManagerEvent :=
  [ManagerEvent.appeared, ManagerEvent.proxy_created 1,
   ManagerEvent.get_modems_finished 1 (CallResult.ok ["/a", "/b"]),
   ManagerEvent.modem_valid_changed "/a" true,
   ManagerEvent.modem_removed "/b"]

/-- An enumerating OfonoConnMgr whose modem has just stopped being valid:
`ofono_modem_interface_modem_changed` is about to run. -/
def connmgr_modem_gone : State :=
  { connmgr_enumerating with
    self := { connmgr_enumerating.self with modem := ⟨false, true⟩ } }

/-- An OfonoConnMgr whose proxy has just been created: the first property
fetch (GetProperties call number 2) is in flight and attached. -/
def connmgr_fetching : State :=
  (run (State.init OfonoClass.CONNMGR)
    [Event.modem_changed true true, Event.proxy_created]).getD
    (State.init OfonoClass.CONNMGR)

/-- A generic timeout error: `G_IO_ERROR_TIMED_OUT`. -/
def G_IO_TIMED_OUT : GError := ⟨GQuark.G_IO_ERROR, G_IO_ERROR_TIMED_OUT⟩

/-- The error `org.ofono.Error.Failed` (code `OFONO_ERROR_FAILED` of
gofono_error.h). -/
def OFONO_FAILED : GError := ⟨GQuark.OFONO_ERROR, 3⟩

/-- The loop of `ofono_object_apply_properties`: every entry of the
dictionary is stored in the cache and applied; the result is the object after
the last entry and the array `plist` of the descriptors that reported a
change, in the order of the entries. -/
def ofono_object_apply_properties_loop (st : State)
    (dictionary : List (String × GVariant)) : State × List OfonoObjectProperty :=
  dictionary.foldl
    (fun (acc : State × List OfonoObjectProperty) entry =>
      let s1 := acc.1.cache_replace entry.1 entry.2
      let a := ofono_object_apply_property s1 entry.1 entry.2
      (a.1, match a.2 with
        | some property => acc.2 ++ [property]
        | none => acc.2)) (st, [])

/-- The log entries that `ofono_object_emit_property_change_signals` writes
for the object `o` and the descriptors `plist`: per descriptor the
per-property signal and, when `fn_value` gives a value, "property-changed". -/
def property_change_entries (o : OfonoObject) (plist : List OfonoObjectProperty) :
    List Entry :=
  plist.flatMap (fun p =>
    ⟨Action.emit (Signal.named p.signal_name), o⟩ ::
      match fn_value o p with
      | some value => [⟨Action.emit (Signal.property_changed p.name value), o⟩]
      | none => [])

/-- The generic "property-changed" events that the dispatch of `plist` owes
for the object `o`: one per descriptor that gives a value. -/
def property_changed_events (o : OfonoObject) (plist : List OfonoObjectProperty) :
    List Action :=
  plist.filterMap (fun p =>
    (fn_value o p).map (fun value =>
      Action.emit (Signal.property_changed p.name value)))

/-- Whether an action is the emission of the generic "property-changed". -/
def Action.is_property_changed (a : Action) : Bool :=
  match a with
  | Action.emit (Signal.property_changed _ _) => true
  | _ => false

/-- The actions that were logged after the state `st` on the way to `r`. -/
def State.new_actions (st r : State) : List Action :=
  (r.log.drop st.log.length).map (fun e => e.action)

/-- Whether a descriptor is one of the two settings descriptors of a
connection context. -/
def PropertyKind.is_settings (k : PropertyKind) : Bool :=
  match k with
  | PropertyKind.SETTINGS _ => true
  | _ => false

/-- A bulk fetch that reports the settings of an activated context. -/
def connctx_settings_dictionary : List (String × GVariant) :=
  [("Settings", GVariant.vardict [("Interface", GValue.string "rmnet0")])]

/-- A bulk fetch that reports the settings and then the "Active" flag. -/
def connctx_settings_active_dictionary : List (String × GVariant) :=
  [("Settings", GVariant.vardict [("Interface", GValue.string "rmnet0")]),
   ("Active", GVariant.boolean true)]

/-- A connection context whose proxy has just been created: the first
property fetch (GetProperties call number 1) is in flight. -/
def connctx_fetching : State :=
  (run (State.init OfonoClass.CONNCTX)
    [Event.modem_changed true true, Event.connmgr_proxy_created,
     Event.proxy_created]).getD (State.init OfonoClass.CONNCTX)

/-- Whether the typed field of a descriptor holds the value that `fn_apply`
gives it for a NULL value (the default): FALSE, the NULL string, -1 for an
enum, and for the settings the initialised struct with the public pointer
NULL. -/
def OfonoObjectProperty.at_default (p : OfonoObjectProperty) (o : OfonoObject) :
    Bool :=
  match p.kind with
  | PropertyKind.BOOL => !o.get_bool p.name
  | PropertyKind.PRESENT => !o.get_bool p.name
  | PropertyKind.STRING => o.get_str p.name == none
  | PropertyKind.ENUM _ => o.get_int p.name == -1
  | PropertyKind.SETTINGS ipv6 =>
    if ipv6 then
      !o.connctx.ipv6_settings_pub &&
        o.connctx.ipv6_settings == ofono_connctx_settings_init
    else
      !o.connctx.settings_pub && o.connctx.settings == ofono_connctx_settings_init

/-- The storage a descriptor writes to: the typed field at its offset
(represented by the property name) or one of the two settings structs. -/
def OfonoObjectProperty.slot (p : OfonoObjectProperty) : String ⊕ Bool :=
  match p.kind with
  | PropertyKind.SETTINGS ipv6 => Sum.inr ipv6
  | _ => Sum.inl p.name

/-- The value `fn_value` gives for a field at its default. -/
def OfonoObjectProperty.default_value (q : OfonoObjectProperty) : GVariant :=
  match q.kind with
  | PropertyKind.BOOL => GVariant.boolean false
  | PropertyKind.PRESENT => GVariant.boolean false
  | PropertyKind.STRING => GVariant.string ""
  | PropertyKind.ENUM map => GVariant.string ((ofono_int_to_name map (-1)).getD "")
  | PropertyKind.SETTINGS _ => GVariant.vardict []

/-- The change events of `q` for a reset (the per-property signal and the
generic "property-changed" with the default value) were emitted after the log
had the entries `log0`. -/
def Fired (log0 : List Entry) (s : State) (q : OfonoObjectProperty) : Prop :=
  ∃ ext, s.log = log0 ++ ext ∧
    Action.emit (Signal.named q.signal_name) ∈ ext.map (fun e => e.action) ∧
    Action.emit (Signal.property_changed q.name q.default_value) ∈
      ext.map (fun e => e.action)

/-- What a function that resets properties guarantees on an object of class
`k`: the private data, the class and the old log are kept, a field at its
default stays there, and a field that reaches its default has its signal
emitted. -/
structure ResetPost (k : OfonoClass) (reset : State → State) : Prop where
  priv : ∀ s, (reset s).self.priv = s.self.priv
  klass : ∀ s, (reset s).self.klass = s.self.klass
  log : ∀ s, ∃ ext, (reset s).log = s.log ++ ext
  keeps : ∀ s q, s.self.klass = k → q ∈ k.all_properties →
    q.at_default s.self = true → q.at_default (reset s).self = true
  others : ∀ s q, s.self.klass = k → q ∈ k.all_properties →
    q.at_default s.self = false → q.at_default (reset s).self = true →
    Fired s.log (reset s) q

/-- What `fn_apply` with a NULL value guarantees on an object of class `k`. -/
structure ResetSpec (k : OfonoClass)
    (apply : State → OfonoObjectProperty → Option GVariant → State × Bool) :
    Prop where
  priv : ∀ s p, (apply s p none).1.self.priv = s.self.priv
  klass : ∀ s p, (apply s p none).1.self.klass = s.self.klass
  log : ∀ s p, ∃ ext, (apply s p none).1.log = s.log ++ ext
  sets : ∀ s p, s.self.klass = k → p ∈ k.all_properties →
    p.at_default (apply s p none).1.self = true
  keeps : ∀ s p q, s.self.klass = k → p ∈ k.all_properties →
    q ∈ k.all_properties →
    q.at_default s.self = true → q.at_default (apply s p none).1.self = true
  reports : ∀ s p, p.at_default s.self = false → (apply s p none).2 = true
  others : ∀ s p q, s.self.klass = k → p ∈ k.all_properties →
    q ∈ k.all_properties → q ≠ p →
    q.at_default s.self = false → q.at_default (apply s p none).1.self = true →
    Fired s.log (apply s p none).1 q

/-- The action `a` was logged after the log had the entries `log0`. -/
def Logged (log0 : List Entry) (s : State) (a : Action) : Prop :=
  ∃ ext, s.log = log0 ++ ext ∧ a ∈ ext.map (fun e => e.action)

/-! ## gofono_connctx.c: the registry of connection contexts -/

/-- A live `OfonoConnCtx` instance: its identity (the pointer), its path and
its GObject reference count. -/
structure ConnCtxInstance where
  id : Nat
  path : String
  ref_count : Nat
  deriving DecidableEq, Repr

/-- The static `ofono_connctx_table` (`none` is NULL, otherwise the hash table
from path to instance) together with the instances that are alive. -/
structure ConnCtxRegistry where
  ofono_connctx_table : Option (List (String × Nat))
  live : List ConnCtxInstance
  next_id : Nat
  deriving DecidableEq, Repr

/-- Before the first call: no table, no instance. -/
def ConnCtxRegistry.init : ConnCtxRegistry := ⟨none, [], 1⟩

/-- The entries of the table; none when the table is NULL. -/
def ConnCtxRegistry.entries (st : ConnCtxRegistry) : List (String × Nat) :=
  st.ofono_connctx_table.getD []

/-- The test `if (path && path[0] == '/') sep = strchr(path + 1, '/')` of
`ofono_connctx_create`: whether the path has a modem part. -/
def connctx_path_has_modem (path : String) : Bool :=
  match path.toList with
  | '/' :: rest => rest.contains '/'
  | _ => false

/-- GObject `g_object_ref` on a live instance (`ofono_connctx_ref`). -/
def g_object_ref (st : ConnCtxRegistry) (id : Nat) : ConnCtxRegistry :=
  { st with live := st.live.map (fun i =>
      if i.id = id then { i with ref_count := i.ref_count + 1 } else i) }

/-- The function `ofono_connctx_destroyed`: the weak-reference callback that
runs when the instance registered under `key` is finalized. -/
def ofono_connctx_destroyed (st : ConnCtxRegistry) (key : String) :
    ConnCtxRegistry :=
  match st.ofono_connctx_table with
  | some table =>
    let table1 := table.filter (fun e => e.1 != key)
    if table1.length = 0 then { st with ofono_connctx_table := none }
    else { st with ofono_connctx_table := some table1 }
  | none => st

/-- GObject `g_object_unref` on a live instance (`ofono_connctx_unref`): the
last reference finalizes the instance, which runs the weak-reference
callback installed by `ofono_connctx_new`. -/
def g_object_unref (st : ConnCtxRegistry) (id : Nat) : ConnCtxRegistry :=
  match st.live.find? (fun i => i.id == id) with
  | some i =>
    if i.ref_count ≤ 1 then
      ofono_connctx_destroyed
        { st with live := st.live.filter (fun j => j.id != id) } i.path
    else
      { st with live := st.live.map (fun j =>
          if j.id = id then { j with ref_count := j.ref_count - 1 } else j) }
  | none => st

/-- The function `ofono_connctx_create`: a new instance with one reference,
plus the reference held by the pending creation of the ConnectionManager
proxy when the path has a modem part. -/
def ofono_connctx_create (st : ConnCtxRegistry) (path : String) :
    ConnCtxRegistry × Nat :=
  let id := st.next_id
  ({ st with
      live := st.live ++
        [⟨id, path, if connctx_path_has_modem path then 2 else 1⟩]
      next_id := st.next_id + 1 }, id)

/-- The function `ofono_connctx_new`; `none` is a NULL path and a NULL
result. -/
def ofono_connctx_new (st : ConnCtxRegistry) (path : Option String) :
    ConnCtxRegistry × Option Nat :=
  match path with
  | none => (st, none)
  | some p =>
    let context :=
      match st.ofono_connctx_table with
      | some table => table.lookup p
      | none => none
    match context with
    | some id => (g_object_ref st id, some id)
    | none =>
      let r := ofono_connctx_create st p
      let st1 := r.1
      let table := st1.ofono_connctx_table.getD []
      let replaced := (p, r.2) :: table.filter (fun e => e.1 != p)
      ({ st1 with ofono_connctx_table := some replaced }, some r.2)

/-- What can happen to the registry: a call of `ofono_connctx_new`, and a
reference taken or dropped on a live instance. -/
inductive RegistryEvent where
  | new (path : Option String)
  | ref (id : Nat)
  | unref (id : Nat)
  deriving DecidableEq, Repr

/-- One event of the registry; `none` when the instance is not alive. -/
def registry_step (st : ConnCtxRegistry) (ev : RegistryEvent) :
    Option ConnCtxRegistry :=
  match ev with
  | RegistryEvent.new path => some (ofono_connctx_new st path).1
  | RegistryEvent.ref id =>
    if st.live.any (fun i => i.id == id) then some (g_object_ref st id) else none
  | RegistryEvent.unref id =>
    if st.live.any (fun i => i.id == id) then some (g_object_unref st id) else none

/-- A sequence of events of the registry. -/
def registry_run (st : ConnCtxRegistry) : List RegistryEvent →
    Option ConnCtxRegistry
  | [] => some st
  | ev :: rest =>
    match registry_step st ev with
    | some st1 => registry_run st1 rest
    | none => none

/-- The registry is consistent: the table holds exactly the live instances
under their paths, no path and no identity occurs twice, the table is NULL
exactly when nothing is alive, and every live instance is referenced. -/
structure RegistryInv (st : ConnCtxRegistry) : Prop where
  exact : ∀ p id, (p, id) ∈ st.entries ↔
    ∃ i ∈ st.live, i.id = id ∧ i.path = p
  ids : (st.live.map (fun i => i.id)).Nodup
  paths : (st.live.map (fun i => i.path)).Nodup
  keys : (st.entries.map (fun e => e.1)).Nodup
  released : st.ofono_connctx_table = none ↔ st.live = []
  fresh : ∀ i ∈ st.live, i.id < st.next_id
  referenced : ∀ i ∈ st.live, 0 < i.ref_count

/-! ## Collection trackers: removal of a valid child -/

/-- The signals the manager proxy and the manager emitted between two states. -/
def ManagerState.new_signals (st r : ManagerState) : List ManagerSignal :=
  (r.log.drop st.log.length).map (fun e => e.signal)

/-- The manager after the enumeration returned the modems "/a" and "/b" of
which only "/a" has become valid: the manager is not valid. -/
def manager_one_of_two : ManagerState :=
  (manager_run manager_enumerating
    [ManagerEvent.get_modems_finished 1 (CallResult.ok ["/a", "/b"]),
     ManagerEvent.modem_valid_changed "/a" true]).getD manager_enumerating

/-- The OfonoConnMgr after the enumeration returned the contexts "/a" and
"/b" of which only "/a" has become valid: the OfonoConnMgr is not valid. -/
def connmgr_one_of_two : State :=
  (run connmgr_enumerating
    [Event.get_contexts_finished 3 (CallResult.ok ["/a", "/b"]),
     Event.context_valid_changed "/a" true]).getD connmgr_enumerating

/-! ## Collection trackers: the order of the valid subset -/

/-- A list of object paths is strictly increasing under `g_strcmp0`: every
path compares less than every later one. -/
def StrictlyIncreasing (l : List String) : Prop :=
  l.Pairwise (fun a b => g_strcmp0 a b = Ordering.lt)

instance (l : List String) : Decidable (StrictlyIncreasing l) := by
  unfold StrictlyIncreasing
  infer_instance

/-- The valid subset of the manager and the list of the manager proxy are
strictly increasing. -/
def ManagerSorted (st : ManagerState) : Prop :=
  StrictlyIncreasing st.self.valid_modems ∧
  StrictlyIncreasing st.proxy.modem_paths

/-- The valid subset of an OfonoConnMgr is strictly increasing. -/
def ConnMgrSorted (st : State) : Prop :=
  StrictlyIncreasing st.self.connmgr.valid_contexts

/-- An OfonoConnMgr learns of the contexts "/b" and "/a", in this order, and
they become valid in this order. -/
def connmgr_reversed_events : List Event :=
  [Event.modem_changed true true, Event.proxy_created,
   Event.get_properties_finished 2
     (CallResult.ok [("Attached", GVariant.boolean true)]),
   Event.get_contexts_finished 3 (CallResult.ok ["/b", "/a"]),
   Event.context_valid_changed "/b" true,
   Event.context_valid_changed "/a" true]

/-- The state after `connmgr_reversed_events`. -/
def connmgr_reversed : State :=
  (run (State.init OfonoClass.CONNMGR) connmgr_reversed_events).getD
    (State.init OfonoClass.CONNMGR)

/-- The manager learns of the modems "/b" and "/a", in this order, and they
become valid in this order. -/
def manager_reversed_events : List ManagerEvent :=
  [ManagerEvent.appeared, ManagerEvent.proxy_created 1,
   ManagerEvent.get_modems_finished 1 (CallResult.ok ["/b", "/a"]),
   ManagerEvent.modem_valid_changed "/b" true,
   ManagerEvent.modem_valid_changed "/a" true]

/-- The state after `manager_reversed_events`. -/
def manager_reversed : ManagerState :=
  (manager_run ManagerState.init manager_reversed_events).getD ManagerState.init

/-! ## Collection trackers: loss of bus-level readiness -/

/-- The manager learns of the modem "/a", which becomes valid, and then the
service vanishes. -/
def manager_vanished_events : List ManagerEvent :=
  [ManagerEvent.appeared, ManagerEvent.proxy_created 1,
   ManagerEvent.get_modems_finished 1 (CallResult.ok ["/a"]),
   ManagerEvent.modem_valid_changed "/a" true,
   ManagerEvent.vanished]

/-- The manager learns of the modem "/a", the service vanishes and appears
again, now without any modem. -/
def manager_reappeared_events : List ManagerEvent :=
  [ManagerEvent.appeared, ManagerEvent.proxy_created 1,
   ManagerEvent.get_modems_finished 1 (CallResult.ok ["/a"]),
   ManagerEvent.vanished,
   ManagerEvent.appeared, ManagerEvent.proxy_created 2,
   ManagerEvent.get_modems_finished 2 (CallResult.ok [])]

/-- The manager learns of the modem "/a", the service vanishes and appears
again; the second enumeration, which will return "/a" again, is in flight. -/
def manager_second_enumeration_events : List ManagerEvent :=
  [ManagerEvent.appeared, ManagerEvent.proxy_created 1,
   ManagerEvent.get_modems_finished 1 (CallResult.ok ["/a"]),
   ManagerEvent.vanished,
   ManagerEvent.appeared, ManagerEvent.proxy_created 2]

/-- A valid connection context that was asked to activate and whose service
answered the toggle call with Busy thirty times: the thirty-first toggle call
is in flight and `retry_count` is `MAX_RETRY_COUNT`. -/
def connctx_retries_used : State :=
  busy_server_run 60 (ofono_connctx_activate connctx_valid_idle)

/-! ## gofono_object.c: the name of an object -/

/-- The loop `while (name > self->path && name[-1] != '/') name--` of
`ofono_object_name`, with `name` as an offset into the path. -/
def ofono_object_name_offset (path : List Char) : Nat → Nat
  | 0 => 0
  | i + 1 =>
    if path.get? i != some '/' then ofono_object_name_offset path i
    else i + 1

/-- The function `ofono_object_name`: the part of the path from the offset at
which the loop, started at the end of the path, stops. -/
def ofono_object_name (path : String) : String :=
  ⟨path.toList.drop (ofono_object_name_offset path.toList path.toList.length)⟩

/-- A valid connection context whose activation was answered with Busy (the
retry timer is pending) and that has then been asked to deactivate, at the
instant at which `ofono_connctx_perform_next_action` is called. -/
def connctx_busy_then_deactivate : State :=
  { connctx_busy_once with self := { connctx_busy_once.self with
      connctx := { connctx_busy_once.self.connctx with
        next_action := CONNCTX_ACTION.DEACTIVATE } } }

/-! ## A live PropertyChanged signal and a bulk fetch of one entry -/

/-- What `ofono_object_property_changed` for (name, value) and
`ofono_object_apply_properties` for the dictionary of that one entry both do
first: the value replaces the cached one and the descriptor is applied. -/
def property_change_applied (st : State) (name : String) (value : GVariant) :
    State × Option OfonoObjectProperty :=
  ofono_object_apply_property (st.cache_replace name value) name value

/-! ## Collection trackers: the valid subset against the known set -/

/-- The relation of the known set `all`, the valid subset `sub` and the set
`env` of the children that are valid at the moment: every member of `sub`
is known and valid, every known child that is valid is in `sub`, and neither
list has a path twice. -/
structure Tracked (all sub env : List String) : Prop where
  known : ∀ p ∈ sub, p ∈ all
  valid : ∀ p ∈ sub, p ∈ env
  complete : ∀ p ∈ all, p ∈ env → p ∈ sub
  nodup_all : all.Nodup
  nodup_valid : sub.Nodup

/-- The tracker of contexts of an OfonoConnMgr is in that relation. -/
def ConnMgrTracked (st : State) : Prop :=
  Tracked st.self.connmgr.all_contexts st.self.connmgr.valid_contexts
    st.contexts_valid

/-- The tracker of modems of the manager is in that relation. -/
def ManagerTracked (st : ManagerState) : Prop :=
  Tracked st.self.all_modems st.self.valid_modems st.modems_valid

/-- A step that leaves the known set, the valid subset and the validity of
the children as they are. -/
structure TrackerKept (a b : State) : Prop where
  all : b.self.connmgr.all_contexts = a.self.connmgr.all_contexts
  valid : b.self.connmgr.valid_contexts = a.self.connmgr.valid_contexts
  env : b.contexts_valid = a.contexts_valid

/-! ## The activation controller between events -/

/-- What holds of the controller also in the middle of a transition, for an
object of class `k`: a valid object and a busy controller have the proxy; a
current action comes with a toggle call in flight or a pending retry timer; a
queued action differs from the current one; only a connection context has
actions at all. -/
structure Settling (k : OfonoClass) (st : State) : Prop where
  klass : st.self.klass = k
  has_proxy : st.self.valid = true → st.self.priv.proxy = true
  busy_proxy : st.self.connctx.current_action ≠ CONNCTX_ACTION.NONE →
    st.self.priv.proxy = true
  busy : st.self.connctx.current_action ≠ CONNCTX_ACTION.NONE →
    st.self.priv.pending_calls ≠ [] ∨ st.self.connctx.retry_id ≠ 0
  queued : st.self.connctx.next_action ≠ CONNCTX_ACTION.NONE →
    st.self.connctx.next_action ≠ st.self.connctx.current_action
  idle : k ≠ OfonoClass.CONNCTX →
    st.self.connctx.current_action = CONNCTX_ACTION.NONE ∧
    st.self.connctx.next_action = CONNCTX_ACTION.NONE

/-- What holds of the controller between two events: in addition, a valid
object with no current action has no action queued. -/
structure Steady (k : OfonoClass) (st : State) : Prop where
  settling : Settling k st
  started : st.self.valid = true →
    st.self.connctx.current_action = CONNCTX_ACTION.NONE →
    st.self.connctx.next_action = CONNCTX_ACTION.NONE

/-- A step that leaves the class, the valid flag and the controller as they
are, keeps the proxy and keeps a non-empty list of pending calls non-empty. -/
structure ControllerKept (a b : State) : Prop where
  klass : b.self.klass = a.self.klass
  valid : b.self.valid = a.self.valid
  proxy : a.self.priv.proxy = true → b.self.priv.proxy = true
  current : b.self.connctx.current_action = a.self.connctx.current_action
  next : b.self.connctx.next_action = a.self.connctx.next_action
  retry_id : b.self.connctx.retry_id = a.self.connctx.retry_id
  calls : a.self.priv.pending_calls ≠ [] → b.self.priv.pending_calls ≠ []

/-- A connection context becomes valid, is asked to activate and, while the
toggle call is in flight, to deactivate. -/
def connctx_queued_events : List Event :=
  [Event.modem_changed true true, Event.connmgr_proxy_created,
   Event.proxy_created,
   Event.get_properties_finished 1
     (CallResult.ok [("Type", GVariant.string "internet")]),
   Event.activate,
   Event.deactivate]

/-- The state after `connctx_queued_events`. -/
def connctx_queued : State :=
  (run (State.init OfonoClass.CONNCTX) connctx_queued_events).getD
    (State.init OfonoClass.CONNCTX)

/-! ## A toggle call in flight when the context stops being valid -/

/-- A step that changes at most the tracker of contexts, the environment and
the log. -/
structure OnlyTracker (a b : State) : Prop where
  klass : b.self.klass = a.self.klass
  valid : b.self.valid = a.self.valid
  priv : b.self.priv = a.self.priv
  modem : b.self.modem = a.self.modem
  connctx : b.self.connctx = a.self.connctx

/-- A valid connection context whose activation is in flight (toggle call
number 2). -/
def connctx_activating : State :=
  ofono_connctx_activate connctx_valid_idle

/-- The context of `connctx_activating` after its modem stopped being valid. -/
def connctx_activating_modem_lost : State :=
  (step connctx_activating (Event.modem_changed false true)).getD
    connctx_activating

/-! # Theorems -/

/-! ## The activation controller: scenarios -/

theorem connctx_valid_idle_is_idle : IdleValid connctx_valid_idle :=
  ⟨by decide, by decide, by decide, by decide, by decide, by decide, by decide⟩

/-- C7: on a valid context with an idle controller, `ofono_connctx_activate`
followed by the toggle completions Busy, Busy, success issues three toggle
calls with two retry waits of `RETRY_DELAY_SEC` between them;
`current_action` is ACTIVATE after every step but the last, where it becomes
NONE; `retry_count` ends at 2, nothing is pending at the end and
"activate-failed" is never emitted. -/
theorem connctx_busy_busy_success (st : State) (h : IdleValid st) :
    (run_trace st
        [Event.activate,
         Event.set_active_finished st.next_id (some OFONO_BUSY),
         Event.set_active_retry,
         Event.set_active_finished (st.next_id + 1) (some OFONO_BUSY),
         Event.set_active_retry,
         Event.set_active_finished (st.next_id + 2) none]).map
      (fun l => l.map (fun s =>
        (s.self.connctx.current_action, s.self.connctx.retry_count,
         s.self.connctx.retry_id, s.self.priv.pending_calls.length))) =
      some [(CONNCTX_ACTION.ACTIVATE, 0, 0, 1),
            (CONNCTX_ACTION.ACTIVATE, 1, G_SOURCE_ID, 0),
            (CONNCTX_ACTION.ACTIVATE, 1, 0, 1),
            (CONNCTX_ACTION.ACTIVATE, 2, G_SOURCE_ID, 0),
            (CONNCTX_ACTION.ACTIVATE, 2, 0, 1),
            (CONNCTX_ACTION.NONE, 2, 0, 0)] ∧
    (run st
        [Event.activate,
         Event.set_active_finished st.next_id (some OFONO_BUSY),
         Event.set_active_retry,
         Event.set_active_finished (st.next_id + 1) (some OFONO_BUSY),
         Event.set_active_retry,
         Event.set_active_finished (st.next_id + 2) none]).map State.actions =
      some (st.actions ++
        [toggle_call st.next_id true,
         Action.timeout_add_seconds RETRY_DELAY_SEC,
         toggle_call (st.next_id + 1) true,
         Action.timeout_add_seconds RETRY_DELAY_SEC,
         toggle_call (st.next_id + 2) true]) := by
  obtain ⟨hk, hv, hp, hc, hn, hr, hcalls⟩ := h
  simp [run_trace, run, step, hk, hv, hp, hc, hn, hr, hcalls, ofono_connctx_activate,
    ofono_connctx_perform_action, ofono_connctx_perform_next_action,
    ofono_object_set_boolean, State.record, ofono_object_pending_call_finished,
    ofono_connctx_set_active_done, OFONO_BUSY, OFONO_ERROR_BUSY, MAX_RETRY_COUNT,
    G_SOURCE_ID, ofono_connctx_set_active_retry, State.actions, toggle_call,
    OFONO_CONNCTX_PROPERTY_ACTIVE, RETRY_DELAY_SEC]

theorem connctx_busy_busy_success_witness :
    (run connctx_valid_idle
        [Event.activate,
         Event.set_active_finished connctx_valid_idle.next_id (some OFONO_BUSY),
         Event.set_active_retry,
         Event.set_active_finished (connctx_valid_idle.next_id + 1) (some OFONO_BUSY),
         Event.set_active_retry,
         Event.set_active_finished (connctx_valid_idle.next_id + 2) none]).map
        State.actions =
      some (connctx_valid_idle.actions ++
        [toggle_call connctx_valid_idle.next_id true,
         Action.timeout_add_seconds RETRY_DELAY_SEC,
         toggle_call (connctx_valid_idle.next_id + 1) true,
         Action.timeout_add_seconds RETRY_DELAY_SEC,
         toggle_call (connctx_valid_idle.next_id + 2) true]) :=
  (connctx_busy_busy_success connctx_valid_idle connctx_valid_idle_is_idle).2

/-- C6: from an idle controller on a valid context, `ofono_connctx_activate`
immediately followed by `ofono_connctx_deactivate`, and then the completion
of the activate call with any outcome (success, Busy or another error),
leaves `current_action` = DEACTIVATE, and over the whole run exactly one
SetProperty("Active", TRUE) call is issued. -/
theorem connctx_activate_then_deactivate (st : State) (h : IdleValid st)
    (error : Option GError) :
    (run_trace st
        [Event.activate, Event.deactivate,
         Event.set_active_finished st.next_id error]).map
      (fun l => l.map (fun s =>
        (s.self.connctx.current_action, s.self.connctx.next_action,
         (s.actions.filter (Action.is_toggle true)).length))) =
      some [(CONNCTX_ACTION.ACTIVATE, CONNCTX_ACTION.NONE,
              (st.actions.filter (Action.is_toggle true)).length + 1),
            (CONNCTX_ACTION.ACTIVATE, CONNCTX_ACTION.DEACTIVATE,
              (st.actions.filter (Action.is_toggle true)).length + 1),
            (CONNCTX_ACTION.DEACTIVATE, CONNCTX_ACTION.NONE,
              (st.actions.filter (Action.is_toggle true)).length + 1)] := by
  obtain ⟨hk, hv, hp, hc, hn, hr, hcalls⟩ := h
  cases error with
  | none =>
    simp [run_trace, step, hk, hv, hp, hc, hn, hr, hcalls, ofono_connctx_activate,
      ofono_connctx_deactivate, ofono_connctx_perform_action,
      ofono_connctx_perform_next_action, ofono_object_set_boolean, State.record,
      ofono_object_pending_call_finished, ofono_connctx_set_active_done,
      State.actions, Action.is_toggle, OFONO_CONNCTX_PROPERTY_ACTIVE,
      List.filter_append, List.filter_cons]
  | some e =>
    by_cases hb : e.domain = GQuark.OFONO_ERROR ∧ e.code = OFONO_ERROR_BUSY
    · simp [run_trace, step, hk, hv, hp, hc, hn, hr, hcalls, ofono_connctx_activate,
        ofono_connctx_deactivate, ofono_connctx_perform_action,
        ofono_connctx_perform_next_action, ofono_object_set_boolean, State.record,
        ofono_object_pending_call_finished, ofono_connctx_set_active_done,
        State.actions, Action.is_toggle, OFONO_CONNCTX_PROPERTY_ACTIVE,
        List.filter_append, List.filter_cons, hb, MAX_RETRY_COUNT, G_SOURCE_ID,
        g_signal_emit]
    · have hb2 : ¬ (e.domain = GQuark.OFONO_ERROR ∧ e.code = OFONO_ERROR_BUSY ∧
          0 < MAX_RETRY_COUNT) := fun h => hb ⟨h.1, h.2.1⟩
      simp [run_trace, step, hk, hv, hp, hc, hn, hr, hcalls, ofono_connctx_activate,
        ofono_connctx_deactivate, ofono_connctx_perform_action,
        ofono_connctx_perform_next_action, ofono_object_set_boolean, State.record,
        ofono_object_pending_call_finished, ofono_connctx_set_active_done,
        State.actions, Action.is_toggle, OFONO_CONNCTX_PROPERTY_ACTIVE,
        List.filter_append, List.filter_cons, hb2, g_signal_emit]

theorem connctx_activate_then_deactivate_witness :
    IdleValid connctx_valid_idle ∧
    (run_trace connctx_valid_idle
        [Event.activate, Event.deactivate,
         Event.set_active_finished connctx_valid_idle.next_id
           (some ⟨GQuark.G_DBUS_ERROR, 0⟩)]).map
      (fun l => l.map (fun s =>
        (s.self.connctx.current_action, s.self.connctx.next_action,
         (s.actions.filter (Action.is_toggle true)).length))) =
      some [(CONNCTX_ACTION.ACTIVATE, CONNCTX_ACTION.NONE,
              (connctx_valid_idle.actions.filter (Action.is_toggle true)).length + 1),
            (CONNCTX_ACTION.ACTIVATE, CONNCTX_ACTION.DEACTIVATE,
              (connctx_valid_idle.actions.filter (Action.is_toggle true)).length + 1),
            (CONNCTX_ACTION.DEACTIVATE, CONNCTX_ACTION.NONE,
              (connctx_valid_idle.actions.filter (Action.is_toggle true)).length + 1)] :=
  ⟨connctx_valid_idle_is_idle,
   connctx_activate_then_deactivate connctx_valid_idle connctx_valid_idle_is_idle
     (some ⟨GQuark.G_DBUS_ERROR, 0⟩)⟩

/-! ## The activation controller against a service that is always busy -/

theorem busy_rounds_succ (id k : Nat) :
    busy_rounds id (k + 1) =
      busy_rounds id k ++
        [toggle_call (id + k) true, Action.timeout_add_seconds RETRY_DELAY_SEC] := by
  induction k generalizing id with
  | zero => simp [busy_rounds]
  | succ k ih =>
    have h := ih (id + 1)
    have e : id + 1 + k = id + (k + 1) := by omega
    rw [e] at h
    calc busy_rounds id (k + 1 + 1)
        = toggle_call id true :: Action.timeout_add_seconds RETRY_DELAY_SEC ::
            busy_rounds (id + 1) (k + 1) := rfl
      _ = toggle_call id true :: Action.timeout_add_seconds RETRY_DELAY_SEC ::
            (busy_rounds (id + 1) k ++ [toggle_call (id + (k + 1)) true,
              Action.timeout_add_seconds RETRY_DELAY_SEC]) := by rw [h]
      _ = busy_rounds id (k + 1) ++ [toggle_call (id + (k + 1)) true,
              Action.timeout_add_seconds RETRY_DELAY_SEC] := by simp [busy_rounds]

theorem busy_rounds_toggles (id k : Nat) :
    ((busy_rounds id k).filter (Action.is_toggle true)).length = k := by
  induction k generalizing id with
  | zero => simp [busy_rounds]
  | succ k ih =>
    simp [busy_rounds, List.filter_cons, Action.is_toggle, toggle_call, ih]

theorem busy_rounds_waits (id k : Nat) :
    ((busy_rounds id k).filter Action.is_retry_wait).length = k := by
  induction k generalizing id with
  | zero => simp [busy_rounds]
  | succ k ih =>
    simp [busy_rounds, List.filter_cons, Action.is_retry_wait, toggle_call, ih]

theorem busy_rounds_failures (id k : Nat) :
    (busy_rounds id k).filter Action.is_activate_failed = [] := by
  induction k generalizing id with
  | zero => simp [busy_rounds]
  | succ k ih =>
    simp [busy_rounds, List.filter_cons, Action.is_activate_failed, toggle_call, ih]

theorem busy_shape_start (st : State) (h : IdleValid st) :
    BusyShape st 0 (ofono_connctx_activate st) := by
  obtain ⟨hk, hv, hp, hc, hn, hr, hcalls⟩ := h
  constructor <;>
    simp [hk, hv, hp, hc, hn, hr, hcalls, ofono_connctx_activate,
      ofono_connctx_perform_action, ofono_connctx_perform_next_action,
      ofono_object_set_boolean, State.record, State.actions, toggle_call,
      busy_rounds]

theorem busy_shape_round (st0 s : State) (k n : Nat) (h : BusyShape st0 k s)
    (hk : k < MAX_RETRY_COUNT) :
    ∃ s1, busy_server_run (n + 2) s = busy_server_run n s1 ∧
      BusyShape st0 (k + 1) s1 := by
  obtain ⟨hv, hp, hc, hn, hr, hcount, hcalls, hid, hact⟩ := h
  have hk2 : s.self.connctx.retry_count < MAX_RETRY_COUNT := by rw [hcount]; exact hk
  refine ⟨ofono_connctx_set_active_retry
    (ofono_object_pending_call_finished s (st0.next_id + k) (some OFONO_BUSY)), ?_, ?_⟩
  · simp [busy_server_run, busy_server_move, step, hv, hp, hc, hn, hr, hcalls,
      ofono_object_pending_call_finished, ofono_connctx_set_active_done,
      OFONO_BUSY, hk2, ofono_connctx_perform_next_action, State.record,
      G_SOURCE_ID, ofono_connctx_set_active_retry, ofono_object_set_boolean]
  · have e : st0.actions ++ busy_rounds st0.next_id k ++
        [toggle_call (st0.next_id + k) true] ++
        [Action.timeout_add_seconds RETRY_DELAY_SEC,
         toggle_call (st0.next_id + k + 1) true] =
        st0.actions ++ busy_rounds st0.next_id (k + 1) ++
          [toggle_call (st0.next_id + (k + 1)) true] := by
      rw [busy_rounds_succ]; simp [Nat.add_assoc]
    constructor <;>
      simp [hv, hp, hc, hn, hr, hcount, hcalls, hid, hk,
        ofono_object_pending_call_finished, ofono_connctx_set_active_done,
        OFONO_BUSY, ofono_connctx_perform_next_action, State.record,
        G_SOURCE_ID, ofono_connctx_set_active_retry, ofono_object_set_boolean,
        Nat.add_assoc]
    simp only [State.actions, toggle_call, Nat.add_assoc, List.map_append,
      List.map_cons, List.map_nil, List.append_assoc] at hact e ⊢
    rw [hact, ← e]
    simp

theorem busy_server_run_quiescent (s : State) (n : Nat)
    (h : busy_server_move s = none) : busy_server_run n s = s := by
  cases n with
  | zero => rfl
  | succ n => simp [busy_server_run, h]

theorem busy_shape_final (st0 s : State) (n : Nat)
    (h : BusyShape st0 MAX_RETRY_COUNT s) :
    BusyFinal st0 (busy_server_run (n + 1) s) := by
  obtain ⟨hv, hp, hc, hn, hr, hcount, hcalls, hid, hact⟩ := h
  have hq : busy_server_move
      (ofono_object_pending_call_finished s (st0.next_id + MAX_RETRY_COUNT)
        (some OFONO_BUSY)) = none := by
    simp [busy_server_move, hv, hp, hc, hn, hr, hcount, hcalls,
      ofono_object_pending_call_finished, ofono_connctx_set_active_done,
      OFONO_BUSY, ofono_connctx_perform_next_action, g_signal_emit, State.record]
  have hrun : busy_server_run (n + 1) s =
      ofono_object_pending_call_finished s (st0.next_id + MAX_RETRY_COUNT)
        (some OFONO_BUSY) := by
    rw [← busy_server_run_quiescent _ n hq]
    simp [busy_server_run, busy_server_move, step, hcalls]
  rw [hrun]
  constructor <;>
    simp [hv, hp, hc, hn, hr, hcount, hcalls,
      ofono_object_pending_call_finished, ofono_connctx_set_active_done,
      OFONO_BUSY, ofono_connctx_perform_next_action, g_signal_emit, State.record]
  simp only [State.actions, toggle_call, List.map_append,
    List.map_cons, List.map_nil, List.append_assoc] at hact ⊢
  rw [hact]
  simp [OFONO_BUSY]

theorem busy_shape_runs_dry (st0 : State) (j : Nat) :
    ∀ (k : Nat) (s : State), k + j = MAX_RETRY_COUNT → BusyShape st0 k s →
      ∀ n, BusyFinal st0 (busy_server_run (2 * j + 1 + n) s) := by
  induction j with
  | zero =>
    intro k s hk h n
    have e : k = MAX_RETRY_COUNT := by omega
    subst e
    have e2 : 2 * 0 + 1 + n = n + 1 := by omega
    rw [e2]
    exact busy_shape_final st0 s n h
  | succ j ih =>
    intro k s hk h n
    have hlt : k < MAX_RETRY_COUNT := by omega
    obtain ⟨s1, hrun, hs1⟩ := busy_shape_round st0 s k (2 * j + 1 + n) h hlt
    have e2 : 2 * (j + 1) + 1 + n = (2 * j + 1 + n) + 2 := by omega
    rw [e2, hrun]
    exact ih (k + 1) s1 (by omega) hs1 n

/-- C5 (as the code has it): with the context valid and a service that
answers every toggle call with Busy, one `ofono_connctx_activate` issues 31
toggle calls, the first attempt and `MAX_RETRY_COUNT` = 30 retries, each
retry after a wait of `RETRY_DELAY_SEC`; then "activate-failed" is emitted
once with the Busy error, `current_action` is NONE, no retry timer is armed
and nothing is left to happen. Any fuel of at least 61 moves gives this. -/
theorem connctx_busy_server_gives_up (st : State) (h : IdleValid st) (n : Nat) :
    (busy_server_run (61 + n) (ofono_connctx_activate st)).actions =
      st.actions ++ busy_rounds st.next_id 30 ++
        [toggle_call (st.next_id + 30) true,
         Action.emit (Signal.activate_failed OFONO_BUSY)] ∧
    ((busy_rounds st.next_id 30 ++
        [toggle_call (st.next_id + 30) true,
         Action.emit (Signal.activate_failed OFONO_BUSY)]).filter
      (Action.is_toggle true)).length = 31 ∧
    ((busy_rounds st.next_id 30 ++
        [toggle_call (st.next_id + 30) true,
         Action.emit (Signal.activate_failed OFONO_BUSY)]).filter
      Action.is_retry_wait).length = 30 ∧
    (busy_rounds st.next_id 30 ++
        [toggle_call (st.next_id + 30) true,
         Action.emit (Signal.activate_failed OFONO_BUSY)]).filter
      Action.is_activate_failed = [Action.emit (Signal.activate_failed OFONO_BUSY)] ∧
    (busy_server_run (61 + n) (ofono_connctx_activate st)).self.connctx.current_action
      = CONNCTX_ACTION.NONE ∧
    (busy_server_run (61 + n) (ofono_connctx_activate st)).self.connctx.retry_id = 0 ∧
    (busy_server_run (61 + n) (ofono_connctx_activate st)).self.priv.pending_calls = [] ∧
    busy_server_move (busy_server_run (61 + n) (ofono_connctx_activate st)) = none := by
  have hf := busy_shape_runs_dry st 30 0 (ofono_connctx_activate st) rfl
    (busy_shape_start st h) n
  have e : 2 * 30 + 1 + n = 61 + n := by omega
  rw [e] at hf
  obtain ⟨hc, hn, hr, hcount, hcalls, hact⟩ := hf
  refine ⟨hact, ?_, ?_, ?_, hc, hr, hcalls, ?_⟩
  · simp [List.filter_append, busy_rounds_toggles, Action.is_toggle, toggle_call]
  · simp [List.filter_append, busy_rounds_waits, Action.is_retry_wait, toggle_call]
  · simp [List.filter_append, busy_rounds_failures, Action.is_activate_failed,
      toggle_call]
  · simp [busy_server_move, hcalls, hr]

theorem connctx_busy_server_gives_up_witness :
    IdleValid connctx_valid_idle ∧
    (busy_server_run 61 (ofono_connctx_activate connctx_valid_idle)).actions =
      connctx_valid_idle.actions ++ busy_rounds connctx_valid_idle.next_id 30 ++
        [toggle_call (connctx_valid_idle.next_id + 30) true,
         Action.emit (Signal.activate_failed OFONO_BUSY)] :=
  ⟨connctx_valid_idle_is_idle,
   (connctx_busy_server_gives_up connctx_valid_idle connctx_valid_idle_is_idle 0).1⟩

set_option maxRecDepth 100000 in
/-- C5 as stated fails: against the always-Busy service the controller makes
31 toggle calls, not `MAX_RETRY_COUNT` = 30, before it gives up. -/
theorem connctx_busy_server_thirty_one_calls :
    ((busy_server_run 100 (ofono_connctx_activate connctx_valid_idle)).actions.filter
      (Action.is_toggle true)).length = 31 ∧
    ((busy_server_run 100 (ofono_connctx_activate connctx_valid_idle)).actions.filter
      (Action.is_toggle true)).length ≠ MAX_RETRY_COUNT := by
  decide

/-! ## Frame lemmas for `ofono_object_update_valid` -/

theorem perform_next_action_frame (st : State) :
    fn_is_valid (ofono_connctx_perform_next_action st).self = fn_is_valid st.self ∧
    (ofono_connctx_perform_next_action st).self.valid = st.self.valid ∧
    (ofono_connctx_perform_next_action st).self.klass = st.self.klass ∧
    (ofono_connctx_perform_next_action st).self.connmgr = st.self.connmgr ∧
    (ofono_connctx_perform_next_action st).contexts_valid = st.contexts_valid := by
  unfold ofono_connctx_perform_next_action ofono_object_set_boolean
  refine ⟨?_, ?_, ?_, ?_, ?_⟩ <;>
  · simp only [State.record]
    split_ifs <;>
      simp [fn_is_valid, ofono_object_is_valid, ofono_modem_interface_is_valid,
        ofono_connmgr_is_valid, ofono_connctx_is_valid, ofono_connctx_is_present,
        ofono_modem_interface_is_present, ofono_object_is_ready]

theorem fn_valid_changed_eq (st : State) :
    fn_valid_changed st =
      if st.self.klass = OfonoClass.CONNCTX then ofono_connctx_valid_changed st
      else ofono_object_valid_changed st := by
  unfold fn_valid_changed
  generalize st.self.klass = k
  cases k <;> simp

theorem fn_valid_changed_frame (st : State) :
    fn_is_valid (fn_valid_changed st).self = fn_is_valid st.self ∧
    (fn_valid_changed st).self.valid = st.self.valid ∧
    (fn_valid_changed st).self.klass = st.self.klass ∧
    (fn_valid_changed st).self.connmgr = st.self.connmgr ∧
    (fn_valid_changed st).contexts_valid = st.contexts_valid := by
  have h := perform_next_action_frame st
  rw [fn_valid_changed_eq]
  by_cases hk : st.self.klass = OfonoClass.CONNCTX
  · by_cases hv : st.self.valid = true <;>
      simp [hv, hk, ofono_connctx_valid_changed, ofono_object_valid_changed,
        g_signal_emit, State.record, h]
  · simp only [hk, if_false]
    exact ⟨rfl, rfl, rfl, rfl, rfl⟩

theorem update_valid_frame (st : State) :
    (ofono_object_update_valid st).self.valid =
      fn_is_valid (ofono_object_update_valid st).self ∧
    (ofono_object_update_valid st).self.klass = st.self.klass ∧
    (ofono_object_update_valid st).self.connmgr = st.self.connmgr ∧
    (ofono_object_update_valid st).contexts_valid = st.contexts_valid := by
  unfold ofono_object_update_valid
  by_cases h : st.self.valid = fn_is_valid st.self
  · simp [h]
  · have hv : (st.self.valid != fn_is_valid st.self) = true := by
      simpa [bne_iff_ne] using h
    simp only [hv, if_true]
    have f := fn_valid_changed_frame
      { st with self := { st.self with valid := fn_is_valid st.self } }
    have e : fn_is_valid { st.self with valid := fn_is_valid st.self } =
        fn_is_valid st.self := by
      cases hk : st.self.klass <;>
        simp [fn_is_valid, hk, ofono_object_is_valid, ofono_modem_interface_is_valid,
          ofono_connmgr_is_valid, ofono_connctx_is_valid, ofono_connctx_is_present,
          ofono_modem_interface_is_present, ofono_object_is_ready]
    simp only [e] at f
    exact ⟨by rw [f.2.1, f.1], f.2.2.1, f.2.2.2.1, f.2.2.2.2⟩

theorem update_valid_fixed (st : State) (h : st.self.valid = fn_is_valid st.self) :
    ofono_object_update_valid st = st := by
  simp [ofono_object_update_valid, h]

theorem mem_g_ptr_array_sort (l : List String) (p : String) :
    p ∈ g_ptr_array_sort l ↔ p ∈ l :=
  (List.perm_insertionSort _ l).mem_iff

/-! ## Collection trackers: registering a child twice -/

theorem filter_ne_cons_filter_ne (l : List String) (p : String) :
    (p :: l.filter (fun q => q != p)).filter (fun q => q != p) =
      l.filter (fun q => q != p) := by
  simp [List.filter_cons, List.filter_filter]

theorem add_valid_context_frame (st : State) (p : String) :
    (ofono_connmgr_add_valid_context st p).self.connmgr.all_contexts =
      st.self.connmgr.all_contexts ∧
    (ofono_connmgr_add_valid_context st p).contexts_valid = st.contexts_valid ∧
    (ofono_connmgr_add_valid_context st p).self.connmgr.valid_contexts.contains p
      = true := by
  unfold ofono_connmgr_add_valid_context ofono_connmgr_find_valid_context
  by_cases hin : p ∈ st.self.connmgr.valid_contexts
  · simp [hin]
  · by_cases hv : st.self.valid = true <;>
      simp [hin, ofono_connmgr_valid, hv, g_signal_emit, State.record,
        mem_g_ptr_array_sort]

theorem connmgr_add_context_twice (st : State) (p : String) :
    ofono_connmgr_add_context (ofono_connmgr_add_context st p) p =
      ofono_connmgr_add_context st p := by
  by_cases hp : path_is_absolute p = true
  swap
  · simp [ofono_connmgr_add_context, hp]
  -- the state after the replacement in `all_contexts` of the first call
  generalize hs0 : ({ st with self := { st.self with connmgr := { st.self.connmgr with
      all_contexts := p :: st.self.connmgr.all_contexts.filter
        (fun q => q != p) } } } : State) = s0
  have hall0 : s0.self.connmgr.all_contexts =
      p :: st.self.connmgr.all_contexts.filter (fun q => q != p) := by
    rw [← hs0]
  -- the state before the final `ofono_object_update_valid` of the first call
  generalize hs2 : (if ofono_connctx_valid s0 p = true
      then ofono_connmgr_add_valid_context s0 p else s0) = s2
  have h1 : ofono_connmgr_add_context st p = ofono_object_update_valid s2 := by
    simp only [ofono_connmgr_add_context, hp, if_true, hs0, hs2]
  obtain ⟨fa, fw0, fm⟩ := add_valid_context_frame s0 p
  have hall : s2.self.connmgr.all_contexts =
      p :: st.self.connmgr.all_contexts.filter (fun q => q != p) := by
    rw [← hs2]; split_ifs
    · rw [fa, hall0]
    · exact hall0
  have hworld : s2.contexts_valid = s0.contexts_valid := by
    rw [← hs2]; split_ifs
    · exact fw0
    · rfl
  have hmem : ofono_connctx_valid s2 p = true →
      ofono_connmgr_find_valid_context s2 p = true := by
    intro hv
    have hv0 : ofono_connctx_valid s0 p = true := by
      simpa [ofono_connctx_valid, hworld] using hv
    rw [← hs2]
    simp only [hv0, if_true, ofono_connmgr_find_valid_context]
    exact fm
  obtain ⟨fv, _, fc, fw⟩ := update_valid_frame s2
  rw [h1]
  generalize hs1 : ofono_object_update_valid s2 = s1 at fv fc fw
  have hall1 : s1.self.connmgr.all_contexts =
      p :: st.self.connmgr.all_contexts.filter (fun q => q != p) := by
    rw [fc, hall]
  have hsame : ({ s1 with self := { s1.self with connmgr := { s1.self.connmgr with
      all_contexts := p :: s1.self.connmgr.all_contexts.filter
        (fun q => q != p) } } } : State) = s1 := by
    have e : p :: s1.self.connmgr.all_contexts.filter (fun q => q != p) =
        s1.self.connmgr.all_contexts := by
      rw [hall1, filter_ne_cons_filter_ne]
    rw [e]
  have hvalid1 : ofono_connctx_valid s1 p = true →
      ofono_connmgr_find_valid_context s1 p = true := by
    intro hv
    have : ofono_connctx_valid s2 p = true := by
      simpa [ofono_connctx_valid, fw] using hv
    have := hmem this
    simpa [ofono_connmgr_find_valid_context, fc] using this
  unfold ofono_connmgr_add_context
  simp only [hp, if_true, hsame]
  by_cases hv : ofono_connctx_valid s1 p = true
  · have hf := hvalid1 hv
    simp only [hv, if_true, ofono_connmgr_add_valid_context, hf, Bool.not_true]
    exact update_valid_fixed s1 fv
  · simp only [hv]
    exact update_valid_fixed s1 fv

theorem manager_add_valid_modem_frame (ms : ManagerState) (p : String) :
    (ofono_manager_add_valid_modem ms p).self.all_modems = ms.self.all_modems ∧
    (ofono_manager_add_valid_modem ms p).modems_valid = ms.modems_valid ∧
    (ofono_manager_add_valid_modem ms p).proxy = ms.proxy ∧
    (ofono_manager_add_valid_modem ms p).self.valid_modems.contains p = true := by
  unfold ofono_manager_add_valid_modem ofono_manager_has_modem
  by_cases hin : p ∈ ms.self.valid_modems
  · simp [hin]
  · by_cases hv : ms.self.valid = true <;>
      simp [hin, hv, ManagerState.emit, mem_g_ptr_array_sort]

theorem manager_add_modem_twice (ms : ManagerState) (p : String) :
    ofono_manager_add_modem (ofono_manager_add_modem ms p) p =
      ofono_manager_add_modem ms p := by
  by_cases hp : path_is_absolute p = true
  swap
  · simp [ofono_manager_add_modem, hp]
  generalize hs0 : ({ ms with self := { ms.self with
      all_modems := p :: ms.self.all_modems.filter (fun q => q != p) } } :
        ManagerState) = s0
  have hall0 : s0.self.all_modems =
      p :: ms.self.all_modems.filter (fun q => q != p) := by rw [← hs0]
  generalize hs1 : (if ofono_modem_valid s0 p = true
      then ofono_manager_add_valid_modem s0 p else s0) = s1
  have h1 : ofono_manager_add_modem ms p = s1 := by
    simp only [ofono_manager_add_modem, hp, if_true, hs0, hs1]
  obtain ⟨fa, fw, _, fm⟩ := manager_add_valid_modem_frame s0 p
  have hall1 : s1.self.all_modems =
      p :: ms.self.all_modems.filter (fun q => q != p) := by
    rw [← hs1]; split_ifs
    · rw [fa, hall0]
    · exact hall0
  have hworld : s1.modems_valid = s0.modems_valid := by
    rw [← hs1]; split_ifs
    · exact fw
    · rfl
  have hmem : ofono_modem_valid s1 p = true →
      ofono_manager_has_modem s1 p = true := by
    intro hv
    have hv0 : ofono_modem_valid s0 p = true := by
      simpa [ofono_modem_valid, hworld] using hv
    rw [← hs1]
    simp only [hv0, if_true, ofono_manager_has_modem]
    exact fm
  have hsame : ({ s1 with self := { s1.self with
      all_modems := p :: s1.self.all_modems.filter (fun q => q != p) } } :
        ManagerState) = s1 := by
    have e : p :: s1.self.all_modems.filter (fun q => q != p) =
        s1.self.all_modems := by
      rw [hall1, filter_ne_cons_filter_ne]
    rw [e]
  rw [h1]
  unfold ofono_manager_add_modem
  simp only [hp, if_true, hsame]
  by_cases hv : ofono_modem_valid s1 p = true
  · simp only [hv, if_true, ofono_manager_add_valid_modem, hmem hv, Bool.not_true]
    rfl
  · simp only [hv]
    rfl

theorem manager_add_modem_proxy (ms : ManagerState) (p : String) :
    (ofono_manager_add_modem ms p).proxy = ms.proxy := by
  unfold ofono_manager_add_modem
  by_cases hp : path_is_absolute p = true
  · simp only [hp, if_true]
    split_ifs
    · rw [(manager_add_valid_modem_frame _ p).2.2.1]
    · rfl
  · simp [hp]

theorem manager_proxy_add_modem_twice (ms : ManagerState) (p : String) :
    ofono_manager_proxy_add_modem (ofono_manager_proxy_add_modem ms p) p =
      ofono_manager_proxy_add_modem ms p := by
  by_cases hin : p ∈ ms.proxy.modem_paths
  · simp [ofono_manager_proxy_add_modem, hin]
  · have hmem : p ∈ (ofono_manager_proxy_add_modem ms p).proxy.modem_paths := by
      simp [ofono_manager_proxy_add_modem, hin, ofono_manager_modem_added,
        manager_add_modem_proxy, ManagerState.emit, mem_g_ptr_array_sort]
    generalize ofono_manager_proxy_add_modem ms p = s1 at hmem
    simp [ofono_manager_proxy_add_modem, hmem]

/-- C9: for every tracker state and every path `p` beginning with '/',
registering the child `p` twice in succession gives the same state as
registering it once: the same known set, the same validSubset, the same
valid flag and the same log of emitted events (the second registration emits
nothing). This holds for `ofono_connmgr_add_context`, for
`ofono_manager_proxy_add_modem` (with the manager listening) and for
`ofono_manager_add_modem`. -/
theorem register_child_twice (st : State) (ms : ManagerState) (p : String)
    (_hp : path_is_absolute p = true) :
    ofono_connmgr_add_context (ofono_connmgr_add_context st p) p =
      ofono_connmgr_add_context st p ∧
    ofono_manager_proxy_add_modem (ofono_manager_proxy_add_modem ms p) p =
      ofono_manager_proxy_add_modem ms p ∧
    ofono_manager_add_modem (ofono_manager_add_modem ms p) p =
      ofono_manager_add_modem ms p :=
  ⟨connmgr_add_context_twice st p, manager_proxy_add_modem_twice ms p,
   manager_add_modem_twice ms p⟩

theorem register_child_twice_witness :
    path_is_absolute "/ril_0/context1" = true ∧
    ofono_connmgr_add_context
        (ofono_connmgr_add_context connmgr_enumerating "/ril_0/context1")
        "/ril_0/context1" =
      ofono_connmgr_add_context connmgr_enumerating "/ril_0/context1" ∧
    ofono_manager_proxy_add_modem
        (ofono_manager_proxy_add_modem manager_enumerating "/ril_0/context1")
        "/ril_0/context1" =
      ofono_manager_proxy_add_modem manager_enumerating "/ril_0/context1" ∧
    ofono_manager_add_modem
        (ofono_manager_add_modem manager_enumerating "/ril_0/context1")
        "/ril_0/context1" =
      ofono_manager_add_modem manager_enumerating "/ril_0/context1" :=
  ⟨by decide,
   register_child_twice connmgr_enumerating manager_enumerating
     "/ril_0/context1" (by decide)⟩

/-! ## Collection trackers: the last child becomes valid -/

theorem length_g_ptr_array_sort (l : List String) :
    (g_ptr_array_sort l).length = l.length :=
  List.length_insertionSort _ l

/-- C8 (as the code has it): for a tracker whose enumeration has succeeded,
whose underlying object or proxy is valid, whose valid flag is up to date and
whose known set has exactly one child more than validSubset (known =
{a,b,c}, validSubset = {a,b}): the valid flag is false; when the missing
child then becomes valid, it is inserted into validSubset, the valid flag
becomes true, one valid-changed event is emitted and no child-added event is
emitted, for that child or for any other, because child-added is only
emitted while the tracker is already valid. The first half is about an
OfonoConnMgr and its context `c`, the second about the OfonoManager and its
modem `m`. -/
theorem tracker_last_child_becomes_valid (st : State) (ms : ManagerState)
    (c m : String)
    (hk : st.self.klass = OfonoClass.CONNMGR)
    (hflag : st.self.valid = fn_is_valid st.self)
    (hok : st.self.connmgr.get_contexts_ok = true)
    (hpend : st.self.connmgr.get_contexts_pending = none)
    (hbase : ofono_modem_interface_is_valid st.self = true)
    (hknown : c ∈ st.self.connmgr.all_contexts)
    (hsize : st.self.connmgr.all_contexts.length =
      st.self.connmgr.valid_contexts.length + 1)
    (hnot : c ∉ st.self.connmgr.valid_contexts)
    (hinv : ofono_connctx_valid st c = false)
    (mflag : ms.self.valid =
      (ms.proxy.valid && ms.self.valid_modems.length == ms.self.all_modems.length))
    (mproxy : ms.proxy.valid = true)
    (mknown : m ∈ ms.self.all_modems)
    (msize : ms.self.all_modems.length = ms.self.valid_modems.length + 1)
    (mnot : m ∉ ms.self.valid_modems)
    (minv : ofono_modem_valid ms m = false) :
    (st.self.valid = false ∧
     (step st (Event.context_valid_changed c true)).map
        (fun s => (s.self.valid, s.self.connmgr.valid_contexts, s.actions)) =
      some (true, g_ptr_array_sort (st.self.connmgr.valid_contexts ++ [c]),
        st.actions ++ [Action.emit Signal.valid_changed])) ∧
    (ms.self.valid = false ∧
     (manager_step ms (ManagerEvent.modem_valid_changed m true)).map
        (fun s => (s.self.valid, s.self.valid_modems, s.signals)) =
      some (true, g_ptr_array_sort (ms.self.valid_modems ++ [m]),
        ms.signals ++ [ManagerSignal.valid_changed])) := by
  have hv : st.self.valid = false := by
    rw [hflag]
    simp [fn_is_valid, hk, ofono_connmgr_is_valid, hsize]
  have mv : ms.self.valid = false := by
    rw [mflag]
    simp [msize]
  refine ⟨⟨hv, ?_⟩, ⟨mv, ?_⟩⟩
  · have hlen : (g_ptr_array_sort (st.self.connmgr.valid_contexts ++ [c])).length =
        st.self.connmgr.valid_contexts.length + 1 := by
      rw [length_g_ptr_array_sort]; simp
    have hb := hbase
    simp only [ofono_modem_interface_is_valid, ofono_modem_interface_is_present,
      ofono_object_is_valid, ofono_object_is_ready, Bool.and_eq_true,
      Option.isNone_iff_eq_none, beq_iff_eq] at hb
    obtain ⟨⟨m1, m2⟩, ⟨⟨b1, b2⟩, b3⟩, b4⟩ := hb
    have hinv2 : c ∉ st.contexts_valid := by
      simpa [ofono_connctx_valid] using hinv
    simp [step, hk, hinv2, hknown, ofono_connmgr_context_valid_changed,
      ofono_connctx_valid, ofono_connmgr_add_valid_context,
      ofono_connmgr_find_valid_context, hnot, ofono_connmgr_valid, hv,
      ofono_object_update_valid, fn_is_valid, ofono_connmgr_is_valid, hok, hpend,
      hsize, hlen, fn_valid_changed, ofono_object_valid_changed, g_signal_emit,
      State.record, State.actions, ofono_modem_interface_is_valid,
      ofono_modem_interface_is_present, ofono_object_is_valid,
      ofono_object_is_ready, m1, m2, b1, b2, b3, b4]
  · have hlen : (g_ptr_array_sort (ms.self.valid_modems ++ [m])).length =
        ms.self.valid_modems.length + 1 := by
      rw [length_g_ptr_array_sort]; simp
    have minv2 : m ∉ ms.modems_valid := by
      simpa [ofono_modem_valid] using minv
    simp [manager_step, minv2, mknown, ofono_manager_modem_valid_changed,
      ofono_modem_valid, ofono_manager_add_valid_modem, ofono_manager_has_modem,
      mnot, mv, ofono_manager_update_valid, mproxy, msize, hlen,
      ManagerState.emit, ManagerState.signals]

theorem tracker_last_child_becomes_valid_witness :
    (connmgr_two_of_three.self.valid = false ∧
     (step connmgr_two_of_three (Event.context_valid_changed "/ril_0/c" true)).map
        (fun s => (s.self.valid, s.self.connmgr.valid_contexts, s.actions)) =
      some (true,
        g_ptr_array_sort (connmgr_two_of_three.self.connmgr.valid_contexts ++
          ["/ril_0/c"]),
        connmgr_two_of_three.actions ++ [Action.emit Signal.valid_changed])) ∧
    (manager_two_of_three.self.valid = false ∧
     (manager_step manager_two_of_three
        (ManagerEvent.modem_valid_changed "/c" true)).map
        (fun s => (s.self.valid, s.self.valid_modems, s.signals)) =
      some (true, g_ptr_array_sort (manager_two_of_three.self.valid_modems ++ ["/c"]),
        manager_two_of_three.signals ++ [ManagerSignal.valid_changed])) :=
  tracker_last_child_becomes_valid connmgr_two_of_three manager_two_of_three
    "/ril_0/c" "/c" (by decide) (by decide) (by decide) (by decide) (by decide)
    (by decide) (by decide) (by decide) (by decide) (by decide) (by decide)
    (by decide) (by decide) (by decide) (by decide)

/-- C8 as stated fails: with known = {a,b,c}, validSubset = {a,b} and the
enumeration succeeded, the tracker is invalid; when c becomes valid the
tracker becomes valid but no child-added event is emitted at all, neither by
the OfonoConnMgr nor by the OfonoManager. -/
theorem tracker_no_child_added_for_last_child :
    (connmgr_two_of_three.self.connmgr.all_contexts =
        ["/ril_0/c", "/ril_0/b", "/ril_0/a"] ∧
     connmgr_two_of_three.self.connmgr.valid_contexts = ["/ril_0/a", "/ril_0/b"] ∧
     connmgr_two_of_three.self.connmgr.get_contexts_ok = true ∧
     connmgr_two_of_three.self.valid = false ∧
     (step connmgr_two_of_three (Event.context_valid_changed "/ril_0/c" true)).map
        (fun s => (s.self.valid, s.actions.filter Action.is_context_added)) =
      some (true, [])) ∧
    (manager_two_of_three.self.all_modems = ["/c", "/b", "/a"] ∧
     manager_two_of_three.self.valid_modems = ["/a", "/b"] ∧
     manager_two_of_three.proxy.valid = true ∧
     manager_two_of_three.self.valid = false ∧
     (manager_step manager_two_of_three
        (ManagerEvent.modem_valid_changed "/c" true)).map
        (fun s => (s.self.valid, s.signals.filter ManagerSignal.is_modem_added)) =
      some (true, [])) := by
  decide

/-! ## Collection trackers: one of two children becomes valid -/

/-- C10 (as the code has it): when the enumeration of a tracker returns the
children `[p1, p2]`, neither valid yet, and then `p1` becomes valid while
`p2` does not, the valid flag of the tracker is false after either step, and
the accessor (`ofono_connmgr_get_contexts`, `ofono_manager_get_modems`)
returns the validSubset whether or not the tracker is valid: the empty list
after the enumeration and `[p1]` as soon as `p1` is valid, although the
tracker is still invalid. -/
theorem tracker_one_of_two_valid (st : State) (ms : ManagerState)
    (p1 p2 : String) (id token : Nat)
    (h1 : path_is_absolute p1 = true) (h2 : path_is_absolute p2 = true)
    (hne : p1 ≠ p2)
    (hk : st.self.klass = OfonoClass.CONNMGR)
    (hpend : st.self.connmgr.get_contexts_pending = some id)
    (hfl : id ∈ st.get_contexts_calls)
    (hall : st.self.connmgr.all_contexts = [])
    (hval : st.self.connmgr.valid_contexts = [])
    (hv : st.self.valid = false)
    (hw1 : p1 ∉ st.contexts_valid) (hw2 : p2 ∉ st.contexts_valid)
    (mfl : token ∈ ms.get_modems_calls) (mcan : token ∉ ms.cancelled)
    (mpaths : ms.proxy.modem_paths = [])
    (mall : ms.self.all_modems = []) (mval : ms.self.valid_modems = [])
    (mv : ms.self.valid = false)
    (mw1 : p1 ∉ ms.modems_valid) (mw2 : p2 ∉ ms.modems_valid) :
    (run_trace st
        [Event.get_contexts_finished id (CallResult.ok [p1, p2]),
         Event.context_valid_changed p1 true]).map
      (fun l => l.map (fun s => (s.self.valid, ofono_connmgr_get_contexts s))) =
      some [(false, []), (false, [p1])] ∧
    ((manager_step ms
        (ManagerEvent.get_modems_finished token (CallResult.ok [p1, p2]))).bind
      (fun s1 =>
        (manager_step s1 (ManagerEvent.modem_valid_changed p1 true)).map
          (fun s2 => [(s1.self.valid, ofono_manager_get_modems s1),
                      (s2.self.valid, ofono_manager_get_modems s2)]))) =
      some [(false, []), (false, [p1])] := by
  have hne2 : p2 ≠ p1 := fun h => hne h.symm
  constructor
  · simp [run_trace, step, hfl, ofono_connmgr_get_contexts_finished, hpend,
      ofono_connmgr_add_context, h1, h2, hall, hval, hv, ofono_connctx_valid,
      hw1, hw2, ofono_object_update_valid, fn_is_valid, hk,
      ofono_connmgr_is_valid, hne, hne2, ofono_connmgr_context_valid_changed,
      ofono_connmgr_add_valid_context, ofono_connmgr_find_valid_context,
      ofono_connmgr_valid, g_ptr_array_sort, ofono_connmgr_get_contexts,
      fn_valid_changed, ofono_object_valid_changed, g_signal_emit, State.record]
  · have hs : p2 ∉ g_ptr_array_sort [p1] := by
      rw [mem_g_ptr_array_sort]; simpa using hne2
    simp [manager_step, mfl, mcan, ofono_manager_proxy_get_modems_finished,
      ofono_manager_proxy_add_modem, mpaths, ofono_manager_modem_added,
      ofono_manager_add_modem, h1, h2, mall, mval, mv, ofono_modem_valid, mw1,
      mw2, ManagerState.emit, hs, proxy_emit_valid_changed,
      ofono_manager_proxy_valid_changed, ofono_manager_update_valid, hne, hne2,
      ofono_manager_modem_valid_changed, ofono_manager_add_valid_modem,
      ofono_manager_has_modem, ofono_manager_get_modems]
    simp [g_ptr_array_sort]

theorem tracker_one_of_two_valid_witness :
    (run_trace connmgr_enumerating
        [Event.get_contexts_finished 3
           (CallResult.ok ["/ril_0/context1", "/ril_0/context2"]),
         Event.context_valid_changed "/ril_0/context1" true]).map
      (fun l => l.map (fun s => (s.self.valid, ofono_connmgr_get_contexts s))) =
      some [(false, []), (false, ["/ril_0/context1"])] ∧
    ((manager_step manager_enumerating
        (ManagerEvent.get_modems_finished 1
          (CallResult.ok ["/ril_0/context1", "/ril_0/context2"]))).bind
      (fun s1 =>
        (manager_step s1
          (ManagerEvent.modem_valid_changed "/ril_0/context1" true)).map
          (fun s2 => [(s1.self.valid, ofono_manager_get_modems s1),
                      (s2.self.valid, ofono_manager_get_modems s2)]))) =
      some [(false, []), (false, ["/ril_0/context1"])] :=
  tracker_one_of_two_valid connmgr_enumerating manager_enumerating
    "/ril_0/context1" "/ril_0/context2" 3 1 (by decide) (by decide) (by decide)
    (by decide) (by decide) (by decide) (by decide) (by decide) (by decide)
    (by decide) (by decide) (by decide) (by decide) (by decide) (by decide)
    (by decide) (by decide) (by decide) (by decide)

/-- C10 as stated fails: after the enumeration returned two contexts (or
modems) and the first became valid, the tracker is not valid, and yet the
accessor returns the one valid child, not the empty list. -/
theorem tracker_accessor_ignores_validity :
    (run connmgr_enumerating
        [Event.get_contexts_finished 3
           (CallResult.ok ["/ril_0/context1", "/ril_0/context2"]),
         Event.context_valid_changed "/ril_0/context1" true]).map
      (fun s => (s.self.valid, ofono_connmgr_get_contexts s,
        decide (ofono_connmgr_get_contexts s = []))) =
      some (false, ["/ril_0/context1"], false) ∧
    (manager_run manager_enumerating
        [ManagerEvent.get_modems_finished 1 (CallResult.ok ["/ril_0", "/ril_1"]),
         ManagerEvent.modem_valid_changed "/ril_0" true]).map
      (fun s => (s.self.valid, ofono_manager_get_modems s,
        decide (ofono_manager_get_modems s = []))) =
      some (false, ["/ril_0"], false) := by
  decide

/-! ## The property layer leaves flags, controller and tracker alone -/

theorem untouched_refl (a : State) : Untouched a a :=
  ⟨rfl, rfl, rfl, rfl, rfl, rfl, rfl, rfl, rfl, rfl, rfl, rfl, rfl, rfl, rfl,
   Nat.le_refl _, fun _ h => Or.inl h⟩

theorem untouched_trans {a b c : State} (h1 : Untouched a b) (h2 : Untouched b c) :
    Untouched a c :=
  ⟨h2.klass.trans h1.klass, h2.valid.trans h1.valid, h2.ready.trans h1.ready,
   h2.proxy.trans h1.proxy, h2.modem.trans h1.modem,
   h2.ctx_connmgr.trans h1.ctx_connmgr, h2.removed.trans h1.removed,
   h2.current.trans h1.current, h2.next.trans h1.next,
   h2.retry_id.trans h1.retry_id, h2.retry_count.trans h1.retry_count,
   h2.pending_calls.trans h1.pending_calls, h2.connmgr.trans h1.connmgr,
   h2.contexts_valid.trans h1.contexts_valid,
   h2.get_contexts_calls.trans h1.get_contexts_calls,
   Nat.le_trans h1.next_id h2.next_id,
   fun e he => (h2.log e he).elim (fun h => h1.log e h) Or.inr⟩

theorem untouched_record (st : State) (a : Action) (h : a.is_quiet = true) :
    Untouched st (st.record a) := by
  refine ⟨rfl, rfl, rfl, rfl, rfl, rfl, rfl, rfl, rfl, rfl, rfl, rfl, rfl, rfl,
    rfl, Nat.le_refl _, ?_⟩
  intro e he
  simp only [State.record, List.mem_append, List.mem_singleton] at he
  rcases he with he | he
  · exact Or.inl he
  · right; rw [he]; exact h

theorem untouched_set_field (st : State) (name : String) (f : Field) :
    Untouched st (st.set_field name f) :=
  ⟨rfl, rfl, rfl, rfl, rfl, rfl, rfl, rfl, rfl, rfl, rfl, rfl, rfl, rfl, rfl,
   Nat.le_refl _, fun _ h => Or.inl h⟩

theorem untouched_cache_replace (st : State) (name : String) (v : GVariant) :
    Untouched st (st.cache_replace name v) :=
  ⟨rfl, rfl, rfl, rfl, rfl, rfl, rfl, rfl, rfl, rfl, rfl, rfl, rfl, rfl, rfl,
   Nat.le_refl _, fun _ h => Or.inl h⟩

theorem untouched_cancel_get_properties (st : State) :
    Untouched st (ofono_object_cancel_get_properties st) := by
  unfold ofono_object_cancel_get_properties
  have h1 : Untouched st
      (match st.self.priv.get_properties_pending with
        | some id =>
          { st.record (Action.cancel id) with
            self := { (st.record (Action.cancel id)).self with
              priv := { (st.record (Action.cancel id)).self.priv with
                get_properties_pending := none } } }
        | none => st) := by
    cases st.self.priv.get_properties_pending with
    | none => exact untouched_refl st
    | some id =>
      have h := untouched_record st (Action.cancel id) rfl
      exact ⟨h.klass, h.valid, h.ready, h.proxy, h.modem, h.ctx_connmgr, h.removed,
        h.current, h.next, h.retry_id, h.retry_count, h.pending_calls, h.connmgr,
        h.contexts_valid, h.get_contexts_calls, h.next_id, h.log⟩
  refine untouched_trans h1 ?_
  generalize (match st.self.priv.get_properties_pending with
        | some id =>
          { st.record (Action.cancel id) with
            self := { (st.record (Action.cancel id)).self with
              priv := { (st.record (Action.cancel id)).self.priv with
                get_properties_pending := none } } }
        | none => st) = s1
  simp only []
  split_ifs
  · have h := untouched_record s1
      (Action.source_remove s1.self.priv.get_properties_retry_id) rfl
    exact ⟨h.klass, h.valid, h.ready, h.proxy, h.modem, h.ctx_connmgr, h.removed,
      h.current, h.next, h.retry_id, h.retry_count, h.pending_calls, h.connmgr,
      h.contexts_valid, h.get_contexts_calls, h.next_id, h.log⟩
  · exact untouched_refl s1

theorem untouched_query_properties (st : State) (force_retry : Bool) :
    Untouched st (ofono_object_query_properties st force_retry) := by
  unfold ofono_object_query_properties
  split_ifs
  · have h1 := untouched_cancel_get_properties st
    generalize ofono_object_cancel_get_properties st = s1 at h1
    refine untouched_trans h1 (untouched_trans ?_ (untouched_record _ _ rfl))
    exact ⟨rfl, rfl, rfl, rfl, rfl, rfl, rfl, rfl, rfl, rfl, rfl, rfl, rfl, rfl,
      rfl, Nat.le_succ _, fun _ h => Or.inl h⟩
  · exact untouched_refl st
  · exact ⟨rfl, rfl, rfl, rfl, rfl, rfl, rfl, rfl, rfl, rfl, rfl, rfl, rfl, rfl,
      rfl, Nat.le_refl _, fun _ h => Or.inl h⟩
  · exact untouched_refl st

theorem untouched_boolean_apply (st : State) (prop : OfonoObjectProperty)
    (value : Option GVariant) :
    Untouched st (ofono_object_property_boolean_apply st prop value).1 := by
  unfold ofono_object_property_boolean_apply
  simp only []
  split_ifs
  · exact untouched_set_field _ _ _
  · exact untouched_refl st

theorem untouched_enum_apply (st : State) (prop : OfonoObjectProperty)
    (map : OfonoNameIntMap) (value : Option GVariant) :
    Untouched st (ofono_object_property_enum_apply st prop map value).1 := by
  unfold ofono_object_property_enum_apply
  simp only []
  split_ifs
  · exact untouched_set_field _ _ _
  · exact untouched_refl st

theorem untouched_string_apply (st : State) (prop : OfonoObjectProperty)
    (value : Option GVariant) :
    Untouched st (ofono_object_property_string_apply st prop value).1 := by
  unfold ofono_object_property_string_apply
  simp only []
  split_ifs
  · exact untouched_set_field _ _ _
  · exact untouched_refl st

theorem untouched_emit_property_signal (st : State) (s : Signal)
    (h : s.is_property_signal = true) : Untouched st (g_signal_emit st s) :=
  untouched_record st (Action.emit s) h

theorem untouched_settings_apply (st : State) (ipv6 : Bool)
    (value : Option GVariant) :
    Untouched st (ofono_connctx_property_settings_apply st ipv6 value).1 := by
  unfold ofono_connctx_property_settings_apply
  simp only []
  cases ipv6 <;> simp only [Bool.false_eq_true, if_false, if_true] <;> split_ifs
  all_goals first
    | exact ⟨rfl, rfl, rfl, rfl, rfl, rfl, rfl, rfl, rfl, rfl, rfl, rfl, rfl, rfl,
        rfl, Nat.le_refl _, fun _ h => Or.inl h⟩
    | (refine untouched_trans ?_
        (untouched_emit_property_signal _ Signal.interface_changed rfl)
       exact ⟨rfl, rfl, rfl, rfl, rfl, rfl, rfl, rfl, rfl, rfl, rfl, rfl, rfl,
        rfl, rfl, Nat.le_refl _, fun _ h => Or.inl h⟩)

theorem untouched_foldl {α : Type} (f : State → α → State)
    (hf : ∀ s a, Untouched s (f s a)) (l : List α) (st : State) :
    Untouched st (l.foldl f st) := by
  induction l generalizing st with
  | nil => exact untouched_refl st
  | cons a l ih => exact untouched_trans (hf st a) (ih (f st a))

theorem untouched_foldl_pair {α β : Type} (f : State × β → α → State × β)
    (hf : ∀ acc a, Untouched acc.1 (f acc a).1) (l : List α) (acc : State × β) :
    Untouched acc.1 (l.foldl f acc).1 := by
  induction l generalizing acc with
  | nil => exact untouched_refl acc.1
  | cons a l ih => exact untouched_trans (hf acc a) (ih (f acc a))

theorem untouched_emit_property_change_signals (st : State)
    (plist : List OfonoObjectProperty) :
    Untouched st (ofono_object_emit_property_change_signals st plist) := by
  unfold ofono_object_emit_property_change_signals
  apply untouched_foldl
  intro s property
  simp only []
  have h1 := untouched_emit_property_signal s (Signal.named property.signal_name) rfl
  cases fn_value (g_signal_emit s (Signal.named property.signal_name)).self property with
  | none => exact h1
  | some value =>
    exact untouched_trans h1
      (untouched_emit_property_signal _ (Signal.property_changed property.name value) rfl)

theorem untouched_reset_properties_with
    (apply : State → OfonoObjectProperty → Option GVariant → State × Bool)
    (happly : ∀ s p v, Untouched s (apply s p v).1) (st : State) :
    Untouched st (reset_properties_with apply st) := by
  unfold reset_properties_with
  simp only []
  refine untouched_trans ?_ (untouched_emit_property_change_signals _ _)
  refine untouched_foldl_pair (α := OfonoObjectProperty)
    (β := List OfonoObjectProperty) _ ?_ _ (st, [])
  intro acc p
  exact happly acc.1 p none

theorem untouched_present_apply (reset : State → State)
    (hreset : ∀ s, Untouched s (reset s)) (st : State)
    (prop : OfonoObjectProperty) (value : Option GVariant) :
    Untouched st (ofono_simmgr_property_present_apply reset st prop value).1 := by
  unfold ofono_simmgr_property_present_apply
  simp only []
  have h1 := untouched_boolean_apply st prop value
  split_ifs
  · exact untouched_trans h1 (untouched_query_properties _ _)
  · exact untouched_trans h1 (hreset _)
  · exact h1

theorem untouched_fn_apply_with (reset : State → State)
    (hreset : ∀ s, Untouched s (reset s)) (st : State)
    (prop : OfonoObjectProperty) (value : Option GVariant) :
    Untouched st (fn_apply_with reset st prop value).1 := by
  unfold fn_apply_with
  cases prop.kind with
  | BOOL => exact untouched_boolean_apply st prop value
  | STRING => exact untouched_string_apply st prop value
  | ENUM map => exact untouched_enum_apply st prop map value
  | SETTINGS ipv6 => exact untouched_settings_apply st ipv6 value
  | PRESENT => exact untouched_present_apply reset hreset st prop value

theorem untouched_fn_apply_depth (d : Nat) (st : State)
    (prop : OfonoObjectProperty) (value : Option GVariant) :
    Untouched st (fn_apply_depth d st prop value).1 := by
  induction d generalizing st prop value with
  | zero => exact untouched_fn_apply_with _ (fun s => untouched_refl s) st prop value
  | succ d ih =>
    exact untouched_fn_apply_with _
      (fun s => untouched_reset_properties_with _ ih s) st prop value

theorem untouched_fn_apply (st : State) (prop : OfonoObjectProperty)
    (value : Option GVariant) : Untouched st (fn_apply st prop value).1 :=
  untouched_fn_apply_depth 1 st prop value

theorem untouched_reset_properties (st : State) :
    Untouched st (ofono_object_reset_properties st) :=
  untouched_reset_properties_with _ untouched_fn_apply st

theorem untouched_apply_property (st : State) (name : String) (value : GVariant) :
    Untouched st (ofono_object_apply_property st name value).1 := by
  unfold ofono_object_apply_property
  cases st.self.klass.all_properties.find? (fun p => p.name == name) with
  | none => exact untouched_refl st
  | some property => exact untouched_fn_apply st property (some value)

theorem untouched_apply_properties (st : State)
    (dictionary : List (String × GVariant)) :
    Untouched st (ofono_object_apply_properties st dictionary) := by
  unfold ofono_object_apply_properties
  simp only []
  refine untouched_trans ?_ (untouched_emit_property_change_signals _ _)
  refine untouched_foldl_pair (α := String × GVariant)
    (β := List OfonoObjectProperty) _ ?_ _ (st, [])
  intro acc entry
  exact untouched_trans (untouched_cache_replace acc.1 entry.1 entry.2)
    (untouched_apply_property _ entry.1 entry.2)

theorem untouched_property_changed (st : State) (name : String)
    (value : GVariant) :
    Untouched st (ofono_object_property_changed st name value) := by
  unfold ofono_object_property_changed
  simp only []
  have h1 := untouched_trans (untouched_cache_replace st name value)
    (untouched_apply_property (st.cache_replace name value) name value)
  cases (ofono_object_apply_property (st.cache_replace name value) name value).2 with
  | none => exact h1
  | some changed =>
    exact untouched_trans h1 (untouched_trans
      (untouched_emit_property_signal _ (Signal.named changed.signal_name) rfl)
      (untouched_emit_property_signal _ (Signal.property_changed name value) rfl))

/-! ## Invariants of the object between events -/

theorem quiet_refl (a : State) : Quiet a a :=
  ⟨rfl, rfl, rfl, rfl, rfl, rfl, rfl, rfl, rfl, rfl, Nat.le_refl _,
   fun _ h => Or.inl h⟩

theorem quiet_trans {a b c : State} (h1 : Quiet a b) (h2 : Quiet b c) :
    Quiet a c :=
  ⟨h2.klass.trans h1.klass, h2.valid.trans h1.valid, h2.ready.trans h1.ready,
   h2.proxy.trans h1.proxy, h2.modem.trans h1.modem,
   h2.ctx_connmgr.trans h1.ctx_connmgr, h2.removed.trans h1.removed,
   h2.current.trans h1.current, h2.retry_id.trans h1.retry_id,
   h2.calls.trans h1.calls, Nat.le_trans h1.next_id h2.next_id,
   fun e he => (h2.log e he).elim (fun h => h1.log e h) Or.inr⟩

theorem untouched_quiet {a b : State} (h : Untouched a b) : Quiet a b :=
  ⟨h.klass, h.valid, h.ready, h.proxy, h.modem, h.ctx_connmgr, h.removed,
   h.current, h.retry_id, by rw [h.pending_calls], h.next_id, h.log⟩

theorem fn_is_ready_congr (a b : OfonoObject) (hk : b.klass = a.klass)
    (hp : b.priv.proxy = a.priv.proxy) (hm : b.modem = a.modem)
    (hc : b.connctx.connmgr = a.connctx.connmgr)
    (hr : b.connctx.removed = a.connctx.removed) :
    fn_is_ready b = fn_is_ready a := by
  simp only [fn_is_ready, hk, ofono_object_is_ready, ofono_modem_interface_is_ready,
    ofono_modem_interface_is_present, ofono_connctx_is_ready,
    ofono_connctx_is_present, hp, hm, hc, hr]

theorem fn_is_valid_imp_ready (o : OfonoObject) (h : fn_is_valid o = true) :
    fn_is_ready o = true := by
  unfold fn_is_valid at h
  unfold fn_is_ready
  cases hk : o.klass <;> simp only [hk] at h ⊢ <;>
    simp only [ofono_object_is_valid, ofono_modem_interface_is_valid,
      ofono_connmgr_is_valid, ofono_connctx_is_valid, ofono_modem_interface_is_ready,
      ofono_connctx_is_ready, Bool.and_eq_true] at h ⊢ <;>
    tauto

theorem controller_of_kept {a b : State} (h : ControllerInv a)
    (hcur : b.self.connctx.current_action = a.self.connctx.current_action)
    (hret : b.self.connctx.retry_id = a.self.connctx.retry_id)
    (hcalls : b.self.priv.pending_calls.map (fun c => c.id) =
      a.self.priv.pending_calls.map (fun c => c.id))
    (hid : a.next_id ≤ b.next_id) : ControllerInv b := by
  have hlen : b.self.priv.pending_calls.length = a.self.priv.pending_calls.length := by
    have := congrArg List.length hcalls
    simpa using this
  have hne : b.self.priv.pending_calls ≠ [] → a.self.priv.pending_calls ≠ [] := by
    intro hb ha
    rw [ha] at hlen
    exact hb (List.length_eq_zero.mp hlen)
  refine ⟨?_, ?_, ?_, ?_⟩
  · rw [hret, hcur]; exact h.timer
  · intro hb; rw [hret, hcur]; exact h.call (hne hb)
  · rw [hlen]; exact h.one
  · intro c hc
    have hmem : c.id ∈ b.self.priv.pending_calls.map (fun c => c.id) :=
      List.mem_map_of_mem _ hc
    rw [hcalls] at hmem
    obtain ⟨c2, hc2, he⟩ := List.mem_map.mp hmem
    have := h.fresh c2 hc2
    rw [he] at this
    exact Nat.lt_of_lt_of_le this hid

theorem controller_of_quiet {a b : State} (q : Quiet a b)
    (h : ControllerInv a) : ControllerInv b :=
  controller_of_kept h q.current q.retry_id q.calls q.next_id

theorem mid_of_quiet {a b : State} (q : Quiet a b) (h : Mid a) : Mid b := by
  refine ⟨?_, ?_, controller_of_quiet q h.ctl⟩
  · intro e he
    rcases q.log e he with h1 | h1
    · exact h.log e h1
    · exact Or.inl h1
  · unfold ReadyCurrent
    rw [q.ready, fn_is_ready_congr a.self b.self q.klass q.proxy q.modem
      q.ctx_connmgr q.removed]
    exact h.ready

theorem good_mid {a : State} (h : Good a) : Mid a := ⟨h.log, h.ready, h.ctl⟩

theorem good_of_quiet {a b : State} (q : Quiet a b) (h : Good a) : Good b := by
  have m := mid_of_quiet q (good_mid h)
  refine ⟨m.log, m.ready, m.ctl, ?_⟩
  unfold ValidReady
  rw [q.valid, q.ready]
  exact h.vr

theorem quiet_record (st : State) (a : Action) (h : a.is_quiet = true) :
    Quiet st (st.record a) :=
  (untouched_quiet (untouched_record st a h))

theorem good_emit (st : State) (s : Signal) (h : Good st) :
    Good (g_signal_emit st s) := by
  refine ⟨?_, h.ready, controller_of_kept h.ctl rfl rfl rfl (Nat.le_refl _), h.vr⟩
  intro e he
  simp only [g_signal_emit, State.record, List.mem_append, List.mem_singleton] at he
  rcases he with he | he
  · exact h.log e he
  · right; rw [he]; exact h.vr

theorem controller_perform_next_action (st : State) (h : ControllerInv st) :
    ControllerInv (ofono_connctx_perform_next_action st) := by
  obtain ⟨ht, hc, ho, hf⟩ := h
  by_cases hv : st.self.valid = true <;>
  by_cases hcur : st.self.connctx.current_action = CONNCTX_ACTION.NONE <;>
  by_cases hnext : st.self.connctx.next_action = CONNCTX_ACTION.NONE <;>
  by_cases hneq : st.self.connctx.next_action = st.self.connctx.current_action <;>
  by_cases hret : st.self.connctx.retry_id = 0 <;>
  by_cases hp : st.self.priv.proxy = true <;>
  constructor <;>
  simp_all [ofono_connctx_perform_next_action, ofono_object_set_boolean, State.record]

theorem calm_refl (a : State) : Calm a a :=
  ⟨rfl, rfl, rfl, rfl, rfl, rfl, rfl, fun _ h => Or.inl h⟩

theorem calm_trans {a b c : State} (h1 : Calm a b) (h2 : Calm b c) : Calm a c :=
  ⟨h2.klass.trans h1.klass, h2.valid.trans h1.valid, h2.ready.trans h1.ready,
   h2.proxy.trans h1.proxy, h2.modem.trans h1.modem,
   h2.ctx_connmgr.trans h1.ctx_connmgr, h2.removed.trans h1.removed,
   fun e he => (h2.log e he).elim (fun h => h1.log e h) Or.inr⟩

theorem quiet_calm {a b : State} (h : Quiet a b) : Calm a b :=
  ⟨h.klass, h.valid, h.ready, h.proxy, h.modem, h.ctx_connmgr, h.removed,
   fun e he => (h.log e he).elim Or.inl (fun q => Or.inr (Or.inl q))⟩

theorem mid_of_calm {a b : State} (q : Calm a b) (h : Mid a)
    (c : ControllerInv b) : Mid b := by
  refine ⟨?_, ?_, c⟩
  · intro e he
    rcases q.log e he with h1 | h1
    · exact h.log e h1
    · exact h1
  · unfold ReadyCurrent
    rw [q.ready, fn_is_ready_congr a.self b.self q.klass q.proxy q.modem
      q.ctx_connmgr q.removed]
    exact h.ready

theorem good_of_calm {a b : State} (q : Calm a b) (h : Good a)
    (c : ControllerInv b) : Good b := by
  have m := mid_of_calm q (good_mid h) c
  refine ⟨m.log, m.ready, m.ctl, ?_⟩
  unfold ValidReady
  rw [q.valid, q.ready]
  exact h.vr

theorem calm_perform_next_action (st : State) :
    Calm st (ofono_connctx_perform_next_action st) := by
  by_cases hv : st.self.valid = true <;>
  by_cases hcur : st.self.connctx.current_action = CONNCTX_ACTION.NONE <;>
  by_cases hnext : st.self.connctx.next_action = CONNCTX_ACTION.NONE <;>
  by_cases hneq : st.self.connctx.next_action = st.self.connctx.current_action <;>
  by_cases hret : st.self.connctx.retry_id = 0 <;>
  by_cases hp : st.self.priv.proxy = true <;>
  constructor <;>
  simp_all [ofono_connctx_perform_next_action, ofono_object_set_boolean, State.record,
    EntryOK, Action.is_quiet]
  all_goals
    intro e he
    rcases he with h | h | h <;> simp_all

theorem good_perform_next_action (st : State) (h : Good st) :
    Good (ofono_connctx_perform_next_action st) :=
  good_of_calm (calm_perform_next_action st) h
    (controller_perform_next_action st h.ctl)

theorem good_fn_valid_changed (st : State) (h : Good st) :
    Good (fn_valid_changed st) := by
  rw [fn_valid_changed_eq]
  have e : Good (ofono_object_valid_changed st) := good_emit st _ h
  by_cases hk : st.self.klass = OfonoClass.CONNCTX
  · simp only [hk, if_true]
    unfold ofono_connctx_valid_changed
    by_cases hv : st.self.valid = true
    · simp only [hv, if_true]
      exact good_emit _ _ (good_perform_next_action st h)
    · simp only [hv]
      exact e
  · simp only [hk, if_false]
    exact e

theorem good_update_valid (st : State) (h : Mid st) :
    Good (ofono_object_update_valid st) := by
  unfold ofono_object_update_valid
  by_cases hv : st.self.valid = fn_is_valid st.self
  · have hb : (st.self.valid != fn_is_valid st.self) = false := by simp [hv]
    simp only [hb, Bool.false_eq_true, if_false]
    refine ⟨h.log, h.ready, h.ctl, ?_⟩
    intro hval
    rw [hv] at hval
    rw [h.ready]
    exact fn_is_valid_imp_ready _ hval
  · have hb : (st.self.valid != fn_is_valid st.self) = true := by
      simpa [bne_iff_ne] using hv
    simp only [hb, if_true]
    apply good_fn_valid_changed
    refine ⟨h.log, ?_, controller_of_kept h.ctl rfl rfl rfl (Nat.le_refl _), ?_⟩
    · exact h.ready.trans
        (fn_is_ready_congr st.self { st.self with valid := fn_is_valid st.self }
          rfl rfl rfl rfl rfl).symm
    · intro hval
      exact h.ready.trans (fn_is_valid_imp_ready _ hval)
theorem quiet_cancel_pending_calls (st : State) :
    Quiet st (cancel_pending_calls st) := by
  unfold cancel_pending_calls
  have h1 : Untouched st (st.self.priv.pending_calls.foldl
      (fun s c => s.record (Action.cancel c.id)) st) :=
    untouched_foldl _
      (fun s (c : OfonoObjectPendingCall) => untouched_record s (Action.cancel c.id) rfl) _ st
  refine quiet_trans (untouched_quiet h1) ?_
  refine ⟨rfl, rfl, rfl, rfl, rfl, rfl, rfl, rfl, rfl, ?_, Nat.le_refl _,
    fun _ h => Or.inl h⟩
  simp [List.map_map, Function.comp_def]

theorem good_object_ready_changed (st : State) (ready : Bool) (h : Mid st) :
    Good (ofono_object_ready_changed st ready) := by
  unfold ofono_object_ready_changed
  by_cases hr : st.self.priv.ready = true
  · simp only [hr, if_true]
    have hp : st.self.priv.proxy = true := by
      have h1 := h.ready
      unfold ReadyCurrent at h1
      rw [hr] at h1
      have h2 := h1.symm
      unfold fn_is_ready at h2
      cases hk : st.self.klass <;> simp only [hk] at h2 <;>
        simp only [ofono_object_is_ready, ofono_modem_interface_is_ready,
          ofono_connctx_is_ready, Bool.and_eq_true] at h2
      · exact h2
      all_goals exact h2.2
    simp only [hp, if_true]
    exact good_update_valid _
      (mid_of_quiet (untouched_quiet (untouched_query_properties st true)) h)
  · rw [if_neg hr]
    apply good_update_valid
    refine mid_of_quiet (quiet_cancel_pending_calls _) ?_
    refine mid_of_quiet (untouched_quiet (untouched_reset_properties _)) ?_
    refine mid_of_quiet (untouched_quiet (untouched_cancel_get_properties _)) ?_
    refine mid_of_quiet ?_ h
    exact ⟨rfl, rfl, rfl, rfl, rfl, rfl, rfl, rfl, rfl, rfl, Nat.le_refl _,
      fun _ h => Or.inl h⟩

theorem quiet_connmgr_cancel_get_contexts (st : State) :
    Quiet st (ofono_connmgr_cancel_get_contexts st) := by
  unfold ofono_connmgr_cancel_get_contexts
  cases hp : st.self.connmgr.get_contexts_pending with
  | none => exact quiet_refl st
  | some id =>
    refine quiet_trans (quiet_record st (Action.cancel id) rfl) ?_
    exact ⟨rfl, rfl, rfl, rfl, rfl, rfl, rfl, rfl, rfl, rfl, Nat.le_refl _,
      fun _ h => Or.inl h⟩

theorem quiet_connmgr_start_get_contexts (st : State) :
    Quiet st (ofono_connmgr_start_get_contexts st) := by
  unfold ofono_connmgr_start_get_contexts
  refine quiet_trans (quiet_connmgr_cancel_get_contexts st) ?_
  refine quiet_trans ?_ (quiet_record _ (Action.call_get_contexts st.next_id) rfl)
  exact ⟨rfl, rfl, rfl, rfl, rfl, rfl, rfl, rfl, rfl, rfl, Nat.le_succ _,
    fun _ h => Or.inl h⟩

theorem good_connmgr_ready_changed (st : State) (ready : Bool) (h : Mid st) :
    Good (ofono_connmgr_ready_changed st ready) := by
  unfold ofono_connmgr_ready_changed
  apply good_object_ready_changed
  by_cases hc : (st.self.priv.proxy && ready) = true
  · simp only [hc, if_true]
    exact mid_of_quiet (quiet_connmgr_start_get_contexts st) h
  · simp only [hc]
    have m := mid_of_quiet (quiet_connmgr_cancel_get_contexts st) h
    by_cases hr : (!ready) = true
    · simp only [hr, if_true]
      refine mid_of_quiet ?_ m
      exact ⟨rfl, rfl, rfl, rfl, rfl, rfl, rfl, rfl, rfl, rfl, Nat.le_refl _,
        fun _ h => Or.inl h⟩
    · simp only [hr]
      exact m

theorem good_fn_ready_changed (st : State) (ready : Bool) (h : Mid st) :
    Good (fn_ready_changed st ready) := by
  unfold fn_ready_changed
  cases hk : st.self.klass <;> simp only [] <;>
    first
    | exact good_object_ready_changed st ready h
    | exact good_connmgr_ready_changed st ready h

theorem good_update_ready (st : State) (hl : LogOK st) (hc : ControllerInv st)
    (hv : ValidReady st) : Good (ofono_object_update_ready st) := by
  unfold ofono_object_update_ready
  by_cases hr : st.self.priv.ready = fn_is_ready st.self
  · have hb : (st.self.priv.ready != fn_is_ready st.self) = false := by simp [hr]
    simp only [hb, Bool.false_eq_true, if_false]
    exact ⟨hl, hr, hc, hv⟩
  · have hb : (st.self.priv.ready != fn_is_ready st.self) = true := by
      simpa [bne_iff_ne] using hr
    simp only [hb, if_true]
    apply good_fn_ready_changed
    refine ⟨hl, ?_, controller_of_kept hc rfl rfl rfl (Nat.le_refl _)⟩
    exact (fn_is_ready_congr st.self
      { st.self with priv := { st.self.priv with ready := fn_is_ready st.self } }
      rfl rfl rfl rfl rfl).symm
theorem good_object_proxy_created (st : State) (h : Good st) :
    Good (ofono_object_proxy_created st) := by
  unfold ofono_object_proxy_created
  apply good_update_valid
  apply good_mid
  exact good_update_ready _ h.log (controller_of_kept h.ctl rfl rfl rfl (Nat.le_refl _)) h.vr

theorem good_fn_proxy_created (st : State) (h : Good st) :
    Good (fn_proxy_created st) := by
  unfold fn_proxy_created
  have g := good_object_proxy_created st h
  cases hk : st.self.klass <;> simp only [] <;> try exact g
  unfold ofono_connmgr_proxy_created
  simp only []
  split_ifs
  · exact good_of_quiet (quiet_connmgr_start_get_contexts _) g
  · exact g

theorem good_setup_finish (s : State) (ok : Bool) (h : Good s) :
    Good (ofono_object_update_valid { s with self := { s.self with priv :=
        { s.self.priv with
          get_properties_ok := ok
          get_properties_pending := none } } }) := by
  apply good_update_valid
  refine mid_of_quiet ?_ (good_mid h)
  exact ⟨rfl, rfl, rfl, rfl, rfl, rfl, rfl, rfl, rfl, rfl, Nat.le_refl _,
    fun _ h => Or.inl h⟩

theorem good_setup_retry (s : State) (retry_ms : Nat) (h : Good s) :
    Good { (s.record (Action.timeout_add retry_ms)) with
      self := { (s.record (Action.timeout_add retry_ms)).self with priv :=
        { (s.record (Action.timeout_add retry_ms)).self.priv with
          get_properties_retry_id := G_SOURCE_ID } } } := by
  refine good_of_quiet ?_ (good_of_quiet (quiet_record s (Action.timeout_add retry_ms) rfl) h)
  exact ⟨rfl, rfl, rfl, rfl, rfl, rfl, rfl, rfl, rfl, rfl, Nat.le_refl _,
    fun _ h => Or.inl h⟩

theorem good_setup_finished (st : State) (id : Nat)
    (result : CallResult (List (String × GVariant))) (h : Good st) :
    Good (ofono_object_setup_finished st id result) := by
  unfold ofono_object_setup_finished
  cases result with
  | ok props =>
    simp only []
    have g1 : Good (if decide (st.self.priv.get_properties_pending = some id) = true
        then ofono_object_apply_properties st props else st) := by
      split_ifs
      · exact good_of_quiet (untouched_quiet (untouched_apply_properties st props)) h
      · exact h
    generalize (if decide (st.self.priv.get_properties_pending = some id) = true
        then ofono_object_apply_properties st props else st) = s1 at g1 ⊢
    split_ifs
    · exact good_setup_finish s1 true g1
    · exact g1
  | error e =>
    simp only []
    split_ifs
    · exact good_setup_retry st 0 h
    · exact good_setup_retry st OFONO_BUSY_RETRY_DELAY h
    · exact good_setup_finish st false h
    · exact h

theorem good_get_properties_retry (st : State) (h : Good st) :
    Good (ofono_object_get_properties_retry st) := by
  unfold ofono_object_get_properties_retry
  have g1 : Good ({ st with self := { st.self with priv := { st.self.priv with
      get_properties_retry_id := 0 } } } : State) := by
    refine good_of_quiet ?_ h
    exact ⟨rfl, rfl, rfl, rfl, rfl, rfl, rfl, rfl, rfl, rfl, Nat.le_refl _,
      fun _ h => Or.inl h⟩
  simp only []
  split
  · rename_i id _
    refine good_of_quiet (quiet_record _ (Action.call_get_properties id) rfl) ?_
    refine good_of_quiet ?_ g1
    exact ⟨rfl, rfl, rfl, rfl, rfl, rfl, rfl, rfl, rfl, rfl, Nat.le_refl _,
      fun _ h => Or.inl h⟩
  · exact g1

theorem good_property_changed (st : State) (name : String) (value : GVariant)
    (h : Good st) : Good (ofono_object_property_changed st name value) :=
  good_of_quiet (untouched_quiet (untouched_property_changed st name value)) h
theorem quiet_set_valid_contexts (st : State) (l : List String) :
    Quiet st { st with self := { st.self with connmgr :=
      { st.self.connmgr with valid_contexts := l } } } :=
  ⟨rfl, rfl, rfl, rfl, rfl, rfl, rfl, rfl, rfl, rfl, Nat.le_refl _,
    fun _ h => Or.inl h⟩

theorem quiet_set_all_contexts (st : State) (l : List String) :
    Quiet st { st with self := { st.self with connmgr :=
      { st.self.connmgr with all_contexts := l } } } :=
  ⟨rfl, rfl, rfl, rfl, rfl, rfl, rfl, rfl, rfl, rfl, Nat.le_refl _,
    fun _ h => Or.inl h⟩

theorem good_add_valid_context (st : State) (path : String) (h : Good st) :
    Good (ofono_connmgr_add_valid_context st path) := by
  unfold ofono_connmgr_add_valid_context
  simp only []
  split_ifs
  · exact good_emit _ _ (good_of_quiet (quiet_set_valid_contexts st _) h)
  · exact good_of_quiet (quiet_set_valid_contexts st _) h
  · exact h

theorem good_remove_valid_context (st : State) (path : String) (h : Good st) :
    Good (ofono_connmgr_remove_valid_context st path) := by
  unfold ofono_connmgr_remove_valid_context
  simp only []
  split_ifs
  · exact good_emit _ _ (good_of_quiet (quiet_set_valid_contexts st _) h)
  · exact good_of_quiet (quiet_set_valid_contexts st _) h
  · exact h

theorem good_context_valid_changed (st : State) (path : String) (h : Good st) :
    Good (ofono_connmgr_context_valid_changed st path) := by
  unfold ofono_connmgr_context_valid_changed
  apply good_update_valid
  apply good_mid
  split_ifs
  · exact good_add_valid_context st path h
  · exact good_remove_valid_context st path h

theorem good_add_context (st : State) (path : String) (h : Good st) :
    Good (ofono_connmgr_add_context st path) := by
  unfold ofono_connmgr_add_context
  simp only []
  have g1 := good_of_quiet (quiet_set_all_contexts st
    (path :: st.self.connmgr.all_contexts.filter (fun q => q != path))) h
  split_ifs
  · exact good_update_valid _ (good_mid (good_add_valid_context _ path g1))
  · exact good_update_valid _ (good_mid g1)
  · exact h

theorem good_context_removed (st : State) (path : String) (h : Good st) :
    Good (ofono_connmgr_context_removed st path) := by
  unfold ofono_connmgr_context_removed
  exact good_of_quiet (quiet_set_all_contexts _ _) (good_remove_valid_context st path h)

theorem good_foldl_add_context (l : List String) (st : State) (h : Good st) :
    Good (l.foldl ofono_connmgr_add_context st) := by
  induction l generalizing st with
  | nil => exact h
  | cons a l ih => exact ih _ (good_add_context st a h)

theorem good_get_contexts_finish (s : State) (ok : Bool) (h : Good s) :
    Good (ofono_object_update_valid { s with self := { s.self with connmgr :=
        { s.self.connmgr with
          get_contexts_ok := ok
          get_contexts_pending := none } } }) := by
  apply good_update_valid
  refine mid_of_quiet ?_ (good_mid h)
  exact ⟨rfl, rfl, rfl, rfl, rfl, rfl, rfl, rfl, rfl, rfl, Nat.le_refl _,
    fun _ h => Or.inl h⟩

theorem good_get_contexts_finished (st : State) (id : Nat)
    (result : CallResult (List String)) (h : Good st) :
    Good (ofono_connmgr_get_contexts_finished st id result) := by
  unfold ofono_connmgr_get_contexts_finished
  cases result with
  | ok contexts =>
    simp only []
    have g1 : Good (if decide (st.self.connmgr.get_contexts_pending = some id) = true
        then contexts.foldl ofono_connmgr_add_context st else st) := by
      split_ifs
      · exact good_foldl_add_context contexts st h
      · exact h
    generalize (if decide (st.self.connmgr.get_contexts_pending = some id) = true
        then contexts.foldl ofono_connmgr_add_context st else st) = s1 at g1 ⊢
    split_ifs
    · exact good_get_contexts_finish s1 true g1
    · exact g1
  | error e =>
    simp only []
    split_ifs
    · refine good_of_quiet (quiet_record _ (Action.call_get_contexts id) rfl) ?_
      refine good_of_quiet ?_ h
      exact ⟨rfl, rfl, rfl, rfl, rfl, rfl, rfl, rfl, rfl, rfl, Nat.le_refl _,
        fun _ h => Or.inl h⟩
    · exact good_get_contexts_finish st false h
    · exact h
theorem controller_set_active_retry (st : State) (h : ControllerInv st)
    (hr : st.self.connctx.retry_id ≠ 0) :
    ControllerInv (ofono_connctx_set_active_retry st) := by
  obtain ⟨ht, hc, ho, hf⟩ := h
  have hpend : st.self.priv.pending_calls = [] := by
    by_contra hne
    exact hr (hc hne).2
  have hcur := ht hr
  by_cases hp : st.self.priv.proxy = true <;>
  constructor <;>
  simp_all [ofono_connctx_set_active_retry, ofono_object_set_boolean, State.record]

theorem calm_set_retry_id (st : State) :
    Calm st { st with self := { st.self with
      connctx := { st.self.connctx with retry_id := 0 } } } :=
  ⟨rfl, rfl, rfl, rfl, rfl, rfl, rfl, fun _ h => Or.inl h⟩

theorem calm_set_boolean (st : State) (name : String) (value : Bool) :
    Calm st (ofono_object_set_boolean st name value) := by
  unfold ofono_object_set_boolean
  split_ifs
  · refine calm_trans ?_ (quiet_calm (quiet_record _
      (Action.call_set_property st.next_id name (GVariant.boolean value)) rfl))
    exact ⟨rfl, rfl, rfl, rfl, rfl, rfl, rfl, fun _ h => Or.inl h⟩
  · exact calm_refl st

theorem good_set_active_retry (st : State) (h : Good st)
    (hr : st.self.connctx.retry_id ≠ 0) :
    Good (ofono_connctx_set_active_retry st) := by
  refine good_of_calm ?_ h (controller_set_active_retry st h.ctl hr)
  unfold ofono_connctx_set_active_retry
  exact calm_trans (calm_set_retry_id st) (calm_set_boolean _ _ _)

theorem good_perform_action (st : State) (action : CONNCTX_ACTION) (h : Good st) :
    Good (ofono_connctx_perform_action st action) := by
  unfold ofono_connctx_perform_action
  have q : ∀ a, Quiet st { st with self := { st.self with
      connctx := { st.self.connctx with next_action := a } } } := fun a =>
    ⟨rfl, rfl, rfl, rfl, rfl, rfl, rfl, rfl, rfl, rfl, Nat.le_refl _,
      fun _ h => Or.inl h⟩
  split_ifs
  · exact good_perform_next_action _ (good_of_quiet (q action) h)
  · exact good_of_quiet (q CONNCTX_ACTION.NONE) h

theorem controller_perform_next_action_drop (s : State) (id : Nat)
    (c : OfonoObjectPendingCall) (hpend : s.self.priv.pending_calls = [c])
    (hcid : c.id = id) (hlt : id < s.next_id)
    (ht : s.self.connctx.retry_id ≠ 0 →
      s.self.connctx.current_action ≠ CONNCTX_ACTION.NONE) :
    ControllerInv { (ofono_connctx_perform_next_action s) with
      self := { (ofono_connctx_perform_next_action s).self with
        priv := { (ofono_connctx_perform_next_action s).self.priv with
          pending_calls :=
            (ofono_connctx_perform_next_action s).self.priv.pending_calls.filter
              (fun c => c.id != id) } } } := by
  have hne : ¬ s.next_id = id := by omega
  by_cases hv : s.self.valid = true <;>
  by_cases hcur : s.self.connctx.current_action = CONNCTX_ACTION.NONE <;>
  by_cases hnext : s.self.connctx.next_action = CONNCTX_ACTION.NONE <;>
  by_cases hneq : s.self.connctx.next_action = s.self.connctx.current_action <;>
  by_cases hret : s.self.connctx.retry_id = 0 <;>
  by_cases hp : s.self.priv.proxy = true <;>
  constructor <;>
  simp_all [ofono_connctx_perform_next_action, ofono_object_set_boolean, State.record]

theorem controller_pending_call_finished (st : State) (id : Nat)
    (error : Option GError) (h : ControllerInv st)
    (hid : st.self.priv.pending_calls.any (fun c => c.id == id) = true) :
    ControllerInv (ofono_object_pending_call_finished st id error) := by
  obtain ⟨ht, hc, ho, hf⟩ := h
  obtain ⟨c, hpend, hcid⟩ : ∃ c, st.self.priv.pending_calls = [c] ∧ c.id = id := by
    match hl : st.self.priv.pending_calls with
    | [] => rw [hl] at hid; simp at hid
    | [c] => rw [hl] at hid; exact ⟨c, rfl, by simpa using hid⟩
    | _ :: _ :: _ => rw [hl] at ho; simp at ho
  have hcur := (hc (by rw [hpend]; simp)).1
  have hret := (hc (by rw [hpend]; simp)).2
  have hlt : id < st.next_id := by
    rw [← hcid]; exact hf c (by rw [hpend]; simp)
  unfold ofono_object_pending_call_finished ofono_connctx_set_active_done
  simp only []
  apply controller_perform_next_action_drop _ id c _ hcid
  · cases error with
    | none => exact hlt
    | some e => simp only []; split_ifs <;> exact hlt
  · cases error with
    | none => simp [hret]
    | some e => simp only []; split_ifs <;> simp [g_signal_emit, State.record, hcur, hret]
  · cases error with
    | none => exact hpend
    | some e => simp only []; split_ifs <;> exact hpend
theorem calm_set_active_done (st : State) (error : Option GError)
    (hv : ValidReady st) : Calm st (ofono_connctx_set_active_done st error) := by
  unfold ofono_connctx_set_active_done
  simp only []
  refine calm_trans ?_ (calm_perform_next_action _)
  cases error with
  | none => exact ⟨rfl, rfl, rfl, rfl, rfl, rfl, rfl, fun _ h => Or.inl h⟩
  | some e =>
    simp only []
    split_ifs
    · refine ⟨rfl, rfl, rfl, rfl, rfl, rfl, rfl, ?_⟩
      intro x hx
      simp only [State.record, List.mem_append, List.mem_singleton] at hx
      rcases hx with hx | hx
      · exact Or.inl hx
      · right; left; rw [hx]; rfl
    · refine ⟨rfl, rfl, rfl, rfl, rfl, rfl, rfl, ?_⟩
      intro x hx
      simp only [g_signal_emit, State.record, List.mem_append, List.mem_singleton] at hx
      rcases hx with hx | hx
      · exact Or.inl hx
      · right; right; rw [hx]; exact hv
    · exact ⟨rfl, rfl, rfl, rfl, rfl, rfl, rfl, fun _ h => Or.inl h⟩

theorem good_pending_call_finished (st : State) (id : Nat)
    (error : Option GError) (h : Good st)
    (hid : st.self.priv.pending_calls.any (fun c => c.id == id) = true) :
    Good (ofono_object_pending_call_finished st id error) := by
  refine good_of_calm ?_ h (controller_pending_call_finished st id error h.ctl hid)
  unfold ofono_object_pending_call_finished
  refine calm_trans (calm_set_active_done st error h.vr) ?_
  exact ⟨rfl, rfl, rfl, rfl, rfl, rfl, rfl, fun _ h => Or.inl h⟩

theorem good_init (k : OfonoClass) : Good (State.init k) := by
  refine ⟨?_, ?_, ⟨?_, ?_, ?_, ?_⟩, ?_⟩
  · intro e he
    simp [State.init] at he
  · cases k <;> rfl
  · intro h; exact absurd rfl h
  · intro h; exact absurd rfl h
  · exact Nat.zero_le _
  · intro c hc
    simp [State.init, OfonoObject.init] at hc
  · intro h
    simp [State.init, OfonoObject.init] at h

theorem good_step (st st1 : State) (ev : Event) (h : Good st)
    (hs : step st ev = some st1) : Good st1 := by
  cases ev with
  | proxy_created =>
    simp only [step] at hs
    split_ifs at hs
    cases hs
    exact good_fn_proxy_created st h
  | modem_changed v i =>
    simp only [step] at hs
    split_ifs at hs
    cases hs
    exact good_update_ready _ h.log (controller_of_kept h.ctl rfl rfl rfl (Nat.le_refl _)) h.vr
  | get_properties_finished id result =>
    simp only [step] at hs
    split_ifs at hs
    cases hs
    refine good_setup_finished _ id result (good_of_quiet ?_ h)
    exact ⟨rfl, rfl, rfl, rfl, rfl, rfl, rfl, rfl, rfl, rfl, Nat.le_refl _,
      fun _ h => Or.inl h⟩
  | get_properties_retry =>
    simp only [step] at hs
    split_ifs at hs
    cases hs
    exact good_get_properties_retry st h
  | property_changed name value =>
    simp only [step] at hs
    split_ifs at hs
    cases hs
    exact good_property_changed st name value h
  | get_contexts_finished id result =>
    simp only [step] at hs
    split_ifs at hs
    cases hs
    refine good_get_contexts_finished _ id result (good_of_quiet ?_ h)
    exact ⟨rfl, rfl, rfl, rfl, rfl, rfl, rfl, rfl, rfl, rfl, Nat.le_refl _,
      fun _ h => Or.inl h⟩
  | context_added path =>
    simp only [step] at hs
    split_ifs at hs
    cases hs
    exact good_add_context st path h
  | context_removed path =>
    simp only [step] at hs
    split_ifs at hs
    cases hs
    exact good_context_removed st path h
  | context_valid_changed path valid =>
    simp only [step] at hs
    have q : ∀ l, Good ({ st with contexts_valid := l } : State) := by
      intro l
      refine good_of_quiet ?_ h
      exact ⟨rfl, rfl, rfl, rfl, rfl, rfl, rfl, rfl, rfl, rfl, Nat.le_refl _,
        fun _ h => Or.inl h⟩
    split_ifs at hs <;> cases hs <;>
      first
      | exact good_context_valid_changed _ path (q _)
      | exact q _
  | connmgr_proxy_created =>
    simp only [step] at hs
    split_ifs at hs
    cases hs
    exact good_update_ready _ h.log (controller_of_kept h.ctl rfl rfl rfl (Nat.le_refl _)) h.vr
  | connctx_added =>
    simp only [step] at hs
    split_ifs at hs
    cases hs
    unfold ofono_connctx_added
    simp only []
    have g1 : Good (if (!st.self.connctx.removed) = true then
        ofono_object_update_ready { st with self := { st.self with
          connctx := { st.self.connctx with removed := true } } }
        else st) := by
      split_ifs
      · exact good_update_ready _ h.log (controller_of_kept h.ctl rfl rfl rfl (Nat.le_refl _)) h.vr
      · exact h
    generalize (if (!st.self.connctx.removed) = true then
        ofono_object_update_ready { st with self := { st.self with
          connctx := { st.self.connctx with removed := true } } }
        else st) = s1 at g1 ⊢
    exact good_update_ready _ g1.log (controller_of_kept g1.ctl rfl rfl rfl (Nat.le_refl _)) g1.vr
  | connctx_removed =>
    simp only [step] at hs
    split_ifs at hs
    cases hs
    exact good_update_ready _ h.log (controller_of_kept h.ctl rfl rfl rfl (Nat.le_refl _)) h.vr
  | activate =>
    simp only [step] at hs
    split_ifs at hs
    cases hs
    exact good_perform_action st _ h
  | deactivate =>
    simp only [step] at hs
    split_ifs at hs
    cases hs
    exact good_perform_action st _ h
  | set_active_finished id error =>
    simp only [step] at hs
    split_ifs at hs with hid
    cases hs
    exact good_pending_call_finished st id error h hid
  | set_active_retry =>
    simp only [step] at hs
    split_ifs at hs with hr
    cases hs
    exact good_set_active_retry st h hr

theorem good_run (evs : List Event) (st st1 : State) (h : Good st)
    (hr : run st evs = some st1) : Good st1 := by
  induction evs generalizing st with
  | nil =>
    simp only [run] at hr
    cases hr
    exact h
  | cons ev rest ih =>
    simp only [run] at hr
    cases hs : step st ev with
    | none => rw [hs] at hr; cases hr
    | some s2 =>
      rw [hs] at hr
      exact ih s2 (good_step st s2 ev h hs) hr

/-- C4: in every state that a connection context reaches from its initial
state by a sequence of events (requests to activate and to deactivate,
events that change its validity, completions of the toggle call with any
outcome, expiries of the retry timer), a pending retry timer (`retry_id` is
not 0) implies that `current_action` is not NONE. -/
theorem connctx_retry_timer_has_current (evs : List Event) (st : State)
    (h : run (State.init OfonoClass.CONNCTX) evs = some st)
    (ht : st.self.connctx.retry_id ≠ 0) :
    st.self.connctx.current_action ≠ CONNCTX_ACTION.NONE :=
  (good_run evs _ st (good_init _) h).ctl.timer ht

theorem connctx_retry_timer_has_current_witness :
    run (State.init OfonoClass.CONNCTX) connctx_busy_events = some connctx_busy_once ∧
    connctx_busy_once.self.connctx.retry_id ≠ 0 ∧
    connctx_busy_once.self.connctx.current_action ≠ CONNCTX_ACTION.NONE :=
  ⟨by decide, by decide,
   connctx_retry_timer_has_current connctx_busy_events connctx_busy_once
     (by decide) (by decide)⟩

/-- C1 (as amended): for every class of remote object and every sequence of
events, once the last event has been processed the published valid flag
implies the ready flag, and the same holds at the instant of every emission
of a signal that is not a property-change signal (the per-property signal,
"property-changed", "interface-changed"). -/
theorem valid_implies_ready (k : OfonoClass) (evs : List Event) (st : State)
    (h : run (State.init k) evs = some st) :
    (st.self.valid = true → st.self.priv.ready = true) ∧
    ∀ e ∈ st.log, ∀ s, e.action = Action.emit s → s.is_property_signal = false →
      e.snapshot.valid = true → e.snapshot.priv.ready = true := by
  have g := good_run evs _ st (good_init k) h
  refine ⟨g.vr, ?_⟩
  intro e he s hs hp hv
  rcases g.log e he with hq | hq
  · simp [Action.is_quiet, hs, hp] at hq
  · exact hq hv

theorem valid_implies_ready_witness :
    run (State.init OfonoClass.CONNMGR) connmgr_modem_lost_events =
      some connmgr_modem_lost ∧
    ((connmgr_modem_lost.self.valid = true →
        connmgr_modem_lost.self.priv.ready = true) ∧
      ∀ e ∈ connmgr_modem_lost.log, ∀ s, e.action = Action.emit s →
        s.is_property_signal = false →
        e.snapshot.valid = true → e.snapshot.priv.ready = true) :=
  ⟨by decide,
   valid_implies_ready OfonoClass.CONNMGR connmgr_modem_lost_events
     connmgr_modem_lost (by decide)⟩

/-- C1 (counterexample): an OfonoConnMgr that is valid with "Attached" true
loses its modem. `ofono_object_update_ready` clears the ready flag,
`ofono_object_reset_properties` then emits "attached-changed" and
"property-changed", and only after that `ofono_object_update_valid` clears
the valid flag: inside these two callbacks the valid flag is set and the
ready flag is not. -/
theorem valid_without_ready_in_property_callback :
    (run (State.init OfonoClass.CONNMGR) connmgr_modem_lost_events).map
      State.valid_not_ready =
    some [Action.emit (Signal.named "attached-changed"),
          Action.emit (Signal.property_changed "Attached" (GVariant.boolean false))] := by
  decide

/-- C2 (evaluation at the failing input): an OfonoSimMgr that is valid with
no SIM card present receives the change of "Present" to true.
`ofono_simmgr_property_present_apply` calls `ofono_object_query_properties`
and nothing recomputes the valid flag: after the event the published valid
flag is still set while a GetProperties call (number 2) is in flight, the
last fetch does not count as succeeded and `fn_is_valid` is false. -/
theorem simmgr_valid_while_fetching :
    (run (State.init OfonoClass.SIMMGR) simmgr_sim_inserted_events).map
      (fun st => (st.self.valid, st.self.priv.ready,
        st.self.priv.get_properties_pending, st.self.priv.get_properties_ok,
        fn_is_valid st.self)) =
    some (true, true, some 2, false, false) := by
  decide

/-! ## Collection trackers: when the valid flag is recomputed -/

theorem connmgr_flag_update_valid (s : State)
    (hk : s.self.klass = OfonoClass.CONNMGR) :
    (ofono_object_update_valid s).self.valid =
      connmgr_valid_spec (ofono_object_update_valid s).self := by
  have f := update_valid_frame s
  rw [f.1]
  unfold fn_is_valid
  rw [f.2.1, hk]
  rfl

theorem klass_add_valid_context (st : State) (p : String) :
    (ofono_connmgr_add_valid_context st p).self.klass = st.self.klass := by
  unfold ofono_connmgr_add_valid_context
  simp only []
  split_ifs <;> rfl

theorem klass_remove_valid_context (st : State) (p : String) :
    (ofono_connmgr_remove_valid_context st p).self.klass = st.self.klass := by
  unfold ofono_connmgr_remove_valid_context
  simp only []
  split_ifs <;> rfl

theorem klass_add_context (st : State) (p : String) :
    (ofono_connmgr_add_context st p).self.klass = st.self.klass := by
  unfold ofono_connmgr_add_context
  simp only []
  split_ifs
  · rw [(update_valid_frame _).2.1, klass_add_valid_context]
  · rw [(update_valid_frame _).2.1]
  · rfl

theorem klass_foldl_add_context (l : List String) (st : State) :
    (l.foldl ofono_connmgr_add_context st).self.klass = st.self.klass := by
  induction l generalizing st with
  | nil => rfl
  | cons a l ih => exact (ih _).trans (klass_add_context st a)

theorem connmgr_flag_add_context (st : State) (path : String)
    (hk : st.self.klass = OfonoClass.CONNMGR)
    (hp : path_is_absolute path = true) :
    (ofono_connmgr_add_context st path).self.valid =
      connmgr_valid_spec (ofono_connmgr_add_context st path).self := by
  unfold ofono_connmgr_add_context
  simp only [hp, if_true]
  split_ifs
  · exact connmgr_flag_update_valid _ ((klass_add_valid_context _ _).trans hk)
  · exact connmgr_flag_update_valid _ hk

theorem connmgr_flag_context_valid_changed (st : State) (path : String)
    (hk : st.self.klass = OfonoClass.CONNMGR) :
    (ofono_connmgr_context_valid_changed st path).self.valid =
      connmgr_valid_spec (ofono_connmgr_context_valid_changed st path).self := by
  unfold ofono_connmgr_context_valid_changed
  apply connmgr_flag_update_valid
  split_ifs
  · exact (klass_add_valid_context _ _).trans hk
  · exact (klass_remove_valid_context _ _).trans hk

theorem pending_add_valid_context (st : State) (p : String) :
    (ofono_connmgr_add_valid_context st p).self.connmgr.get_contexts_pending =
      st.self.connmgr.get_contexts_pending := by
  unfold ofono_connmgr_add_valid_context
  simp only []
  split_ifs <;> rfl

theorem pending_add_context (st : State) (p : String) :
    (ofono_connmgr_add_context st p).self.connmgr.get_contexts_pending =
      st.self.connmgr.get_contexts_pending := by
  unfold ofono_connmgr_add_context
  simp only []
  split_ifs
  · rw [(update_valid_frame _).2.2.1, pending_add_valid_context]
  · rw [(update_valid_frame _).2.2.1]
  · rfl

theorem pending_foldl_add_context (l : List String) (st : State) :
    (l.foldl ofono_connmgr_add_context st).self.connmgr.get_contexts_pending =
      st.self.connmgr.get_contexts_pending := by
  induction l generalizing st with
  | nil => rfl
  | cons a l ih => exact (ih _).trans (pending_add_context st a)

theorem connmgr_flag_get_contexts_finished (st : State) (id : Nat)
    (result : CallResult (List String))
    (hk : st.self.klass = OfonoClass.CONNMGR)
    (ha : st.self.connmgr.get_contexts_pending = some id)
    (hr : ∀ e, result = CallResult.error e →
      ofono_error_is_generic_timeout (some e) = false) :
    (ofono_connmgr_get_contexts_finished st id result).self.valid =
      connmgr_valid_spec (ofono_connmgr_get_contexts_finished st id result).self := by
  unfold ofono_connmgr_get_contexts_finished
  cases result with
  | ok contexts =>
    simp only [ha, decide_True, if_true, pending_foldl_add_context]
    exact connmgr_flag_update_valid _ ((klass_foldl_add_context _ _).trans hk)
  | error e =>
    have := hr e rfl
    simp only [ha, decide_True, if_true, this, Bool.false_eq_true, if_false]
    exact connmgr_flag_update_valid _ hk

theorem connmgr_flag_object_ready_changed (s : State) (ready : Bool)
    (hk : s.self.klass = OfonoClass.CONNMGR)
    (hp : s.self.priv.ready = true → s.self.priv.proxy = true) :
    (ofono_object_ready_changed s ready).self.valid =
      connmgr_valid_spec (ofono_object_ready_changed s ready).self := by
  unfold ofono_object_ready_changed
  by_cases hr : s.self.priv.ready = true
  · rw [if_pos hr, if_pos (hp hr)]
    exact connmgr_flag_update_valid _
      ((untouched_query_properties s true).klass.trans hk)
  · rw [if_neg hr]
    apply connmgr_flag_update_valid
    refine (quiet_cancel_pending_calls _).klass.trans ?_
    refine (untouched_reset_properties _).klass.trans ?_
    exact (untouched_cancel_get_properties _).klass.trans hk

theorem connmgr_flag_update_ready (st : State)
    (hk : st.self.klass = OfonoClass.CONNMGR)
    (hf : st.self.priv.ready ≠ fn_is_ready st.self) :
    (ofono_object_update_ready st).self.valid =
      connmgr_valid_spec (ofono_object_update_ready st).self := by
  unfold ofono_object_update_ready
  have hb : (st.self.priv.ready != fn_is_ready st.self) = true := by
    simpa [bne_iff_ne] using hf
  simp only [hb, if_true]
  unfold fn_ready_changed
  simp only [hk]
  unfold ofono_connmgr_ready_changed
  have hproxy : fn_is_ready st.self = true → st.self.priv.proxy = true := by
    intro h
    unfold fn_is_ready at h
    rw [hk] at h
    simp only [ofono_modem_interface_is_ready, ofono_object_is_ready,
      Bool.and_eq_true] at h
    exact h.2
  apply connmgr_flag_object_ready_changed
  · simp only []
    split_ifs
    · exact (quiet_connmgr_start_get_contexts _).klass
    · exact (quiet_connmgr_cancel_get_contexts _).klass
    · exact (quiet_connmgr_cancel_get_contexts _).klass
  · simp only []
    split_ifs
    · intro h
      exact (quiet_connmgr_start_get_contexts _).proxy.trans (hproxy
        ((quiet_connmgr_start_get_contexts _).ready.symm.trans h))
    · intro h
      exact (quiet_connmgr_cancel_get_contexts _).proxy.trans (hproxy
        ((quiet_connmgr_cancel_get_contexts _).ready.symm.trans h))
    · intro h
      exact (quiet_connmgr_cancel_get_contexts _).proxy.trans (hproxy
        ((quiet_connmgr_cancel_get_contexts _).ready.symm.trans h))

theorem manager_flag_update_valid (ms : ManagerState) :
    (ofono_manager_update_valid ms).self.valid =
      manager_valid_spec (ofono_manager_update_valid ms) := by
  unfold ofono_manager_update_valid manager_valid_spec
  by_cases h : ms.self.valid = (ms.proxy.valid &&
      ms.self.valid_modems.length == ms.self.all_modems.length)
  · have hb : (ms.self.valid != (ms.proxy.valid &&
        ms.self.valid_modems.length == ms.self.all_modems.length)) = false := by
      simp [h]
    simp only [hb, Bool.false_eq_true, if_false]
    exact h
  · have hb : (ms.self.valid != (ms.proxy.valid &&
        ms.self.valid_modems.length == ms.self.all_modems.length)) = true := by
      simpa [bne_iff_ne] using h
    simp only [hb, if_true]
    rfl

theorem manager_flag_get_modems_finished (ms : ManagerState)
    (modems : List String) :
    (ofono_manager_proxy_get_modems_finished ms (CallResult.ok modems)).self.valid =
      manager_valid_spec
        (ofono_manager_proxy_get_modems_finished ms (CallResult.ok modems)) := by
  unfold ofono_manager_proxy_get_modems_finished proxy_emit_valid_changed
    ofono_manager_proxy_valid_changed
  simp only []
  exact manager_flag_update_valid _

/-- C3 (as amended): for the tracker of contexts (an object of class
OfonoConnMgr) the published valid flag equals `connmgr_valid_spec` (last
enumeration succeeded, no enumeration in flight, as many known children as
children in the valid subset, underlying object valid) after the completion
of the attached enumeration (success, or an error other than a generic
timeout), after a child was added under an absolute path, after a change of
validity of a child, and after a flip of the ready flag; for the tracker of
modems (OfonoManager) the published valid flag equals `manager_valid_spec`
(proxy valid, as many known children as children in the valid subset) after
a successful enumeration, after a change of validity of a child and after a
change of validity of the proxy. -/
theorem tracker_flag_recomputed (st : State) (ms : ManagerState)
    (hk : st.self.klass = OfonoClass.CONNMGR) :
    (∀ id result, st.self.connmgr.get_contexts_pending = some id →
      (∀ e, result = CallResult.error e →
        ofono_error_is_generic_timeout (some e) = false) →
      (ofono_connmgr_get_contexts_finished st id result).self.valid =
        connmgr_valid_spec (ofono_connmgr_get_contexts_finished st id result).self) ∧
    (∀ path, path_is_absolute path = true →
      (ofono_connmgr_context_added st path).self.valid =
        connmgr_valid_spec (ofono_connmgr_context_added st path).self) ∧
    (∀ path,
      (ofono_connmgr_context_valid_changed st path).self.valid =
        connmgr_valid_spec (ofono_connmgr_context_valid_changed st path).self) ∧
    (st.self.priv.ready ≠ fn_is_ready st.self →
      (ofono_object_update_ready st).self.valid =
        connmgr_valid_spec (ofono_object_update_ready st).self) ∧
    (∀ modems,
      (ofono_manager_proxy_get_modems_finished ms (CallResult.ok modems)).self.valid =
        manager_valid_spec
          (ofono_manager_proxy_get_modems_finished ms (CallResult.ok modems))) ∧
    (∀ path,
      (ofono_manager_modem_valid_changed ms path).self.valid =
        manager_valid_spec (ofono_manager_modem_valid_changed ms path)) ∧
    (ofono_manager_proxy_valid_changed ms).self.valid =
      manager_valid_spec (ofono_manager_proxy_valid_changed ms) :=
  ⟨fun id result ha hr => connmgr_flag_get_contexts_finished st id result hk ha hr,
   fun path hp => connmgr_flag_add_context st path hk hp,
   fun path => connmgr_flag_context_valid_changed st path hk,
   fun hf => connmgr_flag_update_ready st hk hf,
   fun modems => manager_flag_get_modems_finished ms modems,
   fun _ => manager_flag_update_valid _,
   manager_flag_update_valid ms⟩

theorem tracker_flag_recomputed_witness :
    connmgr_enumerating.self.klass = OfonoClass.CONNMGR ∧
    (ofono_connmgr_get_contexts_finished connmgr_enumerating 3
        (CallResult.ok ["/a"])).self.valid =
      connmgr_valid_spec (ofono_connmgr_get_contexts_finished connmgr_enumerating 3
        (CallResult.ok ["/a"])).self ∧
    (ofono_connmgr_context_added connmgr_enumerating "/a").self.valid =
      connmgr_valid_spec (ofono_connmgr_context_added connmgr_enumerating "/a").self ∧
    connmgr_modem_gone.self.priv.ready ≠ fn_is_ready connmgr_modem_gone.self ∧
    (ofono_object_update_ready connmgr_modem_gone).self.valid =
      connmgr_valid_spec (ofono_object_update_ready connmgr_modem_gone).self :=
  ⟨by decide,
   (tracker_flag_recomputed connmgr_enumerating manager_enumerating (by decide)).1
     3 (CallResult.ok ["/a"]) (by decide) (by intro e h; cases h),
   (tracker_flag_recomputed connmgr_enumerating manager_enumerating (by decide)).2.1
     "/a" (by decide),
   by decide,
   (tracker_flag_recomputed connmgr_modem_gone manager_enumerating
     (by decide)).2.2.2.1 (by decide)⟩

/-- C3 (counterexample): after the removal of a child that never became
valid the published valid flag of the OfonoConnMgr is false while
`connmgr_valid_spec` is true (`ofono_connmgr_context_removed` does not
recompute the flag); after a not yet valid child was added to a valid
OfonoManager its flag is true while `manager_valid_spec` is false, and after
the removal of a child that never became valid its flag is false while
`manager_valid_spec` is true (`ofono_manager_add_modem` and
`ofono_manager_modem_removed` do not recompute the flag). -/
theorem tracker_flag_stale :
    (run (State.init OfonoClass.CONNMGR) connmgr_child_removed_events).map
        (fun st => (st.self.valid, connmgr_valid_spec st.self)) =
      some (false, true) ∧
    (manager_run ManagerState.init manager_child_added_events).map
        (fun ms => (ms.self.valid, manager_valid_spec ms)) =
      some (true, false) ∧
    (manager_run ManagerState.init manager_child_removed_events).map
        (fun ms => (ms.self.valid, manager_valid_spec ms)) =
      some (false, true) := by
  decide

/-! ## Completion of the bulk property fetch with an error -/

theorem fn_is_valid_needs_ok (o : OfonoObject)
    (h : o.priv.get_properties_ok = false) : fn_is_valid o = false := by
  unfold fn_is_valid
  cases o.klass <;>
    simp [ofono_object_is_valid, ofono_modem_interface_is_valid,
      ofono_connmgr_is_valid, ofono_connctx_is_valid, h]

theorem update_valid_of_invalid (s : State) (h : fn_is_valid s.self = false) :
    ofono_object_update_valid s =
      if s.self.valid then
        g_signal_emit { s with self := { s.self with valid := false } }
          Signal.valid_changed
      else s := by
  unfold ofono_object_update_valid
  rw [h]
  by_cases hv : s.self.valid = true
  · simp only [hv, bne_self_eq_false, Bool.true_bne, Bool.not_false, if_true]
    rw [fn_valid_changed_eq]
    split_ifs
    · simp [ofono_connctx_valid_changed, ofono_object_valid_changed]
    · rfl
  · have hf : s.self.valid = false := by simpa using hv
    simp [hf]


/-- C11: completion of the bulk property fetch `id` with the error `e`.
While the fetch is attached (`get_properties_pending` is `id`): a generic
timeout arms the retry timer with delay 0 and a Busy error arms it with
`OFONO_BUSY_RETRY_DELAY` = 200 ms; in both cases nothing else changes, so the
fetch stays pending and the valid flag stays as it is (false stays false),
and the expiry of the timer issues the same call again. Any other error
clears the pending fetch, records the fetch as failed, arms no timer and
leaves the valid flag false. The completion of a fetch that is not attached
(it was cancelled) changes nothing, whatever its result. -/
theorem setup_finished_error (st : State) (id : Nat) (e : GError) :
    (st.self.priv.get_properties_pending = some id →
      (ofono_error_is_generic_timeout (some e) = true →
        (ofono_object_setup_finished st id (CallResult.error e)).actions =
          st.actions ++ [Action.timeout_add 0] ∧
        (ofono_object_setup_finished st id (CallResult.error e)).self =
          { st.self with priv := { st.self.priv with
            get_properties_retry_id := G_SOURCE_ID } } ∧
        (ofono_object_get_properties_retry
          (ofono_object_setup_finished st id (CallResult.error e))).actions =
          st.actions ++ [Action.timeout_add 0, Action.call_get_properties id]) ∧
      (ofono_error_is_generic_timeout (some e) = false →
        ofono_error_is_busy (some e) = true →
        (ofono_object_setup_finished st id (CallResult.error e)).actions =
          st.actions ++ [Action.timeout_add 200] ∧
        (ofono_object_setup_finished st id (CallResult.error e)).self =
          { st.self with priv := { st.self.priv with
            get_properties_retry_id := G_SOURCE_ID } } ∧
        (ofono_object_get_properties_retry
          (ofono_object_setup_finished st id (CallResult.error e))).actions =
          st.actions ++ [Action.timeout_add 200, Action.call_get_properties id]) ∧
      (ofono_error_is_generic_timeout (some e) = false →
        ofono_error_is_busy (some e) = false →
        (ofono_object_setup_finished st id (CallResult.error e)).self.priv =
          { st.self.priv with get_properties_ok := false,
                              get_properties_pending := none } ∧
        (ofono_object_setup_finished st id (CallResult.error e)).actions =
          st.actions ++
            (if st.self.valid then [Action.emit Signal.valid_changed] else []) ∧
        (ofono_object_setup_finished st id (CallResult.error e)).self.valid =
          false)) ∧
    (st.self.priv.get_properties_pending ≠ some id →
      ∀ result, ofono_object_setup_finished st id result = st) := by
  refine ⟨fun ha => ⟨?_, ?_, ?_⟩, ?_⟩
  · intro ht
    simp [ofono_object_setup_finished, ha, ht, State.actions, State.record,
      ofono_object_get_properties_retry]
  · intro ht hb
    simp [ofono_object_setup_finished, ha, ht, hb, State.actions, State.record,
      ofono_object_get_properties_retry, OFONO_BUSY_RETRY_DELAY]
  · intro ht hb
    have hinv : fn_is_valid ({ st with self := { st.self with priv :=
        { st.self.priv with
          get_properties_ok := false
          get_properties_pending := none } } } : State).self = false :=
      fn_is_valid_needs_ok _ rfl
    have hu := update_valid_of_invalid _ hinv
    simp only [ofono_object_setup_finished, ha, ht, hb, decide_True, if_true,
      Bool.false_eq_true, if_false, hu]
    by_cases hv : st.self.valid = true <;>
      simp [hv, g_signal_emit, State.record, State.actions]
  · intro hd result
    cases result <;> simp [ofono_object_setup_finished, hd]

theorem setup_finished_error_witness :
    connmgr_fetching.self.priv.get_properties_pending = some 2 ∧
    ofono_error_is_generic_timeout (some G_IO_TIMED_OUT) = true ∧
    (ofono_object_setup_finished connmgr_fetching 2
        (CallResult.error G_IO_TIMED_OUT)).actions =
      connmgr_fetching.actions ++ [Action.timeout_add 0] ∧
    ofono_error_is_busy (some OFONO_BUSY) = true ∧
    (ofono_object_setup_finished connmgr_fetching 2
        (CallResult.error OFONO_BUSY)).actions =
      connmgr_fetching.actions ++ [Action.timeout_add 200] ∧
    (ofono_object_setup_finished connmgr_fetching 2
        (CallResult.error OFONO_FAILED)).self.valid = false ∧
    connmgr_fetching.self.priv.get_properties_pending ≠ some 1 ∧
    ofono_object_setup_finished connmgr_fetching 1
        (CallResult.error OFONO_FAILED) = connmgr_fetching :=
  ⟨by decide, by decide,
   ((setup_finished_error connmgr_fetching 2 G_IO_TIMED_OUT).1 (by decide)).1
     (by decide) |>.1,
   by decide,
   ((setup_finished_error connmgr_fetching 2 OFONO_BUSY).1 (by decide)).2.1
     (by decide) (by decide) |>.1,
   ((setup_finished_error connmgr_fetching 2 OFONO_FAILED).1 (by decide)).2.2
     (by decide) (by decide) |>.2.2,
   by decide,
   (setup_finished_error connmgr_fetching 1 OFONO_FAILED).2 (by decide) _⟩

/-! ## Bulk application of properties -/

theorem apply_properties_eq_loop (st : State)
    (dictionary : List (String × GVariant)) :
    ofono_object_apply_properties st dictionary =
      ofono_object_emit_property_change_signals
        (ofono_object_apply_properties_loop st dictionary).1
        (ofono_object_apply_properties_loop st dictionary).2 := rfl

theorem emit_property_change_signals_spec (plist : List OfonoObjectProperty)
    (st : State) :
    (ofono_object_emit_property_change_signals st plist).self = st.self ∧
    (ofono_object_emit_property_change_signals st plist).log =
      st.log ++ property_change_entries st.self plist := by
  induction plist generalizing st with
  | nil => simp [ofono_object_emit_property_change_signals, property_change_entries]
  | cons p l ih =>
    unfold ofono_object_emit_property_change_signals at ih ⊢
    rw [List.foldl_cons]
    cases hv : fn_value st.self p with
    | none =>
      have e1 : fn_value (g_signal_emit st (Signal.named p.signal_name)).self p =
          none := hv
      simp only [e1]
      have := ih (g_signal_emit st (Signal.named p.signal_name))
      refine ⟨this.1, ?_⟩
      rw [this.2]
      simp [property_change_entries, g_signal_emit, State.record, hv]
    | some v =>
      have e1 : fn_value (g_signal_emit st (Signal.named p.signal_name)).self p =
          some v := hv
      simp only [e1]
      have := ih (g_signal_emit (g_signal_emit st (Signal.named p.signal_name))
        (Signal.property_changed p.name v))
      refine ⟨this.1, ?_⟩
      rw [this.2]
      simp [property_change_entries, g_signal_emit, State.record, hv]

theorem apply_property_name (s : State) (n : String) (v : GVariant)
    (p : OfonoObjectProperty) (h : (ofono_object_apply_property s n v).2 = some p) :
    p.name = n := by
  unfold ofono_object_apply_property at h
  cases hf : s.self.klass.all_properties.find? (fun p => p.name == n) with
  | none => simp [hf] at h
  | some q =>
    simp only [hf] at h
    split_ifs at h
    cases h
    have := List.find?_some hf
    simpa using this

theorem apply_properties_loop_order (dictionary : List (String × GVariant))
    (acc : State × List OfonoObjectProperty) :
    ∃ l, (dictionary.foldl
      (fun (acc : State × List OfonoObjectProperty) entry =>
        let s1 := acc.1.cache_replace entry.1 entry.2
        let a := ofono_object_apply_property s1 entry.1 entry.2
        (a.1, match a.2 with
          | some property => acc.2 ++ [property]
          | none => acc.2)) acc).2 = acc.2 ++ l ∧
      (l.map (fun p => p.name)).Sublist (dictionary.map (fun e => e.1)) := by
  induction dictionary generalizing acc with
  | nil => exact ⟨[], by simp, by simp⟩
  | cons entry d ih =>
    rw [List.foldl_cons]
    cases ha : (ofono_object_apply_property
        (acc.1.cache_replace entry.1 entry.2) entry.1 entry.2).2 with
    | none =>
      obtain ⟨l, h1, h2⟩ := ih ((ofono_object_apply_property
        (acc.1.cache_replace entry.1 entry.2) entry.1 entry.2).1, acc.2)
      refine ⟨l, ?_, ?_⟩
      · simp only [ha]
        exact h1
      · simp only [List.map_cons]
        exact List.Sublist.cons _ h2
    | some p =>
      obtain ⟨l, h1, h2⟩ := ih ((ofono_object_apply_property
        (acc.1.cache_replace entry.1 entry.2) entry.1 entry.2).1, acc.2 ++ [p])
      refine ⟨p :: l, ?_, ?_⟩
      · simp only [ha]
        rw [h1]
        simp
      · simp only [List.map_cons]
        rw [apply_property_name _ _ _ p ha]
        exact List.Sublist.cons₂ _ h2

/-- The descriptors of a class that is not OfonoSimMgr do not include the
"Present" descriptor. -/
theorem no_present_descriptor (k : OfonoClass) (hk : k ≠ OfonoClass.SIMMGR) :
    ∀ p ∈ k.all_properties, p.kind ≠ PropertyKind.PRESENT := by
  cases k
  · decide
  · decide
  · decide
  · exact absurd rfl hk
  · decide

theorem plain_descriptor (k : OfonoClass)
    (hk : k = OfonoClass.OBJECT ∨ k = OfonoClass.MODEM_INTERFACE ∨
      k = OfonoClass.CONNMGR) :
    ∀ p ∈ k.all_properties, p.kind ≠ PropertyKind.PRESENT ∧
      p.kind.is_settings = false := by
  rcases hk with h | h | h <;> subst h <;> decide

theorem fn_apply_with_log (reset : State → State) (st : State)
    (p : OfonoObjectProperty) (v : Option GVariant)
    (h : p.kind ≠ PropertyKind.PRESENT) :
    ∃ ext, (fn_apply_with reset st p v).1.log = st.log ++ ext ∧
      (∀ e ∈ ext, e.action = Action.emit Signal.interface_changed) ∧
      (p.kind.is_settings = false → ext = []) := by
  unfold fn_apply_with
  cases hk : p.kind with
  | BOOL =>
    refine ⟨[], ?_, by simp, fun _ => rfl⟩
    simp only [ofono_object_property_boolean_apply]
    split_ifs <;> simp [State.set_field]
  | STRING =>
    refine ⟨[], ?_, by simp, fun _ => rfl⟩
    simp only [ofono_object_property_string_apply]
    split_ifs <;> simp [State.set_field]
  | ENUM map =>
    refine ⟨[], ?_, by simp, fun _ => rfl⟩
    simp only [ofono_object_property_enum_apply]
    split_ifs <;> simp [State.set_field]
  | SETTINGS ipv6 =>
    simp only [ofono_connctx_property_settings_apply]
    split_ifs <;>
      first
      | exact ⟨_, rfl, by simp, by simp [PropertyKind.is_settings]⟩
      | exact ⟨[], by simp, by simp, fun _ => rfl⟩
  | PRESENT => exact absurd hk h

theorem apply_property_log (s : State) (n : String) (v : GVariant)
    (hk : ∀ p ∈ s.self.klass.all_properties, p.kind ≠ PropertyKind.PRESENT) :
    ∃ ext, (ofono_object_apply_property s n v).1.log = s.log ++ ext ∧
      (∀ e ∈ ext, e.action = Action.emit Signal.interface_changed) ∧
      ((∀ p ∈ s.self.klass.all_properties, p.kind.is_settings = false) →
        ext = []) ∧
      (ofono_object_apply_property s n v).1.self.klass = s.self.klass := by
  have hkl := (untouched_apply_property s n v).klass
  unfold ofono_object_apply_property at hkl ⊢
  cases hf : s.self.klass.all_properties.find? (fun p => p.name == n) with
  | none => exact ⟨[], by simp, by simp, fun _ => rfl, rfl⟩
  | some q =>
    simp only [hf] at hkl ⊢
    have hq : q ∈ s.self.klass.all_properties := List.mem_of_find?_eq_some hf
    obtain ⟨ext, h1, h2, h3⟩ := fn_apply_with_log
      (reset_properties_with (fn_apply_depth 0)) s q (some v) (hk q hq)
    exact ⟨ext, h1, h2, fun hs => h3 (hs q hq), hkl⟩

theorem apply_properties_loop_log (k : OfonoClass)
    (hk : ∀ p ∈ k.all_properties, p.kind ≠ PropertyKind.PRESENT)
    (dictionary : List (String × GVariant))
    (acc : State × List OfonoObjectProperty) (hacc : acc.1.self.klass = k) :
    ∃ ext, (dictionary.foldl
      (fun (acc : State × List OfonoObjectProperty) entry =>
        let s1 := acc.1.cache_replace entry.1 entry.2
        let a := ofono_object_apply_property s1 entry.1 entry.2
        (a.1, match a.2 with
          | some property => acc.2 ++ [property]
          | none => acc.2)) acc).1.log = acc.1.log ++ ext ∧
      (∀ e ∈ ext, e.action = Action.emit Signal.interface_changed) ∧
      ((∀ p ∈ k.all_properties, p.kind.is_settings = false) → ext = []) := by
  induction dictionary generalizing acc with
  | nil => exact ⟨[], by simp, by simp, fun _ => rfl⟩
  | cons entry d ih =>
    rw [List.foldl_cons]
    have hc : (acc.1.cache_replace entry.1 entry.2).self.klass = k := hacc
    obtain ⟨e1, a1, a2, a3, a4⟩ := apply_property_log
      (acc.1.cache_replace entry.1 entry.2) entry.1 entry.2 (by rw [hc]; exact hk)
    obtain ⟨e2, b1, b2, b3⟩ := ih
      ((ofono_object_apply_property (acc.1.cache_replace entry.1 entry.2)
          entry.1 entry.2).1,
        match (ofono_object_apply_property (acc.1.cache_replace entry.1 entry.2)
          entry.1 entry.2).2 with
        | some property => acc.2 ++ [property]
        | none => acc.2) (a4.trans hc)
    refine ⟨e1 ++ e2, ?_, ?_, ?_⟩
    · rw [b1, a1]
      simp [State.cache_replace]
    · intro e he
      rcases List.mem_append.mp he with h | h
      · exact a2 e h
      · exact b2 e h
    · intro hs
      rw [a3 (by rw [hc]; exact hs), b3 hs]
      rfl

theorem new_actions_append (a r : State) (ext : List Entry)
    (h : r.log = a.log ++ ext) :
    State.new_actions a r = ext.map (fun e => e.action) := by
  simp [State.new_actions, h]

theorem property_change_entries_generic (o : OfonoObject)
    (plist : List OfonoObjectProperty) :
    ((property_change_entries o plist).map (fun e => e.action)).filter
      Action.is_property_changed = property_changed_events o plist := by
  induction plist with
  | nil => rfl
  | cons p l ih =>
    simp only [property_change_entries, List.flatMap_cons, List.map_append,
      List.filter_append, property_changed_events, List.filterMap_cons] at ih ⊢
    cases hv : fn_value o p with
    | none => simpa [Action.is_property_changed, hv] using ih
    | some v => simpa [Action.is_property_changed, hv] using ih

theorem property_changed_events_length (o : OfonoObject)
    (plist : List OfonoObjectProperty)
    (h : ∀ p ∈ plist, p.kind.is_settings = false) :
    (property_changed_events o plist).length = plist.length := by
  induction plist with
  | nil => rfl
  | cons p l ih =>
    have hp := h p (List.mem_cons_self _ _)
    have hl := ih (fun q hq => h q (List.mem_cons_of_mem _ hq))
    have hv : ∃ v, fn_value o p = some v := by
      unfold fn_value
      cases hk : p.kind <;> simp [hk, PropertyKind.is_settings] at hp ⊢
    obtain ⟨v, hv⟩ := hv
    simp only [property_changed_events, List.filterMap_cons, hv, Option.map_some',
      List.length_cons] at hl ⊢
    rw [hl]

/-- C12 (as amended): for every object and every bulk-fetch dictionary, the
dispatch that follows the application of the entries emits exactly one
generic "property-changed" event for each changed entry whose descriptor
gives a value, in the order of the entries and with the value the object
holds after the last entry, and none for the other changed entries; for an
object that is not an OfonoSimMgr these are all the generic events of the
bulk fetch; and when no changed entry is "Settings" or "IPv6.Settings" they
are as many as the changed entries. -/
theorem bulk_apply_generic_events (st : State)
    (dictionary : List (String × GVariant)) :
    (State.new_actions (ofono_object_apply_properties_loop st dictionary).1
        (ofono_object_apply_properties st dictionary)).filter
        Action.is_property_changed =
      property_changed_events
        (ofono_object_apply_properties_loop st dictionary).1.self
        (ofono_object_apply_properties_loop st dictionary).2 ∧
    (st.self.klass ≠ OfonoClass.SIMMGR →
      (State.new_actions st (ofono_object_apply_properties st dictionary)).filter
          Action.is_property_changed =
        property_changed_events
          (ofono_object_apply_properties_loop st dictionary).1.self
          (ofono_object_apply_properties_loop st dictionary).2) ∧
    ((∀ p ∈ (ofono_object_apply_properties_loop st dictionary).2,
        p.kind.is_settings = false) →
      (property_changed_events
        (ofono_object_apply_properties_loop st dictionary).1.self
        (ofono_object_apply_properties_loop st dictionary).2).length =
      (ofono_object_apply_properties_loop st dictionary).2.length) := by
  have hs := emit_property_change_signals_spec
    (ofono_object_apply_properties_loop st dictionary).2
    (ofono_object_apply_properties_loop st dictionary).1
  rw [← apply_properties_eq_loop] at hs
  refine ⟨?_, ?_, property_changed_events_length _ _⟩
  · rw [new_actions_append _ _ _ hs.2]
    exact property_change_entries_generic _ _
  · intro hk
    obtain ⟨ext, h1, h2, _⟩ := apply_properties_loop_log st.self.klass
      (no_present_descriptor _ hk) dictionary (st, []) rfl
    have h1 : (ofono_object_apply_properties_loop st dictionary).1.log =
        st.log ++ ext := h1
    rw [new_actions_append st _ (ext ++ property_change_entries
      (ofono_object_apply_properties_loop st dictionary).1.self
      (ofono_object_apply_properties_loop st dictionary).2)
      (by rw [hs.2, h1, List.append_assoc])]
    rw [List.map_append, List.filter_append, property_change_entries_generic]
    have : (ext.map (fun e => e.action)).filter Action.is_property_changed = [] := by
      rw [List.filter_eq_nil_iff]
      intro a ha
      obtain ⟨e, he, rfl⟩ := List.mem_map.mp ha
      rw [h2 e he]
      simp [Action.is_property_changed]
    rw [this, List.nil_append]

theorem bulk_apply_generic_events_witness :
    connmgr_fetching.self.klass ≠ OfonoClass.SIMMGR ∧
    (State.new_actions connmgr_fetching
        (ofono_object_apply_properties connmgr_fetching
          [("Attached", GVariant.boolean true),
           ("Powered", GVariant.boolean true)])).filter
        Action.is_property_changed =
      property_changed_events
        (ofono_object_apply_properties_loop connmgr_fetching
          [("Attached", GVariant.boolean true),
           ("Powered", GVariant.boolean true)]).1.self
        (ofono_object_apply_properties_loop connmgr_fetching
          [("Attached", GVariant.boolean true),
           ("Powered", GVariant.boolean true)]).2 :=
  ⟨by decide,
   (bulk_apply_generic_events connmgr_fetching
     [("Attached", GVariant.boolean true),
      ("Powered", GVariant.boolean true)]).2.1 (by decide)⟩

/-- C12 (counterexample): a connection context receives a bulk fetch whose
only entry, "Settings" with an interface name, is reported changed (one
changed entry); the dispatch emits "interface-changed" and
"settings-changed" and no generic "property-changed" event, because
`ofono_connctx_property_settings_value` returns NULL for settings that are
not empty. -/
theorem bulk_settings_without_property_changed :
    ((ofono_object_apply_properties_loop connctx_fetching
        connctx_settings_dictionary).2.length,
     State.new_actions connctx_fetching
       (ofono_object_apply_properties connctx_fetching
         connctx_settings_dictionary)) =
    (1, [Action.emit Signal.interface_changed,
         Action.emit (Signal.named "settings-changed")]) := by
  decide

theorem property_change_entries_snapshot (o : OfonoObject)
    (plist : List OfonoObjectProperty) :
    ∀ e ∈ property_change_entries o plist, e.snapshot = o := by
  intro e he
  unfold property_change_entries at he
  obtain ⟨p, _, hp⟩ := List.mem_flatMap.mp he
  cases hv : fn_value o p with
  | none =>
    simp only [hv, List.mem_singleton] at hp
    rw [hp]
  | some v =>
    simp only [hv, List.mem_cons, List.mem_singleton, List.not_mem_nil,
      or_false] at hp
    rcases hp with hp | hp <;> rw [hp]

/-- C13 (as amended): while a bulk-fetch dictionary is applied to an object
of any type, the per-property and the generic "property-changed" events of
its changed entries are emitted only after every entry has been applied, in
the order in which the changed entries appeared, and each of these events is
emitted with the object as it is after the last entry, so a listener
invoked during the dispatch sees all new values. For an OfonoObject, an
OfonoModemInterface and an OfonoConnMgr nothing at all is logged before the
dispatch; for a connection context the only events before the dispatch are
"interface-changed". -/
theorem bulk_apply_dispatch_after_loop (st : State)
    (dictionary : List (String × GVariant)) :
    (ofono_object_apply_properties st dictionary).self =
      (ofono_object_apply_properties_loop st dictionary).1.self ∧
    (ofono_object_apply_properties st dictionary).log =
      (ofono_object_apply_properties_loop st dictionary).1.log ++
        property_change_entries
          (ofono_object_apply_properties_loop st dictionary).1.self
          (ofono_object_apply_properties_loop st dictionary).2 ∧
    (((ofono_object_apply_properties_loop st dictionary).2.map
        (fun p => p.name)).Sublist (dictionary.map (fun e => e.1))) ∧
    (∀ e ∈ property_change_entries
        (ofono_object_apply_properties_loop st dictionary).1.self
        (ofono_object_apply_properties_loop st dictionary).2,
      e.snapshot = (ofono_object_apply_properties st dictionary).self) ∧
    (st.self.klass = OfonoClass.OBJECT ∨
        st.self.klass = OfonoClass.MODEM_INTERFACE ∨
        st.self.klass = OfonoClass.CONNMGR →
      (ofono_object_apply_properties_loop st dictionary).1.log = st.log) ∧
    (st.self.klass ≠ OfonoClass.SIMMGR →
      ∃ ext, (ofono_object_apply_properties_loop st dictionary).1.log =
          st.log ++ ext ∧
        ∀ e ∈ ext, e.action = Action.emit Signal.interface_changed) := by
  have hs := emit_property_change_signals_spec
    (ofono_object_apply_properties_loop st dictionary).2
    (ofono_object_apply_properties_loop st dictionary).1
  rw [← apply_properties_eq_loop] at hs
  refine ⟨hs.1, hs.2, ?_, ?_, ?_, ?_⟩
  · obtain ⟨l, h1, h2⟩ := apply_properties_loop_order dictionary (st, [])
    have h1 : (ofono_object_apply_properties_loop st dictionary).2 = [] ++ l := h1
    rw [h1, List.nil_append]
    exact h2
  · intro e he
    rw [hs.1]
    exact property_change_entries_snapshot _ _ e he
  · intro hk
    obtain ⟨ext, h1, _, h3⟩ := apply_properties_loop_log st.self.klass
      (fun p hp => (plain_descriptor _ hk p hp).1) dictionary (st, []) rfl
    have h1 : (ofono_object_apply_properties_loop st dictionary).1.log =
        st.log ++ ext := h1
    rw [h1, h3 (fun p hp => (plain_descriptor _ hk p hp).2), List.append_nil]
  · intro hk
    obtain ⟨ext, h1, h2, _⟩ := apply_properties_loop_log st.self.klass
      (no_present_descriptor _ hk) dictionary (st, []) rfl
    exact ⟨ext, h1, h2⟩

theorem bulk_apply_dispatch_after_loop_witness :
    (connmgr_fetching.self.klass = OfonoClass.OBJECT ∨
      connmgr_fetching.self.klass = OfonoClass.MODEM_INTERFACE ∨
      connmgr_fetching.self.klass = OfonoClass.CONNMGR) ∧
    (ofono_object_apply_properties_loop connmgr_fetching
      [("Attached", GVariant.boolean true),
       ("Powered", GVariant.boolean true)]).1.log = connmgr_fetching.log :=
  ⟨by decide,
   (bulk_apply_dispatch_after_loop connmgr_fetching
     [("Attached", GVariant.boolean true),
      ("Powered", GVariant.boolean true)]).2.2.2.2.1 (by decide)⟩

/-- C13 (counterexample): a connection context receives a bulk fetch with
the entries "Settings" (with an interface name) and "Active" = true, in this
order. `ofono_connctx_property_settings_apply` emits "interface-changed"
while the first entry is applied: its listener runs before "Active" has
been applied and still sees the old value FALSE; the three events of the
dispatch see TRUE. -/
theorem bulk_interface_changed_before_last_entry :
    ((ofono_object_apply_properties connctx_fetching
        connctx_settings_active_dictionary).log.drop
        connctx_fetching.log.length).map
      (fun e => (e.action, e.snapshot.get_bool "Active")) =
    [(Action.emit Signal.interface_changed, false),
     (Action.emit (Signal.named "settings-changed"), true),
     (Action.emit (Signal.named "active-changed"), true),
     (Action.emit (Signal.property_changed "Active" (GVariant.boolean true)),
       true)] := by
  decide

/-! ## Resetting the properties -/

theorem slots_nodup (k : OfonoClass) :
    (k.all_properties.map OfonoObjectProperty.slot).Nodup := by
  cases k <;> decide

theorem slot_ne_of_ne (k : OfonoClass) (p q : OfonoObjectProperty)
    (hp : p ∈ k.all_properties) (hq : q ∈ k.all_properties) (h : q ≠ p) :
    q.slot ≠ p.slot := by
  intro hs
  exact h (List.inj_on_of_nodup_map (slots_nodup k) hq hp hs)

theorem lookup_filter_ne (l : List (String × Field)) (n m : String) (h : m ≠ n) :
    (l.filter (fun e => e.1 != n)).lookup m = l.lookup m := by
  induction l with
  | nil => rfl
  | cons e l ih =>
    obtain ⟨a, b⟩ := e
    by_cases ha : a = n
    · subst ha
      have hb : (m == a) = false := by simpa using h
      rw [List.filter_cons_of_neg (by simp), List.lookup_cons, hb]
      exact ih
    · rw [List.filter_cons_of_pos (by simpa using ha), List.lookup_cons,
        List.lookup_cons, ih]

theorem get_field_set_field (s : State) (n m : String) (f : Field) :
    (s.set_field n f).self.get_field m =
      if m = n then some f else s.self.get_field m := by
  unfold State.set_field OfonoObject.get_field
  by_cases h : m = n
  · subst h
    simp [List.lookup]
  · have hb : (m == n) = false := by simpa using h
    simp only [h, if_false, List.lookup_cons, hb]
    exact lookup_filter_ne _ _ _ h

theorem at_default_set_field_other (s : State) (n : String) (f : Field)
    (q : OfonoObjectProperty) (h : q.slot ≠ Sum.inl n) :
    q.at_default (s.set_field n f).self = q.at_default s.self := by
  unfold OfonoObjectProperty.at_default
  unfold OfonoObjectProperty.slot at h
  cases hk : q.kind <;> simp only [hk] at h ⊢ <;>
    first
    | rfl
    | (have hn : ¬ q.name = n := fun e => h (by rw [e])
       simp only [OfonoObject.get_bool, OfonoObject.get_str, OfonoObject.get_int,
         get_field_set_field, hn, if_false])

/-- The shape of `fn_apply` with a NULL value for a descriptor of a plain
typed field. -/
theorem fn_apply_with_none_field (reset : State → State) (s : State)
    (p : OfonoObjectProperty)
    (h : p.kind ≠ PropertyKind.PRESENT ∧ p.kind.is_settings = false) :
    ∃ f0, fn_apply_with reset s p none =
        (if p.at_default s.self then (s, false)
         else (s.set_field p.name f0, true)) ∧
      p.at_default (s.set_field p.name f0).self = true := by
  unfold fn_apply_with OfonoObjectProperty.at_default
  cases hk : p.kind with
  | BOOL =>
    refine ⟨Field.bool false, ?_, ?_⟩
    · simp only [ofono_object_property_boolean_apply]
      cases s.self.get_bool p.name <;> simp
    · simp [OfonoObject.get_bool, get_field_set_field]
  | STRING =>
    refine ⟨Field.str none, ?_, ?_⟩
    · simp only [ofono_object_property_string_apply, Option.map_none']
      cases s.self.get_str p.name <;> simp
    · simp [OfonoObject.get_str, get_field_set_field]
  | ENUM map =>
    refine ⟨Field.int (-1), ?_, ?_⟩
    · simp only [ofono_object_property_enum_apply]
      by_cases hi : s.self.get_int p.name = -1 <;> simp [hi]
    · simp [OfonoObject.get_int, get_field_set_field]
  | SETTINGS ipv6 => simp [hk, PropertyKind.is_settings] at h
  | PRESENT => exact absurd hk h.1

/-- The shape of `fn_apply` with a NULL value for the "Present" descriptor. -/
theorem fn_apply_with_none_present (reset : State → State) (s : State)
    (p : OfonoObjectProperty) (h : p.kind = PropertyKind.PRESENT) :
    fn_apply_with reset s p none =
        (if p.at_default s.self then (s, false)
         else (reset (s.set_field p.name (Field.bool false)), true)) ∧
      p.at_default (s.set_field p.name (Field.bool false)).self = true := by
  unfold fn_apply_with OfonoObjectProperty.at_default
  simp only [h]
  refine ⟨?_, ?_⟩
  · simp only [ofono_simmgr_property_present_apply,
      ofono_object_property_boolean_apply]
    cases hb : s.self.get_bool p.name
    · simp
    · simp [OfonoObject.get_bool, get_field_set_field]
  · simp [OfonoObject.get_bool, get_field_set_field]

theorem settings_init_eq (x : OfonoConnCtxSettingsPriv) :
    (x == ofono_connctx_settings_init) =
      !((x.ifname != none) || (x.method != OFONO_CONNCTX_METHOD_UNKNOWN) ||
        (x.address != none) || (x.netmask != none) || (x.gateway != none) ||
        (x.prefix_length != 0) || (x.dns != none)) := by
  obtain ⟨m, pl, i, a, n, g, d⟩ := x
  rw [Bool.eq_iff_iff]
  simp only [beq_iff_eq, ofono_connctx_settings_init,
    OfonoConnCtxSettingsPriv.mk.injEq, Bool.not_eq_true', Bool.or_eq_false_iff,
    bne_eq_false_iff_eq]
  tauto

/-- The shape of `fn_apply` with a NULL value for a settings descriptor. -/
theorem fn_apply_with_none_settings (reset : State → State) (s : State)
    (p : OfonoObjectProperty) (ipv6 : Bool)
    (h : p.kind = PropertyKind.SETTINGS ipv6) :
    (fn_apply_with reset s p none).1.self.priv = s.self.priv ∧
    (fn_apply_with reset s p none).1.self.klass = s.self.klass ∧
    (fn_apply_with reset s p none).1.self.fields = s.self.fields ∧
    (∃ ext, (fn_apply_with reset s p none).1.log = s.log ++ ext) ∧
    p.at_default (fn_apply_with reset s p none).1.self = true ∧
    (∀ q : OfonoObjectProperty, q.kind = PropertyKind.SETTINGS (!ipv6) →
      q.at_default (fn_apply_with reset s p none).1.self = q.at_default s.self) ∧
    (fn_apply_with reset s p none).2 = !p.at_default s.self := by
  unfold fn_apply_with
  simp only [h, ofono_connctx_property_settings_apply,
    ofono_connctx_settings_decode, OfonoObjectProperty.at_default]
  cases ipv6 <;> simp only [Bool.false_eq_true, if_false, if_true, Bool.not_false,
    Bool.not_true] <;>
  · split_ifs
    · refine ⟨rfl, rfl, rfl, ⟨_, rfl⟩, by simp [g_signal_emit, State.record], ?_, ?_⟩
      · intro q hq
        simp [hq, g_signal_emit, State.record]
      · rw [settings_init_eq]
        simp [ofono_connctx_settings_init, Bool.or_assoc]
    · refine ⟨rfl, rfl, rfl, ⟨[], by simp⟩, by simp, ?_, ?_⟩
      · intro q hq
        simp [hq]
      · rw [settings_init_eq]
        simp [ofono_connctx_settings_init, Bool.or_assoc]

theorem kind_cases (p : OfonoObjectProperty) :
    (p.kind ≠ PropertyKind.PRESENT ∧ p.kind.is_settings = false) ∨
    p.kind = PropertyKind.PRESENT ∨ ∃ ipv6, p.kind = PropertyKind.SETTINGS ipv6 := by
  cases h : p.kind <;> simp [PropertyKind.is_settings]

theorem slot_of_field (p : OfonoObjectProperty) (h : p.kind.is_settings = false) :
    p.slot = Sum.inl p.name := by
  unfold OfonoObjectProperty.slot
  cases hk : p.kind <;> simp [hk, PropertyKind.is_settings] at h ⊢

theorem at_default_congr_fields (q : OfonoObjectProperty) (o o2 : OfonoObject)
    (h : q.kind.is_settings = false) (hf : o2.fields = o.fields) :
    q.at_default o2 = q.at_default o := by
  unfold OfonoObjectProperty.at_default
  cases hk : q.kind <;> simp [hk, PropertyKind.is_settings] at h ⊢ <;>
    simp [OfonoObject.get_bool, OfonoObject.get_str, OfonoObject.get_int,
      OfonoObject.get_field, hf]

/-- Setting the field of `p` to its default leaves every other descriptor of
the class where it is and puts `p` at its default. -/
theorem at_default_set_field (k : OfonoClass) (s : State)
    (p q : OfonoObjectProperty) (f0 : Field)
    (hp : p ∈ k.all_properties) (hq : q ∈ k.all_properties)
    (hs : p.kind.is_settings = false)
    (hd : p.at_default (s.set_field p.name f0).self = true) :
    q.at_default (s.set_field p.name f0).self =
      if q = p then true else q.at_default s.self := by
  by_cases h : q = p
  · subst h
    simp [hd]
  · simp only [h, if_false]
    apply at_default_set_field_other
    rw [← slot_of_field p hs]
    exact slot_ne_of_ne k p q hp hq h

theorem fired_refl_false (s : State) (q : OfonoObjectProperty)
    (h1 : q.at_default s.self = false) (h2 : q.at_default s.self = true) :
    Fired s.log s q := by
  rw [h1] at h2
  cases h2

theorem reset_spec_fn_apply_with (k : OfonoClass) (reset : State → State)
    (hr : ResetPost k reset) : ResetSpec k (fn_apply_with reset) := by
  refine ⟨?_, ?_, ?_, ?_, ?_, ?_, ?_⟩
  · intro s p
    rcases kind_cases p with h | h | ⟨ipv6, h⟩
    · obtain ⟨f0, he, _⟩ := fn_apply_with_none_field reset s p h
      rw [he]
      split_ifs <;> rfl
    · rw [(fn_apply_with_none_present reset s p h).1]
      split_ifs
      · rfl
      · exact hr.priv _
    · exact (fn_apply_with_none_settings reset s p ipv6 h).1
  · intro s p
    rcases kind_cases p with h | h | ⟨ipv6, h⟩
    · obtain ⟨f0, he, _⟩ := fn_apply_with_none_field reset s p h
      rw [he]
      split_ifs <;> rfl
    · rw [(fn_apply_with_none_present reset s p h).1]
      split_ifs
      · rfl
      · exact hr.klass _
    · exact (fn_apply_with_none_settings reset s p ipv6 h).2.1
  · intro s p
    rcases kind_cases p with h | h | ⟨ipv6, h⟩
    · obtain ⟨f0, he, _⟩ := fn_apply_with_none_field reset s p h
      rw [he]
      split_ifs <;> exact ⟨[], by simp [State.set_field]⟩
    · rw [(fn_apply_with_none_present reset s p h).1]
      split_ifs
      · exact ⟨[], by simp⟩
      · exact hr.log _
    · exact (fn_apply_with_none_settings reset s p ipv6 h).2.2.2.1
  · intro s p hk hp
    rcases kind_cases p with h | h | ⟨ipv6, h⟩
    · obtain ⟨f0, he, hd⟩ := fn_apply_with_none_field reset s p h
      rw [he]
      split_ifs with h0
      · exact h0
      · exact hd
    · obtain ⟨he, hd⟩ := fn_apply_with_none_present reset s p h
      rw [he]
      split_ifs with h0
      · exact h0
      · exact hr.keeps (s.set_field p.name (Field.bool false)) p hk hp hd
    · exact (fn_apply_with_none_settings reset s p ipv6 h).2.2.2.2.1
  · intro s p q hk hp hq hqd
    rcases kind_cases p with h | h | ⟨ipv6, h⟩
    · obtain ⟨f0, he, hd⟩ := fn_apply_with_none_field reset s p h
      rw [he]
      split_ifs with h0
      · exact hqd
      · rw [at_default_set_field k s p q f0 hp hq h.2 hd]
        split_ifs
        · rfl
        · exact hqd
    · obtain ⟨he, hd⟩ := fn_apply_with_none_present reset s p h
      rw [he]
      split_ifs with h0
      · exact hqd
      · refine hr.keeps (s.set_field p.name (Field.bool false)) q hk hq ?_
        rw [at_default_set_field k s p q _ hp hq
          (by simp [h, PropertyKind.is_settings]) hd]
        split_ifs
        · rfl
        · exact hqd
    · have hsp := fn_apply_with_none_settings reset s p ipv6 h
      by_cases hqp : q = p
      · rw [hqp]
        exact hsp.2.2.2.2.1
      · rcases kind_cases q with g | g | ⟨i2, g⟩
        · rw [at_default_congr_fields q _ _ g.2 hsp.2.2.1]
          exact hqd
        · rw [at_default_congr_fields q _ _
            (by simp [g, PropertyKind.is_settings]) hsp.2.2.1]
          exact hqd
        · have hne := slot_ne_of_ne k p q hp hq hqp
          have hi : i2 = !ipv6 := by
            unfold OfonoObjectProperty.slot at hne
            simp only [g, h, ne_eq, Sum.inr.injEq] at hne
            cases i2 <;> cases ipv6 <;> simp at hne ⊢
          rw [hsp.2.2.2.2.2.1 q (by rw [g, hi])]
          exact hqd
  · intro s p hpd
    rcases kind_cases p with h | h | ⟨ipv6, h⟩
    · obtain ⟨f0, he, _⟩ := fn_apply_with_none_field reset s p h
      rw [he]
      simp [hpd]
    · rw [(fn_apply_with_none_present reset s p h).1]
      simp [hpd]
    · rw [(fn_apply_with_none_settings reset s p ipv6 h).2.2.2.2.2.2, hpd]
      rfl
  · intro s p q hk hp hq hqp hq0 hq1
    rcases kind_cases p with h | h | ⟨ipv6, h⟩
    · obtain ⟨f0, he, hd⟩ := fn_apply_with_none_field reset s p h
      rw [he] at hq1 ⊢
      split_ifs at hq1 ⊢ with h0
      · exact fired_refl_false s q hq0 hq1
      · rw [at_default_set_field k s p q f0 hp hq h.2 hd] at hq1
        simp only [hqp, if_false] at hq1
        rw [hq0] at hq1
        cases hq1
    · obtain ⟨he, hd⟩ := fn_apply_with_none_present reset s p h
      rw [he] at hq1 ⊢
      split_ifs at hq1 ⊢ with h0
      · exact fired_refl_false s q hq0 hq1
      · have hq2 : q.at_default (s.set_field p.name (Field.bool false)).self =
            false := by
          rw [at_default_set_field k s p q _ hp hq
            (by simp [h, PropertyKind.is_settings]) hd]
          simp only [hqp, if_false]
          exact hq0
        exact hr.others (s.set_field p.name (Field.bool false)) q hk hq hq2 hq1
    · have hsp := fn_apply_with_none_settings reset s p ipv6 h
      exfalso
      have : q.at_default (fn_apply_with reset s p none).1.self =
          q.at_default s.self := by
        rcases kind_cases q with g | g | ⟨i2, g⟩
        · exact at_default_congr_fields q _ _ g.2 hsp.2.2.1
        · exact at_default_congr_fields q _ _
            (by simp [g, PropertyKind.is_settings]) hsp.2.2.1
        · have hne := slot_ne_of_ne k p q hp hq hqp
          have hi : i2 = !ipv6 := by
            unfold OfonoObjectProperty.slot at hne
            simp only [g, h, ne_eq, Sum.inr.injEq] at hne
            cases i2 <;> cases ipv6 <;> simp at hne ⊢
          exact hsp.2.2.2.2.2.1 q (by rw [g, hi])
      rw [this, hq0] at hq1
      cases hq1

theorem fired_mono (log0 : List Entry) (a b : State) (q : OfonoObjectProperty)
    (h : ∃ ext, b.log = a.log ++ ext) (hf : Fired log0 a q) : Fired log0 b q := by
  obtain ⟨ext, he⟩ := h
  obtain ⟨e1, h1, h2, h3⟩ := hf
  refine ⟨e1 ++ ext, by rw [he, h1, List.append_assoc], ?_, ?_⟩ <;>
    rw [List.map_append]
  · exact List.mem_append_left _ h2
  · exact List.mem_append_left _ h3

theorem fired_shift (log0 : List Entry) (a b : State) (q : OfonoObjectProperty)
    (h : ∃ ext, a.log = log0 ++ ext) (hf : Fired a.log b q) : Fired log0 b q := by
  obtain ⟨ext, he⟩ := h
  obtain ⟨e1, h1, h2, h3⟩ := hf
  refine ⟨ext ++ e1, by rw [h1, he, List.append_assoc], ?_, ?_⟩ <;>
    rw [List.map_append]
  · exact List.mem_append_right _ h2
  · exact List.mem_append_right _ h3

theorem reset_fold_frame
    (apply : State → OfonoObjectProperty → Option GVariant → State × Bool)
    (k : OfonoClass) (ha : ResetSpec k apply) (l : List OfonoObjectProperty)
    (acc : State × List OfonoObjectProperty) :
    (l.foldl (fun (acc : State × List OfonoObjectProperty) property =>
        let a := apply acc.1 property none
        (a.1, if a.2 then acc.2 ++ [property] else acc.2)) acc).1.self.priv =
      acc.1.self.priv ∧
    (l.foldl (fun (acc : State × List OfonoObjectProperty) property =>
        let a := apply acc.1 property none
        (a.1, if a.2 then acc.2 ++ [property] else acc.2)) acc).1.self.klass =
      acc.1.self.klass ∧
    (∃ ext, (l.foldl (fun (acc : State × List OfonoObjectProperty) property =>
        let a := apply acc.1 property none
        (a.1, if a.2 then acc.2 ++ [property] else acc.2)) acc).1.log =
      acc.1.log ++ ext) := by
  induction l generalizing acc with
  | nil => exact ⟨rfl, rfl, [], by simp⟩
  | cons p l ih =>
    rw [List.foldl_cons]
    obtain ⟨h1, h2, e2, h3⟩ := ih ((apply acc.1 p none).1,
      if (apply acc.1 p none).2 then acc.2 ++ [p] else acc.2)
    obtain ⟨e1, h4⟩ := ha.log acc.1 p
    refine ⟨h1.trans (ha.priv _ _), h2.trans (ha.klass _ _), e1 ++ e2, ?_⟩
    rw [h3]
    simp only [h4, List.append_assoc]

theorem reset_fold_keeps
    (apply : State → OfonoObjectProperty → Option GVariant → State × Bool)
    (k : OfonoClass) (ha : ResetSpec k apply) (q : OfonoObjectProperty)
    (hq : q ∈ k.all_properties) (l : List OfonoObjectProperty)
    (hl : ∀ p ∈ l, p ∈ k.all_properties)
    (acc : State × List OfonoObjectProperty) (hk : acc.1.self.klass = k)
    (h : q.at_default acc.1.self = true) :
    q.at_default (l.foldl (fun (acc : State × List OfonoObjectProperty) property =>
        let a := apply acc.1 property none
        (a.1, if a.2 then acc.2 ++ [property] else acc.2)) acc).1.self = true := by
  induction l generalizing acc with
  | nil => exact h
  | cons p l ih =>
    rw [List.foldl_cons]
    apply ih (fun x hx => hl x (List.mem_cons_of_mem _ hx))
    · exact (ha.klass _ _).trans hk
    · exact ha.keeps acc.1 p q hk (hl p (List.mem_cons_self _ _)) hq h

theorem reset_fold_sets
    (apply : State → OfonoObjectProperty → Option GVariant → State × Bool)
    (k : OfonoClass) (ha : ResetSpec k apply) (l : List OfonoObjectProperty)
    (hl : ∀ p ∈ l, p ∈ k.all_properties)
    (acc : State × List OfonoObjectProperty) (hk : acc.1.self.klass = k) :
    ∀ q ∈ l, q.at_default
      (l.foldl (fun (acc : State × List OfonoObjectProperty) property =>
        let a := apply acc.1 property none
        (a.1, if a.2 then acc.2 ++ [property] else acc.2)) acc).1.self = true := by
  induction l generalizing acc with
  | nil => intro q hq; cases hq
  | cons p l ih =>
    intro q hq
    rw [List.foldl_cons]
    have hp := hl p (List.mem_cons_self _ _)
    have hl2 : ∀ x ∈ l, x ∈ k.all_properties :=
      fun x hx => hl x (List.mem_cons_of_mem _ hx)
    have hk2 : (apply acc.1 p none).1.self.klass = k := (ha.klass _ _).trans hk
    rcases List.mem_cons.mp hq with h | h
    · subst h
      exact reset_fold_keeps apply k ha q hp l hl2 _ hk2 (ha.sets acc.1 q hk hp)
    · exact ih hl2 _ hk2 q h

theorem reset_fold_fired
    (apply : State → OfonoObjectProperty → Option GVariant → State × Bool)
    (k : OfonoClass) (ha : ResetSpec k apply) (log0 : List Entry)
    (q : OfonoObjectProperty) (hq : q ∈ k.all_properties)
    (l : List OfonoObjectProperty) (hl : ∀ p ∈ l, p ∈ k.all_properties)
    (acc : State × List OfonoObjectProperty) (hk : acc.1.self.klass = k)
    (hlog : ∃ ext, acc.1.log = log0 ++ ext)
    (hj : q.at_default acc.1.self = true → q ∈ acc.2 ∨ Fired log0 acc.1 q) :
    q.at_default (l.foldl (fun (acc : State × List OfonoObjectProperty) property =>
        let a := apply acc.1 property none
        (a.1, if a.2 then acc.2 ++ [property] else acc.2)) acc).1.self = true →
    q ∈ (l.foldl (fun (acc : State × List OfonoObjectProperty) property =>
        let a := apply acc.1 property none
        (a.1, if a.2 then acc.2 ++ [property] else acc.2)) acc).2 ∨
    Fired log0 (l.foldl (fun (acc : State × List OfonoObjectProperty) property =>
        let a := apply acc.1 property none
        (a.1, if a.2 then acc.2 ++ [property] else acc.2)) acc).1 q := by
  induction l generalizing acc with
  | nil => exact hj
  | cons p l ih =>
    rw [List.foldl_cons]
    have hp := hl p (List.mem_cons_self _ _)
    obtain ⟨e0, he0⟩ := hlog
    obtain ⟨e1, he1⟩ := ha.log acc.1 p
    apply ih (fun x hx => hl x (List.mem_cons_of_mem _ hx))
    · exact (ha.klass _ _).trans hk
    · exact ⟨e0 ++ e1, by rw [he1, he0, List.append_assoc]⟩
    · intro h1
      simp only at h1 ⊢
      cases h0 : q.at_default acc.1.self with
      | true =>
        rcases hj h0 with hm | hf
        · left
          split_ifs
          · exact List.mem_append_left _ hm
          · exact hm
        · right
          exact fired_mono log0 acc.1 _ q ⟨e1, he1⟩ hf
      | false =>
        by_cases hqp : q = p
        · left
          subst hqp
          rw [ha.reports acc.1 q h0]
          simp
        · right
          exact fired_shift log0 acc.1 _ q ⟨e0, he0⟩
            (ha.others acc.1 p q hk hp hq hqp h0 h1)

theorem named_mem_property_change_entries (o : OfonoObject)
    (plist : List OfonoObjectProperty) (q : OfonoObjectProperty) (h : q ∈ plist) :
    Action.emit (Signal.named q.signal_name) ∈
      (property_change_entries o plist).map (fun e => e.action) := by
  apply List.mem_map.mpr
  refine ⟨⟨Action.emit (Signal.named q.signal_name), o⟩, ?_, rfl⟩
  unfold property_change_entries
  apply List.mem_flatMap.mpr
  exact ⟨q, h, List.mem_cons_self _ _⟩

theorem fn_value_at_default (o : OfonoObject) (q : OfonoObjectProperty)
    (h : q.at_default o = true) : fn_value o q = some q.default_value := by
  unfold OfonoObjectProperty.at_default at h
  unfold fn_value OfonoObjectProperty.default_value
  cases hk : q.kind with
  | BOOL => simp_all
  | PRESENT => simp_all
  | STRING => simp_all
  | ENUM map => simp_all
  | SETTINGS ipv6 => cases ipv6 <;> simp_all

theorem generic_mem_property_change_entries (o : OfonoObject)
    (plist : List OfonoObjectProperty) (q : OfonoObjectProperty) (h : q ∈ plist)
    (hd : q.at_default o = true) :
    Action.emit (Signal.property_changed q.name q.default_value) ∈
      (property_change_entries o plist).map (fun e => e.action) := by
  apply List.mem_map.mpr
  refine ⟨⟨Action.emit (Signal.property_changed q.name q.default_value), o⟩,
    ?_, rfl⟩
  unfold property_change_entries
  apply List.mem_flatMap.mpr
  refine ⟨q, h, ?_⟩
  rw [fn_value_at_default o q hd]
  simp

theorem reset_post_with (k : OfonoClass)
    (apply : State → OfonoObjectProperty → Option GVariant → State × Bool)
    (ha : ResetSpec k apply) :
    ResetPost k (reset_properties_with apply) ∧
    (∀ s, s.self.klass = k → ∀ q ∈ k.all_properties,
      q.at_default (reset_properties_with apply s).self = true) := by
  have hfr := fun (s : State) => reset_fold_frame apply k ha
    s.self.klass.all_properties (s, [])
  have hem := fun (s : State) => emit_property_change_signals_spec
    (s.self.klass.all_properties.foldl
      (fun (acc : State × List OfonoObjectProperty) property =>
        let a := apply acc.1 property none
        (a.1, if a.2 then acc.2 ++ [property] else acc.2)) (s, [])).2
    (s.self.klass.all_properties.foldl
      (fun (acc : State × List OfonoObjectProperty) property =>
        let a := apply acc.1 property none
        (a.1, if a.2 then acc.2 ++ [property] else acc.2)) (s, [])).1
  refine ⟨⟨?_, ?_, ?_, ?_, ?_⟩, ?_⟩
  · intro s
    unfold reset_properties_with
    rw [(hem s).1]
    exact (hfr s).1
  · intro s
    unfold reset_properties_with
    rw [(hem s).1]
    exact (hfr s).2.1
  · intro s
    unfold reset_properties_with
    obtain ⟨ext, he⟩ := (hfr s).2.2
    rw [(hem s).2, he]
    exact ⟨_, List.append_assoc _ _ _⟩
  · intro s q hk hq hd
    subst hk
    unfold reset_properties_with
    rw [(hem s).1]
    exact reset_fold_keeps apply _ ha q hq _ (fun _ h => h) (s, []) rfl hd
  · intro s q hk hq h0 h1
    subst hk
    unfold reset_properties_with at h1 ⊢
    rw [(hem s).1] at h1
    have := reset_fold_fired apply _ ha s.log q hq s.self.klass.all_properties
      (fun _ h => h) (s, []) rfl ⟨[], by simp⟩
      (fun h => by rw [h0] at h; cases h) h1
    rcases this with hm | hf
    · exact fired_shift s.log _ _ q (hfr s).2.2
        ⟨_, (hem s).2, named_mem_property_change_entries _ _ q hm,
          generic_mem_property_change_entries _ _ q hm h1⟩
    · exact fired_mono s.log _ _ q ⟨_, (hem s).2⟩ hf
  · intro s hk q hq
    subst hk
    unfold reset_properties_with
    rw [(hem s).1]
    exact reset_fold_sets apply _ ha _ (fun _ h => h) (s, []) rfl q hq

theorem reset_post_id (k : OfonoClass) : ResetPost k (fun s => s) :=
  ⟨fun _ => rfl, fun _ => rfl, fun _ => ⟨[], by simp⟩,
   fun _ _ _ _ h => h, fun s q _ _ h0 h1 => fired_refl_false s q h0 h1⟩

/-- The function `ofono_object_reset_properties` on an object of class `k`:
the private data (the cache of raw values and the state of the fetch
included) is kept, every typed field of the class ends at its default, and
the per-property signal of every field that was not at its default is
emitted. -/
theorem reset_properties_spec (k : OfonoClass) :
    ResetPost k ofono_object_reset_properties ∧
    (∀ s, s.self.klass = k → ∀ q ∈ k.all_properties,
      q.at_default (ofono_object_reset_properties s).self = true) :=
  reset_post_with k fn_apply
    (reset_spec_fn_apply_with k _
      (reset_post_with k (fn_apply_depth 0)
        (reset_spec_fn_apply_with k _ (reset_post_id k))).1)

theorem logged_mono (log0 : List Entry) (a b : State) (x : Action)
    (h : ∃ ext, b.log = a.log ++ ext) (hf : Logged log0 a x) : Logged log0 b x := by
  obtain ⟨ext, he⟩ := h
  obtain ⟨e1, h1, h2⟩ := hf
  refine ⟨e1 ++ ext, by rw [he, h1, List.append_assoc], ?_⟩
  rw [List.map_append]
  exact List.mem_append_left _ h2

theorem logged_shift (log0 : List Entry) (a b : State) (x : Action)
    (h : ∃ ext, a.log = log0 ++ ext) (hf : Logged a.log b x) : Logged log0 b x := by
  obtain ⟨ext, he⟩ := h
  obtain ⟨e1, h1, h2⟩ := hf
  refine ⟨ext ++ e1, by rw [h1, he, List.append_assoc], ?_⟩
  rw [List.map_append]
  exact List.mem_append_right _ h2

theorem logged_new_actions (st r : State) (x : Action) (h : Logged st.log r x) :
    x ∈ State.new_actions st r := by
  obtain ⟨ext, h1, h2⟩ := h
  rw [new_actions_append st r ext h1]
  exact h2

theorem logged_extends (log0 : List Entry) (s : State) (x : Action)
    (h : Logged log0 s x) : ∃ ext, s.log = log0 ++ ext :=
  ⟨h.choose, h.choose_spec.1⟩

theorem cancel_get_properties_spec (s : State) :
    (ofono_object_cancel_get_properties s).self =
      { s.self with priv := { s.self.priv with
          get_properties_pending := none, get_properties_retry_id := 0 } } ∧
    (∃ ext, (ofono_object_cancel_get_properties s).log = s.log ++ ext) ∧
    (∀ id, s.self.priv.get_properties_pending = some id →
      Logged s.log (ofono_object_cancel_get_properties s) (Action.cancel id)) ∧
    (s.self.priv.get_properties_retry_id ≠ 0 →
      Logged s.log (ofono_object_cancel_get_properties s)
        (Action.source_remove s.self.priv.get_properties_retry_id)) := by
  unfold ofono_object_cancel_get_properties Logged
  cases hp : s.self.priv.get_properties_pending with
  | none =>
    by_cases hr : s.self.priv.get_properties_retry_id = 0
    · simp [hr, State.record]
      rw [← hp, ← hr]
    · simp [hr, State.record]
      rw [← hp]
  | some id =>
    by_cases hr : s.self.priv.get_properties_retry_id = 0
    · simp [hr, State.record]
    · simp [hr, State.record]

theorem cancel_fold_spec (l : List OfonoObjectPendingCall) (s : State) :
    (l.foldl (fun s c => s.record (Action.cancel c.id)) s).self = s.self ∧
    (l.foldl (fun s c => s.record (Action.cancel c.id)) s).log =
      s.log ++ l.map (fun c => ⟨Action.cancel c.id, s.self⟩) := by
  induction l generalizing s with
  | nil => simp
  | cons c l ih =>
    rw [List.foldl_cons]
    obtain ⟨h1, h2⟩ := ih (s.record (Action.cancel c.id))
    refine ⟨h1, ?_⟩
    rw [h2]
    simp [State.record]

theorem cancel_pending_calls_spec (s : State) :
    (cancel_pending_calls s).self =
      { s.self with priv := { s.self.priv with
          pending_calls :=
            s.self.priv.pending_calls.map (fun c => { c with cancelled := true }) } } ∧
    (∃ ext, (cancel_pending_calls s).log = s.log ++ ext) ∧
    (∀ c ∈ s.self.priv.pending_calls,
      Logged s.log (cancel_pending_calls s) (Action.cancel c.id)) := by
  unfold cancel_pending_calls
  obtain ⟨h1, h2⟩ := cancel_fold_spec s.self.priv.pending_calls s
  refine ⟨?_, ⟨_, h2⟩, ?_⟩
  · simp only [h1]
  · intro c hc
    refine ⟨_, h2, ?_⟩
    simp only [List.map_map, List.mem_map, Function.comp]
    exact ⟨c, hc, rfl⟩

theorem at_default_congr (q : OfonoObjectProperty) (o o2 : OfonoObject)
    (hf : o2.fields = o.fields) (hc : o2.connctx = o.connctx) :
    q.at_default o2 = q.at_default o := by
  unfold OfonoObjectProperty.at_default
  cases q.kind <;>
    simp [OfonoObject.get_bool, OfonoObject.get_str, OfonoObject.get_int,
      OfonoObject.get_field, hf, hc]

/-- The function `ofono_object_ready_changed` for an object whose ready flag
has just been cleared. -/
theorem object_ready_changed_false (s : State) (ready : Bool)
    (hr : s.self.priv.ready = false) :
    (ofono_object_ready_changed s ready).self.priv =
      { s.self.priv with
        get_properties_ok := false
        get_properties_pending := none
        get_properties_retry_id := 0
        pending_calls :=
          s.self.priv.pending_calls.map (fun c => { c with cancelled := true }) } ∧
    (ofono_object_ready_changed s ready).self.valid = false ∧
    (∃ ext, (ofono_object_ready_changed s ready).log = s.log ++ ext) ∧
    (∀ id, s.self.priv.get_properties_pending = some id →
      Logged s.log (ofono_object_ready_changed s ready) (Action.cancel id)) ∧
    (s.self.priv.get_properties_retry_id ≠ 0 →
      Logged s.log (ofono_object_ready_changed s ready)
        (Action.source_remove s.self.priv.get_properties_retry_id)) ∧
    (∀ c ∈ s.self.priv.pending_calls,
      Logged s.log (ofono_object_ready_changed s ready) (Action.cancel c.id)) ∧
    (∀ q ∈ s.self.klass.all_properties,
      q.at_default (ofono_object_ready_changed s ready).self = true ∧
      (q.at_default s.self = false →
        Fired s.log (ofono_object_ready_changed s ready) q)) := by
  obtain ⟨s1, h1⟩ : ∃ s1 : State, s1 = { s with self := { s.self with priv :=
      { s.self.priv with get_properties_ok := false } } } := ⟨_, rfl⟩
  have hdef : ofono_object_ready_changed s ready =
      ofono_object_update_valid (cancel_pending_calls
        (ofono_object_reset_properties (ofono_object_cancel_get_properties s1))) := by
    rw [h1]
    unfold ofono_object_ready_changed
    simp only [hr, Bool.false_eq_true, if_false]
  rw [hdef]
  have e1 : s1.self = { s.self with priv := { s.self.priv with
      get_properties_ok := false } } := by rw [h1]
  have l1 : s1.log = s.log := by rw [h1]
  obtain ⟨c1, ⟨x2, c2⟩, c3, c4⟩ := cancel_get_properties_spec s1
  generalize ofono_object_cancel_get_properties s1 = s2 at c1 c2 c3 c4 ⊢
  obtain ⟨rp, rd⟩ := reset_properties_spec s2.self.klass
  have r1 := rp.priv s2
  have r2 := rp.klass s2
  obtain ⟨x3, r3⟩ := rp.log s2
  have r4 := rd s2 rfl
  have r5 := rp.others s2
  have r6 := rp.keeps s2
  generalize ofono_object_reset_properties s2 = s3 at r1 r2 r3 r4 r5 r6 ⊢
  obtain ⟨p1, ⟨x4, p2⟩, p3⟩ := cancel_pending_calls_spec s3
  generalize cancel_pending_calls s3 = s4 at p1 p2 p3 ⊢
  have hok : s4.self.priv.get_properties_ok = false := by
    rw [p1]
    simp only []
    rw [r1, c1]
    simp only []
    rw [e1]
  rw [update_valid_of_invalid s4 (fn_is_valid_needs_ok _ hok)]
  -- the log of the four steps
  have hx2 : ∃ ext, s2.log = s.log ++ ext := ⟨x2, by rw [c2, l1]⟩
  have hx3 : ∃ ext, s3.log = s.log ++ ext :=
    ⟨x2 ++ x3, by rw [r3, c2, l1, List.append_assoc]⟩
  have hx4 : ∃ ext, s4.log = s.log ++ ext :=
    ⟨x2 ++ x3 ++ x4, by rw [p2, r3, c2, l1]; simp⟩
  have hk2 : s2.self.klass = s.self.klass := by rw [c1, e1]
  have hfin : ∀ (x : Action), Logged s.log s4 x →
      Logged s.log (if s4.self.valid = true then
        g_signal_emit { s4 with self := { s4.self with valid := false } }
          Signal.valid_changed else s4) x := by
    intro x hx
    split_ifs
    · exact logged_mono s.log s4 _ x ⟨_, rfl⟩ hx
    · exact hx
  have hpriv : s4.self.priv = { s.self.priv with
        get_properties_ok := false
        get_properties_pending := none
        get_properties_retry_id := 0
        pending_calls :=
          s.self.priv.pending_calls.map (fun c => { c with cancelled := true }) } := by
    rw [p1]
    simp only []
    rw [r1, c1]
    simp only []
    rw [e1]
  refine ⟨?_, ?_, ?_, ?_, ?_, ?_, ?_⟩
  · split_ifs
    · exact hpriv
    · exact hpriv
  · split_ifs with hv
    · rfl
    · simpa using hv
  · obtain ⟨ext, he⟩ := hx4
    split_ifs
    · refine ⟨ext ++ [⟨Action.emit Signal.valid_changed,
        { s4.self with valid := false }⟩], ?_⟩
      simp [g_signal_emit, State.record, he]
    · exact ⟨ext, he⟩
  · intro id hid
    apply hfin
    apply logged_mono s.log s2 s4 _ ⟨x3 ++ x4, by rw [p2, r3, List.append_assoc]⟩
    have := c3 id (by rw [e1]; exact hid)
    rw [l1] at this
    exact this
  · intro hne
    apply hfin
    apply logged_mono s.log s2 s4 _ ⟨x3 ++ x4, by rw [p2, r3, List.append_assoc]⟩
    have := c4 (by rw [e1]; exact hne)
    rw [l1, e1] at this
    exact this
  · intro c hc
    apply hfin
    apply logged_shift s.log s3 s4 _ hx3
    apply p3
    rw [r1, c1]
    simp only []
    rw [e1]
    exact hc
  · intro q hq
    have hq2 : q ∈ s2.self.klass.all_properties := by rw [hk2]; exact hq
    have hd4 : q.at_default s4.self = true := by
      rw [at_default_congr q s3.self s4.self (by rw [p1]) (by rw [p1])]
      exact r4 q hq2
    refine ⟨?_, ?_⟩
    · split_ifs
      · exact (at_default_congr q s4.self _ rfl rfl).trans hd4
      · exact hd4
    · intro h0
      have hfq : Fired s.log s4 q := by
        apply fired_mono s.log s3 s4 _ ⟨x4, p2⟩
        apply fired_shift s.log s2 s3 _ hx2
        apply r5 q rfl hq2 _ (r4 q hq2)
        rw [at_default_congr q s.self s2.self (by rw [c1, e1]) (by rw [c1, e1])]
        exact h0
      split_ifs
      · exact fired_mono s.log s4 _ q ⟨_, rfl⟩ hfq
      · exact hfq

theorem connmgr_cancel_get_contexts_self (s : State) :
    (ofono_connmgr_cancel_get_contexts s).self.priv = s.self.priv ∧
    (ofono_connmgr_cancel_get_contexts s).self.klass = s.self.klass ∧
    (ofono_connmgr_cancel_get_contexts s).self.fields = s.self.fields ∧
    (ofono_connmgr_cancel_get_contexts s).self.connctx = s.self.connctx ∧
    (ofono_connmgr_cancel_get_contexts s).self.connmgr.get_contexts_pending = none ∧
    (∃ ext, (ofono_connmgr_cancel_get_contexts s).log = s.log ++ ext) := by
  unfold ofono_connmgr_cancel_get_contexts
  cases hp : s.self.connmgr.get_contexts_pending with
  | none => exact ⟨rfl, rfl, rfl, rfl, hp, [], by simp⟩
  | some id => exact ⟨rfl, rfl, rfl, rfl, rfl, _, rfl⟩

/-- A flip of the ready flag from true to false runs
`ofono_object_ready_changed` on a state that differs from the one before
only by the cleared flag, by the bookkeeping of the tracker of contexts and
by entries added to the log. -/
theorem update_ready_to_false (st : State) (hr : st.self.priv.ready = true)
    (hf : fn_is_ready st.self = false) :
    ∃ s0, ofono_object_update_ready st = ofono_object_ready_changed s0 false ∧
      s0.self.priv = { st.self.priv with ready := false } ∧
      s0.self.klass = st.self.klass ∧ s0.self.fields = st.self.fields ∧
      s0.self.connctx = st.self.connctx ∧
      (∃ ext, s0.log = st.log ++ ext) ∧
      (st.self.klass = OfonoClass.CONNMGR →
        s0.self.connmgr.all_contexts = [] ∧ s0.self.connmgr.valid_contexts = [] ∧
        s0.self.connmgr.get_contexts_pending = none) := by
  obtain ⟨s1, h1⟩ : ∃ s1 : State, s1 = { st with self := { st.self with priv :=
      { st.self.priv with ready := false } } } := ⟨_, rfl⟩
  have hu : ofono_object_update_ready st = fn_ready_changed s1 false := by
    rw [h1]
    unfold ofono_object_update_ready
    simp only [hr, hf, Bool.true_bne, Bool.not_false, if_true]
  have e1 : s1.self.priv = { st.self.priv with ready := false } := by rw [h1]
  have e2 : s1.self.klass = st.self.klass := by rw [h1]
  have e3 : s1.self.fields = st.self.fields := by rw [h1]
  have e4 : s1.self.connctx = st.self.connctx := by rw [h1]
  have e5 : s1.log = st.log := by rw [h1]
  rw [hu]
  clear hu h1
  by_cases hk : st.self.klass = OfonoClass.CONNMGR
  · obtain ⟨a1, a2, a3, a4, a5, x, a6⟩ := connmgr_cancel_get_contexts_self s1
    have hc : fn_ready_changed s1 false = ofono_object_ready_changed
        { (ofono_connmgr_cancel_get_contexts s1) with
          self := { (ofono_connmgr_cancel_get_contexts s1).self with
            connmgr := { (ofono_connmgr_cancel_get_contexts s1).self.connmgr with
              all_contexts := []
              valid_contexts := [] } } } false := by
      unfold fn_ready_changed
      rw [e2, hk]
      simp only [ofono_connmgr_ready_changed, Bool.and_false, Bool.false_eq_true,
        if_false, Bool.not_false, if_true]
    rw [hc]
    exact ⟨_, rfl, a1.trans e1, a2.trans e2, a3.trans e3, a4.trans e4,
      ⟨x, by rw [← e5]; exact a6⟩, fun _ => ⟨rfl, rfl, a5⟩⟩
  · have hc : fn_ready_changed s1 false = ofono_object_ready_changed s1 false := by
      unfold fn_ready_changed
      rw [e2]
      cases hc : st.self.klass <;> simp only [hc] at hk ⊢
      exact absurd trivial hk
    rw [hc]
    exact ⟨s1, rfl, e1, e2, e3, e4, ⟨[], by rw [e5]; simp⟩, fun h => absurd h hk⟩

theorem fired_logged (log0 : List Entry) (s : State) (q : OfonoObjectProperty)
    (h : Fired log0 s q) :
    Logged log0 s (Action.emit (Signal.named q.signal_name)) ∧
    Logged log0 s (Action.emit (Signal.property_changed q.name q.default_value)) := by
  obtain ⟨ext, h1, h2, h3⟩ := h
  exact ⟨⟨ext, h1, h2⟩, ⟨ext, h1, h3⟩⟩

/-- C14 (as amended): when the ready flag of an object flips from true to
false, every typed property field of its class ends at its default, but the
cache of raw property values is left as it is: `ofono_object_get_property`
returns for every name what it returned before, and so does
`ofono_object_get_property_keys`. -/
theorem ready_lost_keeps_cache (st : State) (hr : st.self.priv.ready = true)
    (hf : fn_is_ready st.self = false) :
    (∀ name, ofono_object_get_property (ofono_object_update_ready st).self name =
      ofono_object_get_property st.self name) ∧
    ofono_object_get_property_keys (ofono_object_update_ready st).self =
      ofono_object_get_property_keys st.self ∧
    (∀ q ∈ st.self.klass.all_properties,
      q.at_default (ofono_object_update_ready st).self = true) := by
  obtain ⟨s0, h0, hp, hk, _, _, _, _⟩ := update_ready_to_false st hr hf
  have hr0 : s0.self.priv.ready = false := by rw [hp]
  obtain ⟨a1, _, _, _, _, _, a7⟩ := object_ready_changed_false s0 false hr0
  rw [h0]
  have hc : (ofono_object_ready_changed s0 false).self.priv.properties =
      st.self.priv.properties := by rw [a1, hp]
  refine ⟨?_, ?_, ?_⟩
  · intro name
    unfold ofono_object_get_property
    rw [hc]
  · unfold ofono_object_get_property_keys
    rw [hc]
  · intro q hq
    exact (a7 q (by rw [hk]; exact hq)).1

theorem ready_lost_keeps_cache_witness :
    connmgr_modem_gone.self.priv.ready = true ∧
    fn_is_ready connmgr_modem_gone.self = false ∧
    ofono_object_get_property_keys
        (ofono_object_update_ready connmgr_modem_gone).self =
      ofono_object_get_property_keys connmgr_modem_gone.self :=
  ⟨by decide, by decide,
   (ready_lost_keeps_cache connmgr_modem_gone (by decide) (by decide)).2.1⟩

/-- C14 (counterexample): an OfonoConnMgr that had fetched "Attached" = true
loses its modem. After the event the ready flag is false and the typed field
is back at FALSE, but `ofono_object_get_property` still returns the value
true for "Attached" and `ofono_object_get_property_keys` still returns the
key. -/
theorem cache_survives_ready_lost :
    (run (State.init OfonoClass.CONNMGR) connmgr_modem_lost_events).map
      (fun st => (st.self.priv.ready, st.self.get_bool "Attached",
        ofono_object_get_property st.self "Attached",
        ofono_object_get_property_keys st.self)) =
    some (false, false, some (GVariant.boolean true), ["Attached"]) := by
  decide

/-- C15: when the ready flag of an object flips from true to false
(`ofono_object_update_ready` on an object whose flag is set while
`fn_is_ready` is false): no property fetch and no fetch-retry timer stays
attached, and the fetch that was pending is cancelled and the timer that was
armed is removed; every pending call stays in the list with its cancellable
cancelled; every typed property field of the class ends at its default, and
for every field that was not at its default the per-property signal and the
generic "property-changed" with the default value are emitted; afterwards the
valid flag is false. -/
theorem ready_lost_cancels_and_resets (st : State)
    (hr : st.self.priv.ready = true) (hf : fn_is_ready st.self = false) :
    (ofono_object_update_ready st).self.priv.get_properties_pending = none ∧
    (ofono_object_update_ready st).self.priv.get_properties_retry_id = 0 ∧
    (∀ id, st.self.priv.get_properties_pending = some id →
      Action.cancel id ∈ State.new_actions st (ofono_object_update_ready st)) ∧
    (st.self.priv.get_properties_retry_id ≠ 0 →
      Action.source_remove st.self.priv.get_properties_retry_id ∈
        State.new_actions st (ofono_object_update_ready st)) ∧
    (ofono_object_update_ready st).self.priv.pending_calls =
      st.self.priv.pending_calls.map (fun c => { c with cancelled := true }) ∧
    (∀ c ∈ st.self.priv.pending_calls,
      Action.cancel c.id ∈ State.new_actions st (ofono_object_update_ready st)) ∧
    (∀ q ∈ st.self.klass.all_properties,
      q.at_default (ofono_object_update_ready st).self = true ∧
      (q.at_default st.self = false →
        Action.emit (Signal.named q.signal_name) ∈
          State.new_actions st (ofono_object_update_ready st) ∧
        Action.emit (Signal.property_changed q.name q.default_value) ∈
          State.new_actions st (ofono_object_update_ready st))) ∧
    (ofono_object_update_ready st).self.valid = false := by
  obtain ⟨s0, h0, hp, hk, hfl, hcx, hx, _⟩ := update_ready_to_false st hr hf
  have hr0 : s0.self.priv.ready = false := by rw [hp]
  obtain ⟨a1, a2, a3, a4, a5, a6, a7⟩ := object_ready_changed_false s0 false hr0
  rw [h0]
  have hlog : ∀ x, Logged s0.log (ofono_object_ready_changed s0 false) x →
      x ∈ State.new_actions st (ofono_object_ready_changed s0 false) :=
    fun x h => logged_new_actions st _ x (logged_shift st.log s0 _ x hx h)
  refine ⟨by rw [a1], by rw [a1], ?_, ?_, by rw [a1, hp], ?_, ?_, a2⟩
  · intro id hid
    exact hlog _ (a4 id (by rw [hp]; exact hid))
  · intro hne
    have := a5 (by rw [hp]; exact hne)
    rw [hp] at this
    exact hlog _ this
  · intro c hc
    exact hlog _ (a6 c (by rw [hp]; exact hc))
  · intro q hq
    obtain ⟨b1, b2⟩ := a7 q (by rw [hk]; exact hq)
    refine ⟨b1, fun hd => ?_⟩
    have := fired_logged _ _ _
      (b2 (by rw [at_default_congr q st.self s0.self hfl hcx]; exact hd))
    exact ⟨hlog _ this.1, hlog _ this.2⟩

theorem ready_lost_cancels_and_resets_witness :
    connmgr_modem_gone.self.priv.ready = true ∧
    fn_is_ready connmgr_modem_gone.self = false ∧
    (ofono_object_update_ready connmgr_modem_gone).self.priv.get_properties_pending =
      none ∧
    (ofono_object_update_ready connmgr_modem_gone).self.valid = false :=
  ⟨by decide, by decide,
   (ready_lost_cancels_and_resets connmgr_modem_gone (by decide) (by decide)).1,
   (ready_lost_cancels_and_resets connmgr_modem_gone (by decide)
     (by decide)).2.2.2.2.2.2.2⟩

/-! ## The registry of connection contexts -/

theorem registry_inv_init : RegistryInv ConnCtxRegistry.init :=
  ⟨by simp [ConnCtxRegistry.init, ConnCtxRegistry.entries],
   by simp [ConnCtxRegistry.init], by simp [ConnCtxRegistry.init],
   by simp [ConnCtxRegistry.init, ConnCtxRegistry.entries],
   by simp [ConnCtxRegistry.init],
   by simp [ConnCtxRegistry.init], by simp [ConnCtxRegistry.init]⟩

/-- Changing reference counts, keeping them positive, keeps the registry
consistent. -/
theorem registry_inv_map (st : ConnCtxRegistry) (f : ConnCtxInstance → ConnCtxInstance)
    (hid : ∀ i, (f i).id = i.id) (hpath : ∀ i, (f i).path = i.path)
    (hpos : ∀ i ∈ st.live, 0 < (f i).ref_count) (h : RegistryInv st) :
    RegistryInv { st with live := st.live.map f } := by
  have e1 : (st.live.map f).map (fun i => i.id) = st.live.map (fun i => i.id) := by
    rw [List.map_map]
    exact List.map_congr_left (fun i _ => hid i)
  have e2 : (st.live.map f).map (fun i => i.path) = st.live.map (fun i => i.path) := by
    rw [List.map_map]
    exact List.map_congr_left (fun i _ => hpath i)
  refine ⟨?_, by rw [e1]; exact h.ids, by rw [e2]; exact h.paths, h.keys, ?_, ?_, ?_⟩
  · intro p id
    rw [show ({ st with live := st.live.map f } : ConnCtxRegistry).entries =
      st.entries from rfl, h.exact p id]
    constructor
    · rintro ⟨i, hi, h1, h2⟩
      exact ⟨f i, List.mem_map_of_mem f hi, (hid i).trans h1, (hpath i).trans h2⟩
    · rintro ⟨j, hj, h1, h2⟩
      obtain ⟨i, hi, rfl⟩ := List.mem_map.mp hj
      exact ⟨i, hi, (hid i).symm.trans h1, (hpath i).symm.trans h2⟩
  · rw [h.released]
    simp
  · intro j hj
    obtain ⟨i, hi, rfl⟩ := List.mem_map.mp hj
    rw [hid i]
    exact h.fresh i hi
  · intro j hj
    obtain ⟨i, hi, rfl⟩ := List.mem_map.mp hj
    exact hpos i hi

theorem registry_inv_ref (st : ConnCtxRegistry) (id : Nat) (h : RegistryInv st) :
    RegistryInv (g_object_ref st id) := by
  unfold g_object_ref
  apply registry_inv_map st _ _ _ _ h
  · intro i; split_ifs <;> rfl
  · intro i; split_ifs <;> rfl
  · intro i hi
    split_ifs
    · exact Nat.succ_pos _
    · exact h.referenced i hi

theorem lookup_none_not_key (l : List (String × Nat)) (p : String)
    (h : l.lookup p = none) : p ∉ l.map (fun e => e.1) := by
  induction l with
  | nil => simp
  | cons e l ih =>
    obtain ⟨a, b⟩ := e
    rw [List.lookup_cons] at h
    by_cases hp : p = a
    · subst hp
      simp at h
    · have hb : (p == a) = false := by simpa using hp
      rw [hb] at h
      simp only [List.map_cons, List.mem_cons, not_or]
      exact ⟨hp, ih h⟩

theorem lookup_some_mem (l : List (String × Nat)) (p : String) (id : Nat)
    (h : l.lookup p = some id) : (p, id) ∈ l := by
  induction l with
  | nil => simp at h
  | cons e l ih =>
    obtain ⟨a, b⟩ := e
    rw [List.lookup_cons] at h
    by_cases hp : p = a
    · subst hp
      simp at h
      subst h
      exact List.mem_cons_self _ _
    · have hb : (p == a) = false := by simpa using hp
      rw [hb] at h
      exact List.mem_cons_of_mem _ (ih h)

theorem registry_lookup (st : ConnCtxRegistry) (p : String) :
    (match st.ofono_connctx_table with
      | some table => table.lookup p
      | none => none) = st.entries.lookup p := by
  unfold ConnCtxRegistry.entries
  cases st.ofono_connctx_table <;> rfl

/-- The function `ofono_connctx_new` on a consistent registry: a path that
is registered gives the registered instance and creates nothing; any other
path creates a new instance and registers it. -/
theorem connctx_new_spec (st : ConnCtxRegistry) (p : String) (h : RegistryInv st) :
    (∀ i ∈ st.live, i.path = p →
      (ofono_connctx_new st (some p)).2 = some i.id ∧
      (ofono_connctx_new st (some p)).1.ofono_connctx_table =
        st.ofono_connctx_table ∧
      (ofono_connctx_new st (some p)).1.live.map (fun j => (j.id, j.path)) =
        st.live.map (fun j => (j.id, j.path))) ∧
    ((∀ i ∈ st.live, i.path ≠ p) →
      (ofono_connctx_new st (some p)).2 = some st.next_id ∧
      (ofono_connctx_new st (some p)).1.entries = (p, st.next_id) :: st.entries ∧
      (ofono_connctx_new st (some p)).1.live.map (fun j => (j.id, j.path)) =
        st.live.map (fun j => (j.id, j.path)) ++ [(st.next_id, p)]) := by
  unfold ofono_connctx_new
  simp only [registry_lookup]
  constructor
  · intro i hi hp
    have hm : (p, i.id) ∈ st.entries := (h.exact p i.id).mpr ⟨i, hi, rfl, hp⟩
    cases hl : st.entries.lookup p with
    | none =>
      exact absurd (List.mem_map_of_mem (fun e => e.1) hm)
        (lookup_none_not_key _ _ hl)
    | some id =>
      have hm2 := lookup_some_mem _ _ _ hl
      obtain ⟨j, hj, hj1, hj2⟩ := (h.exact p id).mp hm2
      have : j = i := List.inj_on_of_nodup_map h.paths hj hi (hj2.trans hp.symm)
      subst this
      refine ⟨by rw [hj1], rfl, ?_⟩
      simp only [g_object_ref, List.map_map]
      apply List.map_congr_left
      intro x _
      simp only [Function.comp]
      split_ifs <;> rfl
  · intro hn
    cases hl : st.entries.lookup p with
    | some id =>
      obtain ⟨j, hj, _, hj2⟩ := (h.exact p id).mp (lookup_some_mem _ _ _ hl)
      exact absurd hj2 (hn j hj)
    | none =>
      have hk := lookup_none_not_key _ _ hl
      have hfil : st.entries.filter (fun e => e.1 != p) = st.entries := by
        rw [List.filter_eq_self]
        intro e he
        have : e.1 ≠ p := fun heq => hk (heq ▸ List.mem_map_of_mem (fun e => e.1) he)
        simpa using this
      refine ⟨rfl, ?_, ?_⟩
      · simp only [ofono_connctx_create, ConnCtxRegistry.entries, Option.getD_some]
        exact congrArg _ hfil
      · simp [ofono_connctx_create]

theorem registry_inv_new (st : ConnCtxRegistry) (path : Option String)
    (h : RegistryInv st) : RegistryInv (ofono_connctx_new st path).1 := by
  cases path with
  | none => exact h
  | some p =>
    by_cases hex : ∃ i ∈ st.live, i.path = p
    · obtain ⟨i, hi, hp⟩ := hex
      have hm : (p, i.id) ∈ st.entries := (h.exact p i.id).mpr ⟨i, hi, rfl, hp⟩
      unfold ofono_connctx_new
      simp only [registry_lookup]
      cases hl : st.entries.lookup p with
      | none =>
        exact absurd (List.mem_map_of_mem (fun e => e.1) hm)
          (lookup_none_not_key _ _ hl)
      | some id => exact registry_inv_ref st id h
    · have hn : ∀ i ∈ st.live, i.path ≠ p := fun i hi hp => hex ⟨i, hi, hp⟩
      obtain ⟨_, he, hlive⟩ := (connctx_new_spec st p h).2 hn
      have hnext : (ofono_connctx_new st (some p)).1.next_id = st.next_id + 1 := by
        unfold ofono_connctx_new
        simp only [registry_lookup]
        cases hl : st.entries.lookup p with
        | some id =>
          obtain ⟨j, hj, _, hj2⟩ := (h.exact p id).mp (lookup_some_mem _ _ _ hl)
          exact absurd hj2 (hn j hj)
        | none => rfl
      have hlv : (ofono_connctx_new st (some p)).1.live = st.live ++
          [⟨st.next_id, p, if connctx_path_has_modem p then 2 else 1⟩] := by
        unfold ofono_connctx_new
        simp only [registry_lookup]
        cases hl : st.entries.lookup p with
        | some id =>
          obtain ⟨j, hj, _, hj2⟩ := (h.exact p id).mp (lookup_some_mem _ _ _ hl)
          exact absurd hj2 (hn j hj)
        | none => rfl
      have htab : (ofono_connctx_new st (some p)).1.ofono_connctx_table ≠ none := by
        unfold ofono_connctx_new
        simp only [registry_lookup]
        cases hl : st.entries.lookup p <;> simp [g_object_ref]
        rename_i id
        obtain ⟨j, hj, _, hj2⟩ := (h.exact p id).mp (lookup_some_mem _ _ _ hl)
        exact absurd hj2 (hn j hj)
      have hpk : p ∉ st.entries.map (fun e => e.1) := by
        intro hm
        obtain ⟨e, he1, he2⟩ := List.mem_map.mp hm
        obtain ⟨j, hj, _, hj2⟩ := (h.exact e.1 e.2).mp he1
        exact hn j hj (hj2.trans he2)
      have hidf : st.next_id ∉ st.live.map (fun i => i.id) := by
        intro hm
        obtain ⟨j, hj, hj2⟩ := List.mem_map.mp hm
        have := h.fresh j hj
        omega
      refine ⟨?_, ?_, ?_, ?_, ?_, ?_, ?_⟩
      · intro q id
        rw [he, hlv]
        simp only [List.mem_cons, Prod.mk.injEq, List.mem_append, List.not_mem_nil,
          or_false]
        constructor
        · rintro (⟨rfl, rfl⟩ | hm)
          · exact ⟨_, Or.inr rfl, rfl, rfl⟩
          · obtain ⟨j, hj, h1, h2⟩ := (h.exact q id).mp hm
            exact ⟨j, Or.inl hj, h1, h2⟩
        · rintro ⟨j, hj | hj, h1, h2⟩
          · exact Or.inr ((h.exact q id).mpr ⟨j, hj, h1, h2⟩)
          · subst hj
            exact Or.inl ⟨h2.symm, h1.symm⟩
      · rw [hlv, List.map_append, List.nodup_append]
        refine ⟨h.ids, by simp, ?_⟩
        intro a ha hb
        simp only [List.map_cons, List.map_nil, List.mem_singleton] at hb
        exact hidf (hb ▸ ha)
      · rw [hlv, List.map_append, List.nodup_append]
        refine ⟨h.paths, by simp, ?_⟩
        intro a ha hb
        simp only [List.map_cons, List.map_nil, List.mem_singleton] at hb
        obtain ⟨j, hj, hj2⟩ := List.mem_map.mp ha
        exact hn j hj (hj2.trans hb)
      · rw [he, List.map_cons, List.nodup_cons]
        exact ⟨hpk, h.keys⟩
      · rw [hlv]
        simp [htab]
      · intro i hi
        rw [hnext]
        rw [hlv] at hi
        rcases List.mem_append.mp hi with hi | hi
        · exact Nat.lt_succ_of_lt (h.fresh i hi)
        · simp only [List.mem_singleton] at hi
          subst hi
          exact Nat.lt_succ_self _
      · intro i hi
        rw [hlv] at hi
        rcases List.mem_append.mp hi with hi | hi
        · exact h.referenced i hi
        · simp only [List.mem_singleton] at hi
          subst hi
          simp only []
          split_ifs <;> decide

theorem connctx_destroyed_spec (st : ConnCtxRegistry) (key : String) :
    (ofono_connctx_destroyed st key).entries =
      st.entries.filter (fun e => e.1 != key) ∧
    (ofono_connctx_destroyed st key).live = st.live ∧
    (ofono_connctx_destroyed st key).next_id = st.next_id ∧
    ((ofono_connctx_destroyed st key).ofono_connctx_table = none ↔
      st.entries.filter (fun e => e.1 != key) = []) := by
  unfold ofono_connctx_destroyed ConnCtxRegistry.entries
  cases ht : st.ofono_connctx_table with
  | none => simp [ht]
  | some t =>
    simp only [Option.getD_some]
    by_cases hl : (t.filter (fun e => e.1 != key)).length = 0
    · have : t.filter (fun e => e.1 != key) = [] := List.length_eq_zero.mp hl
      simp [hl, this]
    · have : t.filter (fun e => e.1 != key) ≠ [] :=
        fun h => hl (List.length_eq_zero.mpr h)
      simp [hl, this]

theorem registry_inv_unref (st : ConnCtxRegistry) (id : Nat) (h : RegistryInv st) :
    RegistryInv (g_object_unref st id) := by
  unfold g_object_unref
  cases hf : st.live.find? (fun i => i.id == id) with
  | none => exact h
  | some i =>
    have hi : i ∈ st.live := List.mem_of_find?_eq_some hf
    have hid : i.id = id := by
      have := List.find?_some hf
      simpa using this
    simp only []
    by_cases hrc : i.ref_count ≤ 1
    · simp only [hrc, if_true]
      obtain ⟨d1, d2, d3, d4⟩ := connctx_destroyed_spec
        { st with live := st.live.filter (fun j => j.id != id) } i.path
      have d1 : (ofono_connctx_destroyed
          { st with live := st.live.filter (fun j => j.id != id) } i.path).entries =
          st.entries.filter (fun e => e.1 != i.path) := d1
      have d4 : (ofono_connctx_destroyed
          { st with live := st.live.filter (fun j => j.id != id) }
            i.path).ofono_connctx_table = none ↔
          st.entries.filter (fun e => e.1 != i.path) = [] := d4
      have hpi : ∀ j ∈ st.live, (j.path ≠ i.path ↔ j.id ≠ id) := by
        intro j hj
        constructor
        · intro hp he
          have : j = i := List.inj_on_of_nodup_map h.ids hj hi (he.trans hid.symm)
          exact hp (by rw [this])
        · intro hne hp
          have : j = i := List.inj_on_of_nodup_map h.paths hj hi hp
          exact hne (by rw [this]; exact hid)
      have hex : ∀ p k, (p, k) ∈ st.entries.filter (fun e => e.1 != i.path) ↔
          ∃ j ∈ st.live.filter (fun j => j.id != id), j.id = k ∧ j.path = p := by
        intro p k
        simp only [List.mem_filter, bne_iff_ne, ne_eq]
        rw [h.exact p k]
        constructor
        · rintro ⟨⟨j, hj, h1, h2⟩, hp⟩
          exact ⟨j, ⟨hj, (hpi j hj).mp (by rw [h2]; exact hp)⟩, h1, h2⟩
        · rintro ⟨j, ⟨hj, hne⟩, h1, h2⟩
          exact ⟨⟨j, hj, h1, h2⟩, by rw [← h2]; exact (hpi j hj).mpr hne⟩
      refine ⟨?_, ?_, ?_, ?_, ?_, ?_, ?_⟩
      · intro p k
        rw [d1, d2]
        exact hex p k
      · rw [d2]
        exact List.Nodup.sublist (List.Sublist.map _ (List.filter_sublist _)) h.ids
      · rw [d2]
        exact List.Nodup.sublist (List.Sublist.map _ (List.filter_sublist _)) h.paths
      · rw [d1]
        exact List.Nodup.sublist (List.Sublist.map _ (List.filter_sublist _)) h.keys
      · rw [d4, d2]
        constructor
        · intro he
          apply List.eq_nil_iff_forall_not_mem.mpr
          intro j hj
          have := (hex j.path j.id).mpr ⟨j, hj, rfl, rfl⟩
          rw [he] at this
          cases this
        · intro hl
          apply List.eq_nil_iff_forall_not_mem.mpr
          rintro ⟨p, k⟩ he
          obtain ⟨j, hj, _, _⟩ := (hex p k).mp he
          simp only [] at hl
          rw [hl] at hj
          cases hj
      · intro j hj
        rw [d3]
        rw [d2] at hj
        exact h.fresh j (List.mem_of_mem_filter hj)
      · intro j hj
        rw [d2] at hj
        exact h.referenced j (List.mem_of_mem_filter hj)
    · simp only [hrc, if_false]
      apply registry_inv_map st _ _ _ _ h
      · intro j; split_ifs <;> rfl
      · intro j; split_ifs <;> rfl
      · intro j hj
        split_ifs with he
        · have : j = i := List.inj_on_of_nodup_map h.ids hj hi (he.trans hid.symm)
          subst this
          simp only []
          omega
        · exact h.referenced j hj

theorem registry_inv_step (st st1 : ConnCtxRegistry) (ev : RegistryEvent)
    (h : RegistryInv st) (hs : registry_step st ev = some st1) : RegistryInv st1 := by
  cases ev with
  | new path =>
    simp only [registry_step, Option.some.injEq] at hs
    rw [← hs]
    exact registry_inv_new st path h
  | ref id =>
    simp only [registry_step] at hs
    split_ifs at hs
    cases hs
    exact registry_inv_ref st id h
  | unref id =>
    simp only [registry_step] at hs
    split_ifs at hs
    cases hs
    exact registry_inv_unref st id h

theorem registry_inv_run (evs : List RegistryEvent) (st st1 : ConnCtxRegistry)
    (h : RegistryInv st) (hr : registry_run st evs = some st1) : RegistryInv st1 := by
  induction evs generalizing st with
  | nil =>
    simp only [registry_run] at hr
    cases hr
    exact h
  | cons ev rest ih =>
    simp only [registry_run] at hr
    cases hs : registry_step st ev with
    | none => rw [hs] at hr; cases hr
    | some s2 =>
      rw [hs] at hr
      exact ih s2 (registry_inv_step st s2 ev h hs) hr

/-- C16: after every sequence of `ofono_connctx_new` calls, references and
unreferences (the last unreference destroys the instance), the table maps
each path to at most one live instance and holds exactly the live instances,
it is NULL exactly when no instance is alive (so it is released when its last
entry is removed and never kept empty), `ofono_connctx_new` returns the
registered instance of a registered path without creating anything and
otherwise creates and registers a new instance, and a NULL path gives NULL
and changes nothing. -/
theorem connctx_registry_consistent (evs : List RegistryEvent)
    (st : ConnCtxRegistry)
    (h : registry_run ConnCtxRegistry.init evs = some st) :
    (∀ i ∈ st.live, ∀ j ∈ st.live, i.path = j.path → i = j) ∧
    (∀ p id, (p, id) ∈ st.entries ↔ ∃ i ∈ st.live, i.id = id ∧ i.path = p) ∧
    (st.entries.map (fun e => e.1)).Nodup ∧
    (st.ofono_connctx_table = none ↔ st.live = []) ∧
    (∀ t, st.ofono_connctx_table = some t → t ≠ []) ∧
    (∀ p, ∀ i ∈ st.live, i.path = p →
      (ofono_connctx_new st (some p)).2 = some i.id ∧
      (ofono_connctx_new st (some p)).1.ofono_connctx_table =
        st.ofono_connctx_table ∧
      (ofono_connctx_new st (some p)).1.live.map (fun j => (j.id, j.path)) =
        st.live.map (fun j => (j.id, j.path))) ∧
    (∀ p, (∀ i ∈ st.live, i.path ≠ p) →
      (ofono_connctx_new st (some p)).2 = some st.next_id ∧
      (∀ i ∈ st.live, i.id ≠ st.next_id) ∧
      (ofono_connctx_new st (some p)).1.entries = (p, st.next_id) :: st.entries ∧
      (ofono_connctx_new st (some p)).1.live.map (fun j => (j.id, j.path)) =
        st.live.map (fun j => (j.id, j.path)) ++ [(st.next_id, p)]) ∧
    ofono_connctx_new st none = (st, none) := by
  have hi : RegistryInv st :=
    registry_inv_run evs ConnCtxRegistry.init st registry_inv_init h
  refine ⟨?_, hi.exact, hi.keys, hi.released, ?_, ?_, ?_, rfl⟩
  · intro i h1 j h2 hp
    exact List.inj_on_of_nodup_map hi.paths h1 h2 hp
  · intro t ht he
    subst he
    have hl : st.live = [] := by
      apply List.eq_nil_iff_forall_not_mem.mpr
      intro i hm
      have := (hi.exact i.path i.id).mpr ⟨i, hm, rfl, rfl⟩
      simp [ConnCtxRegistry.entries, ht] at this
    have := hi.released.mpr hl
    rw [ht] at this
    cases this
  · intro p
    exact (connctx_new_spec st p hi).1
  · intro p hn
    obtain ⟨a, b, c⟩ := (connctx_new_spec st p hi).2 hn
    exact ⟨a, fun i hm => Nat.ne_of_lt (hi.fresh i hm), b, c⟩

theorem connctx_registry_consistent_witness :
    registry_run ConnCtxRegistry.init
      [RegistryEvent.new (some "/ril_0/context1"),
       RegistryEvent.new (some "/ril_0/context1"),
       RegistryEvent.unref 1] =
      some ⟨some [("/ril_0/context1", 1)], [⟨1, "/ril_0/context1", 2⟩], 2⟩ ∧
    (ofono_connctx_new
      ⟨some [("/ril_0/context1", 1)], [⟨1, "/ril_0/context1", 2⟩], 2⟩
      (some "/ril_0/context1")).2 = some 1 :=
  ⟨by decide,
   ((connctx_registry_consistent
      [RegistryEvent.new (some "/ril_0/context1"),
       RegistryEvent.new (some "/ril_0/context1"),
       RegistryEvent.unref 1]
      ⟨some [("/ril_0/context1", 1)], [⟨1, "/ril_0/context1", 2⟩], 2⟩
      (by decide)).2.2.2.2.2.1 "/ril_0/context1"
      ⟨1, "/ril_0/context1", 2⟩ (by decide) rfl).1⟩

/-! ## Collection trackers: removal of a valid child -/

/-- The function `ofono_connmgr_remove_valid_context`: a path of
`valid_contexts` is removed from it, and "context-removed" is emitted exactly
when the OfonoConnMgr is valid; any other path changes nothing. -/
theorem connmgr_remove_valid_context_spec (st : State) (path : String) :
    (path ∈ st.self.connmgr.valid_contexts →
      (ofono_connmgr_remove_valid_context st path).self.connmgr.valid_contexts =
        st.self.connmgr.valid_contexts.erase path ∧
      (ofono_connmgr_remove_valid_context st path).self.valid = st.self.valid ∧
      st.new_actions (ofono_connmgr_remove_valid_context st path) =
        if st.self.valid then [Action.emit (Signal.context_removed path)]
        else []) ∧
    (path ∉ st.self.connmgr.valid_contexts →
      ofono_connmgr_remove_valid_context st path = st) := by
  unfold ofono_connmgr_remove_valid_context ofono_connmgr_find_valid_context
    ofono_connmgr_valid
  constructor
  · intro h
    by_cases hv : st.self.valid = true
    · simp [h, hv, State.new_actions, g_signal_emit, State.record]
    · simp [h, hv, State.new_actions]
  · intro h
    simp [h]

/-- The function `ofono_manager_remove_valid_modem`: a path of `valid_modems`
is removed from it and "modem-removed" is emitted, whatever the valid flag of
the manager is; any other path changes nothing. -/
theorem manager_remove_valid_modem_spec (st : ManagerState) (path : String) :
    (path ∈ st.self.valid_modems →
      (ofono_manager_remove_valid_modem st path).self.valid_modems =
        st.self.valid_modems.erase path ∧
      (ofono_manager_remove_valid_modem st path).self.valid = st.self.valid ∧
      st.new_signals (ofono_manager_remove_valid_modem st path) =
        [ManagerSignal.modem_removed path]) ∧
    (path ∉ st.self.valid_modems →
      ofono_manager_remove_valid_modem st path = st) := by
  unfold ofono_manager_remove_valid_modem ofono_manager_has_modem
  constructor
  · intro h
    simp [h, ManagerState.new_signals, ManagerState.emit]
  · intro h
    simp [h]

/-- C17 (evaluation at the failing input): the manager knows the modems "/a"
and "/b" and only "/a" is valid, so the manager is not valid. When "/a" stops
being valid, and likewise when "/a" is removed, "/a" leaves `valid_modems`
and `ofono_manager_remove_valid_modem` emits "modem-removed" although the
manager is not valid. An OfonoConnMgr in the same situation removes "/a" from
`valid_contexts` and emits nothing. -/
theorem manager_modem_removed_while_invalid :
    (manager_one_of_two.self.valid, manager_one_of_two.self.valid_modems) =
      (false, ["/a"]) ∧
    (manager_step manager_one_of_two
        (ManagerEvent.modem_valid_changed "/a" false)).map
      (fun s => (s.self.valid, s.self.valid_modems,
        manager_one_of_two.new_signals s)) =
      some (false, [], [ManagerSignal.modem_removed "/a"]) ∧
    (manager_step manager_one_of_two (ManagerEvent.modem_removed "/a")).map
      (fun s => (s.self.valid, s.self.valid_modems,
        manager_one_of_two.new_signals s)) =
      some (false, [],
        [ManagerSignal.proxy_modem_removed "/a",
         ManagerSignal.modem_removed "/a"]) ∧
    (connmgr_one_of_two.self.valid,
      connmgr_one_of_two.self.connmgr.valid_contexts) = (false, ["/a"]) ∧
    (step connmgr_one_of_two (Event.context_valid_changed "/a" false)).map
      (fun s => (s.self.valid, s.self.connmgr.valid_contexts,
        connmgr_one_of_two.new_actions s)) = some (false, [], []) ∧
    (step connmgr_one_of_two (Event.context_removed "/a")).map
      (fun s => (s.self.valid, s.self.connmgr.valid_contexts,
        connmgr_one_of_two.new_actions s)) = some (false, [], []) := by
  decide

/-! ## Collection trackers: the order of the valid subset -/

theorem path_bytes_injective (a b : String)
    (h : a.toList.map Char.toNat = b.toList.map Char.toNat) : a = b := by
  have hc : Function.Injective Char.toNat := by
    intro x y hxy
    have := congrArg Char.ofNat hxy
    simpa using this
  exact String.toList_inj.mp (List.map_injective_iff.mpr hc h)

theorem g_strcmp0_lt_iff (a b : String) :
    g_strcmp0 a b = Ordering.lt ↔
      a.toList.map Char.toNat < b.toList.map Char.toNat :=
  compare_lt_iff_lt

theorem g_strcmp0_not_gt_iff (a b : String) :
    (g_strcmp0 a b != Ordering.gt) = true ↔
      a.toList.map Char.toNat ≤ b.toList.map Char.toNat := by
  unfold g_strcmp0
  cases h : compare (a.toList.map Char.toNat) (b.toList.map Char.toNat)
  · have := compare_lt_iff_lt.mp h
    exact ⟨fun _ => le_of_lt this, fun _ => rfl⟩
  · have := compare_eq_iff_eq.mp h
    exact ⟨fun _ => le_of_eq this, fun _ => rfl⟩
  · have := compare_gt_iff_gt.mp h
    exact ⟨fun hh => absurd hh (by decide),
      fun hle => absurd this (not_lt.mpr hle)⟩

theorem sorted_g_ptr_array_sort (l : List String) :
    (g_ptr_array_sort l).Pairwise
      (fun a b => (g_strcmp0 a b != Ordering.gt) = true) := by
  haveI : IsTotal String (fun a b => (g_strcmp0 a b != Ordering.gt) = true) :=
    ⟨fun a b => by
      rw [g_strcmp0_not_gt_iff, g_strcmp0_not_gt_iff]
      exact le_total _ _⟩
  haveI : IsTrans String (fun a b => (g_strcmp0 a b != Ordering.gt) = true) :=
    ⟨fun a b c => by
      rw [g_strcmp0_not_gt_iff, g_strcmp0_not_gt_iff, g_strcmp0_not_gt_iff]
      exact le_trans⟩
  exact List.sorted_insertionSort _ l

theorem strictly_increasing_nodup (l : List String) (h : StrictlyIncreasing l) :
    l.Nodup := by
  refine List.Pairwise.imp ?_ h
  intro a b hab he
  subst he
  rw [g_strcmp0_lt_iff] at hab
  exact lt_irrefl _ hab

theorem strictly_increasing_sort (l : List String) (h : l.Nodup) :
    StrictlyIncreasing (g_ptr_array_sort l) := by
  have hn : (g_ptr_array_sort l).Nodup :=
    (List.perm_insertionSort _ l).nodup_iff.mpr h
  refine List.Pairwise.imp ?_ (List.Pairwise.and (sorted_g_ptr_array_sort l) hn)
  intro a b hab
  rw [g_strcmp0_lt_iff]
  refine lt_of_le_of_ne ((g_strcmp0_not_gt_iff a b).mp hab.1) ?_
  intro he
  exact hab.2 (path_bytes_injective a b he)

theorem strictly_increasing_nil : StrictlyIncreasing [] :=
  List.Pairwise.nil

theorem strictly_increasing_add (l : List String) (p : String)
    (h : StrictlyIncreasing l) (hp : p ∉ l) :
    StrictlyIncreasing (g_ptr_array_sort (l ++ [p])) := by
  apply strictly_increasing_sort
  rw [List.nodup_append]
  refine ⟨strictly_increasing_nodup l h, List.nodup_singleton p, ?_⟩
  intro a ha hb
  rw [List.mem_singleton] at hb
  subst hb
  exact hp ha

theorem strictly_increasing_erase (l : List String) (p : String)
    (h : StrictlyIncreasing l) : StrictlyIncreasing (l.erase p) :=
  List.Pairwise.sublist (List.erase_sublist p l) h

theorem manager_sorted_emit (st : ManagerState) (s : ManagerSignal)
    (h : ManagerSorted st) : ManagerSorted (st.emit s) := h

theorem manager_sorted_update_valid (st : ManagerState) (h : ManagerSorted st) :
    ManagerSorted (ofono_manager_update_valid st) := by
  unfold ofono_manager_update_valid
  simp only []
  split_ifs
  · exact h
  · exact h

theorem manager_sorted_add_valid_modem (st : ManagerState) (p : String)
    (h : ManagerSorted st) : ManagerSorted (ofono_manager_add_valid_modem st p) := by
  unfold ofono_manager_add_valid_modem ofono_manager_has_modem
  by_cases hp : p ∈ st.self.valid_modems
  · simpa [hp] using h
  · have hs := strictly_increasing_add st.self.valid_modems p h.1 hp
    have hc : st.self.valid_modems.contains p = false := by simpa using hp
    simp only [hc, Bool.not_false, if_true]
    split_ifs
    · exact ⟨hs, h.2⟩
    · exact ⟨hs, h.2⟩

theorem manager_sorted_remove_valid_modem (st : ManagerState) (p : String)
    (h : ManagerSorted st) :
    ManagerSorted (ofono_manager_remove_valid_modem st p) := by
  unfold ofono_manager_remove_valid_modem
  simp only []
  split_ifs
  · exact ⟨strictly_increasing_erase _ p h.1, h.2⟩
  · exact h

theorem manager_sorted_modem_valid_changed (st : ManagerState) (p : String)
    (h : ManagerSorted st) :
    ManagerSorted (ofono_manager_modem_valid_changed st p) := by
  unfold ofono_manager_modem_valid_changed
  simp only []
  apply manager_sorted_update_valid
  split_ifs
  · exact manager_sorted_add_valid_modem st p h
  · exact manager_sorted_remove_valid_modem st p h

theorem manager_sorted_add_modem (st : ManagerState) (p : String)
    (h : ManagerSorted st) : ManagerSorted (ofono_manager_add_modem st p) := by
  unfold ofono_manager_add_modem
  simp only []
  split_ifs
  · exact manager_sorted_add_valid_modem _ p h
  · exact h
  · exact h

theorem manager_sorted_modem_removed (st : ManagerState) (p : String)
    (h : ManagerSorted st) : ManagerSorted (ofono_manager_modem_removed st p) := by
  unfold ofono_manager_modem_removed
  exact manager_sorted_remove_valid_modem _ p h

theorem manager_sorted_proxy_emit_valid_changed (st : ManagerState)
    (h : ManagerSorted st) : ManagerSorted (proxy_emit_valid_changed st) := by
  unfold proxy_emit_valid_changed ofono_manager_proxy_valid_changed
  exact manager_sorted_update_valid _ h

theorem manager_sorted_proxy_reset (st : ManagerState) (h : ManagerSorted st) :
    ManagerSorted (ofono_manager_proxy_reset st) := by
  unfold ofono_manager_proxy_reset
  simp only []
  cases hc : st.proxy.cancel with
  | none =>
    simp only []
    split_ifs
    · exact manager_sorted_proxy_emit_valid_changed _ ⟨h.1, strictly_increasing_nil⟩
    · exact ⟨h.1, strictly_increasing_nil⟩
  | some c =>
    simp only []
    split_ifs
    · exact manager_sorted_proxy_emit_valid_changed _ ⟨h.1, strictly_increasing_nil⟩
    · exact ⟨h.1, strictly_increasing_nil⟩

theorem manager_sorted_proxy_add_modem (st : ManagerState) (p : String)
    (h : ManagerSorted st) : ManagerSorted (ofono_manager_proxy_add_modem st p) := by
  unfold ofono_manager_proxy_add_modem
  by_cases hp : p ∈ st.proxy.modem_paths
  · simpa [hp] using h
  · have hs := strictly_increasing_add st.proxy.modem_paths p h.2 hp
    have hc : st.proxy.modem_paths.contains p = false := by simpa using hp
    simp only [hc, Bool.not_false, if_true]
    unfold ofono_manager_modem_added
    exact manager_sorted_add_modem _ p ⟨h.1, hs⟩

theorem manager_sorted_proxy_modem_removed (st : ManagerState) (p : String)
    (h : ManagerSorted st) :
    ManagerSorted (ofono_manager_proxy_modem_removed st p) := by
  unfold ofono_manager_proxy_modem_removed
  simp only []
  split_ifs
  · exact manager_sorted_modem_removed _ p
      ⟨h.1, strictly_increasing_erase _ p h.2⟩
  · exact h

theorem manager_sorted_foldl_add_modem (l : List String) (st : ManagerState)
    (h : ManagerSorted st) :
    ManagerSorted (l.foldl ofono_manager_proxy_add_modem st) := by
  induction l generalizing st with
  | nil => exact h
  | cons p rest ih => exact ih _ (manager_sorted_proxy_add_modem st p h)

theorem manager_sorted_get_modems_finished (st : ManagerState)
    (result : CallResult (List String)) (h : ManagerSorted st) :
    ManagerSorted (ofono_manager_proxy_get_modems_finished st result) := by
  unfold ofono_manager_proxy_get_modems_finished
  cases result with
  | ok modems =>
    simp only []
    have h1 := manager_sorted_foldl_add_modem modems st h
    have h2 := manager_sorted_proxy_emit_valid_changed
      { modems.foldl ofono_manager_proxy_add_modem st with
        proxy := { (modems.foldl ofono_manager_proxy_add_modem st).proxy with
          valid := true } } h1
    exact h2
  | error e =>
    simp only []
    split_ifs
    · cases hc : st.proxy.cancel <;> exact h
    · exact h

theorem manager_sorted_proxy_created (st : ManagerState) (h : ManagerSorted st) :
    ManagerSorted (ofono_manager_proxy_created st) := by
  unfold ofono_manager_proxy_created
  simp only []
  cases hc : st.proxy.cancel <;> exact h

theorem manager_sorted_proxy_vanished (st : ManagerState) (h : ManagerSorted st) :
    ManagerSorted (ofono_manager_proxy_vanished st) := by
  unfold ofono_manager_proxy_vanished
  simp only []
  have h1 := manager_sorted_proxy_reset st h
  split_ifs
  · exact manager_sorted_proxy_emit_valid_changed _ h1
  · exact h1

theorem manager_sorted_init : ManagerSorted ManagerState.init :=
  ⟨by decide, by decide⟩

theorem manager_sorted_step (st st1 : ManagerState) (ev : ManagerEvent)
    (h : ManagerSorted st) (hs : manager_step st ev = some st1) :
    ManagerSorted st1 := by
  cases ev with
  | appeared =>
    simp only [manager_step] at hs
    split_ifs at hs
    cases hs
    exact h
  | vanished =>
    simp only [manager_step, Option.some.injEq] at hs
    rw [← hs]
    exact manager_sorted_proxy_vanished st h
  | proxy_created token =>
    simp only [manager_step] at hs
    split_ifs at hs <;> cases hs
    · exact h
    · exact manager_sorted_proxy_created _ h
  | get_modems_finished token result =>
    simp only [manager_step] at hs
    split_ifs at hs <;> cases hs <;>
      exact manager_sorted_get_modems_finished _ _ h
  | modem_added path =>
    simp only [manager_step] at hs
    split_ifs at hs
    cases hs
    exact manager_sorted_proxy_add_modem st path h
  | modem_removed path =>
    simp only [manager_step] at hs
    split_ifs at hs
    cases hs
    exact manager_sorted_proxy_modem_removed st path h
  | modem_valid_changed path valid =>
    simp only [manager_step] at hs
    split_ifs at hs <;> cases hs <;>
      first
      | exact manager_sorted_modem_valid_changed _ path h
      | exact h

theorem manager_sorted_run (evs : List ManagerEvent) (st st1 : ManagerState)
    (h : ManagerSorted st) (hr : manager_run st evs = some st1) :
    ManagerSorted st1 := by
  induction evs generalizing st with
  | nil =>
    simp only [manager_run] at hr
    cases hr
    exact h
  | cons ev rest ih =>
    simp only [manager_run] at hr
    cases hs : manager_step st ev with
    | none => rw [hs] at hr; cases hr
    | some s2 =>
      rw [hs] at hr
      exact ih s2 (manager_sorted_step st s2 ev h hs) hr

/-! ### The valid subset of an OfonoConnMgr under the functions of the object -/

theorem connmgr_sorted_of_eq {a b : State}
    (e : b.self.connmgr.valid_contexts = a.self.connmgr.valid_contexts)
    (h : ConnMgrSorted a) : ConnMgrSorted b := by
  unfold ConnMgrSorted
  rw [e]
  exact h

theorem valid_contexts_update_valid (st : State) :
    (ofono_object_update_valid st).self.connmgr.valid_contexts =
      st.self.connmgr.valid_contexts := by
  rw [(update_valid_frame st).2.2.1]

theorem valid_contexts_perform_next_action (st : State) :
    (ofono_connctx_perform_next_action st).self.connmgr.valid_contexts =
      st.self.connmgr.valid_contexts := by
  rw [(perform_next_action_frame st).2.2.2.1]

theorem valid_contexts_set_boolean (st : State) (name : String) (value : Bool) :
    (ofono_object_set_boolean st name value).self.connmgr.valid_contexts =
      st.self.connmgr.valid_contexts := by
  unfold ofono_object_set_boolean
  simp only []
  split_ifs <;> rfl

theorem valid_contexts_set_active_done (st : State) (error : Option GError) :
    (ofono_connctx_set_active_done st error).self.connmgr.valid_contexts =
      st.self.connmgr.valid_contexts := by
  unfold ofono_connctx_set_active_done
  simp only []
  rw [valid_contexts_perform_next_action]
  cases error with
  | none => rfl
  | some e =>
    simp only []
    split_ifs <;> rfl

theorem valid_contexts_pending_call_finished (st : State) (id : Nat)
    (error : Option GError) :
    (ofono_object_pending_call_finished st id error).self.connmgr.valid_contexts =
      st.self.connmgr.valid_contexts := by
  unfold ofono_object_pending_call_finished
  exact valid_contexts_set_active_done st error

theorem valid_contexts_perform_action (st : State) (action : CONNCTX_ACTION) :
    (ofono_connctx_perform_action st action).self.connmgr.valid_contexts =
      st.self.connmgr.valid_contexts := by
  unfold ofono_connctx_perform_action
  split_ifs
  · rw [valid_contexts_perform_next_action]
  · rfl

theorem valid_contexts_set_active_retry (st : State) :
    (ofono_connctx_set_active_retry st).self.connmgr.valid_contexts =
      st.self.connmgr.valid_contexts := by
  unfold ofono_connctx_set_active_retry
  simp only []
  rw [valid_contexts_set_boolean]

theorem valid_contexts_cancel_pending_calls (st : State) :
    (cancel_pending_calls st).self.connmgr.valid_contexts =
      st.self.connmgr.valid_contexts := by
  unfold cancel_pending_calls
  have h1 : Untouched st (st.self.priv.pending_calls.foldl
      (fun s c => s.record (Action.cancel c.id)) st) :=
    untouched_foldl _
      (fun s (c : OfonoObjectPendingCall) =>
        untouched_record s (Action.cancel c.id) rfl) _ st
  simp only []
  rw [h1.connmgr]

theorem valid_contexts_object_ready_changed (st : State) (ready : Bool) :
    (ofono_object_ready_changed st ready).self.connmgr.valid_contexts =
      st.self.connmgr.valid_contexts := by
  unfold ofono_object_ready_changed
  simp only []
  split_ifs
  · rw [valid_contexts_update_valid, (untouched_query_properties st true).connmgr]
  · rfl
  · rw [valid_contexts_update_valid, valid_contexts_cancel_pending_calls,
      (untouched_reset_properties _).connmgr,
      (untouched_cancel_get_properties _).connmgr]

theorem valid_contexts_cancel_get_contexts (st : State) :
    (ofono_connmgr_cancel_get_contexts st).self.connmgr.valid_contexts =
      st.self.connmgr.valid_contexts := by
  unfold ofono_connmgr_cancel_get_contexts
  cases st.self.connmgr.get_contexts_pending <;> rfl

theorem valid_contexts_start_get_contexts (st : State) :
    (ofono_connmgr_start_get_contexts st).self.connmgr.valid_contexts =
      st.self.connmgr.valid_contexts := by
  unfold ofono_connmgr_start_get_contexts
  simp only [State.record]
  exact valid_contexts_cancel_get_contexts st

theorem connmgr_sorted_connmgr_ready_changed (st : State) (ready : Bool)
    (h : ConnMgrSorted st) : ConnMgrSorted (ofono_connmgr_ready_changed st ready) := by
  unfold ofono_connmgr_ready_changed
  simp only []
  refine connmgr_sorted_of_eq (valid_contexts_object_ready_changed _ ready) ?_
  split_ifs
  · exact connmgr_sorted_of_eq (valid_contexts_start_get_contexts st) h
  · exact strictly_increasing_nil
  · exact connmgr_sorted_of_eq (valid_contexts_cancel_get_contexts st) h

theorem connmgr_sorted_fn_ready_changed (st : State) (ready : Bool)
    (h : ConnMgrSorted st) : ConnMgrSorted (fn_ready_changed st ready) := by
  unfold fn_ready_changed
  split
  · exact connmgr_sorted_connmgr_ready_changed st ready h
  · exact connmgr_sorted_of_eq (valid_contexts_object_ready_changed st ready) h

theorem connmgr_sorted_update_ready (st : State) (h : ConnMgrSorted st) :
    ConnMgrSorted (ofono_object_update_ready st) := by
  unfold ofono_object_update_ready
  simp only []
  split_ifs
  · exact connmgr_sorted_fn_ready_changed _ _ h
  · exact h

theorem connmgr_sorted_update_valid (st : State) (h : ConnMgrSorted st) :
    ConnMgrSorted (ofono_object_update_valid st) :=
  connmgr_sorted_of_eq (valid_contexts_update_valid st) h

theorem connmgr_sorted_object_proxy_created (st : State) (h : ConnMgrSorted st) :
    ConnMgrSorted (ofono_object_proxy_created st) := by
  unfold ofono_object_proxy_created
  exact connmgr_sorted_update_valid _ (connmgr_sorted_update_ready _ h)

theorem connmgr_sorted_fn_proxy_created (st : State) (h : ConnMgrSorted st) :
    ConnMgrSorted (fn_proxy_created st) := by
  unfold fn_proxy_created
  split
  · unfold ofono_connmgr_proxy_created
    simp only []
    split_ifs
    · exact connmgr_sorted_of_eq (valid_contexts_start_get_contexts _)
        (connmgr_sorted_object_proxy_created st h)
    · exact connmgr_sorted_object_proxy_created st h
  · exact connmgr_sorted_object_proxy_created st h

theorem connmgr_sorted_setup_finished (st : State) (id : Nat)
    (result : CallResult (List (String × GVariant))) (h : ConnMgrSorted st) :
    ConnMgrSorted (ofono_object_setup_finished st id result) := by
  unfold ofono_object_setup_finished
  cases result with
  | ok props =>
    simp only []
    have h1 : ConnMgrSorted
        (if decide (st.self.priv.get_properties_pending = some id) = true then
          ofono_object_apply_properties st props else st) := by
      split_ifs
      · exact connmgr_sorted_of_eq
          (congrArg _ (untouched_apply_properties st props).connmgr) h
      · exact h
    generalize (if decide (st.self.priv.get_properties_pending = some id) = true
      then ofono_object_apply_properties st props else st) = s1 at h1 ⊢
    split_ifs
    · exact connmgr_sorted_update_valid _ h1
    · exact h1
  | error e =>
    simp only [State.record]
    split_ifs <;> first | exact h | exact connmgr_sorted_update_valid _ h

theorem connmgr_sorted_get_properties_retry (st : State) (h : ConnMgrSorted st) :
    ConnMgrSorted (ofono_object_get_properties_retry st) := by
  unfold ofono_object_get_properties_retry
  simp only []
  cases st.self.priv.get_properties_pending <;> exact h

theorem connmgr_sorted_add_valid_context (st : State) (p : String)
    (h : ConnMgrSorted st) : ConnMgrSorted (ofono_connmgr_add_valid_context st p) := by
  unfold ofono_connmgr_add_valid_context ofono_connmgr_find_valid_context
  by_cases hp : p ∈ st.self.connmgr.valid_contexts
  · simpa [hp] using h
  · have hs := strictly_increasing_add st.self.connmgr.valid_contexts p h hp
    have hc : st.self.connmgr.valid_contexts.contains p = false := by
      simpa using hp
    simp only [hc, Bool.not_false, if_true]
    split_ifs
    · exact hs
    · exact hs

theorem connmgr_sorted_remove_valid_context (st : State) (p : String)
    (h : ConnMgrSorted st) :
    ConnMgrSorted (ofono_connmgr_remove_valid_context st p) := by
  unfold ofono_connmgr_remove_valid_context
  simp only []
  split_ifs
  · exact strictly_increasing_erase _ p h
  · exact strictly_increasing_erase _ p h
  · exact h

theorem connmgr_sorted_context_valid_changed (st : State) (p : String)
    (h : ConnMgrSorted st) :
    ConnMgrSorted (ofono_connmgr_context_valid_changed st p) := by
  unfold ofono_connmgr_context_valid_changed
  simp only []
  apply connmgr_sorted_update_valid
  split_ifs
  · exact connmgr_sorted_add_valid_context st p h
  · exact connmgr_sorted_remove_valid_context st p h

theorem connmgr_sorted_add_context (st : State) (p : String)
    (h : ConnMgrSorted st) : ConnMgrSorted (ofono_connmgr_add_context st p) := by
  unfold ofono_connmgr_add_context
  simp only []
  split_ifs
  · exact connmgr_sorted_update_valid _ (connmgr_sorted_add_valid_context _ p h)
  · exact connmgr_sorted_update_valid _ h
  · exact h

theorem connmgr_sorted_context_removed (st : State) (p : String)
    (h : ConnMgrSorted st) : ConnMgrSorted (ofono_connmgr_context_removed st p) := by
  unfold ofono_connmgr_context_removed
  exact connmgr_sorted_remove_valid_context st p h

theorem connmgr_sorted_foldl_add_context (l : List String) (st : State)
    (h : ConnMgrSorted st) :
    ConnMgrSorted (l.foldl ofono_connmgr_add_context st) := by
  induction l generalizing st with
  | nil => exact h
  | cons p rest ih => exact ih _ (connmgr_sorted_add_context st p h)

theorem connmgr_sorted_get_contexts_finished (st : State) (id : Nat)
    (result : CallResult (List String)) (h : ConnMgrSorted st) :
    ConnMgrSorted (ofono_connmgr_get_contexts_finished st id result) := by
  unfold ofono_connmgr_get_contexts_finished
  cases result with
  | ok contexts =>
    simp only []
    have h1 : ConnMgrSorted
        (if decide (st.self.connmgr.get_contexts_pending = some id) = true then
          contexts.foldl ofono_connmgr_add_context st else st) := by
      split_ifs
      · exact connmgr_sorted_foldl_add_context contexts st h
      · exact h
    generalize (if decide (st.self.connmgr.get_contexts_pending = some id) = true
      then contexts.foldl ofono_connmgr_add_context st else st) = s1 at h1 ⊢
    split_ifs
    · exact connmgr_sorted_update_valid _ h1
    · exact h1
  | error e =>
    simp only [State.record]
    split_ifs <;> first | exact h | exact connmgr_sorted_update_valid _ h

theorem connmgr_sorted_init (k : OfonoClass) : ConnMgrSorted (State.init k) :=
  strictly_increasing_nil

theorem connmgr_sorted_step (st st1 : State) (ev : Event) (h : ConnMgrSorted st)
    (hs : step st ev = some st1) : ConnMgrSorted st1 := by
  cases ev with
  | proxy_created =>
    simp only [step] at hs
    split_ifs at hs
    cases hs
    exact connmgr_sorted_fn_proxy_created st h
  | modem_changed v i =>
    simp only [step] at hs
    split_ifs at hs
    cases hs
    exact connmgr_sorted_update_ready _ h
  | get_properties_finished id result =>
    simp only [step] at hs
    split_ifs at hs
    cases hs
    exact connmgr_sorted_setup_finished _ id result h
  | get_properties_retry =>
    simp only [step] at hs
    split_ifs at hs
    cases hs
    exact connmgr_sorted_get_properties_retry st h
  | property_changed name value =>
    simp only [step] at hs
    split_ifs at hs
    cases hs
    exact connmgr_sorted_of_eq
      (congrArg _ (untouched_property_changed st name value).connmgr) h
  | get_contexts_finished id result =>
    simp only [step] at hs
    split_ifs at hs
    cases hs
    exact connmgr_sorted_get_contexts_finished _ id result h
  | context_added path =>
    simp only [step] at hs
    split_ifs at hs
    cases hs
    exact connmgr_sorted_add_context st path h
  | context_removed path =>
    simp only [step] at hs
    split_ifs at hs
    cases hs
    exact connmgr_sorted_context_removed st path h
  | context_valid_changed path valid =>
    simp only [step] at hs
    split_ifs at hs <;> cases hs <;>
      first
      | exact connmgr_sorted_context_valid_changed _ path h
      | exact h
  | connmgr_proxy_created =>
    simp only [step] at hs
    split_ifs at hs
    cases hs
    exact connmgr_sorted_update_ready _ h
  | connctx_added =>
    simp only [step] at hs
    split_ifs at hs
    cases hs
    unfold ofono_connctx_added
    simp only []
    apply connmgr_sorted_update_ready
    show ConnMgrSorted (if (!st.self.connctx.removed) = true then
        ofono_object_update_ready { st with self := { st.self with
          connctx := { st.self.connctx with removed := true } } }
        else st)
    split_ifs
    · exact connmgr_sorted_update_ready _ h
    · exact h
  | connctx_removed =>
    simp only [step] at hs
    split_ifs at hs
    cases hs
    exact connmgr_sorted_update_ready _ h
  | activate =>
    simp only [step] at hs
    split_ifs at hs
    cases hs
    exact connmgr_sorted_of_eq (valid_contexts_perform_action st _) h
  | deactivate =>
    simp only [step] at hs
    split_ifs at hs
    cases hs
    exact connmgr_sorted_of_eq (valid_contexts_perform_action st _) h
  | set_active_finished id error =>
    simp only [step] at hs
    split_ifs at hs
    cases hs
    exact connmgr_sorted_of_eq (valid_contexts_pending_call_finished st id error) h
  | set_active_retry =>
    simp only [step] at hs
    split_ifs at hs
    cases hs
    exact connmgr_sorted_of_eq (valid_contexts_set_active_retry st) h

theorem connmgr_sorted_run (evs : List Event) (st st1 : State)
    (h : ConnMgrSorted st) (hr : run st evs = some st1) : ConnMgrSorted st1 := by
  induction evs generalizing st with
  | nil =>
    simp only [run] at hr
    cases hr
    exact h
  | cons ev rest ih =>
    simp only [run] at hr
    cases hs : step st ev with
    | none => rw [hs] at hr; cases hr
    | some s2 =>
      rw [hs] at hr
      exact ih s2 (connmgr_sorted_step st s2 ev h hs) hr

/-- C18: in every state that an OfonoConnMgr (or any other object) reaches
from its initial state by a sequence of events, and in every state that the
manager and its proxy reach from theirs, the valid subset (`valid_contexts`,
`valid_modems`, `modem_paths`) is strictly increasing under `g_strcmp0`, the
byte-wise comparison of the paths: it is sorted by path and has no path
twice. -/
theorem tracker_valid_subset_strictly_increasing (k : OfonoClass)
    (evs : List Event) (st : State) (mevs : List ManagerEvent)
    (mst : ManagerState)
    (h : run (State.init k) evs = some st)
    (hm : manager_run ManagerState.init mevs = some mst) :
    (StrictlyIncreasing st.self.connmgr.valid_contexts ∧
      st.self.connmgr.valid_contexts.Nodup) ∧
    (StrictlyIncreasing mst.self.valid_modems ∧ mst.self.valid_modems.Nodup) ∧
    (StrictlyIncreasing mst.proxy.modem_paths ∧ mst.proxy.modem_paths.Nodup) := by
  have h1 : ConnMgrSorted st :=
    connmgr_sorted_run evs _ st (connmgr_sorted_init k) h
  have h2 : ManagerSorted mst :=
    manager_sorted_run mevs _ mst manager_sorted_init hm
  exact ⟨⟨h1, strictly_increasing_nodup _ h1⟩,
    ⟨h2.1, strictly_increasing_nodup _ h2.1⟩,
    ⟨h2.2, strictly_increasing_nodup _ h2.2⟩⟩

theorem tracker_valid_subset_strictly_increasing_witness :
    run (State.init OfonoClass.CONNMGR) connmgr_reversed_events =
      some connmgr_reversed ∧
    manager_run ManagerState.init manager_reversed_events =
      some manager_reversed ∧
    connmgr_reversed.self.connmgr.valid_contexts = ["/a", "/b"] ∧
    manager_reversed.self.valid_modems = ["/a", "/b"] ∧
    manager_reversed.proxy.modem_paths = ["/a", "/b"] ∧
    StrictlyIncreasing connmgr_reversed.self.connmgr.valid_contexts ∧
    StrictlyIncreasing manager_reversed.self.valid_modems ∧
    StrictlyIncreasing manager_reversed.proxy.modem_paths :=
  ⟨by decide, by decide, by decide, by decide, by decide,
   (tracker_valid_subset_strictly_increasing OfonoClass.CONNMGR
      connmgr_reversed_events connmgr_reversed manager_reversed_events
      manager_reversed (by decide) (by decide)).1.1,
   (tracker_valid_subset_strictly_increasing OfonoClass.CONNMGR
      connmgr_reversed_events connmgr_reversed manager_reversed_events
      manager_reversed (by decide) (by decide)).2.1.1,
   (tracker_valid_subset_strictly_increasing OfonoClass.CONNMGR
      connmgr_reversed_events connmgr_reversed manager_reversed_events
      manager_reversed (by decide) (by decide)).2.2.1⟩

/-! ## Collection trackers: loss of bus-level readiness -/

theorem connmgr_object_ready_changed (st : State) (ready : Bool) :
    (ofono_object_ready_changed st ready).self.connmgr = st.self.connmgr := by
  unfold ofono_object_ready_changed
  simp only []
  split_ifs
  · rw [(update_valid_frame _).2.2.1, (untouched_query_properties st true).connmgr]
  · rfl
  · rw [(update_valid_frame _).2.2.1]
    unfold cancel_pending_calls
    have h1 : ∀ s : State, Untouched s (s.self.priv.pending_calls.foldl
        (fun s c => s.record (Action.cancel c.id)) s) := fun s =>
      untouched_foldl _
        (fun s (c : OfonoObjectPendingCall) =>
          untouched_record s (Action.cancel c.id) rfl) _ s
    simp only []
    rw [(h1 _).connmgr, (untouched_reset_properties _).connmgr,
      (untouched_cancel_get_properties _).connmgr]

/-- The OfonoConnMgr half of C19: when the ready flag of an OfonoConnMgr flips
from true to false, afterwards `all_contexts` and `valid_contexts` are empty
and no GetContexts call is attached. -/
theorem connmgr_ready_lost_clears (st : State)
    (hk : st.self.klass = OfonoClass.CONNMGR)
    (hr : st.self.priv.ready = true) (hf : fn_is_ready st.self = false) :
    (ofono_object_update_ready st).self.priv.ready = false ∧
    (ofono_object_update_ready st).self.connmgr.all_contexts = [] ∧
    (ofono_object_update_ready st).self.connmgr.valid_contexts = [] ∧
    (ofono_object_update_ready st).self.connmgr.get_contexts_pending = none := by
  obtain ⟨s0, h0, hp, _, _, _, _, hc⟩ := update_ready_to_false st hr hf
  obtain ⟨c1, c2, c3⟩ := hc hk
  have hr0 : s0.self.priv.ready = false := by rw [hp]
  obtain ⟨a1, _⟩ := object_ready_changed_false s0 false hr0
  rw [h0, connmgr_object_ready_changed]
  refine ⟨?_, c1, c2, c3⟩
  rw [a1, hp]

/-- The function `ofono_manager_proxy_vanished`: the manager proxy forgets its
paths, cancels what it has in flight and is not valid afterwards; the manager
recomputes its valid flag, which ends false, and keeps `all_modems` and
`valid_modems` as they are. -/
theorem manager_proxy_vanished_spec (st : ManagerState) :
    (ofono_manager_proxy_vanished st).proxy.modem_paths = [] ∧
    (ofono_manager_proxy_vanished st).proxy.cancel = none ∧
    (ofono_manager_proxy_vanished st).proxy.valid = false ∧
    (∀ c, st.proxy.cancel = some c →
      c ∈ (ofono_manager_proxy_vanished st).cancelled) ∧
    (ofono_manager_proxy_vanished st).self.all_modems = st.self.all_modems ∧
    (ofono_manager_proxy_vanished st).self.valid_modems = st.self.valid_modems := by
  unfold ofono_manager_proxy_vanished ofono_manager_proxy_reset
    proxy_emit_valid_changed ofono_manager_proxy_valid_changed
    ofono_manager_update_valid ManagerState.emit
  cases hc : st.proxy.cancel <;> cases hv : st.proxy.valid <;>
    cases hs : st.self.valid <;> simp [hc, hv, hs]

/-- C19 (evaluation at the failing input): the manager knows the modem "/a",
which is valid, and the service vanishes. The manager proxy becomes invalid
with no paths and nothing in flight, but the manager still has "/a" in
`all_modems` and in `valid_modems`. When the service appears again, the second
enumeration is in flight with "/a" unknown to the manager proxy and still in
`all_modems`, so a completion that reports "/a" reaches
`ofono_manager_add_modem` for a path that `all_modems` already has; and when
the service appears again without modems, the manager proxy becomes valid
while the manager, with the stale "/a" in `all_modems`, stays invalid. -/
theorem manager_keeps_modems_after_vanish :
    (manager_run ManagerState.init manager_vanished_events).map
      (fun s => (s.proxy.valid, s.proxy.modem_paths, s.proxy.cancel,
        s.get_modems_calls)) = some (false, [], none, []) ∧
    (manager_run ManagerState.init manager_vanished_events).map
      (fun s => (s.self.valid, s.self.all_modems, s.self.valid_modems)) =
      some (false, ["/a"], ["/a"]) ∧
    (manager_run ManagerState.init manager_second_enumeration_events).map
      (fun s => (s.get_modems_calls, s.proxy.modem_paths, s.self.all_modems)) =
      some ([2], [], ["/a"]) ∧
    (manager_run ManagerState.init manager_reappeared_events).map
      (fun s => (s.proxy.valid, s.proxy.modem_paths, s.self.valid,
        s.self.all_modems, s.self.valid_modems)) =
      some (true, [], false, ["/a"], []) :=
  ⟨by decide, by decide, by decide, by decide⟩

/-! ## The activation controller gives up -/

/-- C20: the toggle call completes with an error that is not Busy, or with
Busy when `retry_count` has reached `MAX_RETRY_COUNT`. If the current action
is ACTIVATE, exactly one "activate-failed" with that error is emitted, and at
that instant the object is as before except that `current_action` is NONE; if
the current action is DEACTIVATE, no "activate-failed" is emitted. In both
cases no retry timer is armed, `retry_id` is as before, `retry_count` is not
incremented (it is as before, or 0 when the next action is started), and the
current action ends as NONE unless the context is valid and a next action is
waiting, which is then started. -/
theorem connctx_gives_up (st : State) (e : GError)
    (hg : ofono_error_is_busy (some e) = false ∨
      MAX_RETRY_COUNT ≤ st.self.connctx.retry_count) :
    (st.self.connctx.current_action = CONNCTX_ACTION.ACTIVATE →
      ∃ rest, (ofono_connctx_set_active_done st (some e)).log =
          st.log ++
            ⟨Action.emit (Signal.activate_failed e),
              { st.self with connctx := { st.self.connctx with
                  current_action := CONNCTX_ACTION.NONE } }⟩ :: rest ∧
        ∀ x ∈ rest, x.action.is_activate_failed = false) ∧
    (st.self.connctx.current_action = CONNCTX_ACTION.DEACTIVATE →
      ∀ a ∈ st.new_actions (ofono_connctx_set_active_done st (some e)),
        a.is_activate_failed = false) ∧
    (∀ a ∈ st.new_actions (ofono_connctx_set_active_done st (some e)),
      a.is_retry_wait = false) ∧
    (ofono_connctx_set_active_done st (some e)).self.connctx.retry_id =
      st.self.connctx.retry_id ∧
    (ofono_connctx_set_active_done st (some e)).self.connctx.retry_count =
      (if st.self.valid = true ∧
          st.self.connctx.next_action ≠ CONNCTX_ACTION.NONE then 0
       else st.self.connctx.retry_count) ∧
    (ofono_connctx_set_active_done st (some e)).self.connctx.current_action =
      (if st.self.valid = true ∧
          st.self.connctx.next_action ≠ CONNCTX_ACTION.NONE then
        st.self.connctx.next_action
       else CONNCTX_ACTION.NONE) := by
  have hc : ¬ (e.domain = GQuark.OFONO_ERROR ∧ e.code = OFONO_ERROR_BUSY ∧
      st.self.connctx.retry_count < MAX_RETRY_COUNT) := by
    rintro ⟨h1, h2, h3⟩
    rcases hg with h | h
    · simp [ofono_error_is_busy, h1, h2] at h
    · exact absurd h3 (Nat.not_lt.mpr h)
  unfold ofono_connctx_set_active_done
  simp only [hc, if_false]
  by_cases hv : st.self.valid = true <;>
  by_cases hn : st.self.connctx.next_action = CONNCTX_ACTION.NONE <;>
  by_cases hp : st.self.priv.proxy = true <;>
  by_cases ha : st.self.connctx.current_action = CONNCTX_ACTION.ACTIVATE <;>
  simp [hv, hn, hp, ha, ofono_connctx_perform_next_action,
    ofono_object_set_boolean, g_signal_emit, State.record, State.new_actions,
    Action.is_activate_failed, Action.is_retry_wait]

theorem connctx_gives_up_witness :
    (ofono_error_is_busy (some OFONO_FAILED) = false ∧
      (ofono_connctx_activate connctx_valid_idle).self.connctx.current_action =
        CONNCTX_ACTION.ACTIVATE ∧
      (ofono_connctx_set_active_done (ofono_connctx_activate connctx_valid_idle)
        (some OFONO_FAILED)).self.connctx.current_action = CONNCTX_ACTION.NONE) ∧
    (ofono_error_is_busy (some OFONO_BUSY) = true ∧
      MAX_RETRY_COUNT ≤ connctx_retries_used.self.connctx.retry_count ∧
      connctx_retries_used.self.connctx.current_action =
        CONNCTX_ACTION.ACTIVATE ∧
      (ofono_connctx_set_active_done connctx_retries_used
        (some OFONO_BUSY)).self.connctx.retry_count = MAX_RETRY_COUNT ∧
      ((connctx_retries_used.new_actions
        (ofono_connctx_set_active_done connctx_retries_used
          (some OFONO_BUSY))).filter Action.is_activate_failed =
        [Action.emit (Signal.activate_failed OFONO_BUSY)])) :=
  ⟨⟨by decide, by decide,
    (connctx_gives_up (ofono_connctx_activate connctx_valid_idle) OFONO_FAILED
      (Or.inl (by decide))).2.2.2.2.2.trans (by decide)⟩,
   ⟨by decide, by decide, by decide,
    (connctx_gives_up connctx_retries_used OFONO_BUSY
      (Or.inr (by decide))).2.2.2.2.1.trans (by decide),
    by decide⟩⟩

/-! ## The name of an object -/

theorem name_offset_le (path : List Char) (i : Nat) :
    ofono_object_name_offset path i ≤ i := by
  induction i with
  | zero => exact Nat.le_refl _
  | succ i ih =>
    unfold ofono_object_name_offset
    split_ifs
    · exact Nat.le_succ_of_le ih
    · exact Nat.le_refl _

theorem name_offset_boundary (path : List Char) (i : Nat) :
    ofono_object_name_offset path i = 0 ∨
    path.get? (ofono_object_name_offset path i - 1) = some '/' := by
  induction i with
  | zero => exact Or.inl rfl
  | succ i ih =>
    unfold ofono_object_name_offset
    by_cases h : path.get? i = some '/'
    · simp only [h, bne_self_eq_false, Bool.false_eq_true, if_false]
      right
      simpa using h
    · have hb : (path.get? i != some '/') = true := by simpa using h
      simp only [hb, if_true]
      exact ih

theorem name_offset_no_slash (path : List Char) (i j : Nat)
    (h1 : ofono_object_name_offset path i ≤ j) (h2 : j < i) :
    path.get? j ≠ some '/' := by
  induction i with
  | zero => exact absurd h2 (Nat.not_lt_zero _)
  | succ i ih =>
    unfold ofono_object_name_offset at h1
    by_cases h : path.get? i = some '/'
    · simp only [h, bne_self_eq_false, Bool.false_eq_true, if_false] at h1
      omega
    · have hb : (path.get? i != some '/') = true := by simpa using h
      simp only [hb, if_true] at h1
      by_cases hj : j = i
      · rw [hj]; exact h
      · exact ih h1 (by omega)

/-- C29: `ofono_object_name` returns a suffix of the path that has no '/';
the rest of the path is empty or ends with '/', so no longer suffix is free
of '/'. "/modem0/context1" gives "context1", "/" gives the empty string and a
path without '/' is returned whole. -/
theorem object_name_is_last_component (p : String) :
    (∃ pre : List Char,
      p.toList = pre ++ (ofono_object_name p).toList ∧
      (pre = [] ∨ pre.getLast? = some '/') ∧
      '/' ∉ (ofono_object_name p).toList ∧
      ∀ s : List Char, s <:+ p.toList → '/' ∉ s →
        s.length ≤ (ofono_object_name p).toList.length) ∧
    ofono_object_name "/modem0/context1" = "context1" ∧
    ofono_object_name "/" = "" ∧
    ('/' ∉ p.toList → ofono_object_name p = p) := by
  obtain ⟨l⟩ := p
  have hle := name_offset_le l l.length
  have hb := name_offset_boundary l l.length
  have hn := name_offset_no_slash l l.length
  generalize hk : ofono_object_name_offset l l.length = k at hle hb hn
  have hname : (ofono_object_name ⟨l⟩).toList = l.drop k := by
    show l.drop (ofono_object_name_offset l l.length) = l.drop k
    rw [hk]
  have hnos : '/' ∉ l.drop k := by
    intro hm
    obtain ⟨n, hn2⟩ := List.mem_iff_get?.mp hm
    have hn3 : l.get? (k + n) = some '/' := by
      simpa [List.get?_eq_getElem?, List.getElem?_drop] using hn2
    have hlt : k + n < l.length := (List.get?_eq_some.mp hn3).1
    exact hn (k + n) (Nat.le_add_right _ _) hlt hn3
  have hlast : l.take k = [] ∨ (l.take k).getLast? = some '/' := by
    rcases hb with h0 | hs
    · left; rw [h0]; rfl
    · by_cases hk0 : k = 0
      · left; rw [hk0]; rfl
      · right
        have hlen : (l.take k).length = k := by
          rw [List.length_take]; omega
        rw [List.getLast?_eq_getElem?, hlen, List.getElem?_take_of_lt (by omega)]
        simpa using hs
  refine ⟨⟨l.take k, ?_, hlast, ?_, ?_⟩, by decide, by decide, ?_⟩
  · rw [hname]; exact (List.take_append_drop k l).symm
  · rw [hname]; exact hnos
  · intro s hs hsl
    rw [hname, List.length_drop]
    by_contra hlt
    obtain ⟨t, ht⟩ := hs
    have ht : t ++ s = l := ht
    have hk0 : 0 < k := by
      have : t.length + s.length = l.length := by
        rw [← ht, List.length_append]
      omega
    rcases hb with h0 | hslash
    · omega
    · apply hsl
      have htl : t.length + s.length = l.length := by
        rw [← ht, List.length_append]
      have hi : t.length ≤ k - 1 := by omega
      have hget : l.get? (k - 1) = s.get? (k - 1 - t.length) := by
        rw [← ht]
        simp only [List.get?_eq_getElem?]
        rw [List.getElem?_append_right hi]
      rw [hslash] at hget
      exact List.mem_iff_get?.mpr ⟨_, hget.symm⟩
  · intro hsl
    have hk0 : k = 0 := by
      rcases hb with h0 | hs
      · exact h0
      · exact absurd (List.mem_iff_get?.mpr ⟨_, hs⟩) hsl
    show (⟨l.drop (ofono_object_name_offset l l.length)⟩ : String) = ⟨l⟩
    rw [hk, hk0]
    rfl

theorem object_name_is_last_component_witness :
    '/' ∉ "context1".toList ∧ ofono_object_name "context1" = "context1" :=
  ⟨by decide, (object_name_is_last_component "context1").2.2.2 (by decide)⟩

/-! ## The decoder of the settings of a connection context -/

theorem lookup_nonempty_string_eq_some (d : List (String × GValue))
    (key s : String) :
    lookup_nonempty_string d key = some s ↔
      d.lookup key = some (GValue.string s) ∧ s ≠ "" := by
  unfold lookup_nonempty_string
  generalize d.lookup key = r
  cases r with
  | none => simp
  | some v =>
    cases v with
    | string s1 =>
      by_cases he : s1 = ""
      · subst he
        show (if "".isEmpty = true then none else some "") = some s ↔ _
        rw [if_pos ((String.isEmpty_iff "").mpr rfl)]
        simp only [Option.some.injEq, GValue.string.injEq]
        constructor
        · intro hh; cases hh
        · rintro ⟨h1, h2⟩; exact absurd h1.symm h2
      · have hi : ¬ s1.isEmpty = true :=
          fun hh => he ((String.isEmpty_iff s1).mp hh)
        show (if s1.isEmpty = true then none else some s1) = some s ↔ _
        rw [if_neg hi]
        simp only [Option.some.injEq, GValue.string.injEq]
        constructor
        · intro hh; subst hh; exact ⟨rfl, he⟩
        · rintro ⟨h1, _⟩; exact h1
    | _ => simp

theorem lookup_byte_spec (r : Option GValue) :
    ((match r with
      | some (GValue.byte y) => some y
      | _ => (none : Option Nat)).isSome = true ↔
      ∃ y, r = some (GValue.byte y)) ∧
    (∀ y, r = some (GValue.byte y) →
      (match r with
        | some (GValue.byte y) => some y
        | _ => (none : Option Nat)).getD 0 = y) ∧
    ((¬ ∃ y, r = some (GValue.byte y)) →
      (match r with
        | some (GValue.byte y) => some y
        | _ => (none : Option Nat)).getD 0 = 0) := by
  cases r with
  | none => simp
  | some v => cases v <;> simp

theorem lookup_array_spec (r : Option GValue) (l : List String) :
    (match r with
      | some (GValue.strv l) => if l.length > 0 then some l else none
      | _ => (none : Option (List String))) = some l ↔
    r = some (GValue.strv l) ∧ l ≠ [] := by
  cases r with
  | none => simp
  | some v =>
    cases v with
    | strv l1 =>
      by_cases hl : l1 = []
      · subst hl
        simp only [List.length_nil, gt_iff_lt, Nat.lt_irrefl, if_false,
          Option.some.injEq, GValue.strv.injEq]
        constructor
        · intro hh; cases hh
        · rintro ⟨h1, h2⟩; exact absurd h1.symm h2
      · have hp : l1.length > 0 := List.length_pos.mpr hl
        simp only [hp, if_true, Option.some.injEq, GValue.strv.injEq]
        constructor
        · intro hh; subst hh; exact ⟨rfl, hl⟩
        · rintro ⟨h1, _⟩; exact h1
    | _ => simp

theorem lookup_nonempty_string_is_some (d : List (String × GValue))
    (key : String) :
    (lookup_nonempty_string d key).isSome = true ↔
      ∃ s, d.lookup key = some (GValue.string s) ∧ s ≠ "" := by
  rw [Option.isSome_iff_exists]
  exact exists_congr (fun s => lookup_nonempty_string_eq_some d key s)

/-- C30: `ofono_connctx_settings_decode` returns TRUE exactly when the
dictionary is there and holds "Interface", "Address", "Netmask", "Gateway" or
"Method" as a non-empty string, or "PrefixLength" as a byte, or
"DomainNameServers" as an array that is not empty. Each field is set exactly
when its entry is present in that sense and is at its default otherwise; no
dictionary gives the all-default settings and FALSE; and after
`ofono_connctx_property_settings_apply` the public settings pointer is set
exactly when the decoder returned TRUE. -/
theorem settings_decode_spec (dict : Option GVariant) :
    ((ofono_connctx_settings_decode dict).2 = true ↔
      ∃ d, dict = some (GVariant.vardict d) ∧
        ((∃ key ∈ ["Interface", "Address", "Netmask", "Gateway", "Method"],
            ∃ s, d.lookup key = some (GValue.string s) ∧ s ≠ "") ∨
         (∃ y, d.lookup "PrefixLength" = some (GValue.byte y)) ∨
         (∃ l, d.lookup "DomainNameServers" = some (GValue.strv l) ∧ l ≠ []))) ∧
    (∀ d, dict = some (GVariant.vardict d) →
      (∀ s, (ofono_connctx_settings_decode dict).1.ifname = some s ↔
        d.lookup "Interface" = some (GValue.string s) ∧ s ≠ "") ∧
      (∀ s, (ofono_connctx_settings_decode dict).1.address = some s ↔
        d.lookup "Address" = some (GValue.string s) ∧ s ≠ "") ∧
      (∀ s, (ofono_connctx_settings_decode dict).1.netmask = some s ↔
        d.lookup "Netmask" = some (GValue.string s) ∧ s ≠ "") ∧
      (∀ s, (ofono_connctx_settings_decode dict).1.gateway = some s ↔
        d.lookup "Gateway" = some (GValue.string s) ∧ s ≠ "") ∧
      (∀ s, d.lookup "Method" = some (GValue.string s) → s ≠ "" →
        (ofono_connctx_settings_decode dict).1.method =
          ofono_name_to_int ofono_connctx_method_map s) ∧
      ((¬ ∃ s, d.lookup "Method" = some (GValue.string s) ∧ s ≠ "") →
        (ofono_connctx_settings_decode dict).1.method =
          OFONO_CONNCTX_METHOD_UNKNOWN) ∧
      (∀ y, d.lookup "PrefixLength" = some (GValue.byte y) →
        (ofono_connctx_settings_decode dict).1.prefix_length = y) ∧
      ((¬ ∃ y, d.lookup "PrefixLength" = some (GValue.byte y)) →
        (ofono_connctx_settings_decode dict).1.prefix_length = 0) ∧
      (∀ l, (ofono_connctx_settings_decode dict).1.dns = some l ↔
        d.lookup "DomainNameServers" = some (GValue.strv l) ∧ l ≠ [])) ∧
    (dict = none →
      ofono_connctx_settings_decode dict =
        (⟨OFONO_CONNCTX_METHOD_UNKNOWN, 0, none, none, none, none, none⟩,
         false)) ∧
    (∀ (st : State) (ipv6 : Bool),
      (if ipv6 then
        (ofono_connctx_property_settings_apply st ipv6
          dict).1.self.connctx.ipv6_settings_pub
       else
        (ofono_connctx_property_settings_apply st ipv6
          dict).1.self.connctx.settings_pub) =
        (ofono_connctx_settings_decode dict).2) := by
  have hpfx := fun d : List (String × GValue) =>
    lookup_byte_spec (d.lookup "PrefixLength")
  have hdns := fun d : List (String × GValue) =>
    lookup_array_spec (d.lookup "DomainNameServers")
  refine ⟨?_, ?_, ?_, ?_⟩
  · cases dict with
    | none =>
      simp [ofono_connctx_settings_decode]
    | some v =>
      cases v with
      | vardict d =>
        have h1 := lookup_nonempty_string_is_some d "Interface"
        have h2 := lookup_nonempty_string_is_some d "Address"
        have h3 := lookup_nonempty_string_is_some d "Netmask"
        have h4 := lookup_nonempty_string_is_some d "Gateway"
        have h5 := lookup_nonempty_string_is_some d "Method"
        have h6 := (hpfx d).1
        have h7 : (match d.lookup "DomainNameServers" with
            | some (GValue.strv l) => if l.length > 0 then some l else none
            | _ => (none : Option (List String))).isSome = true ↔
            ∃ l, d.lookup "DomainNameServers" = some (GValue.strv l) ∧ l ≠ [] := by
          rw [Option.isSome_iff_exists]
          exact exists_congr (hdns d)
        simp only [ofono_connctx_settings_decode, Bool.or_eq_true]
        constructor
        · intro h
          refine ⟨d, rfl, ?_⟩
          rcases h with (((((h | h) | h) | h) | h) | h) | h
          · exact Or.inl ⟨"Interface", by simp, h1.mp h⟩
          · exact Or.inl ⟨"Address", by simp, h2.mp h⟩
          · exact Or.inl ⟨"Netmask", by simp, h3.mp h⟩
          · exact Or.inl ⟨"Gateway", by simp, h4.mp h⟩
          · exact Or.inl ⟨"Method", by simp, h5.mp h⟩
          · exact Or.inr (Or.inl (h6.mp h))
          · exact Or.inr (Or.inr (h7.mp h))
        · rintro ⟨d1, hd, h⟩
          cases hd
          rcases h with ⟨key, hk, hs⟩ | h | h
          · simp only [List.mem_cons, List.mem_singleton, List.not_mem_nil,
              or_false] at hk
            rcases hk with hk | hk | hk | hk | hk <;> subst hk
            · exact Or.inl (Or.inl (Or.inl (Or.inl (Or.inl (Or.inl (h1.mpr hs))))))
            · exact Or.inl (Or.inl (Or.inl (Or.inl (Or.inl (Or.inr (h2.mpr hs))))))
            · exact Or.inl (Or.inl (Or.inl (Or.inl (Or.inr (h3.mpr hs)))))
            · exact Or.inl (Or.inl (Or.inl (Or.inr (h4.mpr hs))))
            · exact Or.inl (Or.inl (Or.inr (h5.mpr hs)))
          · exact Or.inl (Or.inr (h6.mpr h))
          · exact Or.inr (h7.mpr h)
      | _ => simp [ofono_connctx_settings_decode]
  · intro d hd
    subst hd
    simp only [ofono_connctx_settings_decode]
    refine ⟨lookup_nonempty_string_eq_some d _, lookup_nonempty_string_eq_some d _,
      lookup_nonempty_string_eq_some d _, lookup_nonempty_string_eq_some d _,
      ?_, ?_, (hpfx d).2.1, (hpfx d).2.2, hdns d⟩
    · intro s h1 h2
      rw [(lookup_nonempty_string_eq_some d "Method" s).mpr ⟨h1, h2⟩]
    · intro hn
      cases hm : lookup_nonempty_string d "Method" with
      | none => rfl
      | some s =>
        exact absurd ⟨s, (lookup_nonempty_string_eq_some d "Method" s).mp hm⟩ hn
  · intro hd
    subst hd
    rfl
  · intro st ipv6
    unfold ofono_connctx_property_settings_apply
    cases ipv6 <;> simp only [] <;> split_ifs <;> simp [g_signal_emit, State.record]

theorem settings_decode_spec_witness :
    List.lookup "PrefixLength" [("PrefixLength", GValue.byte 0)] =
      some (GValue.byte 0) ∧
    (ofono_connctx_settings_decode
      (some (GVariant.vardict [("PrefixLength", GValue.byte 0)]))).2 = true ∧
    (ofono_connctx_settings_decode
      (some (GVariant.vardict [("PrefixLength", GValue.byte 0)]))).1.prefix_length
      = 0 :=
  ⟨by decide,
   (settings_decode_spec
      (some (GVariant.vardict [("PrefixLength", GValue.byte 0)]))).1.mpr
     ⟨_, rfl, Or.inr (Or.inl ⟨0, by decide⟩)⟩,
   (settings_decode_spec
      (some (GVariant.vardict [("PrefixLength", GValue.byte 0)]))).2.1
     _ rfl |>.2.2.2.2.2.2.1 0 (by decide)⟩

/-! ## The activation controller: requests and the advance -/

/-- C23: a request for the action that is already current
(`ofono_connctx_activate` while ACTIVATE is current, `ofono_connctx_deactivate`
while DEACTIVATE is current) only sets `next_action` to NONE: nothing is
logged, so no toggle call is issued, and the rest of the state, with
`current_action`, `retry_count`, `retry_id` and the pending calls, is as
before; a request for an action that is not current sets `next_action` to it
and runs `ofono_connctx_perform_next_action` at once. -/
theorem connctx_request_spec (st : State) (a : CONNCTX_ACTION)
    (ha : a = CONNCTX_ACTION.ACTIVATE ∨ a = CONNCTX_ACTION.DEACTIVATE) :
    (a = CONNCTX_ACTION.ACTIVATE →
      ofono_connctx_activate st = ofono_connctx_perform_action st a) ∧
    (a = CONNCTX_ACTION.DEACTIVATE →
      ofono_connctx_deactivate st = ofono_connctx_perform_action st a) ∧
    (st.self.connctx.current_action = a →
      ofono_connctx_perform_action st a =
        { st with self := { st.self with connctx :=
            { st.self.connctx with next_action := CONNCTX_ACTION.NONE } } } ∧
      (ofono_connctx_perform_action st a).self.connctx.next_action =
        CONNCTX_ACTION.NONE ∧
      st.new_actions (ofono_connctx_perform_action st a) = [] ∧
      (ofono_connctx_perform_action st a).self.connctx.current_action = a ∧
      (ofono_connctx_perform_action st a).self.connctx.retry_count =
        st.self.connctx.retry_count ∧
      (ofono_connctx_perform_action st a).self.connctx.retry_id =
        st.self.connctx.retry_id ∧
      (ofono_connctx_perform_action st a).self.priv.pending_calls =
        st.self.priv.pending_calls) ∧
    (st.self.connctx.current_action ≠ a →
      ofono_connctx_perform_action st a =
        ofono_connctx_perform_next_action
          { st with self := { st.self with connctx :=
              { st.self.connctx with next_action := a } } }) := by
  refine ⟨?_, ?_, ?_, ?_⟩
  · intro h; subst h; rfl
  · intro h; subst h; rfl
  · intro hc
    have he : ofono_connctx_perform_action st a =
        { st with self := { st.self with connctx :=
            { st.self.connctx with next_action := CONNCTX_ACTION.NONE } } } := by
      unfold ofono_connctx_perform_action
      simp [hc]
    rw [he]
    refine ⟨rfl, rfl, ?_, hc, rfl, rfl, rfl⟩
    simp [State.new_actions]
  · intro hc
    unfold ofono_connctx_perform_action
    simp [hc]

theorem connctx_request_spec_witness :
    (ofono_connctx_activate connctx_valid_idle).self.connctx.current_action =
      CONNCTX_ACTION.ACTIVATE ∧
    (ofono_connctx_activate connctx_valid_idle).new_actions
      (ofono_connctx_perform_action (ofono_connctx_activate connctx_valid_idle)
        CONNCTX_ACTION.ACTIVATE) = [] :=
  ⟨by decide,
   ((connctx_request_spec (ofono_connctx_activate connctx_valid_idle)
      CONNCTX_ACTION.ACTIVATE (Or.inl rfl)).2.2.1 (by decide)).2.2.1⟩

/-- C24: `ofono_connctx_perform_next_action` on a state in which a valid
object has its proxy and a pending retry timer means that an action is
current (both hold whenever the function runs). On an object that is not
valid nothing changes. On a valid object with a retry timer pending and a
next action that is neither NONE nor the current one, the timer is removed
and the toggle for the next action is issued at once; on a valid object with
no current action and a next action, the toggle is issued. In both cases
`retry_count` ends 0, `current_action` ends as the former next action,
`next_action` ends NONE and no timer is pending. -/
theorem connctx_advance_spec (st : State)
    (hp : st.self.valid = true → st.self.priv.proxy = true)
    (ht : st.self.connctx.retry_id ≠ 0 →
      st.self.connctx.current_action ≠ CONNCTX_ACTION.NONE) :
    (st.self.valid = false → ofono_connctx_perform_next_action st = st) ∧
    (st.self.valid = true → st.self.connctx.retry_id ≠ 0 →
      st.self.connctx.next_action ≠ CONNCTX_ACTION.NONE →
      st.self.connctx.next_action ≠ st.self.connctx.current_action →
      st.new_actions (ofono_connctx_perform_next_action st) =
        [Action.source_remove st.self.connctx.retry_id,
         toggle_call st.next_id
           (decide (st.self.connctx.next_action = CONNCTX_ACTION.ACTIVATE))] ∧
      (ofono_connctx_perform_next_action st).self.priv.pending_calls =
        ⟨st.next_id, false,
          decide (st.self.connctx.next_action = CONNCTX_ACTION.ACTIVATE)⟩ ::
          st.self.priv.pending_calls ∧
      (ofono_connctx_perform_next_action st).self.connctx.retry_count = 0 ∧
      (ofono_connctx_perform_next_action st).self.connctx.current_action =
        st.self.connctx.next_action ∧
      (ofono_connctx_perform_next_action st).self.connctx.next_action =
        CONNCTX_ACTION.NONE ∧
      (ofono_connctx_perform_next_action st).self.connctx.retry_id = 0) ∧
    (st.self.valid = true →
      st.self.connctx.current_action = CONNCTX_ACTION.NONE →
      st.self.connctx.next_action ≠ CONNCTX_ACTION.NONE →
      st.new_actions (ofono_connctx_perform_next_action st) =
        [toggle_call st.next_id
           (decide (st.self.connctx.next_action = CONNCTX_ACTION.ACTIVATE))] ∧
      (ofono_connctx_perform_next_action st).self.priv.pending_calls =
        ⟨st.next_id, false,
          decide (st.self.connctx.next_action = CONNCTX_ACTION.ACTIVATE)⟩ ::
          st.self.priv.pending_calls ∧
      (ofono_connctx_perform_next_action st).self.connctx.retry_count = 0 ∧
      (ofono_connctx_perform_next_action st).self.connctx.current_action =
        st.self.connctx.next_action ∧
      (ofono_connctx_perform_next_action st).self.connctx.next_action =
        CONNCTX_ACTION.NONE ∧
      (ofono_connctx_perform_next_action st).self.connctx.retry_id = 0) ∧
    (st.self.valid = true →
      st.self.connctx.current_action ≠ CONNCTX_ACTION.NONE →
      (st.self.connctx.retry_id = 0 ∨
        st.self.connctx.next_action = CONNCTX_ACTION.NONE ∨
        st.self.connctx.next_action = st.self.connctx.current_action) →
      ofono_connctx_perform_next_action st = st) := by
  by_cases hv : st.self.valid = true <;>
  by_cases hcur : st.self.connctx.current_action = CONNCTX_ACTION.NONE <;>
  by_cases hnext : st.self.connctx.next_action = CONNCTX_ACTION.NONE <;>
  by_cases hneq : st.self.connctx.next_action = st.self.connctx.current_action <;>
  by_cases hret : st.self.connctx.retry_id = 0 <;>
  simp_all [ofono_connctx_perform_next_action, ofono_object_set_boolean,
    State.record, State.new_actions, toggle_call, OFONO_CONNCTX_PROPERTY_ACTIVE]

theorem connctx_advance_spec_witness :
    (connctx_busy_then_deactivate.self.valid = true ∧
      connctx_busy_then_deactivate.self.priv.proxy = true ∧
      connctx_busy_then_deactivate.self.connctx.retry_id ≠ 0 ∧
      connctx_busy_then_deactivate.self.connctx.current_action =
        CONNCTX_ACTION.ACTIVATE) ∧
    connctx_busy_then_deactivate.new_actions
        (ofono_connctx_perform_next_action connctx_busy_then_deactivate) =
      [Action.source_remove G_SOURCE_ID, toggle_call 3 false] ∧
    (ofono_connctx_perform_next_action
      connctx_busy_then_deactivate).self.connctx.current_action =
      CONNCTX_ACTION.DEACTIVATE :=
  ⟨by decide,
   ((connctx_advance_spec connctx_busy_then_deactivate (by decide)
      (by decide)).2.1 (by decide) (by decide) (by decide) (by decide)).1,
   ((connctx_advance_spec connctx_busy_then_deactivate (by decide)
      (by decide)).2.1 (by decide) (by decide) (by decide)
      (by decide)).2.2.2.1.trans (by decide)⟩

/-! ## A live PropertyChanged signal and a bulk fetch of one entry -/

/-- C25 (as amended): a live PropertyChanged (name, value) and a bulk fetch of
the dictionary with that one entry leave the same object (the same cache and
the same typed fields) and the same state apart from the log. When the
descriptor reports no change neither emits anything after applying it. When
it reports a change both emit the per-property signal; the live path then
emits the generic "property-changed" with the received value, the bulk path
emits it with the value that `fn_value` gives for the typed field, and not at
all when `fn_value` gives none. The two paths agree entirely when `fn_value`
gives the received value. -/
theorem live_property_changed_vs_bulk (st : State) (name : String)
    (value : GVariant) :
    (ofono_object_property_changed st name value).self =
      (property_change_applied st name value).1.self ∧
    (ofono_object_apply_properties st [(name, value)]).self =
      (property_change_applied st name value).1.self ∧
    { ofono_object_property_changed st name value with log := [] } =
      { ofono_object_apply_properties st [(name, value)] with log := [] } ∧
    (ofono_object_property_changed st name value).log =
      (property_change_applied st name value).1.log ++
        (match (property_change_applied st name value).2 with
         | some p =>
           [⟨Action.emit (Signal.named p.signal_name),
              (property_change_applied st name value).1.self⟩,
            ⟨Action.emit (Signal.property_changed name value),
              (property_change_applied st name value).1.self⟩]
         | none => []) ∧
    (ofono_object_apply_properties st [(name, value)]).log =
      (property_change_applied st name value).1.log ++
        (match (property_change_applied st name value).2 with
         | some p =>
           ⟨Action.emit (Signal.named p.signal_name),
              (property_change_applied st name value).1.self⟩ ::
           (match fn_value (property_change_applied st name value).1.self p with
            | some v =>
              [⟨Action.emit (Signal.property_changed name v),
                 (property_change_applied st name value).1.self⟩]
            | none => [])
         | none => []) ∧
    ((∀ p, (property_change_applied st name value).2 = some p →
        fn_value (property_change_applied st name value).1.self p = some value) →
      ofono_object_property_changed st name value =
        ofono_object_apply_properties st [(name, value)]) := by
  have hname := apply_property_name (st.cache_replace name value) name value
  unfold ofono_object_property_changed ofono_object_apply_properties
    property_change_applied at *
  simp only [List.foldl_cons, List.foldl_nil, List.nil_append]
  generalize ofono_object_apply_property (st.cache_replace name value) name value
    = a at hname ⊢
  obtain ⟨s, c⟩ := a
  cases c with
  | none =>
    simp [ofono_object_emit_property_change_signals]
  | some p =>
    have hn : p.name = name := hname p rfl
    cases hv : fn_value s.self p with
    | none =>
      have e1 : fn_value (g_signal_emit s (Signal.named p.signal_name)).self p =
          none := hv
      simp [ofono_object_emit_property_change_signals, g_signal_emit,
        State.record, hv, hn]
    | some v =>
      have e1 : fn_value (g_signal_emit s (Signal.named p.signal_name)).self p =
          some v := hv
      simp only [ofono_object_emit_property_change_signals, List.foldl_cons,
        List.foldl_nil, e1, hn, hv]
      refine ⟨rfl, rfl, rfl, ?_, ?_, ?_⟩
      · simp [g_signal_emit, State.record]
      · simp [g_signal_emit, State.record]
      · intro h
        have h2 := h p rfl
        have hval : v = value := Option.some.inj (hv.symm.trans h2)
        rw [hval]

/-- C25 as stated fails: on a valid connection context of type "internet", a
live PropertyChanged of "Type" to the unknown name "bogus" emits
"property-changed" with the value "bogus" while the bulk fetch of that one
entry emits it with the empty string; and for non-empty "Settings" the live
path emits "property-changed" while the bulk fetch emits none. -/
theorem live_and_bulk_generic_event_differ :
    connctx_valid_idle.new_actions
        (ofono_object_property_changed connctx_valid_idle "Type"
          (GVariant.string "bogus")) =
      [Action.emit (Signal.named "type-changed"),
       Action.emit (Signal.property_changed "Type" (GVariant.string "bogus"))] ∧
    connctx_valid_idle.new_actions
        (ofono_object_apply_properties connctx_valid_idle
          [("Type", GVariant.string "bogus")]) =
      [Action.emit (Signal.named "type-changed"),
       Action.emit (Signal.property_changed "Type" (GVariant.string ""))] ∧
    connctx_valid_idle.new_actions
        (ofono_object_property_changed connctx_valid_idle "Settings"
          (GVariant.vardict [("Interface", GValue.string "rmnet0")])) =
      [Action.emit Signal.interface_changed,
       Action.emit (Signal.named "settings-changed"),
       Action.emit (Signal.property_changed "Settings"
         (GVariant.vardict [("Interface", GValue.string "rmnet0")]))] ∧
    connctx_valid_idle.new_actions
        (ofono_object_apply_properties connctx_valid_idle
          [("Settings",
            GVariant.vardict [("Interface", GValue.string "rmnet0")])]) =
      [Action.emit Signal.interface_changed,
       Action.emit (Signal.named "settings-changed")] := by
  decide

theorem live_property_changed_vs_bulk_witness :
    (∀ p, (property_change_applied connctx_valid_idle "Active"
        (GVariant.boolean true)).2 = some p →
      fn_value (property_change_applied connctx_valid_idle "Active"
        (GVariant.boolean true)).1.self p = some (GVariant.boolean true)) ∧
    ofono_object_property_changed connctx_valid_idle "Active"
        (GVariant.boolean true) =
      ofono_object_apply_properties connctx_valid_idle
        [("Active", GVariant.boolean true)] :=
  ⟨by
    intro p hp
    have e : (property_change_applied connctx_valid_idle "Active"
        (GVariant.boolean true)).2 =
        some ⟨OFONO_CONNCTX_PROPERTY_ACTIVE, "active-changed",
          PropertyKind.BOOL⟩ := by decide
    rw [e] at hp
    cases hp
    decide,
   (live_property_changed_vs_bulk connctx_valid_idle "Active"
      (GVariant.boolean true)).2.2.2.2.2 (by
    intro p hp
    have e : (property_change_applied connctx_valid_idle "Active"
        (GVariant.boolean true)).2 =
        some ⟨OFONO_CONNCTX_PROPERTY_ACTIVE, "active-changed",
          PropertyKind.BOOL⟩ := by decide
    rw [e] at hp
    cases hp
    decide)⟩

/-! ## Collection trackers: the valid subset against the known set -/

theorem tracked_nil (env : List String) : Tracked [] [] env :=
  ⟨fun _ h => h, fun _ h => absurd h (List.not_mem_nil _),
   fun _ h => absurd h (List.not_mem_nil _), List.nodup_nil, List.nodup_nil⟩

theorem mem_filter_ne (l : List String) (p q : String) :
    q ∈ l.filter (fun x => x != p) ↔ q ∈ l ∧ q ≠ p := by
  simp [List.mem_filter]

theorem nodup_sort_append (l : List String) (p : String) (h : l.Nodup)
    (hp : p ∉ l) : (g_ptr_array_sort (l ++ [p])).Nodup := by
  apply (List.perm_insertionSort _ _).nodup_iff.mpr
  rw [List.nodup_append]
  refine ⟨h, List.nodup_singleton p, ?_⟩
  intro a ha hb
  rw [List.mem_singleton] at hb
  subst hb
  exact hp ha

theorem mem_sort_append (l : List String) (p q : String) :
    q ∈ g_ptr_array_sort (l ++ [p]) ↔ q ∈ l ∨ q = p := by
  rw [mem_g_ptr_array_sort, List.mem_append, List.mem_singleton]

/-- A valid child enters the valid subset. -/
theorem tracked_insert {all valid env : List String} (p : String)
    (h : Tracked all valid env) (ha : p ∈ all) (he : p ∈ env) (hv : p ∉ valid) :
    Tracked all (g_ptr_array_sort (valid ++ [p])) env := by
  refine ⟨?_, ?_, ?_, h.nodup_all, nodup_sort_append valid p h.nodup_valid hv⟩
  · intro q hq
    rcases (mem_sort_append valid p q).mp hq with h1 | h1
    · exact h.known q h1
    · rw [h1]; exact ha
  · intro q hq
    rcases (mem_sort_append valid p q).mp hq with h1 | h1
    · exact h.valid q h1
    · rw [h1]; exact he
  · intro q hq hqe
    exact (mem_sort_append valid p q).mpr (Or.inl (h.complete q hq hqe))

/-- A child becomes known (`g_hash_table_replace`); it is not valid, or it is
in the valid subset already. -/
theorem tracked_replace {all valid env : List String} (p : String)
    (h : Tracked all valid env) (hp : p ∈ env → p ∈ valid) :
    Tracked (p :: all.filter (fun q => q != p)) valid env := by
  refine ⟨?_, h.valid, ?_, ?_, h.nodup_valid⟩
  · intro q hq
    by_cases e : q = p
    · rw [e]; exact List.mem_cons_self _ _
    · exact List.mem_cons_of_mem _ ((mem_filter_ne all p q).mpr ⟨h.known q hq, e⟩)
  · intro q hq hqe
    rcases List.mem_cons.mp hq with e | hm
    · rw [e]; rw [e] at hqe; exact hp hqe
    · exact h.complete q ((mem_filter_ne all p q).mp hm).1 hqe
  · rw [List.nodup_cons]
    refine ⟨?_, h.nodup_all.filter _⟩
    intro hm
    exact ((mem_filter_ne all p p).mp hm).2 rfl

/-- A known child becomes known while the relation is broken only for it: it
is valid and not yet in the valid subset. -/
theorem tracked_replace_insert {all valid env : List String} (p : String)
    (h : Tracked all valid env) (he : p ∈ env) (hv : p ∉ valid) :
    Tracked (p :: all.filter (fun q => q != p))
      (g_ptr_array_sort (valid ++ [p])) env := by
  refine ⟨?_, ?_, ?_, ?_, nodup_sort_append valid p h.nodup_valid hv⟩
  · intro q hq
    by_cases e : q = p
    · rw [e]; exact List.mem_cons_self _ _
    · rcases (mem_sort_append valid p q).mp hq with h1 | h1
      · exact List.mem_cons_of_mem _ ((mem_filter_ne all p q).mpr ⟨h.known q h1, e⟩)
      · exact absurd h1 e
  · intro q hq
    rcases (mem_sort_append valid p q).mp hq with h1 | h1
    · exact h.valid q h1
    · rw [h1]; exact he
  · intro q hq hqe
    rcases List.mem_cons.mp hq with e | hm
    · exact (mem_sort_append valid p q).mpr (Or.inr e)
    · exact (mem_sort_append valid p q).mpr
        (Or.inl (h.complete q ((mem_filter_ne all p q).mp hm).1 hqe))
  · rw [List.nodup_cons]
    refine ⟨?_, h.nodup_all.filter _⟩
    intro hm
    exact ((mem_filter_ne all p p).mp hm).2 rfl

/-- A child is removed from the known set and from the valid subset. -/
theorem tracked_remove {all valid env : List String} (p : String)
    (h : Tracked all valid env) :
    Tracked (all.filter (fun q => q != p)) (valid.erase p) env := by
  refine ⟨?_, ?_, ?_, h.nodup_all.filter _, h.nodup_valid.erase p⟩
  · intro q hq
    have := (h.nodup_valid.mem_erase_iff).mp hq
    exact (mem_filter_ne all p q).mpr ⟨h.known q this.2, this.1⟩
  · intro q hq
    exact h.valid q (List.mem_of_mem_erase hq)
  · intro q hq hqe
    have := (mem_filter_ne all p q).mp hq
    exact (h.nodup_valid.mem_erase_iff).mpr ⟨this.2, h.complete q this.1 hqe⟩

/-- A child stops being valid and leaves the valid subset. -/
theorem tracked_invalidate {all valid env : List String} (p : String)
    (h : Tracked all valid env) :
    Tracked all (valid.erase p) (env.filter (fun q => q != p)) := by
  refine ⟨?_, ?_, ?_, h.nodup_all, h.nodup_valid.erase p⟩
  · intro q hq
    exact h.known q (List.mem_of_mem_erase hq)
  · intro q hq
    have := (h.nodup_valid.mem_erase_iff).mp hq
    exact (mem_filter_ne env p q).mpr ⟨h.valid q this.2, this.1⟩
  · intro q hq hqe
    have := (mem_filter_ne env p q).mp hqe
    exact (h.nodup_valid.mem_erase_iff).mpr ⟨this.2, h.complete q hq this.1⟩

/-- A child that is not known becomes valid. -/
theorem tracked_validate_unknown {all valid env : List String} (p : String)
    (h : Tracked all valid env) (hp : p ∉ all) :
    Tracked all valid (p :: env) := by
  refine ⟨h.known, ?_, ?_, h.nodup_all, h.nodup_valid⟩
  · intro q hq
    exact List.mem_cons_of_mem _ (h.valid q hq)
  · intro q hq hqe
    rcases List.mem_cons.mp hqe with e | hm
    · rw [e] at hq; exact absurd hq hp
    · exact h.complete q hq hm

/-- A known child becomes valid and enters the valid subset. -/
theorem tracked_validate {all valid env : List String} (p : String)
    (h : Tracked all valid env) (hp : p ∈ all) (hv : p ∉ valid) :
    Tracked all (g_ptr_array_sort (valid ++ [p])) (p :: env) := by
  refine ⟨?_, ?_, ?_, h.nodup_all, nodup_sort_append valid p h.nodup_valid hv⟩
  · intro q hq
    rcases (mem_sort_append valid p q).mp hq with h1 | h1
    · exact h.known q h1
    · rw [h1]; exact hp
  · intro q hq
    rcases (mem_sort_append valid p q).mp hq with h1 | h1
    · exact List.mem_cons_of_mem _ (h.valid q h1)
    · rw [h1]; exact List.mem_cons_self _ _
  · intro q hq hqe
    rcases List.mem_cons.mp hqe with e | hm
    · exact (mem_sort_append valid p q).mpr (Or.inr e)
    · exact (mem_sort_append valid p q).mpr (Or.inl (h.complete q hq hm))

/-- The size test of the trackers: the known set and the valid subset have the
same size exactly when every known child is valid. -/
theorem tracked_size {all valid env : List String} (h : Tracked all valid env) :
    all.length = valid.length ↔ ∀ p ∈ all, p ∈ env := by
  have hsub : valid.Subperm all :=
    List.subperm_of_subset h.nodup_valid h.known
  constructor
  · intro hl p hp
    have hperm : valid.Perm all :=
      hsub.perm_of_length_le (Nat.le_of_eq hl)
    exact h.valid p (hperm.mem_iff.mpr hp)
  · intro hall
    have h2 : all.Subperm valid :=
      List.subperm_of_subset h.nodup_all (fun p hp => h.complete p hp (hall p hp))
    exact Nat.le_antisymm h2.length_le hsub.length_le

/-! ### The tracker of modems -/

theorem manager_tracked_of_eq {a b : ManagerState}
    (h1 : b.self.all_modems = a.self.all_modems)
    (h2 : b.self.valid_modems = a.self.valid_modems)
    (h3 : b.modems_valid = a.modems_valid) (h : ManagerTracked a) :
    ManagerTracked b := by
  unfold ManagerTracked
  rw [h1, h2, h3]
  exact h

theorem manager_tracked_update_valid (st : ManagerState) (h : ManagerTracked st) :
    ManagerTracked (ofono_manager_update_valid st) := by
  unfold ofono_manager_update_valid
  simp only []
  split_ifs
  · exact h
  · exact h

theorem manager_tracked_remove_valid_modem (st : ManagerState) (p : String) :
    (ofono_manager_remove_valid_modem st p).self.valid_modems =
      st.self.valid_modems.erase p ∧
    (ofono_manager_remove_valid_modem st p).self.all_modems = st.self.all_modems ∧
    (ofono_manager_remove_valid_modem st p).modems_valid = st.modems_valid := by
  unfold ofono_manager_remove_valid_modem ofono_manager_has_modem
  by_cases hp : p ∈ st.self.valid_modems
  · simp [hp, ManagerState.emit]
  · have hc : st.self.valid_modems.contains p = false := by simpa using hp
    simp only [hc, Bool.false_eq_true, if_false]
    exact ⟨(List.erase_of_not_mem hp).symm, trivial, trivial⟩

theorem manager_tracked_add_valid_modem (st : ManagerState) (p : String) :
    (ofono_manager_add_valid_modem st p).self.valid_modems =
      (if p ∈ st.self.valid_modems then st.self.valid_modems
       else g_ptr_array_sort (st.self.valid_modems ++ [p])) ∧
    (ofono_manager_add_valid_modem st p).self.all_modems = st.self.all_modems ∧
    (ofono_manager_add_valid_modem st p).modems_valid = st.modems_valid := by
  unfold ofono_manager_add_valid_modem ofono_manager_has_modem
  by_cases hp : p ∈ st.self.valid_modems
  · simp [hp]
  · have hc : st.self.valid_modems.contains p = false := by simpa using hp
    by_cases hv : st.self.valid = true
    · simp [hc, hp, hv, ManagerState.emit]
    · simp [hc, hp, hv]

theorem manager_tracked_add_modem (st : ManagerState) (p : String)
    (h : ManagerTracked st) : ManagerTracked (ofono_manager_add_modem st p) := by
  unfold ofono_manager_add_modem
  simp only []
  split_ifs with ha hv
  · obtain ⟨e1, e2, e3⟩ := manager_tracked_add_valid_modem
      { st with self := { st.self with
          all_modems := p :: st.self.all_modems.filter (fun q => q != p) } } p
    have he : p ∈ st.modems_valid := by
      simpa [ofono_modem_valid] using hv
    unfold ManagerTracked
    rw [e1, e2, e3]
    by_cases hp : p ∈ st.self.valid_modems
    · simp only [hp, if_true]
      exact tracked_replace p h (fun _ => hp)
    · simp only [hp, if_false]
      exact tracked_replace_insert p h he hp
  · have he : p ∉ st.modems_valid := by
      simpa [ofono_modem_valid] using hv
    exact tracked_replace p h (fun h1 => absurd h1 he)
  · exact h

theorem manager_tracked_modem_removed (st : ManagerState) (p : String)
    (h : ManagerTracked st) :
    ManagerTracked (ofono_manager_modem_removed st p) := by
  unfold ofono_manager_modem_removed
  obtain ⟨e1, e2, e3⟩ := manager_tracked_remove_valid_modem
    { st with self := { st.self with
        all_modems := st.self.all_modems.filter (fun q => q != p) } } p
  unfold ManagerTracked
  rw [e1, e2, e3]
  exact tracked_remove p h

theorem manager_tracked_proxy_emit_valid_changed (st : ManagerState)
    (h : ManagerTracked st) : ManagerTracked (proxy_emit_valid_changed st) := by
  unfold proxy_emit_valid_changed ofono_manager_proxy_valid_changed
  exact manager_tracked_update_valid _ h

theorem manager_tracked_proxy_reset (st : ManagerState) (h : ManagerTracked st) :
    ManagerTracked (ofono_manager_proxy_reset st) := by
  unfold ofono_manager_proxy_reset
  simp only []
  cases hc : st.proxy.cancel with
  | none =>
    simp only []
    split_ifs
    · exact manager_tracked_proxy_emit_valid_changed _ h
    · exact h
  | some c =>
    simp only []
    split_ifs
    · exact manager_tracked_proxy_emit_valid_changed _ h
    · exact h

theorem manager_tracked_proxy_add_modem (st : ManagerState) (p : String)
    (h : ManagerTracked st) :
    ManagerTracked (ofono_manager_proxy_add_modem st p) := by
  unfold ofono_manager_proxy_add_modem
  simp only []
  split_ifs
  · unfold ofono_manager_modem_added
    exact manager_tracked_add_modem _ p h
  · exact h

theorem manager_tracked_proxy_modem_removed (st : ManagerState) (p : String)
    (h : ManagerTracked st) :
    ManagerTracked (ofono_manager_proxy_modem_removed st p) := by
  unfold ofono_manager_proxy_modem_removed
  simp only []
  split_ifs
  · exact manager_tracked_modem_removed _ p h
  · exact h

theorem manager_tracked_foldl_add_modem (l : List String) (st : ManagerState)
    (h : ManagerTracked st) :
    ManagerTracked (l.foldl ofono_manager_proxy_add_modem st) := by
  induction l generalizing st with
  | nil => exact h
  | cons p rest ih => exact ih _ (manager_tracked_proxy_add_modem st p h)

theorem manager_tracked_get_modems_finished (st : ManagerState)
    (result : CallResult (List String)) (h : ManagerTracked st) :
    ManagerTracked (ofono_manager_proxy_get_modems_finished st result) := by
  unfold ofono_manager_proxy_get_modems_finished
  cases result with
  | ok modems =>
    simp only []
    have h1 := manager_tracked_foldl_add_modem modems st h
    have h2 := manager_tracked_proxy_emit_valid_changed
      { modems.foldl ofono_manager_proxy_add_modem st with
        proxy := { (modems.foldl ofono_manager_proxy_add_modem st).proxy with
          valid := true } } h1
    exact h2
  | error e =>
    simp only []
    split_ifs
    · cases hc : st.proxy.cancel <;> exact h
    · exact h

theorem manager_tracked_proxy_vanished (st : ManagerState)
    (h : ManagerTracked st) : ManagerTracked (ofono_manager_proxy_vanished st) := by
  unfold ofono_manager_proxy_vanished
  simp only []
  have h1 := manager_tracked_proxy_reset st h
  split_ifs
  · exact manager_tracked_proxy_emit_valid_changed _ h1
  · exact h1

theorem manager_tracked_modem_valid_changed (st : ManagerState) (p : String)
    (valid : Bool) (h : ManagerTracked st)
    (hne : ofono_modem_valid st p ≠ valid) :
    ManagerTracked
      (if st.self.all_modems.contains p then
        ofono_manager_modem_valid_changed
          { st with modems_valid :=
              if valid then p :: st.modems_valid
              else st.modems_valid.filter (fun q => q != p) } p
       else
        { st with modems_valid :=
            if valid then p :: st.modems_valid
            else st.modems_valid.filter (fun q => q != p) }) := by
  cases valid with
  | true =>
    have he : p ∉ st.modems_valid := by
      simpa [ofono_modem_valid] using hne
    have hv : p ∉ st.self.valid_modems := fun hm => he (h.valid p hm)
    simp only [if_true]
    split_ifs with ha
    · have ha2 : p ∈ st.self.all_modems := by simpa using ha
      unfold ofono_manager_modem_valid_changed
      simp only []
      apply manager_tracked_update_valid
      have hval : ofono_modem_valid
          { st with modems_valid := p :: st.modems_valid } p = true := by
        simp [ofono_modem_valid]
      simp only [hval, if_true]
      obtain ⟨e1, e2, e3⟩ := manager_tracked_add_valid_modem
        { st with modems_valid := p :: st.modems_valid } p
      unfold ManagerTracked
      rw [e1, e2, e3]
      simp only [hv, if_false]
      exact tracked_validate p h ha2 hv
    · have ha2 : p ∉ st.self.all_modems := by simpa using ha
      exact tracked_validate_unknown p h ha2
  | false =>
    simp only [Bool.false_eq_true, if_false]
    split_ifs with ha
    · unfold ofono_manager_modem_valid_changed
      simp only []
      apply manager_tracked_update_valid
      have hval : ofono_modem_valid
          { st with modems_valid := st.modems_valid.filter (fun q => q != p) } p
          = false := by
        simp [ofono_modem_valid]
      simp only [hval, Bool.false_eq_true, if_false]
      obtain ⟨e1, e2, e3⟩ := manager_tracked_remove_valid_modem
        { st with modems_valid := st.modems_valid.filter (fun q => q != p) } p
      unfold ManagerTracked
      rw [e1, e2, e3]
      exact tracked_invalidate p h
    · have ha2 : p ∉ st.self.all_modems := by simpa using ha
      have hv : p ∉ st.self.valid_modems := fun hm => ha2 (h.known p hm)
      have := tracked_invalidate p h
      rw [List.erase_of_not_mem hv] at this
      exact this

theorem manager_tracked_init : ManagerTracked ManagerState.init :=
  tracked_nil _

theorem manager_tracked_step (st st1 : ManagerState) (ev : ManagerEvent)
    (h : ManagerTracked st) (hs : manager_step st ev = some st1) :
    ManagerTracked st1 := by
  cases ev with
  | appeared =>
    simp only [manager_step] at hs
    split_ifs at hs
    cases hs
    exact h
  | vanished =>
    simp only [manager_step, Option.some.injEq] at hs
    rw [← hs]
    exact manager_tracked_proxy_vanished st h
  | proxy_created token =>
    simp only [manager_step] at hs
    split_ifs at hs <;> cases hs
    · exact h
    · unfold ofono_manager_proxy_created
      simp only []
      cases hc : st.proxy.cancel <;> exact h
  | get_modems_finished token result =>
    simp only [manager_step] at hs
    split_ifs at hs <;> cases hs <;>
      exact manager_tracked_get_modems_finished _ _ h
  | modem_added path =>
    simp only [manager_step] at hs
    split_ifs at hs
    cases hs
    exact manager_tracked_proxy_add_modem st path h
  | modem_removed path =>
    simp only [manager_step] at hs
    split_ifs at hs
    cases hs
    exact manager_tracked_proxy_modem_removed st path h
  | modem_valid_changed path valid =>
    simp only [manager_step] at hs
    by_cases hne : ofono_modem_valid st path ≠ valid
    · rw [if_pos hne] at hs
      have := manager_tracked_modem_valid_changed st path valid h hne
      by_cases ha : st.self.all_modems.contains path = true
      · rw [if_pos ha] at hs this
        cases hs
        exact this
      · rw [if_neg ha] at hs this
        cases hs
        exact this
    · rw [if_neg hne] at hs
      cases hs

theorem manager_tracked_run (evs : List ManagerEvent) (st st1 : ManagerState)
    (h : ManagerTracked st) (hr : manager_run st evs = some st1) :
    ManagerTracked st1 := by
  induction evs generalizing st with
  | nil =>
    simp only [manager_run] at hr
    cases hr
    exact h
  | cons ev rest ih =>
    simp only [manager_run] at hr
    cases hs : manager_step st ev with
    | none => rw [hs] at hr; cases hr
    | some s2 =>
      rw [hs] at hr
      exact ih s2 (manager_tracked_step st s2 ev h hs) hr

/-! ### The tracker of contexts -/

theorem tracker_kept_refl (a : State) : TrackerKept a a := ⟨rfl, rfl, rfl⟩

theorem tracker_kept_trans {a b c : State} (h1 : TrackerKept a b)
    (h2 : TrackerKept b c) : TrackerKept a c :=
  ⟨h2.all.trans h1.all, h2.valid.trans h1.valid, h2.env.trans h1.env⟩

theorem tracker_kept_of_untouched {a b : State} (h : Untouched a b) :
    TrackerKept a b :=
  ⟨by rw [h.connmgr], by rw [h.connmgr], h.contexts_valid⟩

theorem connmgr_tracked_of_kept {a b : State} (k : TrackerKept a b)
    (h : ConnMgrTracked a) : ConnMgrTracked b := by
  unfold ConnMgrTracked
  rw [k.all, k.valid, k.env]
  exact h

theorem tracker_kept_update_valid (st : State) :
    TrackerKept st (ofono_object_update_valid st) :=
  ⟨by rw [(update_valid_frame st).2.2.1], by rw [(update_valid_frame st).2.2.1],
   (update_valid_frame st).2.2.2⟩

theorem tracker_kept_perform_next_action (st : State) :
    TrackerKept st (ofono_connctx_perform_next_action st) :=
  ⟨by rw [(perform_next_action_frame st).2.2.2.1],
   by rw [(perform_next_action_frame st).2.2.2.1],
   (perform_next_action_frame st).2.2.2.2⟩

theorem tracker_kept_set_boolean (st : State) (name : String) (value : Bool) :
    TrackerKept st (ofono_object_set_boolean st name value) := by
  unfold ofono_object_set_boolean
  simp only []
  split_ifs
  · exact ⟨rfl, rfl, rfl⟩
  · exact ⟨rfl, rfl, rfl⟩

theorem tracker_kept_set_active_done (st : State) (error : Option GError) :
    TrackerKept st (ofono_connctx_set_active_done st error) := by
  unfold ofono_connctx_set_active_done
  simp only []
  refine tracker_kept_trans ?_ (tracker_kept_perform_next_action _)
  cases error with
  | none => exact ⟨rfl, rfl, rfl⟩
  | some e =>
    simp only []
    split_ifs <;> exact ⟨rfl, rfl, rfl⟩

theorem tracker_kept_pending_call_finished (st : State) (id : Nat)
    (error : Option GError) :
    TrackerKept st (ofono_object_pending_call_finished st id error) := by
  unfold ofono_object_pending_call_finished
  exact tracker_kept_trans (tracker_kept_set_active_done st error) ⟨rfl, rfl, rfl⟩

theorem tracker_kept_perform_action (st : State) (action : CONNCTX_ACTION) :
    TrackerKept st (ofono_connctx_perform_action st action) := by
  unfold ofono_connctx_perform_action
  split_ifs
  · refine tracker_kept_trans ?_ (tracker_kept_perform_next_action _)
    exact ⟨rfl, rfl, rfl⟩
  · exact ⟨rfl, rfl, rfl⟩

theorem tracker_kept_set_active_retry (st : State) :
    TrackerKept st (ofono_connctx_set_active_retry st) := by
  unfold ofono_connctx_set_active_retry
  simp only []
  refine tracker_kept_trans ?_ (tracker_kept_set_boolean _ _ _)
  exact ⟨rfl, rfl, rfl⟩

theorem tracker_kept_cancel_pending_calls (st : State) :
    TrackerKept st (cancel_pending_calls st) := by
  unfold cancel_pending_calls
  have h1 : Untouched st (st.self.priv.pending_calls.foldl
      (fun s c => s.record (Action.cancel c.id)) st) :=
    untouched_foldl _
      (fun s (c : OfonoObjectPendingCall) =>
        untouched_record s (Action.cancel c.id) rfl) _ st
  exact tracker_kept_trans (tracker_kept_of_untouched h1) ⟨rfl, rfl, rfl⟩

theorem tracker_kept_object_ready_changed (st : State) (ready : Bool) :
    TrackerKept st (ofono_object_ready_changed st ready) := by
  unfold ofono_object_ready_changed
  simp only []
  split_ifs
  · exact tracker_kept_trans
      (tracker_kept_of_untouched (untouched_query_properties st true))
      (tracker_kept_update_valid _)
  · exact tracker_kept_refl st
  · refine tracker_kept_trans ?_ (tracker_kept_update_valid _)
    refine tracker_kept_trans ?_ (tracker_kept_cancel_pending_calls _)
    refine tracker_kept_trans ?_
      (tracker_kept_of_untouched (untouched_reset_properties _))
    refine tracker_kept_trans ?_
      (tracker_kept_of_untouched (untouched_cancel_get_properties _))
    exact ⟨rfl, rfl, rfl⟩

theorem tracker_kept_cancel_get_contexts (st : State) :
    TrackerKept st (ofono_connmgr_cancel_get_contexts st) := by
  unfold ofono_connmgr_cancel_get_contexts
  cases st.self.connmgr.get_contexts_pending <;> exact ⟨rfl, rfl, rfl⟩

theorem tracker_kept_start_get_contexts (st : State) :
    TrackerKept st (ofono_connmgr_start_get_contexts st) := by
  unfold ofono_connmgr_start_get_contexts
  simp only [State.record]
  exact tracker_kept_trans (tracker_kept_cancel_get_contexts st) ⟨rfl, rfl, rfl⟩

theorem connmgr_tracked_connmgr_ready_changed (st : State) (ready : Bool)
    (h : ConnMgrTracked st) :
    ConnMgrTracked (ofono_connmgr_ready_changed st ready) := by
  unfold ofono_connmgr_ready_changed
  simp only []
  refine connmgr_tracked_of_kept (tracker_kept_object_ready_changed _ ready) ?_
  split_ifs
  · exact connmgr_tracked_of_kept (tracker_kept_start_get_contexts st) h
  · exact tracked_nil _
  · exact connmgr_tracked_of_kept (tracker_kept_cancel_get_contexts st) h

theorem connmgr_tracked_fn_ready_changed (st : State) (ready : Bool)
    (h : ConnMgrTracked st) : ConnMgrTracked (fn_ready_changed st ready) := by
  unfold fn_ready_changed
  split
  · exact connmgr_tracked_connmgr_ready_changed st ready h
  · exact connmgr_tracked_of_kept (tracker_kept_object_ready_changed st ready) h

theorem connmgr_tracked_update_ready (st : State) (h : ConnMgrTracked st) :
    ConnMgrTracked (ofono_object_update_ready st) := by
  unfold ofono_object_update_ready
  simp only []
  split_ifs
  · exact connmgr_tracked_fn_ready_changed _ _ h
  · exact h

theorem connmgr_tracked_update_valid (st : State) (h : ConnMgrTracked st) :
    ConnMgrTracked (ofono_object_update_valid st) :=
  connmgr_tracked_of_kept (tracker_kept_update_valid st) h

theorem connmgr_tracked_object_proxy_created (st : State)
    (h : ConnMgrTracked st) : ConnMgrTracked (ofono_object_proxy_created st) := by
  unfold ofono_object_proxy_created
  exact connmgr_tracked_update_valid _ (connmgr_tracked_update_ready _ h)

theorem connmgr_tracked_fn_proxy_created (st : State) (h : ConnMgrTracked st) :
    ConnMgrTracked (fn_proxy_created st) := by
  unfold fn_proxy_created
  split
  · unfold ofono_connmgr_proxy_created
    simp only []
    split_ifs
    · exact connmgr_tracked_of_kept (tracker_kept_start_get_contexts _)
        (connmgr_tracked_object_proxy_created st h)
    · exact connmgr_tracked_object_proxy_created st h
  · exact connmgr_tracked_object_proxy_created st h

theorem connmgr_tracked_setup_finished (st : State) (id : Nat)
    (result : CallResult (List (String × GVariant))) (h : ConnMgrTracked st) :
    ConnMgrTracked (ofono_object_setup_finished st id result) := by
  unfold ofono_object_setup_finished
  cases result with
  | ok props =>
    simp only []
    have h1 : ConnMgrTracked
        (if decide (st.self.priv.get_properties_pending = some id) = true then
          ofono_object_apply_properties st props else st) := by
      split_ifs
      · exact connmgr_tracked_of_kept
          (tracker_kept_of_untouched (untouched_apply_properties st props)) h
      · exact h
    generalize (if decide (st.self.priv.get_properties_pending = some id) = true
      then ofono_object_apply_properties st props else st) = s1 at h1 ⊢
    split_ifs
    · exact connmgr_tracked_update_valid _ h1
    · exact h1
  | error e =>
    simp only [State.record]
    split_ifs <;> first | exact h | exact connmgr_tracked_update_valid _ h

theorem tracker_add_valid_context (st : State) (p : String) :
    (ofono_connmgr_add_valid_context st p).self.connmgr.valid_contexts =
      (if p ∈ st.self.connmgr.valid_contexts then st.self.connmgr.valid_contexts
       else g_ptr_array_sort (st.self.connmgr.valid_contexts ++ [p])) ∧
    (ofono_connmgr_add_valid_context st p).self.connmgr.all_contexts =
      st.self.connmgr.all_contexts ∧
    (ofono_connmgr_add_valid_context st p).contexts_valid = st.contexts_valid := by
  unfold ofono_connmgr_add_valid_context ofono_connmgr_find_valid_context
    ofono_connmgr_valid
  by_cases hp : p ∈ st.self.connmgr.valid_contexts
  · simp [hp]
  · have hc : st.self.connmgr.valid_contexts.contains p = false := by
      simpa using hp
    by_cases hv : st.self.valid = true
    · simp [hc, hp, hv, g_signal_emit, State.record]
    · simp [hc, hp, hv]

theorem tracker_remove_valid_context (st : State) (p : String) :
    (ofono_connmgr_remove_valid_context st p).self.connmgr.valid_contexts =
      st.self.connmgr.valid_contexts.erase p ∧
    (ofono_connmgr_remove_valid_context st p).self.connmgr.all_contexts =
      st.self.connmgr.all_contexts ∧
    (ofono_connmgr_remove_valid_context st p).contexts_valid =
      st.contexts_valid := by
  unfold ofono_connmgr_remove_valid_context ofono_connmgr_find_valid_context
    ofono_connmgr_valid
  by_cases hp : p ∈ st.self.connmgr.valid_contexts
  · by_cases hv : st.self.valid = true
    · simp [hp, hv, g_signal_emit, State.record]
    · simp [hp, hv]
  · have hc : st.self.connmgr.valid_contexts.contains p = false := by
      simpa using hp
    simp only [hc, Bool.false_eq_true, if_false]
    exact ⟨(List.erase_of_not_mem hp).symm, trivial, trivial⟩

theorem connmgr_tracked_add_context (st : State) (p : String)
    (h : ConnMgrTracked st) : ConnMgrTracked (ofono_connmgr_add_context st p) := by
  unfold ofono_connmgr_add_context
  simp only []
  split_ifs with ha hv
  · apply connmgr_tracked_update_valid
    obtain ⟨e1, e2, e3⟩ := tracker_add_valid_context
      { st with self := { st.self with connmgr :=
        { st.self.connmgr with
          all_contexts :=
            p :: st.self.connmgr.all_contexts.filter (fun q => q != p) } } } p
    have he : p ∈ st.contexts_valid := by
      simpa [ofono_connctx_valid] using hv
    unfold ConnMgrTracked
    rw [e1, e2, e3]
    by_cases hp : p ∈ st.self.connmgr.valid_contexts
    · simp only [hp, if_true]
      exact tracked_replace p h (fun _ => hp)
    · simp only [hp, if_false]
      exact tracked_replace_insert p h he hp
  · apply connmgr_tracked_update_valid
    have he : p ∉ st.contexts_valid := by
      simpa [ofono_connctx_valid] using hv
    exact tracked_replace p h (fun h1 => absurd h1 he)
  · exact h

theorem connmgr_tracked_context_removed (st : State) (p : String)
    (h : ConnMgrTracked st) :
    ConnMgrTracked (ofono_connmgr_context_removed st p) := by
  unfold ofono_connmgr_context_removed
  obtain ⟨e1, e2, e3⟩ := tracker_remove_valid_context st p
  unfold ConnMgrTracked
  simp only []
  rw [e1, e2, e3]
  exact tracked_remove p h

theorem connmgr_tracked_foldl_add_context (l : List String) (st : State)
    (h : ConnMgrTracked st) :
    ConnMgrTracked (l.foldl ofono_connmgr_add_context st) := by
  induction l generalizing st with
  | nil => exact h
  | cons p rest ih => exact ih _ (connmgr_tracked_add_context st p h)

theorem connmgr_tracked_get_contexts_finished (st : State) (id : Nat)
    (result : CallResult (List String)) (h : ConnMgrTracked st) :
    ConnMgrTracked (ofono_connmgr_get_contexts_finished st id result) := by
  unfold ofono_connmgr_get_contexts_finished
  cases result with
  | ok contexts =>
    simp only []
    have h1 : ConnMgrTracked
        (if decide (st.self.connmgr.get_contexts_pending = some id) = true then
          contexts.foldl ofono_connmgr_add_context st else st) := by
      split_ifs
      · exact connmgr_tracked_foldl_add_context contexts st h
      · exact h
    generalize (if decide (st.self.connmgr.get_contexts_pending = some id) = true
      then contexts.foldl ofono_connmgr_add_context st else st) = s1 at h1 ⊢
    split_ifs
    · exact connmgr_tracked_update_valid _ h1
    · exact h1
  | error e =>
    simp only [State.record]
    split_ifs <;> first | exact h | exact connmgr_tracked_update_valid _ h

theorem connmgr_tracked_context_valid_changed (st : State) (p : String)
    (valid : Bool) (h : ConnMgrTracked st)
    (hne : ofono_connctx_valid st p ≠ valid) :
    ConnMgrTracked
      (if st.self.connmgr.all_contexts.contains p then
        ofono_connmgr_context_valid_changed
          { st with contexts_valid :=
              if valid then p :: st.contexts_valid
              else st.contexts_valid.filter (fun q => q != p) } p
       else
        { st with contexts_valid :=
            if valid then p :: st.contexts_valid
            else st.contexts_valid.filter (fun q => q != p) }) := by
  cases valid with
  | true =>
    have he : p ∉ st.contexts_valid := by
      simpa [ofono_connctx_valid] using hne
    have hv : p ∉ st.self.connmgr.valid_contexts := fun hm => he (h.valid p hm)
    simp only [if_true]
    split_ifs with ha
    · have ha2 : p ∈ st.self.connmgr.all_contexts := by simpa using ha
      unfold ofono_connmgr_context_valid_changed
      simp only []
      apply connmgr_tracked_update_valid
      have hval : ofono_connctx_valid
          { st with contexts_valid := p :: st.contexts_valid } p = true := by
        simp [ofono_connctx_valid]
      simp only [hval, if_true]
      obtain ⟨e1, e2, e3⟩ := tracker_add_valid_context
        { st with contexts_valid := p :: st.contexts_valid } p
      unfold ConnMgrTracked
      rw [e1, e2, e3]
      simp only [hv, if_false]
      exact tracked_validate p h ha2 hv
    · have ha2 : p ∉ st.self.connmgr.all_contexts := by simpa using ha
      exact tracked_validate_unknown p h ha2
  | false =>
    simp only [Bool.false_eq_true, if_false]
    split_ifs with ha
    · unfold ofono_connmgr_context_valid_changed
      simp only []
      apply connmgr_tracked_update_valid
      have hval : ofono_connctx_valid
          { st with contexts_valid := st.contexts_valid.filter (fun q => q != p) }
          p = false := by
        simp [ofono_connctx_valid]
      simp only [hval, Bool.false_eq_true, if_false]
      obtain ⟨e1, e2, e3⟩ := tracker_remove_valid_context
        { st with contexts_valid := st.contexts_valid.filter (fun q => q != p) } p
      unfold ConnMgrTracked
      rw [e1, e2, e3]
      exact tracked_invalidate p h
    · have ha2 : p ∉ st.self.connmgr.all_contexts := by simpa using ha
      have hv : p ∉ st.self.connmgr.valid_contexts :=
        fun hm => ha2 (h.known p hm)
      have := tracked_invalidate p h
      rw [List.erase_of_not_mem hv] at this
      exact this

theorem connmgr_tracked_init (k : OfonoClass) : ConnMgrTracked (State.init k) :=
  tracked_nil _

theorem connmgr_tracked_step (st st1 : State) (ev : Event) (h : ConnMgrTracked st)
    (hs : step st ev = some st1) : ConnMgrTracked st1 := by
  cases ev with
  | proxy_created =>
    simp only [step] at hs
    split_ifs at hs
    cases hs
    exact connmgr_tracked_fn_proxy_created st h
  | modem_changed v i =>
    simp only [step] at hs
    split_ifs at hs
    cases hs
    exact connmgr_tracked_update_ready _ h
  | get_properties_finished id result =>
    simp only [step] at hs
    split_ifs at hs
    cases hs
    exact connmgr_tracked_setup_finished _ id result h
  | get_properties_retry =>
    simp only [step] at hs
    split_ifs at hs
    cases hs
    unfold ofono_object_get_properties_retry
    simp only []
    cases st.self.priv.get_properties_pending <;> exact h
  | property_changed name value =>
    simp only [step] at hs
    split_ifs at hs
    cases hs
    exact connmgr_tracked_of_kept
      (tracker_kept_of_untouched (untouched_property_changed st name value)) h
  | get_contexts_finished id result =>
    simp only [step] at hs
    split_ifs at hs
    cases hs
    exact connmgr_tracked_get_contexts_finished _ id result h
  | context_added path =>
    simp only [step] at hs
    split_ifs at hs
    cases hs
    exact connmgr_tracked_add_context st path h
  | context_removed path =>
    simp only [step] at hs
    split_ifs at hs
    cases hs
    exact connmgr_tracked_context_removed st path h
  | context_valid_changed path valid =>
    simp only [step] at hs
    by_cases hne : st.self.klass = OfonoClass.CONNMGR ∧
        ofono_connctx_valid st path ≠ valid
    · rw [if_pos hne] at hs
      have := connmgr_tracked_context_valid_changed st path valid h hne.2
      by_cases ha : st.self.connmgr.all_contexts.contains path = true
      · rw [if_pos ha] at hs this
        cases hs
        exact this
      · rw [if_neg ha] at hs this
        cases hs
        exact this
    · rw [if_neg hne] at hs
      cases hs
  | connmgr_proxy_created =>
    simp only [step] at hs
    split_ifs at hs
    cases hs
    exact connmgr_tracked_update_ready _ h
  | connctx_added =>
    simp only [step] at hs
    split_ifs at hs
    cases hs
    unfold ofono_connctx_added
    simp only []
    apply connmgr_tracked_update_ready
    show ConnMgrTracked (if (!st.self.connctx.removed) = true then
        ofono_object_update_ready { st with self := { st.self with
          connctx := { st.self.connctx with removed := true } } }
        else st)
    split_ifs
    · exact connmgr_tracked_update_ready _ h
    · exact h
  | connctx_removed =>
    simp only [step] at hs
    split_ifs at hs
    cases hs
    exact connmgr_tracked_update_ready _ h
  | activate =>
    simp only [step] at hs
    split_ifs at hs
    cases hs
    exact connmgr_tracked_of_kept (tracker_kept_perform_action st _) h
  | deactivate =>
    simp only [step] at hs
    split_ifs at hs
    cases hs
    exact connmgr_tracked_of_kept (tracker_kept_perform_action st _) h
  | set_active_finished id error =>
    simp only [step] at hs
    split_ifs at hs
    cases hs
    exact connmgr_tracked_of_kept (tracker_kept_pending_call_finished st id error) h
  | set_active_retry =>
    simp only [step] at hs
    split_ifs at hs
    cases hs
    exact connmgr_tracked_of_kept (tracker_kept_set_active_retry st) h

theorem connmgr_tracked_run (evs : List Event) (st st1 : State)
    (h : ConnMgrTracked st) (hr : run st evs = some st1) : ConnMgrTracked st1 := by
  induction evs generalizing st with
  | nil =>
    simp only [run] at hr
    cases hr
    exact h
  | cons ev rest ih =>
    simp only [run] at hr
    cases hs : step st ev with
    | none => rw [hs] at hr; cases hr
    | some s2 =>
      rw [hs] at hr
      exact ih s2 (connmgr_tracked_step st s2 ev h hs) hr

/-- C28: in every state that an object reaches from its initial state by a
sequence of events, and in every state that the manager reaches from its
initial state, every member of the valid subset (`valid_contexts`,
`valid_modems`) is in the known set (`all_contexts`, `all_modems`) and is
valid at that moment; and the known set and the valid subset have the same
size exactly when every known child is valid. -/
theorem tracker_valid_subset_sound (k : OfonoClass) (evs : List Event)
    (st : State) (mevs : List ManagerEvent) (mst : ManagerState)
    (h : run (State.init k) evs = some st)
    (hm : manager_run ManagerState.init mevs = some mst) :
    (∀ p ∈ st.self.connmgr.valid_contexts,
      p ∈ st.self.connmgr.all_contexts ∧ ofono_connctx_valid st p = true) ∧
    (st.self.connmgr.all_contexts.length =
        st.self.connmgr.valid_contexts.length ↔
      ∀ p ∈ st.self.connmgr.all_contexts, ofono_connctx_valid st p = true) ∧
    (∀ p ∈ mst.self.valid_modems,
      p ∈ mst.self.all_modems ∧ ofono_modem_valid mst p = true) ∧
    (mst.self.all_modems.length = mst.self.valid_modems.length ↔
      ∀ p ∈ mst.self.all_modems, ofono_modem_valid mst p = true) := by
  have h1 : ConnMgrTracked st :=
    connmgr_tracked_run evs _ st (connmgr_tracked_init k) h
  have h2 : ManagerTracked mst :=
    manager_tracked_run mevs _ mst manager_tracked_init hm
  have e1 : ∀ p, ofono_connctx_valid st p = true ↔ p ∈ st.contexts_valid := by
    intro p; simp [ofono_connctx_valid]
  have e2 : ∀ p, ofono_modem_valid mst p = true ↔ p ∈ mst.modems_valid := by
    intro p; simp [ofono_modem_valid]
  refine ⟨?_, ?_, ?_, ?_⟩
  · intro p hp
    exact ⟨h1.known p hp, (e1 p).mpr (h1.valid p hp)⟩
  · rw [tracked_size h1]
    exact forall_congr' (fun p => imp_congr_right (fun _ => (e1 p).symm))
  · intro p hp
    exact ⟨h2.known p hp, (e2 p).mpr (h2.valid p hp)⟩
  · rw [tracked_size h2]
    exact forall_congr' (fun p => imp_congr_right (fun _ => (e2 p).symm))

theorem tracker_valid_subset_sound_witness :
    run (State.init OfonoClass.CONNMGR) connmgr_reversed_events =
      some connmgr_reversed ∧
    manager_run ManagerState.init manager_reversed_events =
      some manager_reversed ∧
    connmgr_reversed.self.connmgr.all_contexts.length =
      connmgr_reversed.self.connmgr.valid_contexts.length ∧
    (∀ p ∈ connmgr_reversed.self.connmgr.all_contexts,
      ofono_connctx_valid connmgr_reversed p = true) ∧
    (∀ p ∈ manager_reversed.self.valid_modems,
      p ∈ manager_reversed.self.all_modems ∧
        ofono_modem_valid manager_reversed p = true) :=
  ⟨by decide, by decide, by decide,
   (tracker_valid_subset_sound OfonoClass.CONNMGR connmgr_reversed_events
      connmgr_reversed manager_reversed_events manager_reversed (by decide)
      (by decide)).2.1.mp (by decide),
   (tracker_valid_subset_sound OfonoClass.CONNMGR connmgr_reversed_events
      connmgr_reversed manager_reversed_events manager_reversed (by decide)
      (by decide)).2.2.1⟩

/-! ## The activation controller between events -/

theorem controller_kept_refl (a : State) : ControllerKept a a :=
  ⟨rfl, rfl, fun h => h, rfl, rfl, rfl, fun h => h⟩

theorem controller_kept_trans {a b c : State} (h1 : ControllerKept a b)
    (h2 : ControllerKept b c) : ControllerKept a c :=
  ⟨h2.klass.trans h1.klass, h2.valid.trans h1.valid,
   fun h => h2.proxy (h1.proxy h), h2.current.trans h1.current,
   h2.next.trans h1.next, h2.retry_id.trans h1.retry_id,
   fun h => h2.calls (h1.calls h)⟩

theorem controller_kept_of_untouched {a b : State} (h : Untouched a b) :
    ControllerKept a b :=
  ⟨h.klass, h.valid, fun hp => by rw [h.proxy]; exact hp, h.current, h.next,
   h.retry_id, fun hc => by rw [h.pending_calls]; exact hc⟩

theorem settling_of_kept {k : OfonoClass} {a b : State} (q : ControllerKept a b)
    (h : Settling k a) : Settling k b := by
  refine ⟨q.klass.trans h.klass, ?_, ?_, ?_, ?_, ?_⟩
  · intro hv
    rw [q.valid] at hv
    exact q.proxy (h.has_proxy hv)
  · intro hc
    rw [q.current] at hc
    exact q.proxy (h.busy_proxy hc)
  · intro hc
    rw [q.current] at hc
    rw [q.retry_id]
    exact (h.busy hc).imp q.calls id
  · rw [q.next, q.current]
    exact h.queued
  · rw [q.next, q.current]
    exact h.idle

theorem steady_of_kept {k : OfonoClass} {a b : State} (q : ControllerKept a b)
    (h : Steady k a) : Steady k b := by
  refine ⟨settling_of_kept q h.settling, ?_⟩
  rw [q.valid, q.current, q.next]
  exact h.started

theorem steady_kept {k : OfonoClass} {a b : State} (h : Steady k a)
    (q : ControllerKept a b) : Steady k b :=
  steady_of_kept q h

theorem controller_kept_record (st : State) (a : Action) :
    ControllerKept st (st.record a) :=
  ⟨rfl, rfl, fun h => h, rfl, rfl, rfl, fun h => h⟩

theorem steady_perform_next_action (k : OfonoClass) (st : State)
    (h : Settling k st) : Steady k (ofono_connctx_perform_next_action st) := by
  obtain ⟨hk, hp, hbp, hb, hq, hi⟩ := h
  by_cases hv : st.self.valid = true <;>
  by_cases hcur : st.self.connctx.current_action = CONNCTX_ACTION.NONE <;>
  by_cases hnext : st.self.connctx.next_action = CONNCTX_ACTION.NONE <;>
  by_cases hneq : st.self.connctx.next_action = st.self.connctx.current_action <;>
  by_cases hret : st.self.connctx.retry_id = 0 <;>
  by_cases hpx : st.self.priv.proxy = true <;>
  refine ⟨⟨?_, ?_, ?_, ?_, ?_, ?_⟩, ?_⟩ <;>
  simp_all [ofono_connctx_perform_next_action, ofono_object_set_boolean, State.record]

theorem fn_is_valid_has_proxy (o : OfonoObject) (h : fn_is_valid o = true) :
    o.priv.proxy = true := by
  have hr := fn_is_valid_imp_ready o h
  unfold fn_is_ready at hr
  cases hk : o.klass <;> simp only [hk] at hr <;>
    simp only [ofono_object_is_ready, ofono_modem_interface_is_ready,
      ofono_connctx_is_ready, Bool.and_eq_true] at hr <;>
    tauto

theorem steady_fn_valid_changed (k : OfonoClass) (st : State)
    (h : Settling k st) : Steady k (fn_valid_changed st) := by
  rw [fn_valid_changed_eq]
  by_cases hk : st.self.klass = OfonoClass.CONNCTX
  · simp only [hk, if_true]
    unfold ofono_connctx_valid_changed ofono_object_valid_changed
    simp only []
    by_cases hv : st.self.valid = true
    · simp only [hv, if_true]
      exact steady_of_kept (controller_kept_record _ _)
        (steady_perform_next_action k st h)
    · simp only [hv, Bool.false_eq_true, if_false]
      refine steady_of_kept (controller_kept_record _ _) ⟨h, ?_⟩
      intro h1
      exact absurd h1 hv
  · simp only [hk, if_false]
    unfold ofono_object_valid_changed
    refine steady_of_kept (controller_kept_record _ _) ⟨h, ?_⟩
    intro _ _
    have hne : k ≠ OfonoClass.CONNCTX := by
      rw [← h.klass]; exact hk
    exact (h.idle hne).2

theorem steady_update_valid (k : OfonoClass) (st : State) (h : Steady k st) :
    Steady k (ofono_object_update_valid st) := by
  unfold ofono_object_update_valid
  simp only []
  split_ifs with hne
  · apply steady_fn_valid_changed
    obtain ⟨hk, hp, hbp, hb, hq, hi⟩ := h.settling
    refine ⟨hk, ?_, hbp, hb, hq, hi⟩
    intro hv
    exact fn_is_valid_has_proxy st.self hv
  · exact h

theorem controller_kept_cancel_pending_calls (st : State) :
    ControllerKept st (cancel_pending_calls st) := by
  unfold cancel_pending_calls
  have h1 : Untouched st (st.self.priv.pending_calls.foldl
      (fun s c => s.record (Action.cancel c.id)) st) :=
    untouched_foldl _
      (fun s (c : OfonoObjectPendingCall) =>
        untouched_record s (Action.cancel c.id) rfl) _ st
  refine controller_kept_trans (controller_kept_of_untouched h1) ?_
  refine ⟨rfl, rfl, fun h => h, rfl, rfl, rfl, ?_⟩
  intro hne
  simpa using hne

theorem steady_object_ready_changed (k : OfonoClass) (st : State) (ready : Bool)
    (h : Steady k st) : Steady k (ofono_object_ready_changed st ready) := by
  unfold ofono_object_ready_changed
  simp only []
  split_ifs
  · exact steady_update_valid k _ (steady_of_kept
      (controller_kept_of_untouched (untouched_query_properties st true)) h)
  · exact h
  · apply steady_update_valid
    refine steady_of_kept (controller_kept_cancel_pending_calls _) ?_
    refine steady_of_kept
      (controller_kept_of_untouched (untouched_reset_properties _)) ?_
    refine steady_of_kept
      (controller_kept_of_untouched (untouched_cancel_get_properties _)) ?_
    exact steady_kept h ⟨rfl, rfl, fun h => h, rfl, rfl, rfl, fun h => h⟩

theorem controller_kept_cancel_get_contexts (st : State) :
    ControllerKept st (ofono_connmgr_cancel_get_contexts st) := by
  unfold ofono_connmgr_cancel_get_contexts
  cases st.self.connmgr.get_contexts_pending <;>
    exact ⟨rfl, rfl, fun h => h, rfl, rfl, rfl, fun h => h⟩

theorem controller_kept_start_get_contexts (st : State) :
    ControllerKept st (ofono_connmgr_start_get_contexts st) := by
  unfold ofono_connmgr_start_get_contexts
  simp only [State.record]
  refine controller_kept_trans (controller_kept_cancel_get_contexts st) ?_
  exact ⟨rfl, rfl, fun h => h, rfl, rfl, rfl, fun h => h⟩

theorem steady_connmgr_ready_changed (k : OfonoClass) (st : State) (ready : Bool)
    (h : Steady k st) : Steady k (ofono_connmgr_ready_changed st ready) := by
  unfold ofono_connmgr_ready_changed
  simp only []
  apply steady_object_ready_changed
  split_ifs
  · exact steady_of_kept (controller_kept_start_get_contexts st) h
  · refine steady_of_kept ?_
      (steady_of_kept (controller_kept_cancel_get_contexts st) h)
    exact ⟨rfl, rfl, fun h => h, rfl, rfl, rfl, fun h => h⟩
  · exact steady_of_kept (controller_kept_cancel_get_contexts st) h

theorem steady_fn_ready_changed (k : OfonoClass) (st : State) (ready : Bool)
    (h : Steady k st) : Steady k (fn_ready_changed st ready) := by
  unfold fn_ready_changed
  split
  · exact steady_connmgr_ready_changed k st ready h
  · exact steady_object_ready_changed k st ready h

theorem steady_update_ready (k : OfonoClass) (st : State) (h : Steady k st) :
    Steady k (ofono_object_update_ready st) := by
  unfold ofono_object_update_ready
  simp only []
  split_ifs
  · apply steady_fn_ready_changed
    exact steady_kept h ⟨rfl, rfl, fun h => h, rfl, rfl, rfl, fun h => h⟩
  · exact h

theorem steady_object_proxy_created (k : OfonoClass) (st : State)
    (h : Steady k st) : Steady k (ofono_object_proxy_created st) := by
  unfold ofono_object_proxy_created
  apply steady_update_valid
  apply steady_update_ready
  exact steady_kept h ⟨rfl, rfl, fun _ => rfl, rfl, rfl, rfl, fun h => h⟩

theorem steady_fn_proxy_created (k : OfonoClass) (st : State) (h : Steady k st) :
    Steady k (fn_proxy_created st) := by
  unfold fn_proxy_created
  split
  · unfold ofono_connmgr_proxy_created
    simp only []
    split_ifs
    · exact steady_of_kept (controller_kept_start_get_contexts _)
        (steady_object_proxy_created k st h)
    · exact steady_object_proxy_created k st h
  · exact steady_object_proxy_created k st h

theorem steady_setup_finished (k : OfonoClass) (st : State) (id : Nat)
    (result : CallResult (List (String × GVariant))) (h : Steady k st) :
    Steady k (ofono_object_setup_finished st id result) := by
  unfold ofono_object_setup_finished
  cases result with
  | ok props =>
    simp only []
    have h1 : Steady k
        (if decide (st.self.priv.get_properties_pending = some id) = true then
          ofono_object_apply_properties st props else st) := by
      split_ifs
      · exact steady_of_kept
          (controller_kept_of_untouched (untouched_apply_properties st props)) h
      · exact h
    generalize (if decide (st.self.priv.get_properties_pending = some id) = true
      then ofono_object_apply_properties st props else st) = s1 at h1 ⊢
    split_ifs
    · apply steady_update_valid
      exact steady_kept h1 ⟨rfl, rfl, fun h => h, rfl, rfl, rfl, fun h => h⟩
    · exact h1
  | error e =>
    simp only [State.record]
    split_ifs <;>
      first
      | exact h
      | exact steady_kept h ⟨rfl, rfl, fun h => h, rfl, rfl, rfl, fun h => h⟩
      | exact steady_update_valid k _
          (steady_kept h ⟨rfl, rfl, fun h => h, rfl, rfl, rfl, fun h => h⟩)

theorem steady_get_properties_retry (k : OfonoClass) (st : State)
    (h : Steady k st) : Steady k (ofono_object_get_properties_retry st) := by
  unfold ofono_object_get_properties_retry
  simp only []
  cases st.self.priv.get_properties_pending <;>
    exact steady_kept h ⟨rfl, rfl, fun h => h, rfl, rfl, rfl, fun h => h⟩

theorem controller_kept_add_valid_context (st : State) (p : String) :
    ControllerKept st (ofono_connmgr_add_valid_context st p) := by
  unfold ofono_connmgr_add_valid_context
  simp only []
  split_ifs <;> exact ⟨rfl, rfl, fun h => h, rfl, rfl, rfl, fun h => h⟩

theorem controller_kept_remove_valid_context (st : State) (p : String) :
    ControllerKept st (ofono_connmgr_remove_valid_context st p) := by
  unfold ofono_connmgr_remove_valid_context
  simp only []
  split_ifs <;> exact ⟨rfl, rfl, fun h => h, rfl, rfl, rfl, fun h => h⟩

theorem steady_context_valid_changed (k : OfonoClass) (st : State) (p : String)
    (h : Steady k st) : Steady k (ofono_connmgr_context_valid_changed st p) := by
  unfold ofono_connmgr_context_valid_changed
  simp only []
  apply steady_update_valid
  split_ifs
  · exact steady_of_kept (controller_kept_add_valid_context st p) h
  · exact steady_of_kept (controller_kept_remove_valid_context st p) h

theorem steady_add_context (k : OfonoClass) (st : State) (p : String)
    (h : Steady k st) : Steady k (ofono_connmgr_add_context st p) := by
  unfold ofono_connmgr_add_context
  simp only []
  split_ifs
  · apply steady_update_valid
    refine steady_of_kept (controller_kept_add_valid_context _ p) ?_
    exact steady_kept h ⟨rfl, rfl, fun h => h, rfl, rfl, rfl, fun h => h⟩
  · apply steady_update_valid
    exact steady_kept h ⟨rfl, rfl, fun h => h, rfl, rfl, rfl, fun h => h⟩
  · exact h

theorem steady_context_removed (k : OfonoClass) (st : State) (p : String)
    (h : Steady k st) : Steady k (ofono_connmgr_context_removed st p) := by
  unfold ofono_connmgr_context_removed
  simp only []
  refine steady_of_kept ?_
    (steady_of_kept (controller_kept_remove_valid_context st p) h)
  exact ⟨rfl, rfl, fun h => h, rfl, rfl, rfl, fun h => h⟩

theorem steady_foldl_add_context (k : OfonoClass) (l : List String) (st : State)
    (h : Steady k st) : Steady k (l.foldl ofono_connmgr_add_context st) := by
  induction l generalizing st with
  | nil => exact h
  | cons p rest ih => exact ih _ (steady_add_context k st p h)

theorem steady_get_contexts_finished (k : OfonoClass) (st : State) (id : Nat)
    (result : CallResult (List String)) (h : Steady k st) :
    Steady k (ofono_connmgr_get_contexts_finished st id result) := by
  unfold ofono_connmgr_get_contexts_finished
  cases result with
  | ok contexts =>
    simp only []
    have h1 : Steady k
        (if decide (st.self.connmgr.get_contexts_pending = some id) = true then
          contexts.foldl ofono_connmgr_add_context st else st) := by
      split_ifs
      · exact steady_foldl_add_context k contexts st h
      · exact h
    generalize (if decide (st.self.connmgr.get_contexts_pending = some id) = true
      then contexts.foldl ofono_connmgr_add_context st else st) = s1 at h1 ⊢
    split_ifs
    · apply steady_update_valid
      exact steady_kept h1 ⟨rfl, rfl, fun h => h, rfl, rfl, rfl, fun h => h⟩
    · exact h1
  | error e =>
    simp only [State.record]
    split_ifs <;>
      first
      | exact h
      | exact steady_kept h ⟨rfl, rfl, fun h => h, rfl, rfl, rfl, fun h => h⟩
      | exact steady_update_valid k _
          (steady_kept h ⟨rfl, rfl, fun h => h, rfl, rfl, rfl, fun h => h⟩)

theorem steady_perform_action (st : State) (action : CONNCTX_ACTION)
    (h : Steady OfonoClass.CONNCTX st) :
    Steady OfonoClass.CONNCTX (ofono_connctx_perform_action st action) := by
  unfold ofono_connctx_perform_action
  obtain ⟨⟨hk, hp, hbp, hb, hq, hi⟩, hs⟩ := h
  split_ifs with hne
  · apply steady_perform_next_action
    refine ⟨hk, hp, hbp, hb, ?_, ?_⟩
    · intro _
      exact fun e => hne e.symm
    · intro hc
      exact absurd rfl hc
  · refine ⟨⟨hk, hp, hbp, hb, ?_, ?_⟩, ?_⟩
    · intro hc
      exact absurd rfl hc
    · intro hc
      exact absurd rfl hc
    · intro _ _
      rfl

theorem steady_set_active_retry (k : OfonoClass) (st : State) (h : Steady k st)
    (hr : st.self.connctx.retry_id ≠ 0)
    (ht : st.self.connctx.retry_id ≠ 0 →
      st.self.connctx.current_action ≠ CONNCTX_ACTION.NONE) :
    Steady k (ofono_connctx_set_active_retry st) := by
  obtain ⟨⟨hk, hp, hbp, hb, hq, hi⟩, hs⟩ := h
  have hcur := ht hr
  have hpx := hbp hcur
  refine ⟨⟨?_, ?_, ?_, ?_, ?_, ?_⟩, ?_⟩ <;>
  simp_all [ofono_connctx_set_active_retry, ofono_object_set_boolean, State.record]

theorem steady_perform_next_action_drop (k : OfonoClass) (s : State) (id : Nat)
    (c : OfonoObjectPendingCall) (hpend : s.self.priv.pending_calls = [c])
    (hcid : c.id = id) (hlt : id < s.next_id)
    (hk : s.self.klass = k)
    (hp : s.self.valid = true → s.self.priv.proxy = true)
    (hbp : s.self.connctx.current_action ≠ CONNCTX_ACTION.NONE →
      s.self.priv.proxy = true)
    (hb : s.self.connctx.current_action ≠ CONNCTX_ACTION.NONE →
      s.self.connctx.retry_id ≠ 0)
    (hq : s.self.connctx.next_action ≠ CONNCTX_ACTION.NONE →
      s.self.connctx.next_action ≠ s.self.connctx.current_action)
    (hi : k ≠ OfonoClass.CONNCTX →
      s.self.connctx.current_action = CONNCTX_ACTION.NONE ∧
      s.self.connctx.next_action = CONNCTX_ACTION.NONE) :
    Steady k { (ofono_connctx_perform_next_action s) with
      self := { (ofono_connctx_perform_next_action s).self with
        priv := { (ofono_connctx_perform_next_action s).self.priv with
          pending_calls :=
            (ofono_connctx_perform_next_action s).self.priv.pending_calls.filter
              (fun c => c.id != id) } } } := by
  have hne : ¬ s.next_id = id := by omega
  by_cases hv : s.self.valid = true <;>
  by_cases hcur : s.self.connctx.current_action = CONNCTX_ACTION.NONE <;>
  by_cases hnext : s.self.connctx.next_action = CONNCTX_ACTION.NONE <;>
  by_cases hneq : s.self.connctx.next_action = s.self.connctx.current_action <;>
  by_cases hret : s.self.connctx.retry_id = 0 <;>
  by_cases hpx : s.self.priv.proxy = true <;>
  refine ⟨⟨?_, ?_, ?_, ?_, ?_, ?_⟩, ?_⟩ <;>
  simp_all [ofono_connctx_perform_next_action, ofono_object_set_boolean, State.record]

theorem steady_pending_call_finished (k : OfonoClass) (st : State) (id : Nat)
    (error : Option GError) (h : Steady k st) (hc : ControllerInv st)
    (hid : st.self.priv.pending_calls.any (fun c => c.id == id) = true) :
    Steady k (ofono_object_pending_call_finished st id error) := by
  obtain ⟨⟨hk, hp, hbp, hb, hq, hi⟩, hs⟩ := h
  obtain ⟨ht, hcall, ho, hf⟩ := hc
  obtain ⟨c, hpend, hcid⟩ : ∃ c, st.self.priv.pending_calls = [c] ∧ c.id = id := by
    match hl : st.self.priv.pending_calls with
    | [] => rw [hl] at hid; simp at hid
    | [c] => rw [hl] at hid; exact ⟨c, rfl, by simpa using hid⟩
    | _ :: _ :: _ => rw [hl] at ho; simp at ho
  have hcur := (hcall (by rw [hpend]; simp)).1
  have hret := (hcall (by rw [hpend]; simp)).2
  have hlt : id < st.next_id := by
    rw [← hcid]; exact hf c (by rw [hpend]; simp)
  have hpx := hbp hcur
  unfold ofono_object_pending_call_finished ofono_connctx_set_active_done
  simp only []
  apply steady_perform_next_action_drop k _ id c _ hcid
  · cases error with
    | none => exact hlt
    | some e => simp only []; split_ifs <;> exact hlt
  · cases error with
    | none => exact hk
    | some e => simp only []; split_ifs <;> exact hk
  · cases error with
    | none => exact hp
    | some e => simp only []; split_ifs <;> exact hp
  · cases error with
    | none => exact fun _ => hpx
    | some e => simp only []; split_ifs <;> exact fun _ => hpx
  · cases error with
    | none => intro hn; exact absurd rfl hn
    | some e =>
      simp only []
      split_ifs
      · intro _
        simp [State.record, G_SOURCE_ID]
      · intro hn
        exact absurd rfl hn
      · intro hn
        exact absurd rfl hn
  · cases error with
    | none => intro hn e; exact hn e
    | some e =>
      simp only []
      split_ifs
      · exact hq
      · intro hn e
        exact hn e
      · intro hn e
        exact hn e
  · cases error with
    | none =>
      intro hne
      exact ⟨rfl, (hi hne).2⟩
    | some e =>
      simp only []
      split_ifs
      · exact hi
      · intro hne
        exact ⟨rfl, (hi hne).2⟩
      · intro hne
        exact ⟨rfl, (hi hne).2⟩
  · cases error with
    | none => exact hpend
    | some e => simp only []; split_ifs <;> exact hpend

theorem steady_init (k : OfonoClass) : Steady k (State.init k) := by
  refine ⟨⟨rfl, ?_, ?_, ?_, ?_, ?_⟩, ?_⟩
  · intro h; simp [State.init, OfonoObject.init] at h
  · intro h; exact absurd rfl h
  · intro h; exact absurd rfl h
  · intro h; exact absurd rfl h
  · intro _; exact ⟨rfl, rfl⟩
  · intro _ _; rfl

theorem steady_step (k : OfonoClass) (st st1 : State) (ev : Event)
    (h : Steady k st) (g : Good st) (hs : step st ev = some st1) :
    Steady k st1 := by
  cases ev with
  | proxy_created =>
    simp only [step] at hs
    split_ifs at hs
    cases hs
    exact steady_fn_proxy_created k st h
  | modem_changed v i =>
    simp only [step] at hs
    split_ifs at hs
    cases hs
    apply steady_update_ready
    exact steady_kept h ⟨rfl, rfl, fun h => h, rfl, rfl, rfl, fun h => h⟩
  | get_properties_finished id result =>
    simp only [step] at hs
    split_ifs at hs
    cases hs
    apply steady_setup_finished
    exact steady_kept h ⟨rfl, rfl, fun h => h, rfl, rfl, rfl, fun h => h⟩
  | get_properties_retry =>
    simp only [step] at hs
    split_ifs at hs
    cases hs
    exact steady_get_properties_retry k st h
  | property_changed name value =>
    simp only [step] at hs
    split_ifs at hs
    cases hs
    exact steady_of_kept
      (controller_kept_of_untouched (untouched_property_changed st name value)) h
  | get_contexts_finished id result =>
    simp only [step] at hs
    split_ifs at hs
    cases hs
    apply steady_get_contexts_finished
    exact steady_kept h ⟨rfl, rfl, fun h => h, rfl, rfl, rfl, fun h => h⟩
  | context_added path =>
    simp only [step] at hs
    split_ifs at hs
    cases hs
    exact steady_add_context k st path h
  | context_removed path =>
    simp only [step] at hs
    split_ifs at hs
    cases hs
    exact steady_context_removed k st path h
  | context_valid_changed path valid =>
    simp only [step] at hs
    have q : ∀ l, Steady k ({ st with contexts_valid := l } : State) :=
      fun l => steady_kept h ⟨rfl, rfl, fun h => h, rfl, rfl, rfl, fun h => h⟩
    split_ifs at hs <;> cases hs <;>
      first
      | exact steady_context_valid_changed k _ path (q _)
      | exact q _
  | connmgr_proxy_created =>
    simp only [step] at hs
    split_ifs at hs
    cases hs
    unfold ofono_connctx_connection_manager_proxy_created
    apply steady_update_ready
    exact steady_kept h ⟨rfl, rfl, fun h => h, rfl, rfl, rfl, fun h => h⟩
  | connctx_added =>
    simp only [step] at hs
    split_ifs at hs
    cases hs
    unfold ofono_connctx_added
    simp only []
    apply steady_update_ready
    have g1 : Steady k (if (!st.self.connctx.removed) = true then
        ofono_object_update_ready { st with self := { st.self with
          connctx := { st.self.connctx with removed := true } } }
        else st) := by
      split_ifs
      · apply steady_update_ready
        exact steady_kept h ⟨rfl, rfl, fun h => h, rfl, rfl, rfl, fun h => h⟩
      · exact h
    generalize (if (!st.self.connctx.removed) = true then
        ofono_object_update_ready { st with self := { st.self with
          connctx := { st.self.connctx with removed := true } } }
        else st) = s1 at g1 ⊢
    exact steady_kept g1 ⟨rfl, rfl, fun h => h, rfl, rfl, rfl, fun h => h⟩
  | connctx_removed =>
    simp only [step] at hs
    split_ifs at hs
    cases hs
    unfold ofono_connctx_removed
    apply steady_update_ready
    exact steady_kept h ⟨rfl, rfl, fun h => h, rfl, rfl, rfl, fun h => h⟩
  | activate =>
    simp only [step] at hs
    split_ifs at hs with hk
    cases hs
    have e : k = OfonoClass.CONNCTX := h.settling.klass.symm.trans hk
    subst e
    exact steady_perform_action st _ h
  | deactivate =>
    simp only [step] at hs
    split_ifs at hs with hk
    cases hs
    have e : k = OfonoClass.CONNCTX := h.settling.klass.symm.trans hk
    subst e
    exact steady_perform_action st _ h
  | set_active_finished id error =>
    simp only [step] at hs
    split_ifs at hs with hid
    cases hs
    exact steady_pending_call_finished k st id error h g.ctl hid
  | set_active_retry =>
    simp only [step] at hs
    split_ifs at hs with hr
    cases hs
    exact steady_set_active_retry k st h hr g.ctl.timer

theorem steady_run (k : OfonoClass) (evs : List Event) (st st1 : State)
    (h : Steady k st) (g : Good st) (hr : run st evs = some st1) :
    Steady k st1 := by
  induction evs generalizing st with
  | nil =>
    simp only [run] at hr
    cases hr
    exact h
  | cons ev rest ih =>
    simp only [run] at hr
    cases hs : step st ev with
    | none => rw [hs] at hr; cases hr
    | some s2 =>
      rw [hs] at hr
      exact ih s2 (steady_step k st s2 ev h g hs) (good_step st s2 ev g hs) hr

/-! ## What holds of every reachable state -/

/-- C26: in every state that an object reaches from its initial state by a
sequence of events, at most one toggle call is in flight, and an action is
current exactly when either a toggle call is in flight and no retry timer is
pending, or a retry timer is pending and no toggle call is in flight. -/
theorem controller_call_or_timer (k : OfonoClass) (evs : List Event) (st : State)
    (h : run (State.init k) evs = some st) :
    st.self.priv.pending_calls.length ≤ 1 ∧
    (st.self.connctx.current_action ≠ CONNCTX_ACTION.NONE ↔
      (st.self.priv.pending_calls ≠ [] ∧ st.self.connctx.retry_id = 0) ∨
      (st.self.priv.pending_calls = [] ∧ st.self.connctx.retry_id ≠ 0)) := by
  have g := good_run evs _ st (good_init k) h
  have s := steady_run k evs _ st (steady_init k) (good_init k) h
  refine ⟨g.ctl.one, ?_, ?_⟩
  · intro hc
    by_cases hp : st.self.priv.pending_calls = []
    · right
      rcases s.settling.busy hc with h1 | h1
      · exact absurd hp h1
      · exact ⟨hp, h1⟩
    · left
      exact ⟨hp, (g.ctl.call hp).2⟩
  · rintro (⟨h1, _⟩ | ⟨_, h2⟩)
    · exact (g.ctl.call h1).1
    · exact g.ctl.timer h2

theorem controller_call_or_timer_witness :
    run (State.init OfonoClass.CONNCTX) connctx_busy_events =
      some connctx_busy_once ∧
    connctx_busy_once.self.priv.pending_calls = [] ∧
    connctx_busy_once.self.connctx.retry_id ≠ 0 ∧
    connctx_busy_once.self.connctx.current_action ≠ CONNCTX_ACTION.NONE :=
  ⟨by decide, by decide, by decide,
   (controller_call_or_timer OfonoClass.CONNCTX connctx_busy_events
      connctx_busy_once (by decide)).2.mpr (Or.inr ⟨by decide, by decide⟩)⟩

/-- C27: in every state that an object reaches from its initial state by a
sequence of events, a queued action (`next_action` not NONE) differs from the
current one, and a valid object with no current action has no queued
action. -/
theorem controller_request_not_lost (k : OfonoClass) (evs : List Event)
    (st : State) (h : run (State.init k) evs = some st) :
    (st.self.connctx.next_action ≠ CONNCTX_ACTION.NONE →
      st.self.connctx.next_action ≠ st.self.connctx.current_action) ∧
    (st.self.valid = true →
      st.self.connctx.current_action = CONNCTX_ACTION.NONE →
      st.self.connctx.next_action = CONNCTX_ACTION.NONE) := by
  have s := steady_run k evs _ st (steady_init k) (good_init k) h
  exact ⟨s.settling.queued, s.started⟩

theorem controller_request_not_lost_witness :
    run (State.init OfonoClass.CONNCTX) connctx_queued_events =
      some connctx_queued ∧
    connctx_queued.self.connctx.next_action = CONNCTX_ACTION.DEACTIVATE ∧
    connctx_queued.self.connctx.next_action ≠
      connctx_queued.self.connctx.current_action :=
  ⟨by decide, by decide,
   (controller_request_not_lost OfonoClass.CONNCTX connctx_queued_events
      connctx_queued (by decide)).1 (by decide)⟩

/-- C22: in every state that an object bound to a modem interface (every
class but the base class) reaches from its initial state by a sequence of
events, so in particular after every event of the parent modem: the ready
flag implies that the modem is valid and has the interface, the valid flag
implies the same, and when the modem is not valid or lacks the interface both
flags are false. -/
theorem interface_binding_follows_parent (k : OfonoClass)
    (hk : k ≠ OfonoClass.OBJECT) (evs : List Event) (st : State)
    (h : run (State.init k) evs = some st) :
    (st.self.priv.ready = true →
      st.self.modem.valid = true ∧ st.self.modem.has_interface = true) ∧
    (st.self.valid = true →
      st.self.modem.valid = true ∧ st.self.modem.has_interface = true) ∧
    ((st.self.modem.valid = false ∨ st.self.modem.has_interface = false) →
      st.self.priv.ready = false ∧ st.self.valid = false) := by
  have g := good_run evs _ st (good_init k) h
  have s := steady_run k evs _ st (steady_init k) (good_init k) h
  have hr : st.self.priv.ready = true →
      st.self.modem.valid = true ∧ st.self.modem.has_interface = true := by
    intro h1
    have h2 : fn_is_ready st.self = true := g.ready.symm.trans h1
    unfold fn_is_ready at h2
    rw [s.settling.klass] at h2
    cases k <;>
      simp_all [ofono_modem_interface_is_ready, ofono_modem_interface_is_present,
        ofono_connctx_is_ready, ofono_connctx_is_present]
  refine ⟨hr, fun hv => hr (g.vr hv), ?_⟩
  intro hm
  have hnr : st.self.priv.ready = false := by
    cases hrd : st.self.priv.ready with
    | false => rfl
    | true =>
      have := hr hrd
      rcases hm with h1 | h1
      · rw [this.1] at h1; cases h1
      · rw [this.2] at h1; cases h1
  refine ⟨hnr, ?_⟩
  cases hvd : st.self.valid with
  | false => rfl
  | true =>
    have := g.vr hvd
    rw [hnr] at this
    cases this

theorem interface_binding_follows_parent_witness :
    OfonoClass.CONNMGR ≠ OfonoClass.OBJECT ∧
    run (State.init OfonoClass.CONNMGR) connmgr_modem_lost_events =
      some connmgr_modem_lost ∧
    connmgr_modem_lost.self.modem.valid = false ∧
    connmgr_modem_lost.self.priv.ready = false ∧
    connmgr_modem_lost.self.valid = false :=
  ⟨by decide, by decide, by decide,
   (interface_binding_follows_parent OfonoClass.CONNMGR (by decide)
      connmgr_modem_lost_events connmgr_modem_lost (by decide)).2.2
      (Or.inl (by decide))⟩

/-! ## A toggle call in flight when the context stops being valid -/

/-- When `ofono_object_update_valid` ends with the valid flag cleared it has
changed nothing else of the object. -/
theorem update_valid_to_false (s : State)
    (h : (ofono_object_update_valid s).self.valid = false) :
    (ofono_object_update_valid s).self = { s.self with valid := false } := by
  have f := update_valid_frame s
  unfold ofono_object_update_valid at h ⊢
  simp only [] at h ⊢
  split_ifs at h ⊢ with hne
  · have hfv : fn_is_valid s.self = false := by
      have := (fn_valid_changed_frame
        { s with self := { s.self with valid := fn_is_valid s.self } }).2.1
      rw [this] at h
      exact h
    rw [fn_valid_changed_eq]
    by_cases hk : s.self.klass = OfonoClass.CONNCTX
    · simp [hk, hfv, ofono_connctx_valid_changed, ofono_object_valid_changed,
        g_signal_emit, State.record]
    · simp [hk, hfv, ofono_object_valid_changed, g_signal_emit, State.record]
  · have e : s.self = { s.self with valid := s.self.valid } := rfl
    rw [h] at e
    exact e

/-- What `ofono_object_ready_changed` leaves alone on an object whose ready
flag has just been cleared: the class, the modem, and the controller. -/
theorem object_ready_changed_false_frame (s : State) (ready : Bool)
    (hr : s.self.priv.ready = false) :
    (ofono_object_ready_changed s ready).self.klass = s.self.klass ∧
    (ofono_object_ready_changed s ready).self.modem = s.self.modem ∧
    (ofono_object_ready_changed s ready).self.connctx.connmgr =
      s.self.connctx.connmgr ∧
    (ofono_object_ready_changed s ready).self.connctx.removed =
      s.self.connctx.removed ∧
    (ofono_object_ready_changed s ready).self.connctx.current_action =
      s.self.connctx.current_action ∧
    (ofono_object_ready_changed s ready).self.connctx.next_action =
      s.self.connctx.next_action ∧
    (ofono_object_ready_changed s ready).self.connctx.retry_id =
      s.self.connctx.retry_id := by
  have hv := (object_ready_changed_false s ready hr).2.1
  obtain ⟨s1, h1⟩ : ∃ s1 : State, s1 = { s with self := { s.self with priv :=
      { s.self.priv with get_properties_ok := false } } } := ⟨_, rfl⟩
  have hdef : ofono_object_ready_changed s ready =
      ofono_object_update_valid (cancel_pending_calls
        (ofono_object_reset_properties (ofono_object_cancel_get_properties s1))) := by
    rw [h1]
    unfold ofono_object_ready_changed
    simp only [hr, Bool.false_eq_true, if_false]
  rw [hdef] at hv ⊢
  rw [update_valid_to_false _ hv]
  have u1 := untouched_cancel_get_properties s1
  have u2 := untouched_reset_properties (ofono_object_cancel_get_properties s1)
  have u3 : Untouched (ofono_object_reset_properties
      (ofono_object_cancel_get_properties s1))
      ((ofono_object_reset_properties
        (ofono_object_cancel_get_properties s1)).self.priv.pending_calls.foldl
        (fun s c => s.record (Action.cancel c.id))
        (ofono_object_reset_properties (ofono_object_cancel_get_properties s1))) :=
    untouched_foldl _
      (fun s (c : OfonoObjectPendingCall) =>
        untouched_record s (Action.cancel c.id) rfl) _ _
  have u := untouched_trans (untouched_trans u1 u2) u3
  have e1 : s1.self.klass = s.self.klass := by rw [h1]
  have e2 : s1.self.modem = s.self.modem := by rw [h1]
  have e3 : s1.self.connctx = s.self.connctx := by rw [h1]
  unfold cancel_pending_calls
  simp only []
  refine ⟨u.klass.trans e1, u.modem.trans e2, ?_, ?_, ?_, ?_, ?_⟩
  · rw [u.ctx_connmgr, e3]
  · rw [u.removed, e3]
  · rw [u.current, e3]
  · rw [u.next, e3]
  · rw [u.retry_id, e3]

/-- A connection context loses readiness: `ofono_object_update_ready` on a
context whose ready flag is set while `fn_is_ready` is false. -/
theorem connctx_ready_lost (st : State)
    (hk : st.self.klass = OfonoClass.CONNCTX)
    (hr : st.self.priv.ready = true) (hf : fn_is_ready st.self = false) :
    (ofono_object_update_ready st).self.priv =
      { st.self.priv with
        ready := false
        get_properties_ok := false
        get_properties_pending := none
        get_properties_retry_id := 0
        pending_calls :=
          st.self.priv.pending_calls.map (fun c => { c with cancelled := true }) } ∧
    (ofono_object_update_ready st).self.valid = false ∧
    (ofono_object_update_ready st).self.klass = st.self.klass ∧
    (ofono_object_update_ready st).self.modem = st.self.modem ∧
    (ofono_object_update_ready st).self.connctx.connmgr = st.self.connctx.connmgr ∧
    (ofono_object_update_ready st).self.connctx.removed = st.self.connctx.removed ∧
    (ofono_object_update_ready st).self.connctx.current_action =
      st.self.connctx.current_action ∧
    (ofono_object_update_ready st).self.connctx.next_action =
      st.self.connctx.next_action ∧
    (ofono_object_update_ready st).self.connctx.retry_id =
      st.self.connctx.retry_id ∧
    (∀ c ∈ st.self.priv.pending_calls,
      Logged st.log (ofono_object_update_ready st) (Action.cancel c.id)) ∧
    (∃ ext, (ofono_object_update_ready st).log = st.log ++ ext) := by
  obtain ⟨s0, h0⟩ : ∃ s0 : State, s0 = { st with self := { st.self with priv :=
      { st.self.priv with ready := false } } } := ⟨_, rfl⟩
  have hu : ofono_object_update_ready st = ofono_object_ready_changed s0 false := by
    rw [h0]
    unfold ofono_object_update_ready
    simp only [hr, hf, Bool.true_bne, Bool.not_false, if_true]
    unfold fn_ready_changed
    simp only [hk]
  have e1 : s0.self.priv = { st.self.priv with ready := false } := by rw [h0]
  have e2 : s0.self.klass = st.self.klass := by rw [h0]
  have e3 : s0.self.modem = st.self.modem := by rw [h0]
  have e4 : s0.self.connctx = st.self.connctx := by rw [h0]
  have e5 : s0.log = st.log := by rw [h0]
  have hr0 : s0.self.priv.ready = false := by rw [e1]
  obtain ⟨a1, a2, a3, _, _, a6, _⟩ := object_ready_changed_false s0 false hr0
  obtain ⟨b1, b2, b3, b4, b5, b6, b7⟩ := object_ready_changed_false_frame s0 false hr0
  rw [hu]
  refine ⟨by rw [a1, e1], a2, b1.trans e2, b2.trans e3, by rw [b3, e4],
    by rw [b4, e4], by rw [b5, e4], by rw [b6, e4], by rw [b7, e4], ?_, ?_⟩
  · intro c hc
    have := a6 c (by rw [e1]; exact hc)
    rw [e5] at this
    exact this
  · rw [← e5]
    exact a3

theorem query_properties_pending (s : State) (hp : s.self.priv.proxy = true) :
    (ofono_object_query_properties s true).self.priv.get_properties_pending =
      some s.next_id := by
  unfold ofono_object_query_properties
  simp [hp, OfonoClass.fn_proxy_call_get_properties, State.record]

theorem query_properties_log (s : State) (force_retry : Bool) :
    ∃ ext, (ofono_object_query_properties s force_retry).log = s.log ++ ext := by
  unfold ofono_object_query_properties
  simp only []
  obtain ⟨ext, he⟩ := (cancel_get_properties_spec s).2.1
  split_ifs
  · exact ⟨ext ++ [_], by simp only [State.record]; rw [he, List.append_assoc]⟩
  · exact ⟨[], (List.append_nil _).symm⟩
  · exact ⟨[], (List.append_nil _).symm⟩
  · exact ⟨[], (List.append_nil _).symm⟩

theorem fn_is_valid_fetching (o : OfonoObject) (id : Nat)
    (h : o.priv.get_properties_pending = some id) : fn_is_valid o = false := by
  unfold fn_is_valid
  cases o.klass <;>
    simp [ofono_object_is_valid, ofono_modem_interface_is_valid,
      ofono_connmgr_is_valid, ofono_connctx_is_valid, h]

/-- A connection context regains readiness while it is not valid: the fetch
of the properties is started and the controller and the pending calls are
left alone. -/
theorem connctx_ready_regained (s : State)
    (hk : s.self.klass = OfonoClass.CONNCTX)
    (hr : s.self.priv.ready = false) (hf : fn_is_ready s.self = true)
    (hv : s.self.valid = false) :
    (ofono_object_update_ready s).self.priv.pending_calls =
      s.self.priv.pending_calls ∧
    (ofono_object_update_ready s).self.valid = false ∧
    (ofono_object_update_ready s).self.connctx.current_action =
      s.self.connctx.current_action ∧
    (∃ ext, (ofono_object_update_ready s).log = s.log ++ ext) := by
  have hp : s.self.priv.proxy = true := by
    unfold fn_is_ready at hf
    rw [hk] at hf
    simp only [ofono_connctx_is_ready, ofono_object_is_ready,
      Bool.and_eq_true] at hf
    exact hf.2
  obtain ⟨s0, h0⟩ : ∃ s0 : State, s0 = { s with self := { s.self with priv :=
      { s.self.priv with ready := true } } } := ⟨_, rfl⟩
  have e1 : s0.self.priv.proxy = true := by rw [h0]; exact hp
  have e2 : s0.self.valid = false := by rw [h0]; exact hv
  have e3 : s0.self.priv.pending_calls = s.self.priv.pending_calls := by rw [h0]
  have e4 : s0.self.connctx = s.self.connctx := by rw [h0]
  have e5 : s0.log = s.log := by rw [h0]
  have e6 : s0.self.priv.ready = true := by rw [h0]
  have hu : ofono_object_update_ready s =
      ofono_object_update_valid (ofono_object_query_properties s0 true) := by
    rw [h0]
    unfold ofono_object_update_ready
    simp only [hr, hf, Bool.false_bne, if_true]
    unfold fn_ready_changed
    simp only [hk]
    unfold ofono_object_ready_changed
    simp only [hp, if_true]
  have u := untouched_query_properties s0 true
  have hfv : fn_is_valid (ofono_object_query_properties s0 true).self = false :=
    fn_is_valid_fetching _ _ (query_properties_pending s0 e1)
  have hfix : ofono_object_update_valid (ofono_object_query_properties s0 true) =
      ofono_object_query_properties s0 true :=
    update_valid_fixed _ (by rw [hfv, u.valid, e2])
  rw [hu, hfix]
  refine ⟨u.pending_calls.trans e3, u.valid.trans e2, ?_, ?_⟩
  · rw [u.current, e4]
  · rw [← e5]
    exact query_properties_log s0 true

theorem only_tracker_refl (a : State) : OnlyTracker a a := ⟨rfl, rfl, rfl, rfl, rfl⟩

theorem only_tracker_trans {a b c : State} (h1 : OnlyTracker a b)
    (h2 : OnlyTracker b c) : OnlyTracker a c :=
  ⟨h2.klass.trans h1.klass, h2.valid.trans h1.valid, h2.priv.trans h1.priv,
   h2.modem.trans h1.modem, h2.connctx.trans h1.connctx⟩

theorem fn_is_valid_only_tracker {a b : State} (q : OnlyTracker a b)
    (hk : a.self.klass = OfonoClass.CONNCTX) :
    fn_is_valid b.self = fn_is_valid a.self := by
  unfold fn_is_valid
  rw [q.klass, hk]
  simp only [ofono_connctx_is_valid, ofono_connctx_is_present, ofono_object_is_valid,
    ofono_object_is_ready, q.priv, q.modem, q.connctx]

theorem update_valid_only_tracker {a b : State} (q : OnlyTracker a b)
    (hk : a.self.klass = OfonoClass.CONNCTX)
    (hv : a.self.valid = fn_is_valid a.self) :
    ofono_object_update_valid b = b :=
  update_valid_fixed b (by rw [q.valid, fn_is_valid_only_tracker q hk]; exact hv)

theorem only_tracker_add_valid_context (st : State) (p : String) :
    OnlyTracker st (ofono_connmgr_add_valid_context st p) := by
  unfold ofono_connmgr_add_valid_context
  simp only []
  split_ifs <;> exact ⟨rfl, rfl, rfl, rfl, rfl⟩

theorem only_tracker_add_context (st : State) (p : String)
    (hk : st.self.klass = OfonoClass.CONNCTX)
    (hv : st.self.valid = fn_is_valid st.self) :
    OnlyTracker st (ofono_connmgr_add_context st p) := by
  unfold ofono_connmgr_add_context
  simp only []
  split_ifs
  · have q : OnlyTracker st (ofono_connmgr_add_valid_context
        { st with self := { st.self with connmgr :=
          { st.self.connmgr with
            all_contexts :=
              p :: st.self.connmgr.all_contexts.filter (fun q => q != p) } } } p) := by
      refine only_tracker_trans ?_ (only_tracker_add_valid_context _ p)
      exact ⟨rfl, rfl, rfl, rfl, rfl⟩
    rw [update_valid_only_tracker q hk hv]
    exact q
  · have q : OnlyTracker st
        { st with self := { st.self with connmgr :=
          { st.self.connmgr with
            all_contexts :=
              p :: st.self.connmgr.all_contexts.filter (fun q => q != p) } } } :=
      ⟨rfl, rfl, rfl, rfl, rfl⟩
    rw [update_valid_only_tracker q hk hv]
    exact q
  · exact only_tracker_refl st

theorem only_tracker_foldl_add_context (l : List String) (a st : State)
    (hk : a.self.klass = OfonoClass.CONNCTX)
    (hv : a.self.valid = fn_is_valid a.self) (q : OnlyTracker a st) :
    OnlyTracker a (l.foldl ofono_connmgr_add_context st) := by
  induction l generalizing st with
  | nil => exact q
  | cons p rest ih =>
    apply ih
    refine only_tracker_trans q (only_tracker_add_context st p ?_ ?_)
    · rw [q.klass]; exact hk
    · rw [q.valid, fn_is_valid_only_tracker q hk]; exact hv

theorem only_tracker_get_contexts_finished (a st : State) (id : Nat)
    (result : CallResult (List String))
    (hk : a.self.klass = OfonoClass.CONNCTX)
    (hv : a.self.valid = fn_is_valid a.self) (q : OnlyTracker a st) :
    OnlyTracker a (ofono_connmgr_get_contexts_finished st id result) := by
  unfold ofono_connmgr_get_contexts_finished
  cases result with
  | ok contexts =>
    simp only []
    have h1 : OnlyTracker a
        (if decide (st.self.connmgr.get_contexts_pending = some id) = true then
          contexts.foldl ofono_connmgr_add_context st else st) := by
      split_ifs
      · exact only_tracker_foldl_add_context contexts a st hk hv q
      · exact q
    generalize (if decide (st.self.connmgr.get_contexts_pending = some id) = true
      then contexts.foldl ofono_connmgr_add_context st else st) = s1 at h1 ⊢
    split_ifs
    · have q2 : OnlyTracker a { s1 with self := { s1.self with connmgr :=
          { s1.self.connmgr with
            get_contexts_ok := true
            get_contexts_pending := none } } } :=
        only_tracker_trans h1 ⟨rfl, rfl, rfl, rfl, rfl⟩
      rw [update_valid_only_tracker q2 hk hv]
      exact q2
    · exact h1
  | error e =>
    simp only [State.record]
    have q2 : OnlyTracker a { st with self := { st.self with connmgr :=
        { st.self.connmgr with
          get_contexts_ok := false
          get_contexts_pending := none } } } :=
      only_tracker_trans q ⟨rfl, rfl, rfl, rfl, rfl⟩
    split_ifs
    · exact only_tracker_trans q ⟨rfl, rfl, rfl, rfl, rfl⟩
    · rw [update_valid_only_tracker q2 hk hv]
      exact q2
    · exact q

theorem setup_finished_detached (s : State) (id : Nat)
    (result : CallResult (List (String × GVariant)))
    (h : s.self.priv.get_properties_pending = none) :
    ofono_object_setup_finished s id result = s := by
  unfold ofono_object_setup_finished
  cases result <;> simp [h]

theorem valid_perform_action (st : State) (action : CONNCTX_ACTION) :
    (ofono_connctx_perform_action st action).self.valid = st.self.valid := by
  unfold ofono_connctx_perform_action
  split_ifs
  · rw [(perform_next_action_frame _).2.1]
  · rfl

theorem valid_pending_call_finished (st : State) (id : Nat)
    (error : Option GError) :
    (ofono_object_pending_call_finished st id error).self.valid =
      st.self.valid := by
  unfold ofono_object_pending_call_finished ofono_connctx_set_active_done
  simp only []
  rw [(perform_next_action_frame _).2.1]
  cases error with
  | none => rfl
  | some e => simp only []; split_ifs <;> rfl

theorem valid_set_active_retry (st : State) :
    (ofono_connctx_set_active_retry st).self.valid = st.self.valid := by
  unfold ofono_connctx_set_active_retry ofono_object_set_boolean
  simp only []
  split_ifs <;> rfl

/-- The handler of a parent event runs `ofono_object_update_ready` on a state
`s` that differs from the valid context `st` only in what `fn_is_ready` reads:
when the valid flag ends cleared, readiness was lost and the pending calls
were cancelled. -/
theorem connctx_invalidated (st s : State)
    (hk : s.self.klass = OfonoClass.CONNCTX)
    (hr : s.self.priv.ready = true) (hv : s.self.valid = true)
    (hp : s.self.priv.pending_calls = st.self.priv.pending_calls)
    (hc : s.self.connctx.current_action = st.self.connctx.current_action)
    (hl : s.log = st.log)
    (hinv : (ofono_object_update_ready s).self.valid = false) :
    (ofono_object_update_ready s).self.priv.pending_calls =
      st.self.priv.pending_calls.map (fun c => { c with cancelled := true }) ∧
    (∀ c ∈ st.self.priv.pending_calls,
      Logged st.log (ofono_object_update_ready s) (Action.cancel c.id)) ∧
    (ofono_object_update_ready s).self.connctx.current_action =
      st.self.connctx.current_action := by
  by_cases hf : fn_is_ready s.self = true
  · have e : ofono_object_update_ready s = s := by
      unfold ofono_object_update_ready
      simp [hr, hf]
    rw [e, hv] at hinv
    cases hinv
  · have hf2 : fn_is_ready s.self = false := by
      simpa using hf
    obtain ⟨a1, _, _, _, _, _, a7, _, _, a10, _⟩ := connctx_ready_lost s hk hr hf2
    refine ⟨by rw [a1, hp], ?_, a7.trans hc⟩
    intro c hm
    have := a10 c (by rw [hp]; exact hm)
    rw [hl] at this
    exact this

/-- C21 (as amended): a connection context is valid with its flags up to
date, an event is processed, and afterwards the context is not valid. Then
every call that was pending, so in particular a toggle call in flight, is
still in the list of pending calls with its cancellable cancelled
(`g_cancellable_cancel` was called on it), and `current_action` is as it was
before the event. -/
theorem toggle_cancelled_when_invalid (st st1 : State) (ev : Event)
    (hk : st.self.klass = OfonoClass.CONNCTX)
    (hv : st.self.valid = true)
    (hfv : st.self.valid = fn_is_valid st.self)
    (hrd : st.self.priv.ready = fn_is_ready st.self)
    (hs : step st ev = some st1) (hinv : st1.self.valid = false) :
    st1.self.priv.pending_calls =
      st.self.priv.pending_calls.map (fun c => { c with cancelled := true }) ∧
    (∀ c ∈ st.self.priv.pending_calls,
      Action.cancel c.id ∈ st.new_actions st1) ∧
    st1.self.connctx.current_action = st.self.connctx.current_action := by
  have hfv1 : fn_is_valid st.self = true := hfv.symm.trans hv
  have hready : st.self.priv.ready = true :=
    hrd.trans (fn_is_valid_imp_ready st.self hfv1)
  have hfacts : st.self.connctx.connmgr = true ∧ st.self.modem.valid = true ∧
      st.self.connctx.removed = false ∧ st.self.modem.has_interface = true ∧
      st.self.priv.proxy = true ∧ st.self.priv.get_properties_pending = none ∧
      st.self.priv.get_properties_retry_id = 0 := by
    unfold fn_is_valid at hfv1
    rw [hk] at hfv1
    simp only [ofono_connctx_is_valid, ofono_connctx_is_present,
      ofono_object_is_valid, ofono_object_is_ready, Bool.and_eq_true,
      Bool.not_eq_true', beq_iff_eq, Option.isNone_iff_eq_none] at hfv1
    tauto
  obtain ⟨f1, f2, f3, f4, f5, f6, f7⟩ := hfacts
  have finish : ∀ r : State,
      (r.self.priv.pending_calls =
        st.self.priv.pending_calls.map (fun c => { c with cancelled := true }) ∧
      (∀ c ∈ st.self.priv.pending_calls, Logged st.log r (Action.cancel c.id)) ∧
      r.self.connctx.current_action = st.self.connctx.current_action) →
      (r.self.priv.pending_calls =
        st.self.priv.pending_calls.map (fun c => { c with cancelled := true }) ∧
      (∀ c ∈ st.self.priv.pending_calls, Action.cancel c.id ∈ st.new_actions r) ∧
      r.self.connctx.current_action = st.self.connctx.current_action) :=
    fun r h => ⟨h.1, fun c hc => logged_new_actions st r _ (h.2.1 c hc), h.2.2⟩
  cases ev with
  | proxy_created =>
    simp only [step, f5, if_true] at hs
    cases hs
  | modem_changed v i =>
    simp only [step] at hs
    split_ifs at hs
    cases hs
    exact finish _ (connctx_invalidated st _ hk hready hv rfl rfl rfl hinv)
  | get_properties_finished id result =>
    simp only [step] at hs
    split_ifs at hs
    cases hs
    have e := setup_finished_detached
      ({ st with get_properties_calls := st.get_properties_calls.erase id } : State)
      id result f6
    rw [e] at hinv
    have hv2 : ({ st with get_properties_calls :=
        st.get_properties_calls.erase id } : State).self.valid = true := hv
    rw [hv2] at hinv
    cases hinv
  | get_properties_retry =>
    simp only [step, f7] at hs
    simp at hs
  | property_changed name value =>
    simp only [step] at hs
    split_ifs at hs
    cases hs
    rw [(untouched_property_changed st name value).valid, hv] at hinv
    cases hinv
  | get_contexts_finished id result =>
    simp only [step] at hs
    split_ifs at hs
    cases hs
    have q := only_tracker_get_contexts_finished st
      { st with get_contexts_calls := st.get_contexts_calls.erase id } id result
      hk hfv ⟨rfl, rfl, rfl, rfl, rfl⟩
    rw [q.valid, hv] at hinv
    cases hinv
  | context_added path =>
    simp only [step, hk] at hs
    simp at hs
  | context_removed path =>
    simp only [step, hk] at hs
    simp at hs
  | context_valid_changed path valid =>
    simp only [step, hk] at hs
    simp at hs
  | connmgr_proxy_created =>
    simp only [step, f1] at hs
    simp at hs
  | connctx_added =>
    simp only [step] at hs
    split_ifs at hs
    cases hs
    unfold ofono_connctx_added at hinv ⊢
    simp only [f3, Bool.not_false, if_true] at hinv ⊢
    have hf1 : fn_is_ready ({ st with self := { st.self with
        connctx := { st.self.connctx with removed := true } } } : State).self
        = false := by
      simp [fn_is_ready, hk, ofono_connctx_is_ready, ofono_connctx_is_present]
    obtain ⟨a1, a2, a3, a4, a5, a6, a7, _, _, a10, a11⟩ :=
      connctx_ready_lost ({ st with self := { st.self with
        connctx := { st.self.connctx with removed := true } } } : State)
        hk hready hf1
    generalize ofono_object_update_ready ({ st with self := { st.self with
        connctx := { st.self.connctx with removed := true } } } : State) = s1
      at a1 a2 a3 a4 a5 a6 a7 a10 a11 hinv ⊢
    have hf2 : fn_is_ready ({ s1 with self := { s1.self with
        connctx := { s1.self.connctx with removed := false } } } : State).self
        = true := by
      simp [fn_is_ready, a3, hk, ofono_connctx_is_ready, ofono_connctx_is_present,
        ofono_object_is_ready, a1, a4, a5, f1, f2, f4, f5]
    obtain ⟨b1, _, b3, b4⟩ :=
      connctx_ready_regained ({ s1 with self := { s1.self with
        connctx := { s1.self.connctx with removed := false } } } : State)
        (a3.trans hk) (by simp [a1]) hf2 a2
    apply finish
    refine ⟨b1.trans (by simp [a1]), ?_, b3.trans a7⟩
    intro c hc
    exact logged_mono st.log s1 _ _ b4 (a10 c hc)
  | connctx_removed =>
    simp only [step] at hs
    split_ifs at hs
    cases hs
    exact finish _ (connctx_invalidated st _ hk hready hv rfl rfl rfl hinv)
  | activate =>
    simp only [step] at hs
    split_ifs at hs
    cases hs
    unfold ofono_connctx_activate at hinv
    rw [valid_perform_action, hv] at hinv
    cases hinv
  | deactivate =>
    simp only [step] at hs
    split_ifs at hs
    cases hs
    unfold ofono_connctx_deactivate at hinv
    rw [valid_perform_action, hv] at hinv
    cases hinv
  | set_active_finished id error =>
    simp only [step] at hs
    split_ifs at hs
    cases hs
    rw [valid_pending_call_finished, hv] at hinv
    cases hinv
  | set_active_retry =>
    simp only [step] at hs
    split_ifs at hs
    cases hs
    rw [valid_set_active_retry, hv] at hinv
    cases hinv

/-- C21 as stated fails: a valid connection context has the toggle call
number 2 in flight. When its modem stops being valid, when the modem stops
advertising the interface and when the context is removed, the context is
not valid afterwards, the current action is still ACTIVATE and the call is
still pending, but its cancellable has been cancelled. -/
theorem toggle_cancelled_by_parent_loss :
    (connctx_activating.self.valid, connctx_activating.self.priv.pending_calls,
      connctx_activating.self.connctx.current_action) =
      (true, [⟨2, false, true⟩], CONNCTX_ACTION.ACTIVATE) ∧
    (step connctx_activating (Event.modem_changed false true)).map
      (fun s => (s.self.valid, s.self.priv.pending_calls,
        s.self.connctx.current_action,
        decide (Action.cancel 2 ∈ connctx_activating.new_actions s))) =
      some (false, [⟨2, true, true⟩], CONNCTX_ACTION.ACTIVATE, true) ∧
    (step connctx_activating (Event.modem_changed true false)).map
      (fun s => (s.self.valid, s.self.priv.pending_calls,
        s.self.connctx.current_action,
        decide (Action.cancel 2 ∈ connctx_activating.new_actions s))) =
      some (false, [⟨2, true, true⟩], CONNCTX_ACTION.ACTIVATE, true) ∧
    (step connctx_activating Event.connctx_removed).map
      (fun s => (s.self.valid, s.self.priv.pending_calls,
        s.self.connctx.current_action,
        decide (Action.cancel 2 ∈ connctx_activating.new_actions s))) =
      some (false, [⟨2, true, true⟩], CONNCTX_ACTION.ACTIVATE, true) :=
  ⟨by decide, by decide, by decide, by decide⟩

theorem toggle_cancelled_when_invalid_witness :
    (connctx_activating.self.klass = OfonoClass.CONNCTX ∧
      connctx_activating.self.valid = true ∧
      connctx_activating.self.valid = fn_is_valid connctx_activating.self ∧
      connctx_activating.self.priv.ready = fn_is_ready connctx_activating.self ∧
      step connctx_activating (Event.modem_changed false true) =
        some connctx_activating_modem_lost ∧
      connctx_activating_modem_lost.self.valid = false) ∧
    connctx_activating_modem_lost.self.priv.pending_calls =
      connctx_activating.self.priv.pending_calls.map
        (fun c => { c with cancelled := true }) ∧
    connctx_activating_modem_lost.self.connctx.current_action =
      connctx_activating.self.connctx.current_action :=
  ⟨⟨by decide, by decide, by decide, by decide, by decide, by decide⟩,
   (toggle_cancelled_when_invalid connctx_activating
      connctx_activating_modem_lost (Event.modem_changed false true)
      (by decide) (by decide) (by decide) (by decide) (by decide)
      (by decide)).1,
   (toggle_cancelled_when_invalid connctx_activating
      connctx_activating_modem_lost (Event.modem_changed false true)
      (by decide) (by decide) (by decide) (by decide) (by decide)
      (by decide)).2.2⟩

end Gofono
